import Mathlib

/-! RPO V5: cache-first history store and reconciliation worker.

A shallow embedding of `src/api/valkey_cache.js`, `src/api/constants/valkey-keys.js`,
`src/api/worker.js` and the `POST /` handlers of `src/api/routes/historico.js` and
`src/api/routes/candidatos.js`.

Modelling conventions.

* A JavaScript object built from a JSON body is a `Record`: the list of its own
  properties in insertion order.  Field values are JSON scalars (the code never
  looks inside a nested value); numbers are integers.
* `JSON.stringify` / `JSON.parse` are inverse to each other on such records, so a
  sorted-set member is represented by the record it serialises; the text
  (`stringify`) is used where the store looks at bytes: the order of members
  that share a score.
* The cache server is a `Valkey` value: sorted sets, sets, hashes and expiries by key,
  one map per type (a key is used with one type only). Members of a sorted set are
  unique; entries are listed by score and, for equal scores, by the bytes of the member.
* Every client call takes an explicit outcome saying whether the call failed;
  `Date.now()` readings are explicit arguments. A pipeline is a batch, not a
  transaction: each queued command takes effect or fails on its own, and `exec()`
  resolves with the per-command results also when some command failed.
-/

namespace RPO

/-! ## JSON values and JavaScript objects -/

/-- JSON scalar carried by a field of a record. -/
inductive JVal where
  | null : JVal
  | bool (b : Bool) : JVal
  | num (n : Int) : JVal
  | str (s : String) : JVal
  deriving DecidableEq, Repr

/-- A JavaScript object: own enumerable properties in insertion order. -/
abbrev Record := List (String × JVal)

/-- Property read `obj[k]`; `none` is `undefined`. -/
def getField (r : Record) (k : String) : Option JVal :=
  (r.find? (fun p => p.1 == k)).map (fun p => p.2)

/-- Operator `k in obj`. -/
def hasField (r : Record) (k : String) : Bool :=
  r.any (fun p => p.1 == k)

/-- Assignment `obj[k] = v`: an existing property keeps its position. -/
def setField (r : Record) (k : String) (v : JVal) : Record :=
  if hasField r k then r.map (fun p => if p.1 == k then (k, v) else p) else r ++ [(k, v)]

/-- Object spread `{ ...a, ...b }`. -/
def spread (a b : Record) : Record :=
  b.foldl (fun acc p => setField acc p.1 p.2) a

/-- JavaScript truthiness of a property value (`undefined` is `none`). -/
def truthy : Option JVal → Bool
  | none => false
  | some JVal.null => false
  | some (JVal.bool b) => b
  | some (JVal.num n) => n != 0
  | some (JVal.str s) => s != ""

/-- String conversion used by template literals and by command arguments. -/
def jsString : Option JVal → String
  | none => "undefined"
  | some JVal.null => "null"
  | some (JVal.bool b) => if b then "true" else "false"
  | some (JVal.num n) => toString n
  | some (JVal.str s) => s

/-- Lower-case hexadecimal digit. -/
def hexDigit (n : Nat) : Char :=
  if n < 10 then Char.ofNat (48 + n) else Char.ofNat (87 + n)

/-- Escape of one character inside a JSON string, as `JSON.stringify` writes it. -/
def escapeChar (c : Char) : List Char :=
  if c = Char.ofNat 34 then [Char.ofNat 92, Char.ofNat 34]
  else if c = Char.ofNat 92 then [Char.ofNat 92, Char.ofNat 92]
  else if c = Char.ofNat 8 then [Char.ofNat 92, 'b']
  else if c = Char.ofNat 12 then [Char.ofNat 92, 'f']
  else if c = Char.ofNat 10 then [Char.ofNat 92, 'n']
  else if c = Char.ofNat 13 then [Char.ofNat 92, 'r']
  else if c = Char.ofNat 9 then [Char.ofNat 92, 't']
  else if c.toNat < 32 then
    [Char.ofNat 92, 'u', '0', '0', hexDigit (c.toNat / 16), hexDigit (c.toNat % 16)]
  else [c]

/-- Text of a JSON string literal. -/
def quoteJson (s : String) : List Char :=
  Char.ofNat 34 :: (s.toList.flatMap escapeChar ++ [Char.ofNat 34])

/-- Text of a JSON scalar. -/
def JVal.toJson : JVal → List Char
  | JVal.null => "null".toList
  | JVal.bool b => if b then "true".toList else "false".toList
  | JVal.num n => (toString n).toList
  | JVal.str s => quoteJson s

/-- Text of the properties of an object, comma separated. -/
def fieldsJson : Record → List Char
  | [] => []
  | [p] => quoteJson p.1 ++ (':' :: p.2.toJson)
  | p :: q :: rest => quoteJson p.1 ++ (':' :: p.2.toJson) ++ (',' :: fieldsJson (q :: rest))

/-- `JSON.stringify(obj)`: the bytes the cache stores as a sorted-set member. -/
def stringify (r : Record) : List Char :=
  Char.ofNat 123 :: (fieldsJson r ++ [Char.ofNat 125])

/-- `String.prototype.includes` on character lists. -/
def includesChars (pat : List Char) : List Char → Bool
  | [] => pat.isEmpty
  | c :: cs => pat.isPrefixOf (c :: cs) || includesChars pat cs

/-- `s.includes(pat)`. -/
def jsIncludes (s pat : String) : Bool :=
  includesChars pat.toList s.toList

/-! ## The cache server -/

/-- Lexicographic comparison of member bytes: `a` sorts strictly before `b`. -/
def bytesLt : List Char → List Char → Bool
  | _, [] => false
  | [], _ :: _ => true
  | a :: as, b :: bs => decide (a.toNat < b.toNat) || (a == b && bytesLt as bs)

/-- Sorted-set entry: score and member. -/
abbrev ZEntry := Int × Record

/-- Order of `ZREVRANGE`: `a` is listed no later than `b`
    (greater score first, then greater member bytes). -/
def zge (a b : ZEntry) : Bool :=
  decide (b.1 < a.1) || (decide (a.1 = b.1) && !bytesLt (stringify a.2) (stringify b.2))

/-- Insertion of an entry into a list in `ZREVRANGE` order. -/
def zinsert (e : ZEntry) : List ZEntry → List ZEntry
  | [] => [e]
  | x :: xs => if zge e x then e :: x :: xs else x :: zinsert e xs

/-- Entries of a sorted set in `ZREVRANGE` order (descending). -/
def zdesc (z : List ZEntry) : List ZEntry :=
  z.foldr zinsert []

/-- State of the cache server. An absent key and an empty collection coincide. -/
structure Valkey where
  /-- Sorted sets by key: the entries, in no particular order. -/
  zsets : String → List ZEntry
  /-- Sets by key. -/
  sets : String → List String
  /-- Hashes by key; a value is the record its JSON text parses to. -/
  hashes : String → List (String × Record)
  /-- Time to live, in seconds, of the keys that have one. -/
  expiry : String → Option Nat

/-- The cache with no key. -/
def Valkey.empty : Valkey :=
  { zsets := fun _ => [], sets := fun _ => [], hashes := fun _ => [], expiry := fun _ => none }

/-- Whether a key exists. -/
def Valkey.exists (s : Valkey) (key : String) : Bool :=
  !(s.zsets key).isEmpty || !(s.sets key).isEmpty || !(s.hashes key).isEmpty

/-- Numeric reading of a score argument; `none` is rejected by the server. -/
def scoreOf : JVal → Option Int
  | JVal.num n => some n
  | JVal.str s => s.toInt?
  | _ => none

/-- Function update at one key. -/
def upd {β : Type} (f : String → β) (key : String) (v : β) : String → β :=
  fun k => if k = key then v else f k

/-- Commands queued on a pipeline. -/
inductive Cmd where
  | zadd (key : String) (score : JVal) (member : Record) : Cmd
  | zremrangebyscore (key : String) (min max : JVal) : Cmd
  | expire (key : String) (ttl : Nat) : Cmd
  | sadd (key : String) (member : String) : Cmd
  | srem (key : String) (member : String) : Cmd
  | del (keys : List String) : Cmd

/-- `ZADD key score member`: the member is unique in the set and takes the score. -/
def zaddEntries (z : List ZEntry) (score : Int) (member : Record) : List ZEntry :=
  (score, member) :: z.filter (fun e => e.2 ≠ member)

/-- `ZREMRANGEBYSCORE key min max`. -/
def zremEntries (z : List ZEntry) (lo hi : Int) : List ZEntry :=
  z.filter (fun e => !(decide (lo ≤ e.1) && decide (e.1 ≤ hi)))

/-- Deletion of keys. -/
def Valkey.delKeys (s : Valkey) (keys : List String) : Valkey :=
  { zsets := fun k => if k ∈ keys then [] else s.zsets k
    sets := fun k => if k ∈ keys then [] else s.sets k
    hashes := fun k => if k ∈ keys then [] else s.hashes k
    expiry := fun k => if k ∈ keys then none else s.expiry k }

/-- Effect of one command that the server executes without error. -/
def Cmd.apply (s : Valkey) : Cmd → Valkey
  | Cmd.zadd key score member =>
    match scoreOf score with
    | some sc => { s with zsets := upd s.zsets key (zaddEntries (s.zsets key) sc member) }
    | none => s
  | Cmd.zremrangebyscore key lo hi =>
    match scoreOf lo, scoreOf hi with
    | some a, some b =>
      let z := zremEntries (s.zsets key) a b
      { s with
        zsets := upd s.zsets key z
        expiry := if z.isEmpty then upd s.expiry key none else s.expiry }
    | _, _ => s
  | Cmd.expire key ttl =>
    if s.exists key then { s with expiry := upd s.expiry key (some ttl) } else s
  | Cmd.sadd key member =>
    if member ∈ s.sets key then s else { s with sets := upd s.sets key (s.sets key ++ [member]) }
  | Cmd.srem key member =>
    let m := (s.sets key).filter (fun x => x ≠ member)
    { s with
      sets := upd s.sets key m
      expiry := if m.isEmpty then upd s.expiry key none else s.expiry }
  | Cmd.del keys => s.delKeys keys

/-- Outcome of `pipeline.exec()`: which queued commands took effect, and whether
    the returned promise rejects. A pipeline is not a transaction: each command
    succeeds or fails on its own, and a failed command does not reject `exec()`. -/
structure ExecOutcome where
  /-- Whether the command queued at this position took effect. -/
  effect : Nat → Bool
  /-- Whether `exec()` rejects. -/
  rejects : Bool

/-- Every command takes effect and `exec()` resolves. -/
def ExecOutcome.ok : ExecOutcome :=
  { effect := fun _ => true, rejects := false }

/-- Commands of a pipeline applied in order from position `i`. -/
def runCmds (effect : Nat → Bool) : Nat → List Cmd → Valkey → Valkey
  | _, [], s => s
  | i, c :: cs, s => runCmds effect (i + 1) cs (if effect i then c.apply s else s)

/-- `await pipeline.exec()`: the state after the batch. -/
def execPipeline (out : ExecOutcome) (cmds : List Cmd) (s : Valkey) : Valkey :=
  runCmds out.effect 0 cmds s

/-! ## Keys (`constants/valkey-keys.js`) -/

/-- Key prefix; `process.env.VALKEY_PREFIX` is taken unset. -/
def PREFIX : String := "RPO_V5"

namespace VALKEY_KEYS

def histVagas (schema requisicao : String) : String :=
  PREFIX ++ ":" ++ schema ++ ":hist_vagas:" ++ requisicao

def histCandidatos (schema candidatoId : String) : String :=
  PREFIX ++ ":" ++ schema ++ ":hist_cand:" ++ candidatoId

def idxProposta (schema requisicao : String) : String :=
  PREFIX ++ ":" ++ schema ++ ":idx:proposta:" ++ requisicao

def idxShortlist (schema requisicao : String) : String :=
  PREFIX ++ ":" ++ schema ++ ":idx:shortlist:" ++ requisicao

def idxCancelada (schema requisicao : String) : String :=
  PREFIX ++ ":" ++ schema ++ ":idx:cancelada:" ++ requisicao

def idxFechada (schema requisicao : String) : String :=
  PREFIX ++ ":" ++ schema ++ ":idx:fechada:" ++ requisicao

def statusVagas (schema : String) : String :=
  PREFIX ++ ":" ++ schema ++ ":status_vagas"

def fallbackLog (schema : String) : String :=
  PREFIX ++ ":" ++ schema ++ ":fallback_log"

def syncQueue (schema : String) : String :=
  PREFIX ++ ":" ++ schema ++ ":sync_queue"

def syncQueueCandidatos (schema : String) : String :=
  PREFIX ++ ":" ++ schema ++ ":sync_queue_cand"

end VALKEY_KEYS

open VALKEY_KEYS

/-- Modelled from the spec: `constants/timeouts.js` is not part of the sources; the
    retention window is 30 days, in seconds as `EXPIRE` takes it. -/
def THIRTY_DAYS : Nat := 2592000

/-! ## Cache operations (`valkey_cache.js`) -/

/-- `HGET key field`. -/
def hget (s : Valkey) (key field : String) : Option Record :=
  ((s.hashes key).find? (fun p => p.1 == field)).map (fun p => p.2)

/-- `getFuncaoSistemaDoStatus(schema, status)`; `none` is `null`.
    `hgetOk = false`: the `hget` call rejects, which the function catches. -/
def getFuncaoSistemaDoStatus (s : Valkey) (hgetOk : Bool) (schema : String)
    (status : Option JVal) : Option JVal :=
  if hgetOk then
    match hget s (statusVagas schema) (jsString status) with
    | none => none
    | some parsed =>
      if truthy (getField parsed "funcao_sistema") then getField parsed "funcao_sistema" else none
  else none

/-- `s.toLowerCase()`, on ASCII letters. The result is only searched for `shortlist`,
    `cancelada` and `fechada`, and no character outside ASCII lower-cases to a letter
    of these words in a way that could complete a match. -/
def toLowerCase (s : String) : String :=
  String.mk (s.toList.map Char.toLower)

/-- `funcaoSistema ? funcaoSistema.toLowerCase() : ''`; `none` when `toLowerCase`
    is not a function of the value (a `TypeError` is thrown). -/
def funcaoLowerOf (funcaoSistema : Option JVal) : Option String :=
  if truthy funcaoSistema then
    match funcaoSistema with
    | some (JVal.str f) => some (toLowerCase f)
    | _ => none
  else some ""

/-- Commands `addHistoricoVagas` queues, in order. -/
def addHistoricoVagasCmds (now : Int) (funcaoLower : String) (schema : String)
    (data : Record) : List Cmd :=
  let linha := setField data "cached_at" (JVal.num now)
  let req := jsString (getField data "requisicao")
  [Cmd.zadd (histVagas schema req) (JVal.num now) linha,
   Cmd.expire (histVagas schema req) THIRTY_DAYS]
  ++ (if getField data "status" = some (JVal.str "PROPOSTA") then
        [Cmd.zadd (idxProposta schema req) (JVal.num now) linha,
         Cmd.expire (idxProposta schema req) THIRTY_DAYS] else [])
  ++ (if jsIncludes funcaoLower "shortlist" then
        [Cmd.zadd (idxShortlist schema req) (JVal.num now) linha,
         Cmd.expire (idxShortlist schema req) THIRTY_DAYS] else [])
  ++ (if jsIncludes funcaoLower "cancelada" then
        [Cmd.zadd (idxCancelada schema req) (JVal.num now) linha,
         Cmd.expire (idxCancelada schema req) THIRTY_DAYS] else [])
  ++ (if jsIncludes funcaoLower "fechada" then
        [Cmd.zadd (idxFechada schema req) (JVal.num now) linha,
         Cmd.expire (idxFechada schema req) THIRTY_DAYS] else [])
  ++ [Cmd.sadd (syncQueue schema) req]

/-- `addHistoricoVagas(schema, data)`: the returned boolean and the cache afterwards.
    `now` is the reading of `Date.now()`, `hgetOk` the outcome of the status lookup,
    `out` the outcome of `pipeline.exec()`. -/
def addHistoricoVagas (s : Valkey) (now : Int) (hgetOk : Bool) (out : ExecOutcome)
    (schema : String) (data : Record) : Bool × Valkey :=
  match funcaoLowerOf (getFuncaoSistemaDoStatus s hgetOk schema (getField data "status")) with
  | none => (false, s)
  | some funcaoLower =>
    (!out.rejects, execPipeline out (addHistoricoVagasCmds now funcaoLower schema data) s)

/-- `ZRANGE key 0 -1`: all members, ascending. -/
def zrangeAll (z : List ZEntry) : List Record :=
  (zdesc z).reverse.map (fun e => e.2)

/-- `ZREVRANGE key offset offset`: at most one member, descending order. -/
def zrevrangeAt (z : List ZEntry) (offset : Nat) : List Record :=
  (((zdesc z).drop offset).take 1).map (fun e => e.2)

/-- `getHistoricoVagas(schema, requisicao)`; `readOk = false`: the call rejects. -/
def getHistoricoVagas (s : Valkey) (readOk : Bool) (schema requisicao : String) : List Record :=
  if readOk then zrangeAll (s.zsets (histVagas schema requisicao)) else []

/-- Offset `ordem === 'ultima' ? 0 : 1`, the parameter defaulting to `'ultima'`
    when `undefined` (`none`). -/
def ordemOffset (ordem : Option JVal) : Nat :=
  if ordem = none ∨ ordem = some (JVal.str "ultima") then 0 else 1

/-- `getPropostaRecente(schema, requisicao, ordem)`; `none` is `null`. -/
def getPropostaRecente (s : Valkey) (readOk : Bool) (schema requisicao : String)
    (ordem : Option JVal) : Option Record :=
  if readOk then (zrevrangeAt (s.zsets (idxProposta schema requisicao)) (ordemOffset ordem)).head?
  else none

/-- `getShortlistRecente(schema, requisicao)`; `none` is `null`. -/
def getShortlistRecente (s : Valkey) (readOk : Bool) (schema requisicao : String) :
    Option Record :=
  if readOk then (zrevrangeAt (s.zsets (idxShortlist schema requisicao)) 0).head? else none

/-- Timestamp `rec.cached_at || Date.now()` of the patch operations. -/
def patchTimestamp (r : Record) (now : Int) : JVal :=
  if truthy (getField r "cached_at") then (getField r "cached_at").getD JVal.null
  else JVal.num now

/-- Batch of the three patch operations: remove by score from series and index,
    add the new member to both, mark the requisition for synchronisation. -/
def patchCmds (serie idx queue : String) (timestamp : JVal) (updated : Record)
    (requisicao : String) : List Cmd :=
  [Cmd.zremrangebyscore serie timestamp timestamp,
   Cmd.zremrangebyscore idx timestamp timestamp,
   Cmd.zadd serie timestamp updated,
   Cmd.zadd idx timestamp updated,
   Cmd.sadd queue requisicao]

/-- `updatePropostaStatus(schema, requisicao, operacao_status_proposta, ordem)`.
    `now1` and `now2` are the two readings of `Date.now()`. -/
def updatePropostaStatus (s : Valkey) (now1 now2 : Int) (readOk : Bool) (out : ExecOutcome)
    (schema requisicao : String) (operacao_status_proposta : JVal) (ordem : Option JVal) :
    Bool × Valkey :=
  match getPropostaRecente s readOk schema requisicao ordem with
  | none => (false, s)
  | some proposta =>
    let timestamp := patchTimestamp proposta now1
    let updated := setField (setField proposta "operacao_status_proposta"
      operacao_status_proposta) "updated_at" (JVal.num now2)
    (!out.rejects,
     execPipeline out (patchCmds (histVagas schema requisicao) (idxProposta schema requisicao)
       (syncQueue schema) timestamp updated requisicao) s)

/-- `updateDadosCandidatos(schema, requisicao, dados)`. -/
def updateDadosCandidatos (s : Valkey) (now1 now2 : Int) (readOk : Bool) (out : ExecOutcome)
    (schema requisicao : String) (dados : Record) : Bool × Valkey :=
  match getShortlistRecente s readOk schema requisicao with
  | none => (false, s)
  | some shortlist =>
    let timestamp := patchTimestamp shortlist now1
    let updated := setField (spread shortlist dados) "updated_at" (JVal.num now2)
    (!out.rejects,
     execPipeline out (patchCmds (histVagas schema requisicao) (idxShortlist schema requisicao)
       (syncQueue schema) timestamp updated requisicao) s)

/-- `updateDadosSelecionado(schema, requisicao, dados)`. -/
def updateDadosSelecionado (s : Valkey) (now1 now2 : Int) (readOk : Bool) (out : ExecOutcome)
    (schema requisicao : String) (dados : Record) : Bool × Valkey :=
  match getPropostaRecente s readOk schema requisicao (some (JVal.str "ultima")) with
  | none => (false, s)
  | some proposta =>
    let timestamp := patchTimestamp proposta now1
    let updated := setField (spread proposta dados) "updated_at" (JVal.num now2)
    (!out.rejects,
     execPipeline out (patchCmds (histVagas schema requisicao) (idxProposta schema requisicao)
       (syncQueue schema) timestamp updated requisicao) s)

/-- Commands `addHistoricoCandidatos` queues, in order. -/
def addHistoricoCandidatosCmds (now : Int) (schema : String) (data : Record) : List Cmd :=
  let linha := setField data "cached_at" (JVal.num now)
  let cand := jsString (getField data "id_candidato")
  [Cmd.zadd (histCandidatos schema cand) (JVal.num now) linha,
   Cmd.expire (histCandidatos schema cand) THIRTY_DAYS,
   Cmd.sadd (syncQueueCandidatos schema) cand]

/-- `addHistoricoCandidatos(schema, data)`. -/
def addHistoricoCandidatos (s : Valkey) (now : Int) (out : ExecOutcome)
    (schema : String) (data : Record) : Bool × Valkey :=
  (!out.rejects, execPipeline out (addHistoricoCandidatosCmds now schema data) s)

/-- `getHistoricoCandidatos(schema, candidatoId)`. -/
def getHistoricoCandidatos (s : Valkey) (readOk : Bool) (schema candidatoId : String) :
    List Record :=
  if readOk then zrangeAll (s.zsets (histCandidatos schema candidatoId)) else []

/-- `addToFallbackLog(schema, requisicao)`; `ok = false`: the call rejects. -/
def addToFallbackLog (s : Valkey) (ok : Bool) (schema requisicao : String) : Bool × Valkey :=
  if ok then (true, (Cmd.sadd (fallbackLog schema) requisicao).apply s) else (false, s)

/-- `getSyncQueue(schema)`. -/
def getSyncQueue (s : Valkey) (ok : Bool) (schema : String) : List String :=
  if ok then s.sets (syncQueue schema) else []

/-- `removeSyncQueue(schema, requisicao)`. -/
def removeSyncQueue (s : Valkey) (ok : Bool) (schema requisicao : String) : Bool × Valkey :=
  if ok then (true, (Cmd.srem (syncQueue schema) requisicao).apply s) else (false, s)

/-- `getSyncQueueCandidatos(schema)`. -/
def getSyncQueueCandidatos (s : Valkey) (ok : Bool) (schema : String) : List String :=
  if ok then s.sets (syncQueueCandidatos schema) else []

/-- `removeSyncQueueCandidatos(schema, candidatoId)`. -/
def removeSyncQueueCandidatos (s : Valkey) (ok : Bool) (schema candidatoId : String) :
    Bool × Valkey :=
  if ok then (true, (Cmd.srem (syncQueueCandidatos schema) candidatoId).apply s) else (false, s)

/-- `invalidateCacheForRequisicao(schema, requisicao)`: one `DEL` of five keys. -/
def invalidateCacheForRequisicao (s : Valkey) (ok : Bool) (schema requisicao : String) :
    Bool × Valkey :=
  if ok then
    (true, (Cmd.del [histVagas schema requisicao, idxProposta schema requisicao,
      idxShortlist schema requisicao, idxCancelada schema requisicao,
      idxFechada schema requisicao]).apply s)
  else (false, s)

/-- `invalidateCacheForCandidato(schema, candidatoId)`. -/
def invalidateCacheForCandidato (s : Valkey) (ok : Bool) (schema candidatoId : String) :
    Bool × Valkey :=
  if ok then (true, (Cmd.del [histCandidatos schema candidatoId]).apply s) else (false, s)

/-! ## Durable store and reconciliation worker (`worker.js`) -/

/-- The relational store, as far as the worker and the request handlers use it. -/
structure Db where
  /-- Rows inserted so far, by schema and table (`created_at` is set by the server). -/
  rows : String → String → List Record
  /-- Column names of a table in `information_schema.columns`, by ordinal position. -/
  columns : String → String → List String
  /-- Rows of the `status_vagas` table of a schema. -/
  statusVagas : String → List Record

/-- Counters of the worker. -/
structure Stats where
  vagas_synced : Nat
  candidatos_synced : Nat
  errors : Nat
  cycles : Nat
  deriving DecidableEq, Repr

/-- Module state of the worker together with the two stores it talks to. -/
structure Worker where
  cache : Valkey
  db : Db
  stats : Stats
  /-- Contents of `columnsCache`, by the key `schema.table`. -/
  columnsCache : String → Option (List String)
  activeSchemas : List String
  isRunning : Bool

/-- Outcomes of the calls of one `syncVagas` / `syncCandidatos` run:
    `false` means the call fails. The per-entity outcomes are indexed by the id. -/
structure SyncFaults where
  queueOk : Bool
  columnsOk : Bool
  histOk : String → Bool
  insertOk : String → Bool
  removeOk : String → Bool

/-- No call of the run fails. -/
def SyncFaults.none : SyncFaults :=
  { queueOk := true
    columnsOk := true
    histOk := fun _ => true
    insertOk := fun _ => true
    removeOk := fun _ => true }

/-- `getTableColumns(schema, tableName)`: the cached list if there is one (an empty
    array is truthy), otherwise the catalog query, cached when it succeeds. -/
def getTableColumns (ok : Bool) (schema tableName : String) (w : Worker) :
    List String × Worker :=
  match w.columnsCache (schema ++ "." ++ tableName) with
  | some cols => (cols, w)
  | none =>
    if ok then
      let cols := w.db.columns schema tableName
      (cols, { w with columnsCache := upd w.columnsCache (schema ++ "." ++ tableName) (some cols) })
    else ([], w)

/-- Object `dadosFiltrados`: the fields of `linha` that are updatable columns. -/
def projectRow (updatableColumns : List String) (linha : Record) : Record :=
  updatableColumns.foldl
    (fun acc col =>
      if hasField linha col && (getField linha col).isSome then
        setField acc col ((getField linha col).getD JVal.null)
      else acc) []

/-- Filter `columns.filter(c => !['id', 'created_at'].includes(c))`. -/
def updatableOf (columns : List String) : List String :=
  columns.filter (fun c => !(["id", "created_at"].contains c))

/-- `pool.query(insertQuery, vals)` for a projected row. -/
def Db.insert (db : Db) (schema table : String) (row : Record) : Db :=
  { db with rows := fun sc t =>
      if sc = schema ∧ t = table then db.rows sc t ++ [row] else db.rows sc t }

/-- Body of the `for` loop of `syncVagas` for one queued requisition. -/
def syncVagasStep (f : SyncFaults) (schema : String) (updatableColumns : List String)
    (w : Worker) (requisicao : String) : Worker :=
  let historico := getHistoricoVagas w.cache (f.histOk requisicao) schema requisicao
  match historico.getLast? with
  | none =>
    { w with cache := (removeSyncQueue w.cache (f.removeOk requisicao) schema requisicao).2 }
  | some linha =>
    let dadosFiltrados := projectRow updatableColumns linha
    if !truthy (getField dadosFiltrados "requisicao") then
      { w with cache := (removeSyncQueue w.cache (f.removeOk requisicao) schema requisicao).2 }
    else if f.insertOk requisicao then
      { w with
        db := w.db.insert schema "historico_vagas" dadosFiltrados
        cache := (removeSyncQueue w.cache (f.removeOk requisicao) schema requisicao).2
        stats := { w.stats with vagas_synced := w.stats.vagas_synced + 1 } }
    else
      { w with stats := { w.stats with errors := w.stats.errors + 1 } }

/-- `syncVagas(schema)`. -/
def syncVagas (f : SyncFaults) (schema : String) (w : Worker) : Worker :=
  let queue := getSyncQueue w.cache f.queueOk schema
  if queue.isEmpty then w
  else
    let cw := getTableColumns f.columnsOk schema "historico_vagas" w
    if cw.1.isEmpty then cw.2
    else queue.foldl (syncVagasStep f schema (updatableOf cw.1)) cw.2

/-- Body of the `for` loop of `syncCandidatos` for one queued candidate. -/
def syncCandidatosStep (f : SyncFaults) (schema : String) (updatableColumns : List String)
    (w : Worker) (candidatoId : String) : Worker :=
  let historico := getHistoricoCandidatos w.cache (f.histOk candidatoId) schema candidatoId
  match historico.getLast? with
  | none =>
    { w with
      cache := (removeSyncQueueCandidatos w.cache (f.removeOk candidatoId) schema candidatoId).2 }
  | some linha =>
    let dadosFiltrados := projectRow updatableColumns linha
    if !truthy (getField dadosFiltrados "id_candidato") then
      { w with
        cache :=
          (removeSyncQueueCandidatos w.cache (f.removeOk candidatoId) schema candidatoId).2 }
    else if f.insertOk candidatoId then
      { w with
        db := w.db.insert schema "historico_candidatos" dadosFiltrados
        cache :=
          (removeSyncQueueCandidatos w.cache (f.removeOk candidatoId) schema candidatoId).2
        stats := { w.stats with candidatos_synced := w.stats.candidatos_synced + 1 } }
    else
      { w with stats := { w.stats with errors := w.stats.errors + 1 } }

/-- `syncCandidatos(schema)`. -/
def syncCandidatos (f : SyncFaults) (schema : String) (w : Worker) : Worker :=
  let queue := getSyncQueueCandidatos w.cache f.queueOk schema
  if queue.isEmpty then w
  else
    let cw := getTableColumns f.columnsOk schema "historico_candidatos" w
    if cw.1.isEmpty then cw.2
    else queue.foldl (syncCandidatosStep f schema (updatableOf cw.1)) cw.2

/-! ## Request handlers (`routes/historico.js`, `routes/candidatos.js`) -/

/-- Whether a character is allowed by `/^[a-zA-Z0-9_]+$/`. -/
def identChar (c : Char) : Bool :=
  c.isAlphanum || c == '_'

/-- `sanitizeSchema(schema)` of `helpers/db.js`; an error is the thrown message. -/
def sanitizeSchema (schema : String) : Except String String :=
  if schema.isEmpty then Except.error "Schema e obrigatorio e deve ser string"
  else if !(schema.toList.all identChar) then Except.error "Schema invalido"
  else if schema.length > 63 then Except.error "Schema muito longo (maximo 63 caracteres)"
  else Except.ok schema

/-- Names of `HTTP_STATUS` the handlers use. -/
inductive HttpStatus where
  | CREATED : HttpStatus
  | BAD_REQUEST : HttpStatus
  | INTERNAL_ERROR : HttpStatus
  | SERVICE_UNAVAILABLE : HttpStatus
  deriving DecidableEq, Repr

/-- Modelled from the spec: `constants/http.js` is not part of the sources; the
    numeric codes are the standard ones the names stand for. -/
def HttpStatus.code : HttpStatus → Nat
  | HttpStatus.CREATED => 201
  | HttpStatus.BAD_REQUEST => 400
  | HttpStatus.INTERNAL_ERROR => 500
  | HttpStatus.SERVICE_UNAVAILABLE => 503

/-- The part of a JSON response the claims speak about. -/
structure Response where
  status : HttpStatus
  success : Option Bool
  fonte : Option String
  deriving DecidableEq, Repr

/-- An entry of the field list `getHistoricoFields` returns. -/
structure Field where
  name : String
  quoted : String
  group : String
  isDynamic : Bool
  deriving DecidableEq, Repr

/-- Outcomes of the calls of one `POST /` request: `false` means the call fails. -/
structure PostFaults where
  /-- The `status_vagas` lookup of the handler (`pool.query`). -/
  statusQueryOk : Bool
  /-- The status lookup inside `addHistoricoVagas`. -/
  hgetOk : Bool
  /-- The pipelined batch of the append. -/
  exec : ExecOutcome
  /-- The fallback `INSERT` (`pool.query`). -/
  insertOk : Bool
  /-- The `sadd` of `addToFallbackLog`. -/
  fallbackLogOk : Bool

/-- Value `x || alt`. -/
def orElse (x : Option JVal) (alt : JVal) : JVal :=
  if truthy x then x.getD alt else alt

/-- Object `dadosFiltrados` of `POST /historico/vagas`. -/
def dadosFiltradosVagas (todosOsCampos : List Field) (funcaoLower : String) (body : Record) :
    Record :=
  let status := getField body "status"
  let campos := body.filter (fun p => p.1 != "requisicao" && p.1 != "status")
  let podeStatusProposta := status = some (JVal.str "PROPOSTA")
    || jsIncludes funcaoLower "cancelada" || jsIncludes funcaoLower "fechada"
  let podeSelecionado := podeStatusProposta
  let podeCandidatos := jsIncludes funcaoLower "shortlist"
    || jsIncludes funcaoLower "cancelada" || jsIncludes funcaoLower "fechada"
  todosOsCampos.foldl
    (fun acc campo =>
      if campo.isDynamic && hasField campos campo.name then
        if campo.group == "DADOS_PROPOSTA" && podeStatusProposta then
          setField acc campo.name ((getField campos campo.name).getD JVal.null)
        else if campo.group == "DADOS_SELECIONADO" && podeSelecionado then
          setField acc campo.name ((getField campos campo.name).getD JVal.null)
        else if campo.group == "DADOS_CANDIDATOS" && podeCandidatos then
          setField acc campo.name ((getField campos campo.name).getD JVal.null)
        else if !(["DADOS_PROPOSTA", "DADOS_SELECIONADO", "DADOS_CANDIDATOS"].contains
            campo.group) then
          setField acc campo.name ((getField campos campo.name).getD JVal.null)
        else acc
      else acc)
    [("requisicao", (getField body "requisicao").getD JVal.null),
     ("status", status.getD JVal.null),
     ("alterado_por", orElse (getField campos "alterado_por") (JVal.str "sistema"))]

/-- Columns and values `buildInsert` emits, as one row. -/
def buildInsertRow (allFields : List Field) (dados : Record) : Record :=
  (allFields.filter (fun field =>
      !(["id", "created_at", "updated_at", "version"].contains field.name)
        && hasField dados field.name)).map
    (fun field => (field.name, (getField dados field.name).getD JVal.null))

/-- Handler of `POST /historico/vagas`. `cachePresent` says whether the module
    variable `cache` is set, `now` is the clock reading of the append,
    `todosOsCampos` is what `getHistoricoFields` returns for the tenant. -/
def postHistoricoVagas (f : PostFaults) (cachePresent : Bool) (now : Int)
    (todosOsCampos : List Field) (schema : String) (body : Record) (cache : Valkey) (db : Db) :
    Response × Valkey × Db :=
  let requisicao := getField body "requisicao"
  let status := getField body "status"
  if !truthy requisicao || !truthy status then
    ({ status := HttpStatus.BAD_REQUEST, success := none, fonte := none }, cache, db)
  else
    match sanitizeSchema schema with
    | Except.error _ =>
      ({ status := HttpStatus.INTERNAL_ERROR, success := some false, fonte := none }, cache, db)
    | Except.ok targetSchema =>
      if !f.statusQueryOk then
        ({ status := HttpStatus.INTERNAL_ERROR, success := some false, fonte := none }, cache, db)
      else
        let rows := (db.statusVagas targetSchema).filter (fun r => getField r "status" = status)
        match funcaoLowerOf (rows.head?.bind (fun r => getField r "funcao_sistema")) with
        | none =>
          ({ status := HttpStatus.INTERNAL_ERROR, success := some false, fonte := none },
            cache, db)
        | some funcaoLower =>
          let dadosFiltrados := dadosFiltradosVagas todosOsCampos funcaoLower body
          let tried :=
            if cachePresent then addHistoricoVagas cache now f.hgetOk f.exec targetSchema
              dadosFiltrados
            else (false, cache)
          if tried.1 then
            ({ status := HttpStatus.CREATED, success := some true, fonte := some "valkey" },
              tried.2, db)
          else if f.insertOk then
            ({ status := HttpStatus.CREATED, success := some true, fonte := some "postgresql" },
              (if cachePresent then
                (addToFallbackLog tried.2 f.fallbackLogOk targetSchema (jsString requisicao)).2
               else tried.2),
              db.insert targetSchema "historico_vagas" (buildInsertRow todosOsCampos dadosFiltrados))
          else
            ({ status := HttpStatus.SERVICE_UNAVAILABLE, success := some false, fonte := none },
              tried.2, db)

/-- Object `dadosHistorico` of `POST /historico/candidatos`. -/
def dadosHistoricoCandidatos (body : Record) : Record :=
  spread
    [("id_candidato", JVal.str (jsString (getField body "id_candidato"))),
     ("status_candidato", orElse (getField body "status_candidato") JVal.null),
     ("status_micro_candidato", orElse (getField body "status_micro_candidato") JVal.null),
     ("alterado_por", orElse (getField body "alterado_por") (JVal.str "sistema"))]
    (body.filter (fun p =>
      !(["id_candidato", "status_candidato", "status_micro_candidato", "alterado_por"].contains
        p.1)))

/-- Handler of `POST /historico/candidatos`. -/
def postHistoricoCandidatos (f : PostFaults) (cachePresent : Bool) (now : Int)
    (schema : String) (body : Record) (cache : Valkey) (db : Db) : Response × Valkey × Db :=
  if !truthy (getField body "id_candidato") then
    ({ status := HttpStatus.BAD_REQUEST, success := none, fonte := none }, cache, db)
  else
    let dadosHistorico := dadosHistoricoCandidatos body
    let tried :=
      if cachePresent then addHistoricoCandidatos cache now f.exec schema dadosHistorico
      else (false, cache)
    if tried.1 then
      ({ status := HttpStatus.CREATED, success := some true, fonte := some "valkey" },
        tried.2, db)
    else
      match sanitizeSchema schema with
      | Except.error _ =>
        ({ status := HttpStatus.SERVICE_UNAVAILABLE, success := some false, fonte := none },
          tried.2, db)
      | Except.ok safeSchema =>
        if f.insertOk then
          ({ status := HttpStatus.CREATED, success := some true, fonte := some "postgresql" },
            tried.2,
            db.insert safeSchema "historico_candidatos"
              (dadosHistorico.filter (fun p => p.2 ≠ JVal.null)))
        else
          ({ status := HttpStatus.SERVICE_UNAVAILABLE, success := some false, fonte := none },
            tried.2, db)

/-! ## Local effect of commands (used to reason about batches) -/

/-- Effect of a command on the sorted set stored at key `k`. -/
def Cmd.onZset : Cmd → String → List ZEntry → List ZEntry
  | Cmd.zadd key score member, k, z =>
    if k = key then
      match scoreOf score with
      | some sc => zaddEntries z sc member
      | none => z
    else z
  | Cmd.zremrangebyscore key lo hi, k, z =>
    if k = key then
      match scoreOf lo, scoreOf hi with
      | some a, some b => zremEntries z a b
      | _, _ => z
    else z
  | Cmd.del keys, k, z => if k ∈ keys then [] else z
  | Cmd.expire _ _, _, z => z
  | Cmd.sadd _ _, _, z => z
  | Cmd.srem _ _, _, z => z

/-- Effect of a command on the set stored at key `k`. -/
def Cmd.onSet : Cmd → String → List String → List String
  | Cmd.sadd key member, k, m =>
    if k = key then (if member ∈ m then m else m ++ [member]) else m
  | Cmd.srem key member, k, m => if k = key then m.filter (fun x => x ≠ member) else m
  | Cmd.del keys, k, m => if k ∈ keys then [] else m
  | Cmd.zadd _ _ _, _, m => m
  | Cmd.zremrangebyscore _ _ _, _, m => m
  | Cmd.expire _ _, _, m => m

/-- Effect of a batch, from position `i`, on the sorted set stored at key `k`. -/
def zsetAfter (effect : Nat → Bool) : Nat → List Cmd → String → List ZEntry → List ZEntry
  | _, [], _, z => z
  | i, c :: cs, k, z => zsetAfter effect (i + 1) cs k (if effect i then c.onZset k z else z)

/-- Effect of a batch, from position `i`, on the set stored at key `k`. -/
def setAfter (effect : Nat → Bool) : Nat → List Cmd → String → List String → List String
  | _, [], _, m => m
  | i, c :: cs, k, m => setAfter effect (i + 1) cs k (if effect i then c.onSet k m else m)

/-! ## Example data -/

/-- A store whose history tables have a few columns and no row. -/
def exDb : Db :=
  { rows := fun _ _ => []
    columns := fun _ t =>
      if t = "historico_candidatos" then ["id", "id_candidato", "status_candidato", "created_at"]
      else ["id", "requisicao", "status", "created_at"]
    statusVagas := fun _ => [] }

/-- Counters at zero. -/
def exStats : Stats :=
  { vagas_synced := 0, candidatos_synced := 0, errors := 0, cycles := 0 }

/-- A worker over the given cache and the example table. -/
def exWorker (cache : Valkey) : Worker :=
  { cache := cache
    db := exDb
    stats := exStats
    columnsCache := fun _ => none
    activeSchemas := ["t1"]
    isRunning := false }

/-- A first payload for requisition `REQ100`. -/
def exAberta : Record :=
  [("requisicao", JVal.str "REQ100"), ("status", JVal.str "ABERTA")]

/-- A payload for requisition `REQ100` with status `PROPOSTA`. -/
def exProposta : Record :=
  [("requisicao", JVal.str "REQ100"), ("status", JVal.str "PROPOSTA")]

/-- A payload for candidate `C7`. -/
def exCandidato : Record :=
  [("id_candidato", JVal.str "C7"), ("status_candidato", JVal.str "TRIAGEM")]

/-- Cache after one append for `REQ100` at clock reading 1000. -/
def exAfterAberta : Valkey :=
  (addHistoricoVagas Valkey.empty 1000 true ExecOutcome.ok "t1" exAberta).2

/-- Cache after a second append for `REQ100`, at clock reading 2000. -/
def exAfterBoth : Valkey :=
  (addHistoricoVagas exAfterAberta 2000 true ExecOutcome.ok "t1" exProposta).2

/-- Outcomes of a request during which every durable-store query fails while
    every cache call succeeds. -/
def exDurableDown : PostFaults :=
  { statusQueryOk := false
    hgetOk := true
    exec := ExecOutcome.ok
    insertOk := false
    fallbackLogOk := true }

/-- Outcome of a batch whose first command takes effect and no other does;
    `exec()` resolves. -/
def exOnlyFirst : ExecOutcome :=
  { effect := fun i => decide (i = 0), rejects := false }

/-- A proposal payload for `REQ100` changed by `zeta`. -/
def exPropostaZeta : Record :=
  [("requisicao", JVal.str "REQ100"), ("status", JVal.str "PROPOSTA"),
   ("alterado_por", JVal.str "zeta")]

/-- A proposal payload for `REQ100` changed by `ana`. -/
def exPropostaAna : Record :=
  [("requisicao", JVal.str "REQ100"), ("status", JVal.str "PROPOSTA"),
   ("alterado_por", JVal.str "ana")]

/-- A cache whose status mapping of tenant `t1` classifies `TRIAGEM` as a shortlist. -/
def exMapped : Valkey :=
  { Valkey.empty with
    hashes := fun k =>
      if k = statusVagas "t1" then
        [("TRIAGEM", [("status", JVal.str "TRIAGEM"), ("funcao_sistema", JVal.str "Shortlist")])]
      else [] }

/-- A payload for `REQ100` with status `TRIAGEM`. -/
def exTriagem : Record :=
  [("requisicao", JVal.str "REQ100"), ("status", JVal.str "TRIAGEM")]

/-- Cache after the proposal of `zeta` was appended at clock reading 1000. -/
def exAfterZeta : Valkey :=
  (addHistoricoVagas Valkey.empty 1000 true ExecOutcome.ok "t1" exPropostaZeta).2

/-- Cache after the proposal of `ana` was appended in the same millisecond. -/
def exAfterZetaAna : Valkey :=
  (addHistoricoVagas exAfterZeta 1000 true ExecOutcome.ok "t1" exPropostaAna).2

/-- Cache of tenant `t1` after three appends for `REQ100`: `ABERTA` at 500, `TRIAGEM`
    (a shortlist status) at 1000 and `PROPOSTA` at 2000. -/
def exThree : Valkey :=
  (addHistoricoVagas
    (addHistoricoVagas
      (addHistoricoVagas exMapped 500 true ExecOutcome.ok "t1" exAberta).2
      1000 true ExecOutcome.ok "t1" exTriagem).2
    2000 true ExecOutcome.ok "t1" exProposta).2

/-- Cache after two proposals for `REQ100`, of `zeta` at 1000 and of `ana` at 2000. -/
def exTwoPropostas : Valkey :=
  (addHistoricoVagas exAfterZeta 2000 true ExecOutcome.ok "t1" exPropostaAna).2

/-- The merged record is the one and only member of a sorted set under score `sc`. -/
def ReplacedAt (after : List ZEntry) (sc : Int) (merged : Record) : Prop :=
  (sc, merged) ∈ after ∧ ∀ e ∈ after, e.1 = sc → e = (sc, merged)

/-- A listing in which the entry under score `sc` carries `merged` and every other
    entry is as it was, in the same position. -/
def relabel (sc : Int) (merged : Record) (l : List ZEntry) : List ZEntry :=
  l.map (fun e => if e.1 = sc then (sc, merged) else e)

/-- Result of a patch of the record stored under score `sc`: the call returns true, the
    merged record has taken the place of every member stored under `sc` in the series and
    in the index, the index lists its records in the same order as before, and the
    requisition is on the sync queue. -/
def PatchResult (before : Valkey) (res : Bool × Valkey) (serie idx queue requisicao : String)
    (sc : Int) (merged : Record) : Prop :=
  res.1 = true
  ∧ ReplacedAt (res.2.zsets serie) sc merged
  ∧ ReplacedAt (res.2.zsets idx) sc merged
  ∧ zdesc (res.2.zsets idx) = relabel sc merged (zdesc (before.zsets idx))
  ∧ requisicao ∈ res.2.sets queue

/-! ## Sequences of cache operations -/

/-- A call of a writing cache operation, with its clock readings and the outcomes of its
    client calls. -/
inductive CacheOp where
  | addVagas (now : Int) (hgetOk : Bool) (out : ExecOutcome) (schema : String)
      (data : Record) : CacheOp
  | addCandidatos (now : Int) (out : ExecOutcome) (schema : String) (data : Record) : CacheOp
  | patchStatus (now1 now2 : Int) (readOk : Bool) (out : ExecOutcome)
      (schema requisicao : String) (valor : JVal) (ordem : Option JVal) : CacheOp
  | patchCandidatos (now1 now2 : Int) (readOk : Bool) (out : ExecOutcome)
      (schema requisicao : String) (dados : Record) : CacheOp
  | patchSelecionado (now1 now2 : Int) (readOk : Bool) (out : ExecOutcome)
      (schema requisicao : String) (dados : Record) : CacheOp
  | invalidateRequisicao (ok : Bool) (schema requisicao : String) : CacheOp
  | invalidateCandidato (ok : Bool) (schema candidatoId : String) : CacheOp

/-- The cache after the call. -/
def CacheOp.run : CacheOp → Valkey → Valkey
  | CacheOp.addVagas now hgetOk out schema data, s =>
    (addHistoricoVagas s now hgetOk out schema data).2
  | CacheOp.addCandidatos now out schema data, s =>
    (addHistoricoCandidatos s now out schema data).2
  | CacheOp.patchStatus now1 now2 readOk out schema requisicao valor ordem, s =>
    (updatePropostaStatus s now1 now2 readOk out schema requisicao valor ordem).2
  | CacheOp.patchCandidatos now1 now2 readOk out schema requisicao dados, s =>
    (updateDadosCandidatos s now1 now2 readOk out schema requisicao dados).2
  | CacheOp.patchSelecionado now1 now2 readOk out schema requisicao dados, s =>
    (updateDadosSelecionado s now1 now2 readOk out schema requisicao dados).2
  | CacheOp.invalidateRequisicao ok schema requisicao, s =>
    (invalidateCacheForRequisicao s ok schema requisicao).2
  | CacheOp.invalidateCandidato ok schema candidatoId, s =>
    (invalidateCacheForCandidato s ok schema candidatoId).2

/-- Tenant of the call. -/
def CacheOp.schema : CacheOp → String
  | CacheOp.addVagas _ _ _ schema _ => schema
  | CacheOp.addCandidatos _ _ schema _ => schema
  | CacheOp.patchStatus _ _ _ _ schema _ _ _ => schema
  | CacheOp.patchCandidatos _ _ _ _ schema _ _ => schema
  | CacheOp.patchSelecionado _ _ _ _ schema _ _ => schema
  | CacheOp.invalidateRequisicao _ schema _ => schema
  | CacheOp.invalidateCandidato _ schema _ => schema

/-- The call is `addHistoricoVagas` for the given requisition of the given tenant. -/
def CacheOp.appendsToRequisicao (schema requisicao : String) : CacheOp → Prop
  | CacheOp.addVagas _ _ _ sc data =>
    sc = schema ∧ jsString (getField data "requisicao") = requisicao
  | _ => False

/-- The call is `addHistoricoCandidatos` for the given candidate of the given tenant. -/
def CacheOp.appendsToCandidato (schema candidatoId : String) : CacheOp → Prop
  | CacheOp.addCandidatos _ _ sc data =>
    sc = schema ∧ jsString (getField data "id_candidato") = candidatoId
  | _ => False

/-- The cache after a sequence of calls. -/
def runOps (ops : List CacheOp) (s : Valkey) : Valkey :=
  ops.foldl (fun st op => op.run st) s

/-- Kinds of per-entity keys. -/
inductive KeyKind where
  | histVagas : KeyKind
  | histCand : KeyKind
  | idxProposta : KeyKind
  | idxShortlist : KeyKind
  | idxCancelada : KeyKind
  | idxFechada : KeyKind
  deriving DecidableEq, Repr

/-- Text between the tenant and the entity id in a key of the kind. -/
def KeyKind.mid : KeyKind → String
  | KeyKind.histVagas => ":hist_vagas:"
  | KeyKind.histCand => ":hist_cand:"
  | KeyKind.idxProposta => ":idx:proposta:"
  | KeyKind.idxShortlist => ":idx:shortlist:"
  | KeyKind.idxCancelada => ":idx:cancelada:"
  | KeyKind.idxFechada => ":idx:fechada:"

/-- The per-entity key of a kind. -/
def entityKey (kind : KeyKind) (schema id : String) : String :=
  PREFIX ++ ":" ++ schema ++ kind.mid ++ id

/-- Keys of the sorted sets a command can change. -/
def Cmd.zkeys : Cmd → List String
  | Cmd.zadd key _ _ => [key]
  | Cmd.zremrangebyscore key _ _ => [key]
  | Cmd.del keys => keys
  | Cmd.expire _ _ => []
  | Cmd.sadd _ _ => []
  | Cmd.srem _ _ => []

/-- The series and the four category indices of a requisition hold no entry. -/
def RequisicaoEmpty (s : Valkey) (schema requisicao : String) : Prop :=
  ∀ kind, kind ≠ KeyKind.histCand → s.zsets (entityKey kind schema requisicao) = []

/-- The tenant of a call is the given tenant, or both tenant names pass
    `sanitizeSchema` (as every name the routes hand to the cache does). -/
def CacheOp.tenantOk (schema : String) (op : CacheOp) : Prop :=
  op.schema = schema
  ∨ (sanitizeSchema schema = Except.ok schema ∧ sanitizeSchema op.schema = Except.ok op.schema)

/-- Cache of tenant `t1` with cached history for `REQ100` and for candidate `C7`. -/
def exBoth : Valkey :=
  (addHistoricoCandidatos exThree 2500 ExecOutcome.ok "t1" exCandidato).2

/-- Writes that follow an invalidation of `REQ100`: a patch of `REQ100`, an append for
    another requisition and an append for a candidate. -/
def exOpsAfterInvalidate : List CacheOp :=
  [CacheOp.patchSelecionado 3000 3001 true ExecOutcome.ok "t1" "REQ100"
     [("selecionado_nome", JVal.str "Ana")],
   CacheOp.addVagas 3100 true ExecOutcome.ok "t1"
     [("requisicao", JVal.str "REQ200"), ("status", JVal.str "PROPOSTA")],
   CacheOp.addCandidatos 3200 ExecOutcome.ok "t1" exCandidato]

/-- Writes that follow an invalidation of candidate `C7`: an append for a requisition
    and an append for another candidate. -/
def exOpsAfterInvalidateCandidato : List CacheOp :=
  [CacheOp.addVagas 3100 true ExecOutcome.ok "t1" exProposta,
   CacheOp.addCandidatos 3200 ExecOutcome.ok "t1"
     [("id_candidato", JVal.str "C8"), ("status_candidato", JVal.str "TRIAGEM")]]

/-- The call leaves the `cached_at` of cached records alone: an append reads a positive
    clock, the partial fields of a patch do not contain `cached_at`. -/
def CacheOp.keepsCachedAt : CacheOp → Prop
  | CacheOp.addVagas now _ _ _ _ => 0 < now
  | CacheOp.addCandidatos now _ _ _ => 0 < now
  | CacheOp.patchCandidatos _ _ _ _ _ _ dados => hasField dados "cached_at" = false
  | CacheOp.patchSelecionado _ _ _ _ _ _ dados => hasField dados "cached_at" = false
  | CacheOp.patchStatus _ _ _ _ _ _ _ _ => True
  | CacheOp.invalidateRequisicao _ _ _ => True
  | CacheOp.invalidateCandidato _ _ _ => True

/-- Cache states reached from a cache without history by appends, patches and
    invalidations that leave `cached_at` alone, whatever the outcomes of the calls. -/
inductive Reachable : Valkey → Prop where
  | init (s : Valkey) (h : ∀ k, s.zsets k = []) : Reachable s
  | step (s : Valkey) (op : CacheOp) (h : Reachable s) (hop : op.keepsCachedAt) :
      Reachable (op.run s)

/-- Every record of the sorted set carries its non-zero score as `cached_at`. -/
def ScoreIsCachedAt (z : List ZEntry) : Prop :=
  ∀ e ∈ z, getField e.2 "cached_at" = some (JVal.num e.1) ∧ e.1 ≠ 0

/-- A `zadd` of the command stores its member under the member's non-zero `cached_at`. -/
def Cmd.stamped : Cmd → Prop
  | Cmd.zadd _ score member =>
    ∀ sc, scoreOf score = some sc → getField member "cached_at" = some (JVal.num sc) ∧ sc ≠ 0
  | _ => True

/-- Cache after a proposal for `REQ100` at 1000, a patch whose partial fields set
    `cached_at` to 9999, and a second proposal at 2000. -/
def exFutureStamp : Valkey :=
  (addHistoricoVagas
    (updateDadosSelecionado
      (addHistoricoVagas Valkey.empty 1000 true ExecOutcome.ok "t1" exPropostaZeta).2
      1500 1500 true ExecOutcome.ok "t1" "REQ100" [("cached_at", JVal.num 9999)]).2
    2000 true ExecOutcome.ok "t1" exPropostaAna).2

/-- The first proposal of `exFutureStamp` after its patch. -/
def exFutureStampRecord : Record :=
  [("requisicao", JVal.str "REQ100"), ("status", JVal.str "PROPOSTA"),
   ("alterado_por", JVal.str "zeta"), ("cached_at", JVal.num 9999),
   ("updated_at", JVal.num 1500)]

/-- A store whose `historico_vagas` and `historico_candidatos` tables lack the id column
    (`requisicao`, `id_candidato`). -/
def exDbNoIdColumn : Db :=
  { rows := fun _ _ => []
    columns := fun _ t =>
      if t = "historico_candidatos" then ["id", "status_candidato", "created_at"]
      else ["id", "status", "created_at"]
    statusVagas := fun _ => [] }

/-- A store in which no history table exists: the catalog lists no column. -/
def exDbNoTable : Db :=
  { rows := fun _ _ => []
    columns := fun _ _ => []
    statusVagas := fun _ => [] }

/-- Outcomes of a run in which every durable insert throws and nothing else fails. -/
def exInsertFails : SyncFaults :=
  { queueOk := true
    columnsOk := true
    histOk := fun _ => true
    insertOk := fun _ => false
    removeOk := fun _ => true }

/-- Cache after one append for candidate `C7` at clock reading 1000. -/
def exAfterCandidato : Valkey :=
  (addHistoricoCandidatos Valkey.empty 1000 ExecOutcome.ok "t1" exCandidato).2

/-- Statement `stats.errors++`. -/
def Worker.countError (w : Worker) : Worker :=
  { w with stats := { w.stats with errors := w.stats.errors + 1 } }

/-- A first payload for requisition `REQ200`. -/
def exAberta200 : Record :=
  [("requisicao", JVal.str "REQ200"), ("status", JVal.str "ABERTA")]

/-- Cache after one append for `REQ100` at 1000 and one for `REQ200` at 2000. -/
def exTwoQueued : Valkey :=
  (addHistoricoVagas exAfterAberta 2000 true ExecOutcome.ok "t1" exAberta200).2

/-- Outcomes of a run in which the durable insert for `REQ100` and for `C7` throws and
    nothing else fails. -/
def exInsertFailsOnce : SyncFaults :=
  { queueOk := true
    columnsOk := true
    histOk := fun _ => true
    insertOk := fun id => decide (id ≠ "REQ100" ∧ id ≠ "C7")
    removeOk := fun _ => true }

/-! ## Worker cycle and tenant discovery (`worker.js`) -/

/-- Outcomes of the calls of one cycle of `mainLoop`. -/
structure CycleFaults where
  /-- Outcomes of the `syncVagas` run of a schema. -/
  vagas : String → SyncFaults
  /-- Outcomes of the `syncCandidatos` run of a schema. -/
  candidatos : String → SyncFaults
  /-- Number of schemas processed before an exception escapes the loop body;
      `none`: the loop ends normally. -/
  throwsAfter : Option Nat

/-- The `for` loop of `mainLoop` over the given schemas. -/
def cycleLoop (f : CycleFaults) (schemas : List String) (w : Worker) : Worker :=
  schemas.foldl
    (fun acc schema => syncCandidatos (f.candidatos schema) schema
      (syncVagas (f.vagas schema) schema acc)) w

/-- The `try` block of `mainLoop` with its `catch`: an exception skips the rest of the
    loop and `stats.cycles++`. -/
def cycleBody (f : CycleFaults) (w : Worker) : Worker :=
  match f.throwsAfter with
  | none =>
    let w2 := cycleLoop f w.activeSchemas w
    { w2 with stats := { w2.stats with cycles := w2.stats.cycles + 1 } }
  | some n => cycleLoop f (w.activeSchemas.take n) w

/-- `mainLoop()` run to its end without another invocation in between. -/
def mainLoop (f : CycleFaults) (w : Worker) : Worker :=
  if w.isRunning then w
  else { cycleBody f { w with isRunning := true } with isRunning := false }

/-- The worker process between two turns of the event loop: the module state with the
    stores, and the invocations of `mainLoop` that passed the guard and did not reach
    `finally` yet, each with the schemas its `for` loop has still to process. -/
structure Scheduler where
  worker : Worker
  inFlight : List (List String)

/-- What the event loop runs next. -/
inductive LoopEvent where
  /-- The timer invokes `mainLoop`: the guard, and `isRunning = true` up to the first `await`. -/
  | invoke
  /-- The invocation at this position resumes: it processes its next schema, or, when none
      is left, runs `stats.cycles++` and `finally`. -/
  | advance (i : Nat) (fv fc : SyncFaults)
  /-- An exception escapes the loop body of the invocation at this position: `catch`,
      then `finally`. -/
  | raise (i : Nat)

/-- One turn of the event loop. -/
def Scheduler.step (l : Scheduler) : LoopEvent → Scheduler
  | LoopEvent.invoke =>
    if l.worker.isRunning then l
    else
      { worker := { l.worker with isRunning := true }
        inFlight := l.inFlight ++ [l.worker.activeSchemas] }
  | LoopEvent.advance i fv fc =>
    match l.inFlight.get? i with
    | none => l
    | some [] =>
      { worker :=
          { l.worker with
            stats := { l.worker.stats with cycles := l.worker.stats.cycles + 1 }
            isRunning := false }
        inFlight := l.inFlight.eraseIdx i }
    | some (schema :: rest) =>
      { worker := syncCandidatos fc schema (syncVagas fv schema l.worker)
        inFlight := l.inFlight.set i rest }
  | LoopEvent.raise i =>
    match l.inFlight.get? i with
    | none => l
    | some _ =>
      { worker := { l.worker with isRunning := false }
        inFlight := l.inFlight.eraseIdx i }

/-- An entry of `config.schemas` in `schemas.json`. -/
structure SchemaEntry where
  name : String
  active : Bool

/-- What one call of `discoverSchemas` finds. -/
structure Discovery where
  /-- Entries of `config.schemas`; `none`: `schemas.json` does not exist. -/
  file : Option (List SchemaEntry)
  /-- Whether reading and parsing the file succeeds. -/
  readOk : Bool
  /-- Rows `table_schema` of the catalog probe. -/
  probe : List String
  /-- Whether the catalog probe succeeds. -/
  probeOk : Bool

/-- `discoverSchemas()`: the worker afterwards, and whether the call completed without
    reaching its `catch`. -/
def discoverSchemas (d : Discovery) (w : Worker) : Worker × Bool :=
  let fromFile : Option (List String) :=
    match d.file with
    | some entries =>
      if d.readOk then some ((entries.filter (fun s => s.active)).map (fun s => s.name))
      else none
    | none => some w.activeSchemas
  match fromFile with
  | none => (w, false)
  | some active =>
    if active.length = 0 then
      if d.probeOk then ({ w with activeSchemas := d.probe }, true)
      else ({ w with activeSchemas := active }, false)
    else ({ w with activeSchemas := active }, true)

/-- A worker that discovered tenant `RPO_a` earlier. -/
def exWorkerWithTenant : Worker :=
  { exWorker Valkey.empty with activeSchemas := ["RPO_a"] }

/-- A refresh without `schemas.json` while the catalog shows the tables of `RPO_a` and of
    the new tenant `RPO_b`. -/
def exNoFileTwoTenants : Discovery :=
  { file := none
    readOk := true
    probe := ["RPO_a", "RPO_b"]
    probeOk := true }

/-- Outcomes of a cycle without any fault. -/
def CycleFaults.none : CycleFaults :=
  { vagas := fun _ => SyncFaults.none
    candidatos := fun _ => SyncFaults.none
    throwsAfter := Option.none }

/-- The call is about the entity that owns the key of the given kind: a requisition for
    the series and the indices of requisitions, a candidate for the series of candidates. -/
def CacheOp.touches (kind : KeyKind) (schema id : String) : CacheOp → Prop
  | CacheOp.addVagas _ _ _ sc data =>
    kind ≠ KeyKind.histCand ∧ sc = schema ∧ jsString (getField data "requisicao") = id
  | CacheOp.addCandidatos _ _ sc data =>
    kind = KeyKind.histCand ∧ sc = schema ∧ jsString (getField data "id_candidato") = id
  | CacheOp.patchStatus _ _ _ _ sc r _ _ => kind ≠ KeyKind.histCand ∧ sc = schema ∧ r = id
  | CacheOp.patchCandidatos _ _ _ _ sc r _ => kind ≠ KeyKind.histCand ∧ sc = schema ∧ r = id
  | CacheOp.patchSelecionado _ _ _ _ sc r _ => kind ≠ KeyKind.histCand ∧ sc = schema ∧ r = id
  | CacheOp.invalidateRequisicao _ sc r => kind ≠ KeyKind.histCand ∧ sc = schema ∧ r = id
  | CacheOp.invalidateCandidato _ sc c => kind = KeyKind.histCand ∧ sc = schema ∧ c = id

/-- Conditions on a call, in the state it starts from, under which the scores of a series
    stay distinct: an append reads a clock value that is not yet a score of the series
    of its entity; every command of the batch of a patch takes effect. -/
def CacheOp.keepsScoresApart (s : Valkey) : CacheOp → Prop
  | CacheOp.addVagas now _ _ schema data =>
    ∀ e ∈ s.zsets (histVagas schema (jsString (getField data "requisicao"))), e.1 ≠ now
  | CacheOp.addCandidatos now _ schema data =>
    ∀ e ∈ s.zsets (histCandidatos schema (jsString (getField data "id_candidato"))), e.1 ≠ now
  | CacheOp.patchStatus _ _ _ out _ _ _ _ => ∀ i, out.effect i = true
  | CacheOp.patchCandidatos _ _ _ out _ _ _ => ∀ i, out.effect i = true
  | CacheOp.patchSelecionado _ _ _ out _ _ _ => ∀ i, out.effect i = true
  | CacheOp.invalidateRequisicao _ _ _ => True
  | CacheOp.invalidateCandidato _ _ _ => True

/-- Cache states reached from a cache without history by calls on sanitised tenants that
    leave `cached_at` alone and meet `keepsScoresApart`. -/
inductive ReachableApart (schema : String) : Valkey → Prop where
  | init (s : Valkey) (h : ∀ k, s.zsets k = []) : ReachableApart schema s
  | step (s : Valkey) (op : CacheOp) (h : ReachableApart schema s) (hten : op.tenantOk schema)
      (hcached : op.keepsCachedAt) (hop : op.keepsScoresApart s) :
      ReachableApart schema (op.run s)

/-- Kinds of the four category indices. -/
def KeyKind.isIndex : KeyKind → Bool
  | KeyKind.idxProposta => true
  | KeyKind.idxShortlist => true
  | KeyKind.idxCancelada => true
  | KeyKind.idxFechada => true
  | KeyKind.histVagas => false
  | KeyKind.histCand => false

/-- Whether `addHistoricoVagas` writes the index of the kind, for the payload `data` and the
    lower-cased `funcao_sistema` of its status. -/
def writesIndex (data : Record) (funcaoLower : String) : KeyKind → Bool
  | KeyKind.idxProposta => decide (getField data "status" = some (JVal.str "PROPOSTA"))
  | KeyKind.idxShortlist => jsIncludes funcaoLower "shortlist"
  | KeyKind.idxCancelada => jsIncludes funcaoLower "cancelada"
  | KeyKind.idxFechada => jsIncludes funcaoLower "fechada"
  | KeyKind.histVagas => false
  | KeyKind.histCand => false

/-- The sorted sets of one requisition, by kind of key. -/
def entityZsets (s : Valkey) (schema requisicao : String) : KeyKind → List ZEntry :=
  fun kind => s.zsets (entityKey kind schema requisicao)

/-- Every entry of a category index is an entry of the series, and two different indices
    hold no entry under the same score. -/
def IndexInSeries (z : KeyKind → List ZEntry) : Prop :=
  (∀ kind, kind.isIndex = true → ∀ e ∈ z kind, e ∈ z KeyKind.histVagas)
  ∧ (∀ k1 k2, k1.isIndex = true → k2.isIndex = true → k1 ≠ k2 →
      ∀ e1 ∈ z k1, ∀ e2 ∈ z k2, e1.1 ≠ e2.1)

/-- Conditions on a call, in the state it starts from, under which the indices stay within
    the series: every command of the batch of an append or of a patch takes effect; an
    append reads a clock value that is not yet a score of the series of its requisition,
    and writes at most one index. -/
def CacheOp.keepsIndexInSeries (s : Valkey) : CacheOp → Prop
  | CacheOp.addVagas now hgetOk out schema data =>
    (∀ i, out.effect i = true)
    ∧ (∀ e ∈ s.zsets (histVagas schema (jsString (getField data "requisicao"))), e.1 ≠ now)
    ∧ (∀ fl, funcaoLowerOf (getFuncaoSistemaDoStatus s hgetOk schema (getField data "status"))
          = some fl →
        ∀ k1 k2, writesIndex data fl k1 = true → writesIndex data fl k2 = true → k1 = k2)
  | CacheOp.patchStatus _ _ _ out _ _ _ _ => ∀ i, out.effect i = true
  | CacheOp.patchCandidatos _ _ _ out _ _ _ => ∀ i, out.effect i = true
  | CacheOp.patchSelecionado _ _ _ out _ _ _ => ∀ i, out.effect i = true
  | CacheOp.addCandidatos _ _ _ _ => True
  | CacheOp.invalidateRequisicao _ _ _ => True
  | CacheOp.invalidateCandidato _ _ _ => True

/-- Cache states reached from a cache without history by calls on sanitised tenants that
    leave `cached_at` alone and meet `keepsIndexInSeries`. -/
inductive ReachableIndexed (schema : String) : Valkey → Prop where
  | init (s : Valkey) (h : ∀ k, s.zsets k = []) : ReachableIndexed schema s
  | step (s : Valkey) (op : CacheOp) (h : ReachableIndexed schema s)
      (hten : op.tenantOk schema) (hcached : op.keepsCachedAt)
      (hop : op.keepsIndexInSeries s) : ReachableIndexed schema (op.run s)

/-- Cache after a `TRIAGEM` record (a shortlist status) and a `PROPOSTA` record were
    appended for `REQ100` in the same millisecond 1000. -/
def exSameMs : Valkey :=
  (addHistoricoVagas (addHistoricoVagas exMapped 1000 true ExecOutcome.ok "t1" exTriagem).2
    1000 true ExecOutcome.ok "t1" exProposta).2

/-- The cache `exSameMs` after the status of the proposal was patched. -/
def exSameMsPatched : Valkey :=
  (updatePropostaStatus exSameMs 2000 2000 true ExecOutcome.ok "t1" "REQ100"
    (JVal.str "ACEITA") none).2

/-- Cache after one proposal for `REQ100` at 1000 and a patch of its status. -/
def exPatchedOnce : Valkey :=
  (updatePropostaStatus exAfterZeta 2000 2000 true ExecOutcome.ok "t1" "REQ100"
    (JVal.str "ACEITA") none).2

/-! ## Clearing a tenant's history (`clearHistoricoVagas`) -/

/-- Pattern `VALKEY_KEYS.patterns.allHistVagas(schema)` without its final `*`. -/
def allHistVagasPrefix (schema : String) : String :=
  PREFIX ++ ":" ++ schema ++ ":hist_vagas:"

/-- Whether a key matches the glob pattern made of the given text followed by `*`, for a
    text without glob characters (a sanitised tenant name has none). -/
def matchesPrefix (pre key : String) : Bool :=
  pre.data.isPrefixOf key.data

/-- Deletion of every key the predicate selects. -/
def Valkey.delWhere (s : Valkey) (p : String → Bool) : Valkey :=
  { zsets := fun k => if p k then [] else s.zsets k
    sets := fun k => if p k then [] else s.sets k
    hashes := fun k => if p k then [] else s.hashes k
    expiry := fun k => if p k then none else s.expiry k }

/-- `clearHistoricoVagas(schema)`: the `SCAN` loop deletes every key that matches
    `patterns.allHistVagas(schema)`. `fault = some done`: a call of the loop rejects after
    the matching keys selected by `done` were deleted, and the function returns false. -/
def clearHistoricoVagas (s : Valkey) (fault : Option (String → Bool)) (schema : String) :
    Bool × Valkey :=
  match fault with
  | none => (true, s.delWhere (matchesPrefix (allHistVagasPrefix schema)))
  | some done =>
    (false, s.delWhere (fun k => matchesPrefix (allHistVagasPrefix schema) k && done k))

/-! ## Column types of the setup (`setup.js`) -/

/-- `mapearTipoSQL(tipoDoDado)`. The text is lower-cased with `toLowerCase`, which agrees
    with JavaScript on whether one of the words tested here occurs: no character outside
    ASCII lower-cases to letters that could complete one of them. -/
def mapearTipoSQL (tipoDoDado : Option JVal) : String :=
  if !truthy tipoDoDado then "TEXT"
  else
    let tipo := toLowerCase (jsString tipoDoDado)
    if jsIncludes tipo "inteiro" || jsIncludes tipo "integer" || jsIncludes tipo "numero" then
      "INTEGER"
    else if jsIncludes tipo "decimal" || jsIncludes tipo "float" || jsIncludes tipo "double" then
      "DECIMAL"
    else if jsIncludes tipo "booleano" || jsIncludes tipo "boolean"
        || jsIncludes tipo "sim/nao" then
      "BOOLEAN"
    else if jsIncludes tipo "data" || jsIncludes tipo "date" then "DATE"
    else if jsIncludes tipo "timestamp" || jsIncludes tipo "datetime" then "TIMESTAMP"
    else if jsIncludes tipo "texto curto" || jsIncludes tipo "varchar" then "VARCHAR(255)"
    else "TEXT"

/-! ## Authentication (`server.js`, `routes/monitor.js`) -/

/-- What an authentication middleware does with a request. -/
inductive AuthOutcome where
  /-- It calls `next()`. -/
  | next : AuthOutcome
  /-- It answers 401. -/
  | unauthorized : AuthOutcome
  /-- It throws. -/
  | throws : AuthOutcome
  deriving DecidableEq, Repr

/-- Property `length` of a string: the number of UTF-16 code units. -/
def utf16Length (s : String) : Nat :=
  (s.toList.map (fun c => if c.toNat < 65536 then 1 else 2)).sum

/-- Length of `Buffer.from(s)`: the number of UTF-8 bytes. -/
def utf8Length (s : String) : Nat :=
  (s.toList.map (fun c =>
    if c.toNat < 128 then 1 else if c.toNat < 2048 then 2 else if c.toNat < 65536 then 3
    else 4)).sum

/-- Text of `process.env.API_TOKEN` inside a template literal; unset is `undefined`. -/
def envText (v : Option String) : String :=
  match v with
  | some t => t
  | none => "undefined"

/-- Middleware `authenticate` of `server.js`. `apiToken` is `process.env.API_TOKEN`,
    `authorization` the request header. `crypto.timingSafeEqual` throws when the two
    buffers differ in byte length, and is equality of the bytes otherwise. -/
def authenticate (apiToken : Option String) (authorization : Option String) : AuthOutcome :=
  let expectedToken := "Bearer " ++ envText apiToken
  match authorization with
  | none => AuthOutcome.unauthorized
  | some token =>
    if token = "" ∨ utf16Length token ≠ utf16Length expectedToken then
      AuthOutcome.unauthorized
    else if utf8Length token ≠ utf8Length expectedToken then AuthOutcome.throws
    else if token ≠ expectedToken then AuthOutcome.unauthorized
    else AuthOutcome.next

/-- Middleware `requireAuth` of `routes/monitor.js`. -/
def requireAuth (apiToken : Option String) (authorization : Option String) : AuthOutcome :=
  match authorization with
  | none => AuthOutcome.unauthorized
  | some authHeader =>
    if authHeader = "" ∨ "Bearer ".toList.isPrefixOf authHeader.toList = false then
      AuthOutcome.unauthorized
    else
      let token := String.mk (authHeader.toList.drop 7)
      match apiToken with
      | none => AuthOutcome.unauthorized
      | some expectedToken =>
        if expectedToken = "" ∨ token ≠ expectedToken then AuthOutcome.unauthorized
        else AuthOutcome.next

/-- A header of the length of `Bearer abcde` whose last character is outside ASCII. -/
def exHeaderLatin1 : String :=
  "Bearer abcd" ++ String.singleton (Char.ofNat 233)

/-! ## Tenant identifiers (`helpers/db.js`, `middleware/validateSchema.js`) -/

/-- `sanitizeSchema` applied to an arbitrary value: a falsy value or a value that is not a
    string throws. -/
def sanitizeSchemaValue (v : Option JVal) : Except String String :=
  match v with
  | some (JVal.str s) => sanitizeSchema s
  | _ => Except.error "Schema e obrigatorio e deve ser string"

/-- `sanitizeTable(table)` of `helpers/db.js`. -/
def sanitizeTable (table : String) : Except String String :=
  if table.isEmpty then Except.error "Tabela e obrigatoria e deve ser string"
  else if !(table.toList.all identChar) then Except.error "Tabela invalida"
  else if table.length > 63 then Except.error "Nome de tabela muito longo (maximo 63 caracteres)"
  else Except.ok table

/-- `sanitizeTable` applied to an arbitrary value. -/
def sanitizeTableValue (v : Option JVal) : Except String String :=
  match v with
  | some (JVal.str s) => sanitizeTable s
  | _ => Except.error "Tabela e obrigatoria e deve ser string"

/-- A query text `format(queryTemplate, ...)` produces: the template and the identifiers
    that fill its `%I` places. -/
structure Query where
  template : String
  idents : List String
  deriving DecidableEq, Repr

/-- `buildQuery(schema, table, queryTemplate)`; an error is the thrown message. -/
def buildQuery (schema table : Option JVal) (queryTemplate : String) : Except String Query :=
  match sanitizeSchemaValue schema with
  | Except.error e => Except.error e
  | Except.ok safeSchema =>
    match sanitizeTableValue table with
    | Except.error e => Except.error e
    | Except.ok safeTable => Except.ok { template := queryTemplate, idents := [safeSchema, safeTable] }

/-- Value of `a || b`. -/
def jsOr (a b : Option JVal) : Option JVal :=
  if truthy a then a else b

/-- Places a request can carry the tenant name in. -/
structure SchemaSources where
  /-- Header `X-Schema`. -/
  header : Option JVal
  /-- Property `schema` of the body. -/
  body : Option JVal
  /-- Property `schema` of the query string. -/
  query : Option JVal
  /-- Route parameter `schema`. -/
  params : Option JVal

/-- What the middleware does with a request. -/
inductive MiddlewareOutcome where
  /-- It sets `req.validatedSchema` and calls `next()`. -/
  | next (validatedSchema : String) : MiddlewareOutcome
  /-- It answers with the status code and does not call `next()`. -/
  | respond (status : Nat) : MiddlewareOutcome
  deriving DecidableEq, Repr

/-- The middleware `validateSchemaMiddleware({ checkExists, required })` applied to a
    request. `pgschema` is `process.env.PGSCHEMA`; `schemaExists` is the outcome of the
    catalog query of `checkExists`: `none` when it throws, otherwise whether a row came
    back. -/
def validateSchemaMiddleware (checkExists required : Bool) (pgschema : Option String)
    (schemaExists : Option Bool) (req : SchemaSources) : MiddlewareOutcome :=
  let schemaInput := jsOr (jsOr (jsOr req.header req.body) req.query) req.params
  if !truthy schemaInput then
    if required then MiddlewareOutcome.respond 400
    else
      let defaultSchema :=
        match pgschema with
        | some p => if p = "" then "RPO_template_v5" else p
        | none => "RPO_template_v5"
      match sanitizeSchema defaultSchema with
      | Except.ok s => MiddlewareOutcome.next s
      | Except.error _ => MiddlewareOutcome.respond 500
  else
    match sanitizeSchemaValue schemaInput with
    | Except.error _ => MiddlewareOutcome.respond 400
    | Except.ok safeSchema =>
      if checkExists then
        match schemaExists with
        | none => MiddlewareOutcome.respond 500
        | some false => MiddlewareOutcome.respond 404
        | some true => MiddlewareOutcome.next safeSchema
      else MiddlewareOutcome.next safeSchema

/-- Whether a character is an ASCII letter, an ASCII digit or the underscore. -/
def asciiWordChar (c : Char) : Prop :=
  (97 ≤ c.toNat ∧ c.toNat ≤ 122) ∨ (65 ≤ c.toNat ∧ c.toNat ≤ 90)
    ∨ (48 ≤ c.toNat ∧ c.toNat ≤ 57) ∨ c.toNat = 95

/-- A non-empty text of at most 63 characters, all of them ASCII letters, digits or
    underscores. -/
def wellFormedName (s : String) : Prop :=
  s ≠ "" ∧ s.length ≤ 63 ∧ ∀ c ∈ s.toList, asciiWordChar c

/-! ## All key builders (`constants/valkey-keys.js`) -/

/-- Key `VALKEY_KEYS.statusCandidatos(schema)`. -/
def VALKEY_KEYS.statusCandidatos (schema : String) : String :=
  PREFIX ++ ":" ++ schema ++ ":status_cand"

/-- Key `VALKEY_KEYS.dicVagas(schema)`. -/
def VALKEY_KEYS.dicVagas (schema : String) : String :=
  PREFIX ++ ":" ++ schema ++ ":dic_vagas"

/-- Key `VALKEY_KEYS.dicCandidatos(schema)`. -/
def VALKEY_KEYS.dicCandidatos (schema : String) : String :=
  PREFIX ++ ":" ++ schema ++ ":dic_cand"

/-- Key `VALKEY_KEYS.config(schema)`. -/
def VALKEY_KEYS.config (schema : String) : String :=
  PREFIX ++ ":" ++ schema ++ ":config"

/-- The key builders of `VALKEY_KEYS` (the `patterns` build glob patterns, not keys). -/
inductive KeyBuilder where
  | histVagas : KeyBuilder
  | histCandidatos : KeyBuilder
  | idxProposta : KeyBuilder
  | idxShortlist : KeyBuilder
  | idxCancelada : KeyBuilder
  | idxFechada : KeyBuilder
  | statusVagas : KeyBuilder
  | statusCandidatos : KeyBuilder
  | dicVagas : KeyBuilder
  | dicCandidatos : KeyBuilder
  | config : KeyBuilder
  | fallbackLog : KeyBuilder
  | syncQueue : KeyBuilder
  | syncQueueCandidatos : KeyBuilder
  deriving DecidableEq, Repr

/-- Whether the builder takes an entity id besides the tenant. -/
def KeyBuilder.perEntity : KeyBuilder → Bool
  | KeyBuilder.histVagas => true
  | KeyBuilder.histCandidatos => true
  | KeyBuilder.idxProposta => true
  | KeyBuilder.idxShortlist => true
  | KeyBuilder.idxCancelada => true
  | KeyBuilder.idxFechada => true
  | _ => false

/-- The key a builder produces; the id is ignored by the builders that take none. -/
def KeyBuilder.key : KeyBuilder → String → String → String
  | KeyBuilder.histVagas, schema, id => VALKEY_KEYS.histVagas schema id
  | KeyBuilder.histCandidatos, schema, id => VALKEY_KEYS.histCandidatos schema id
  | KeyBuilder.idxProposta, schema, id => VALKEY_KEYS.idxProposta schema id
  | KeyBuilder.idxShortlist, schema, id => VALKEY_KEYS.idxShortlist schema id
  | KeyBuilder.idxCancelada, schema, id => VALKEY_KEYS.idxCancelada schema id
  | KeyBuilder.idxFechada, schema, id => VALKEY_KEYS.idxFechada schema id
  | KeyBuilder.statusVagas, schema, _ => VALKEY_KEYS.statusVagas schema
  | KeyBuilder.statusCandidatos, schema, _ => VALKEY_KEYS.statusCandidatos schema
  | KeyBuilder.dicVagas, schema, _ => VALKEY_KEYS.dicVagas schema
  | KeyBuilder.dicCandidatos, schema, _ => VALKEY_KEYS.dicCandidatos schema
  | KeyBuilder.config, schema, _ => VALKEY_KEYS.config schema
  | KeyBuilder.fallbackLog, schema, _ => VALKEY_KEYS.fallbackLog schema
  | KeyBuilder.syncQueue, schema, _ => VALKEY_KEYS.syncQueue schema
  | KeyBuilder.syncQueueCandidatos, schema, _ => VALKEY_KEYS.syncQueueCandidatos schema

/-- Text a builder puts after the tenant name. -/
def KeyBuilder.tail : KeyBuilder → String → String
  | KeyBuilder.histVagas, id => ":hist_vagas:" ++ id
  | KeyBuilder.histCandidatos, id => ":hist_cand:" ++ id
  | KeyBuilder.idxProposta, id => ":idx:proposta:" ++ id
  | KeyBuilder.idxShortlist, id => ":idx:shortlist:" ++ id
  | KeyBuilder.idxCancelada, id => ":idx:cancelada:" ++ id
  | KeyBuilder.idxFechada, id => ":idx:fechada:" ++ id
  | KeyBuilder.statusVagas, _ => ":status_vagas"
  | KeyBuilder.statusCandidatos, _ => ":status_cand"
  | KeyBuilder.dicVagas, _ => ":dic_vagas"
  | KeyBuilder.dicCandidatos, _ => ":dic_cand"
  | KeyBuilder.config, _ => ":config"
  | KeyBuilder.fallbackLog, _ => ":fallback_log"
  | KeyBuilder.syncQueue, _ => ":sync_queue"
  | KeyBuilder.syncQueueCandidatos, _ => ":sync_queue_cand"

/-! ## Clearing candidate history and loading reference data (`valkey_cache.js`) -/

/-- Pattern `VALKEY_KEYS.patterns.allHistCand(schema)` without its final `*`. -/
def allHistCandPrefix (schema : String) : String :=
  PREFIX ++ ":" ++ schema ++ ":hist_cand:"

/-- `clearHistoricoCandidatos(schema)`: the `SCAN` loop deletes every key that matches
    `patterns.allHistCand(schema)`. `fault = some done`: a call of the loop rejects after
    the matching keys selected by `done` were deleted, and the function returns false. -/
def clearHistoricoCandidatos (s : Valkey) (fault : Option (String → Bool)) (schema : String) :
    Bool × Valkey :=
  match fault with
  | none => (true, s.delWhere (matchesPrefix (allHistCandPrefix schema)))
  | some done =>
    (false, s.delWhere (fun k => matchesPrefix (allHistCandPrefix schema) k && done k))

/-- Commands of the pipelines that load reference data. -/
inductive RefCmd where
  | del (key : String) : RefCmd
  | hset (key field : String) (value : Record) : RefCmd
  | expire (key : String) (ttl : Nat) : RefCmd

/-- `HSET key field value` on the entries of a hash. -/
def hsetEntries (h : List (String × Record)) (field : String) (value : Record) :
    List (String × Record) :=
  if h.any (fun p => p.1 == field) then h.map (fun p => if p.1 == field then (field, value) else p)
  else h ++ [(field, value)]

/-- Effect of one reference command that the server executes without error. -/
def RefCmd.apply (s : Valkey) : RefCmd → Valkey
  | RefCmd.del key => s.delKeys [key]
  | RefCmd.hset key field value =>
    { s with hashes := upd s.hashes key (hsetEntries (s.hashes key) field value) }
  | RefCmd.expire key ttl =>
    if s.exists key then { s with expiry := upd s.expiry key (some ttl) } else s

/-- Reference commands of a pipeline applied in order from position `i`. -/
def runRefCmds (effect : Nat → Bool) : Nat → List RefCmd → Valkey → Valkey
  | _, [], s => s
  | i, c :: cs, s => runRefCmds effect (i + 1) cs (if effect i then c.apply s else s)

/-- Body shared by the four loads of status and dictionary lists: `del key`, one `hset`
    per item under the item's field `fieldOf` with the item as JSON value, `expire key`. -/
def loadHash (s : Valkey) (out : ExecOutcome) (key fieldOf : String) (items : List Record) :
    Bool × Valkey :=
  (!out.rejects,
   runRefCmds out.effect 0
     ([RefCmd.del key]
      ++ items.map (fun item => RefCmd.hset key (jsString (getField item fieldOf)) item)
      ++ [RefCmd.expire key THIRTY_DAYS]) s)

/-- `loadStatusVagas(schema, statusList)`. -/
def loadStatusVagas (s : Valkey) (out : ExecOutcome) (schema : String)
    (statusList : List Record) : Bool × Valkey :=
  loadHash s out (statusVagas schema) "status" statusList

/-- `loadStatusCandidatos(schema, statusList)`. -/
def loadStatusCandidatos (s : Valkey) (out : ExecOutcome) (schema : String)
    (statusList : List Record) : Bool × Valkey :=
  loadHash s out (VALKEY_KEYS.statusCandidatos schema) "status" statusList

/-- `loadDicionarioVagas(schema, dicList)`. -/
def loadDicionarioVagas (s : Valkey) (out : ExecOutcome) (schema : String)
    (dicList : List Record) : Bool × Valkey :=
  loadHash s out (VALKEY_KEYS.dicVagas schema) "nome_fixo" dicList

/-- `loadDicionarioCandidatos(schema, dicList)`. -/
def loadDicionarioCandidatos (s : Valkey) (out : ExecOutcome) (schema : String)
    (dicList : List Record) : Bool × Valkey :=
  loadHash s out (VALKEY_KEYS.dicCandidatos schema) "nome_fixo" dicList

/-- The hashes of the `config` keys: their values are plain texts, not JSON records. -/
abbrev ConfigCache := String → List (String × String)

/-- `HSET key field value` on the entries of a hash of texts. -/
def hsetText (h : List (String × String)) (field value : String) : List (String × String) :=
  if h.any (fun p => p.1 == field) then h.map (fun p => if p.1 == field then (field, value) else p)
  else h ++ [(field, value)]

/-- `loadConfig(schema, configList)` on the `config` hashes: `del key` at position 0 of the
    batch, then one `hset` per item of its `value` under its `config_label`; the final
    `expire` does not change the contents, and the expiry of the key is not tracked here. -/
def loadConfig (c : ConfigCache) (out : ExecOutcome) (schema : String)
    (configList : List Record) : Bool × ConfigCache :=
  let key := VALKEY_KEYS.config schema
  let afterDel := if out.effect 0 then [] else c key
  let afterSets :=
    (configList.foldl
      (fun (acc : Nat × List (String × String)) item =>
        (acc.1 + 1,
         if out.effect acc.1 then
           hsetText acc.2 (jsString (getField item "config_label"))
             (jsString (getField item "value"))
         else acc.2))
      (1, afterDel)).2
  (!out.rejects, upd c key afterSets)

/-- `getConfig(schema, label)`; `none` is `null`. -/
def getConfig (c : ConfigCache) (ok : Bool) (schema label : String) : Option String :=
  if ok then ((c (VALKEY_KEYS.config schema)).find? (fun p => p.1 == label)).map (fun p => p.2)
  else none

/-- Outcomes of a request during which the cache is down (`exec()` rejects without any
    effect, the `sadd` of the fallback log fails) and the durable store works. -/
def exCacheDown : PostFaults :=
  { statusQueryOk := true
    hgetOk := false
    exec := { effect := fun _ => false, rejects := true }
    insertOk := true
    fallbackLogOk := false }

/-- Outcomes of a request during which only `exec()` of the append rejects, without any
    effect; every other call works. -/
def exExecRejects : PostFaults :=
  { statusQueryOk := true
    hgetOk := true
    exec := { effect := fun _ => false, rejects := true }
    insertOk := true
    fallbackLogOk := true }

/-- Body of a `POST /historico/candidatos` request for candidate `C7`. -/
def exBodyCandidato : Record :=
  [("id_candidato", JVal.str "C7"), ("status_candidato", JVal.str "TRIAGEM")]

/-! ## Insert statement of the worker (`worker.js`) -/

/-- Array `Object.keys(obj)`: the property names, in insertion order. -/
def objectKeys (obj : Record) : List String :=
  obj.map (fun p => p.1)

/-- Array `Object.values(obj)`: the property values, in insertion order. -/
def objectValues (obj : Record) : List JVal :=
  obj.map (fun p => p.2)

/-- Expression of the `VALUES` list of a statement: a numbered placeholder `$n` or
    the call `NOW()`. -/
inductive SqlExpr where
  | param (n : Nat)
  | now
  deriving DecidableEq, Repr

/-- Column list, `VALUES` list and bound values of an `INSERT`. -/
structure InsertStatement where
  columns : List String
  exprs : List SqlExpr
  vals : List JVal
  deriving DecidableEq, Repr

/-- Statement
    `INSERT INTO %I.%I (${colsStr}, created_at) VALUES (${placeholders}, NOW())`
    of `syncVagas` and `syncCandidatos`, with `cols = Object.keys(dadosFiltrados)`,
    `vals = Object.values(dadosFiltrados)` and
    `placeholders = vals.map((_, i) => '$' + (i + 1))`. -/
def workerInsert (dadosFiltrados : Record) : InsertStatement :=
  let cols := objectKeys dadosFiltrados
  let vals := objectValues dadosFiltrados
  { columns := cols ++ ["created_at"]
    exprs := (List.range vals.length).map (fun i => SqlExpr.param (i + 1)) ++ [SqlExpr.now]
    vals := vals }

/-- A store whose `historico_vagas` table also has the column `alterado_por`. -/
def exDbAudit : Db :=
  { rows := fun _ _ => []
    columns := fun _ _ => ["id", "requisicao", "status", "alterado_por", "created_at"]
    statusVagas := fun _ => [] }

/-- A worker over the given cache and the table of `exDbAudit`. -/
def exWorkerAudit (cache : Valkey) : Worker :=
  { cache := cache
    db := exDbAudit
    stats := exStats
    columnsCache := fun _ => none
    activeSchemas := ["t1"]
    isRunning := false }

/-! ## SQL builders (`helpers/fields.js`) and the fallback of the `PATCH` handlers -/

/-- Test `needsQuotes(fieldName)`: `/[A-Z]/.test(fieldName)`. -/
def needsQuotes (fieldName : String) : Bool :=
  fieldName.data.any (fun c => decide ('A' ≤ c ∧ c ≤ 'Z'))

/-- Text `quoteField(fieldName)`. -/
def quoteField (fieldName : String) : String :=
  if needsQuotes fieldName then "\"" ++ fieldName ++ "\"" else fieldName

/-- Default of the parameter `excludeFields`, also the fixed list of `buildInsert`. -/
def defaultExcludeFields : List String :=
  ["id", "created_at", "updated_at", "version"]

/-- Result of `buildUpdateSet`; a value `none` is `undefined`. -/
structure UpdateSet where
  setClause : String
  values : List (Option JVal)
  fieldCount : Nat
  deriving DecidableEq, Repr

/-- Result of `buildInsert`; a value `none` is `undefined`. -/
structure InsertParts where
  columns : String
  placeholders : String
  values : List (Option JVal)
  fieldCount : Nat
  deriving DecidableEq, Repr

/-- Fields at which the loops of `buildUpdateSet` and `buildInsert` push: those of
    `allFields`, in its order, that are not excluded and are a property of `dados`. -/
def emittedFields (allFields : List Field) (dados : Record) (excludeFields : List String) :
    List Field :=
  allFields.filter (fun f => !(excludeFields.contains f.name) && hasField dados f.name)

/-- Loop of `buildUpdateSet` over `allFields`: the arrays `fields` and `values` and the
    counter `paramIndex` after the loop. `field.name in dados` is the test of a property
    of the object. -/
def buildUpdateSetLoop (allFields : List Field) (dados : Record) (excludeFields : List String)
    (startIndex : Nat) : List String × List (Option JVal) × Nat :=
  allFields.foldl
    (fun st field =>
      if excludeFields.contains field.name then st
      else if hasField dados field.name then
        (st.1 ++ [field.quoted ++ " = $" ++ toString st.2.2],
         st.2.1 ++ [getField dados field.name],
         st.2.2 + 1)
      else st)
    ([], [], startIndex)

/-- `buildUpdateSet(schema, dados, excludeFields, startIndex)` over the field list
    `getHistoricoFields(schema)` returned; an argument `none` is `undefined` and takes the
    default of the parameter. -/
def buildUpdateSet (allFields : List Field) (dados : Record)
    (excludeFields : Option (List String)) (startIndex : Option Nat) : UpdateSet :=
  let r := buildUpdateSetLoop allFields dados (excludeFields.getD defaultExcludeFields)
    (startIndex.getD 1)
  { setClause := ", ".intercalate r.1
    values := r.2.1
    fieldCount := r.1.length }

/-- Loop of `buildInsert` over `allFields`: the arrays `columns`, `placeholders` and
    `values` and the counter `paramIndex` after the loop. -/
def buildInsertLoop (allFields : List Field) (dados : Record) :
    List String × List String × List (Option JVal) × Nat :=
  allFields.foldl
    (fun st field =>
      if ["id", "created_at", "updated_at", "version"].contains field.name then st
      else if hasField dados field.name then
        (st.1 ++ [field.quoted],
         st.2.1 ++ ["$" ++ toString st.2.2.2],
         st.2.2.1 ++ [getField dados field.name],
         st.2.2.2 + 1)
      else st)
    ([], [], [], 1)

/-- `buildInsert(schema, dados)` over the field list `getHistoricoFields(schema)`
    returned. -/
def buildInsert (allFields : List Field) (dados : Record) : InsertParts :=
  let r := buildInsertLoop allFields dados
  { columns := ", ".intercalate r.1
    placeholders := ", ".intercalate r.2.1
    values := r.2.2.1
    fieldCount := r.1.length }

/-- Object `dadosParaAtualizar` of the fallback of `PATCH /candidatos-dados` and
    `PATCH /selecionado-dados`, from the fields of the group. -/
def dadosParaAtualizar (camposDoGrupo : List Field) (dados : Record) : Record :=
  camposDoGrupo.foldl
    (fun acc campo =>
      if hasField dados campo.name then
        setField acc campo.name ((getField dados campo.name).getD JVal.null)
      else acc) []

/-- Fallback of `PATCH /candidatos-dados` (group `DADOS_CANDIDATOS`) and of
    `PATCH /selecionado-dados` (group `DADOS_SELECIONADO`) up to the query: `none` is the
    answer 400 for no field to update, otherwise the `SET` clause and the array
    `[requisicao, ...updateValues]` bound to the statement, whose `WHERE` names `$1`.
    `todosOsCampos` is the field list the handler got, `allFields` the one
    `buildUpdateSet` got. -/
def patchDadosStatement (group : String) (todosOsCampos allFields : List Field)
    (requisicao : Option JVal) (dados : Record) : Option (String × List (Option JVal)) :=
  let campos := todosOsCampos.filter (fun f => f.group == group)
  let paraAtualizar := dadosParaAtualizar campos dados
  if (objectKeys paraAtualizar).length = 0 then none
  else
    let r := buildUpdateSet allFields paraAtualizar none (some 2)
    some (r.setClause, requisicao :: r.values)

/-- Value bound to the placeholder `$k` of a statement run with the array `values`. -/
def boundTo (values : List (Option JVal)) (k : Nat) : Option (Option JVal) :=
  if k = 0 then none else values.get? (k - 1)

/-- A field list with a quoted dynamic field of the group `DADOS_SELECIONADO`. -/
def exCamposPatch : List Field :=
  [ { name := "id", quoted := "id", group := "SISTEMA", isDynamic := false },
    { name := "requisicao", quoted := "requisicao", group := "SISTEMA", isDynamic := false },
    { name := "Nome", quoted := "\"Nome\"", group := "DADOS_SELECIONADO", isDynamic := true },
    { name := "salario", quoted := "salario", group := "DADOS_SELECIONADO", isDynamic := true },
    { name := "version", quoted := "version", group := "SISTEMA", isDynamic := false } ]

/-- Partial fields of a `PATCH /selecionado-dados` request: two fields of the group and
    an `id`. -/
def exDadosPatch : Record :=
  [("salario", JVal.num 5000), ("Nome", JVal.str "Ana"), ("id", JVal.num 7)]

/-- Value `process.env.PGSCHEMA || 'RPO_template_v5'`: the default tenant of the
    middleware; an unset variable is `none`. -/
def defaultSchema (pgschema : Option String) : String :=
  match pgschema with
  | some p => if p = "" then "RPO_template_v5" else p
  | none => "RPO_template_v5"

/-- Outcomes of a request during which `exec()` of the append resolves although none of
    its commands took effect, and the durable store is down. -/
def exNothingApplied : PostFaults :=
  { statusQueryOk := true
    hgetOk := true
    exec := { effect := fun _ => false, rejects := false }
    insertOk := false
    fallbackLogOk := true }

/-- Cache of tenant `t1` whose only record of `REQ100` is a shortlist record appended at
    clock reading 1000: the requisition has no proposal. -/
def exOnlyShortlist : Valkey :=
  (addHistoricoVagas exMapped 1000 true ExecOutcome.ok "t1" exTriagem).2

/-! ## Calls in flight: the awaits of a writing call (`valkey_cache.js`) -/

/-- The command is a `ZADD` to the key. -/
def Cmd.addsTo (k : String) : Cmd → Prop
  | Cmd.zadd key _ _ => key = k
  | _ => False

/-- A writing call up to its last `await` (`pipeline.exec()`, or the `del` of an
    invalidation): the commands it built from the cache state its reads saw, with the
    outcome their execution is going to have; `none` when the call returns without
    sending anything (a patch that found no record, an append whose `toLowerCase` threw,
    an invalidation whose `del` fails). -/
def CacheOp.batch : CacheOp → Valkey → Option (ExecOutcome × List Cmd)
  | CacheOp.addVagas now hgetOk out schema data, s =>
    match funcaoLowerOf (getFuncaoSistemaDoStatus s hgetOk schema (getField data "status")) with
    | none => none
    | some funcaoLower => some (out, addHistoricoVagasCmds now funcaoLower schema data)
  | CacheOp.addCandidatos now out schema data, _ =>
    some (out, addHistoricoCandidatosCmds now schema data)
  | CacheOp.patchStatus now1 now2 readOk out schema requisicao valor ordem, s =>
    match getPropostaRecente s readOk schema requisicao ordem with
    | none => none
    | some proposta =>
      some (out,
        patchCmds (histVagas schema requisicao) (idxProposta schema requisicao)
          (syncQueue schema) (patchTimestamp proposta now1)
          (setField (setField proposta "operacao_status_proposta" valor) "updated_at"
            (JVal.num now2)) requisicao)
  | CacheOp.patchCandidatos now1 now2 readOk out schema requisicao dados, s =>
    match getShortlistRecente s readOk schema requisicao with
    | none => none
    | some shortlist =>
      some (out,
        patchCmds (histVagas schema requisicao) (idxShortlist schema requisicao)
          (syncQueue schema) (patchTimestamp shortlist now1)
          (setField (spread shortlist dados) "updated_at" (JVal.num now2)) requisicao)
  | CacheOp.patchSelecionado now1 now2 readOk out schema requisicao dados, s =>
    match getPropostaRecente s readOk schema requisicao (some (JVal.str "ultima")) with
    | none => none
    | some proposta =>
      some (out,
        patchCmds (histVagas schema requisicao) (idxProposta schema requisicao)
          (syncQueue schema) (patchTimestamp proposta now1)
          (setField (spread proposta dados) "updated_at" (JVal.num now2)) requisicao)
  | CacheOp.invalidateRequisicao ok schema requisicao, _ =>
    if ok then
      some (ExecOutcome.ok,
        [Cmd.del [histVagas schema requisicao, idxProposta schema requisicao,
          idxShortlist schema requisicao, idxCancelada schema requisicao,
          idxFechada schema requisicao]])
    else none
  | CacheOp.invalidateCandidato ok schema candidatoId, _ =>
    if ok then some (ExecOutcome.ok, [Cmd.del [histCandidatos schema candidatoId]]) else none

/-- The cache between two turns of the event loop of the API process: its state, and the
    batches that calls in flight have built and that the server has not executed yet. -/
structure CacheServer where
  cache : Valkey
  pending : List (ExecOutcome × List Cmd)

/-- What happens next to the cache. -/
inductive CallEvent where
  /-- A call runs up to its last `await`: it reads the cache and builds its batch. -/
  | start (op : CacheOp)
  /-- The server executes the pending batch at this position. -/
  | send (i : Nat)

/-- One event. -/
def CacheServer.step (l : CacheServer) : CallEvent → CacheServer
  | CallEvent.start op =>
    match op.batch l.cache with
    | none => l
    | some b => { l with pending := l.pending ++ [b] }
  | CallEvent.send i =>
    match l.pending.get? i with
    | none => l
    | some b => { cache := execPipeline b.1 b.2 l.cache, pending := l.pending.eraseIdx i }

/-- Events of calls that run one after the other, each to its end. -/
def sequentialEvents : List CacheOp → List CallEvent
  | [] => []
  | op :: ops => CallEvent.start op :: CallEvent.send 0 :: sequentialEvents ops

/-- Events around an invalidation of `REQ100`: a patch of its proposal has read the
    cache, the invalidation runs to its end, and then the batch of the patch is
    executed. -/
def exPatchAcrossInvalidation : List CallEvent :=
  [CallEvent.start
     (CacheOp.patchSelecionado 1500 1501 true ExecOutcome.ok "t1" "REQ100"
       [("selecionado_nome", JVal.str "Ana")]),
   CallEvent.start (CacheOp.invalidateRequisicao true "t1" "REQ100"),
   CallEvent.send 1,
   CallEvent.send 0]

/-- Events after an invalidation of `REQ100`: a patch of `REQ100` reads the cache, an
    append for `REQ200` and an append for candidate `C7` build their batches, and the two
    batches are executed in the other order. -/
def exEventsAfterInvalidate : List CallEvent :=
  [CallEvent.start
     (CacheOp.patchSelecionado 3000 3001 true ExecOutcome.ok "t1" "REQ100"
       [("selecionado_nome", JVal.str "Ana")]),
   CallEvent.start
     (CacheOp.addVagas 3100 true ExecOutcome.ok "t1"
       [("requisicao", JVal.str "REQ200"), ("status", JVal.str "PROPOSTA")]),
   CallEvent.start (CacheOp.addCandidatos 3200 ExecOutcome.ok "t1" exCandidato),
   CallEvent.send 1,
   CallEvent.send 0]

/-- Events after an invalidation of candidate `C7`: an append for a requisition and an
    append for candidate `C8`, each run to its end. -/
def exEventsAfterInvalidateCandidato : List CallEvent :=
  sequentialEvents exOpsAfterInvalidateCandidato

/-! ## Basic facts: objects -/

theorem getField_nil (k : String) : getField [] k = none := rfl

theorem getField_cons (p : String × JVal) (r : Record) (k : String) :
    getField (p :: r) k = if p.1 = k then some p.2 else getField r k := by
  by_cases h : p.1 = k
  · simp [getField, List.find?, h]
  · have h2 : (p.1 == k) = false := by simpa using h
    simp [getField, List.find?, h2, h]

theorem hasField_nil (k : String) : hasField [] k = false := rfl

theorem hasField_cons (p : String × JVal) (r : Record) (k : String) :
    hasField (p :: r) k = (decide (p.1 = k) || hasField r k) := by
  by_cases h : p.1 = k
  · simp [hasField, h]
  · have h2 : (p.1 == k) = false := by simpa using h
    simp [hasField, h, h2]

theorem hasField_eq_isSome (r : Record) (k : String) : hasField r k = (getField r k).isSome := by
  induction r with
  | nil => rfl
  | cons p r ih =>
    rw [hasField_cons, getField_cons, ih]
    by_cases h : p.1 = k <;> simp [h]

theorem getField_append_single (r : Record) (k k2 : String) (v : JVal) :
    getField (r ++ [(k, v)]) k2
      = if hasField r k2 then getField r k2 else if k = k2 then some v else none := by
  induction r with
  | nil => simp [getField_cons, getField_nil, hasField_nil]
  | cons p r ih =>
    rw [List.cons_append, getField_cons, ih, hasField_cons, getField_cons]
    by_cases h : p.1 = k2 <;> simp [h]

theorem getField_map_set (r : Record) (k k2 : String) (v : JVal) :
    getField (r.map (fun p => if p.1 == k then (k, v) else p)) k2
      = if k2 = k then (if hasField r k then some v else none) else getField r k2 := by
  induction r with
  | nil => simp [getField_nil, hasField_nil]
  | cons p r ih =>
    rw [List.map_cons, getField_cons, ih, hasField_cons, getField_cons]
    by_cases hp : p.1 = k
    · by_cases hk : k2 = k
      · simp [hp, hk]
      · have : ¬ k = k2 := fun e => hk e.symm
        simp [hp, hk, this]
    · by_cases hk : k2 = k
      · subst hk
        simp [hp]
      · simp [hp, hk]

/-- Reading a field after an assignment. -/
theorem getField_setField (r : Record) (k k2 : String) (v : JVal) :
    getField (setField r k v) k2 = if k2 = k then some v else getField r k2 := by
  unfold setField
  by_cases h : hasField r k = true
  · rw [if_pos h, getField_map_set]
    by_cases hk : k2 = k <;> simp [hk, h]
  · rw [if_neg h, getField_append_single]
    by_cases hk : k2 = k
    · subst hk
      simp [h]
    · have hk2 : ¬ k = k2 := fun e => hk e.symm
      by_cases h3 : hasField r k2 = true
      · simp [hk, h3]
      · have h4 : getField r k2 = none := by
          rw [hasField_eq_isSome] at h3
          simpa using h3
        simp [hk, hk2, h3, h4]

/-- A field that `b` does not have is read from `a` in `{ ...a, ...b }`. -/
theorem getField_spread_of_not_has (a b : Record) (k : String) (h : hasField b k = false) :
    getField (spread a b) k = getField a k := by
  unfold spread
  induction b generalizing a with
  | nil => rfl
  | cons p b ih =>
    rw [hasField_cons] at h
    have hp : ¬ p.1 = k := by
      intro e
      simp [e] at h
    have hb : hasField b k = false := by
      cases hh : hasField b k
      · rfl
      · simp [hh] at h
    rw [List.foldl_cons, ih _ hb, getField_setField]
    have : ¬ k = p.1 := fun e => hp e.symm
    simp [this]

/-! ## Basic facts: keys -/

theorem key_ne (schema a b x y : String) (h : a.data ++ x.data ≠ b.data ++ y.data) :
    PREFIX ++ ":" ++ schema ++ a ++ x ≠ PREFIX ++ ":" ++ schema ++ b ++ y := by
  intro e
  apply h
  have e2 := congrArg String.data e
  simpa [String.data_append, List.append_assoc] using e2

theorem histVagas_ne_idxProposta (sc r : String) : histVagas sc r ≠ idxProposta sc r :=
  key_ne sc _ _ r r (by simp)

theorem histVagas_ne_idxShortlist (sc r : String) : histVagas sc r ≠ idxShortlist sc r :=
  key_ne sc _ _ r r (by simp)

theorem histVagas_ne_idxCancelada (sc r : String) : histVagas sc r ≠ idxCancelada sc r :=
  key_ne sc _ _ r r (by simp)

theorem histVagas_ne_idxFechada (sc r : String) : histVagas sc r ≠ idxFechada sc r :=
  key_ne sc _ _ r r (by simp)

theorem idxProposta_ne_idxShortlist (sc r : String) : idxProposta sc r ≠ idxShortlist sc r :=
  key_ne sc _ _ r r (by simp)

theorem idxProposta_ne_idxCancelada (sc r : String) : idxProposta sc r ≠ idxCancelada sc r :=
  key_ne sc _ _ r r (by simp)

theorem idxProposta_ne_idxFechada (sc r : String) : idxProposta sc r ≠ idxFechada sc r :=
  key_ne sc _ _ r r (by simp)

theorem idxShortlist_ne_idxCancelada (sc r : String) : idxShortlist sc r ≠ idxCancelada sc r :=
  key_ne sc _ _ r r (by simp)

theorem idxShortlist_ne_idxFechada (sc r : String) : idxShortlist sc r ≠ idxFechada sc r :=
  key_ne sc _ _ r r (by simp)

theorem idxCancelada_ne_idxFechada (sc r : String) : idxCancelada sc r ≠ idxFechada sc r :=
  key_ne sc _ _ r r (by simp)

/-! ## Basic facts: commands and batches -/

theorem apply_zsets (s : Valkey) (c : Cmd) (k : String) :
    (c.apply s).zsets k = c.onZset k (s.zsets k) := by
  cases c with
  | zadd key score member =>
    simp only [Cmd.apply, Cmd.onZset]
    cases scoreOf score with
    | none => by_cases h : k = key <;> simp [h]
    | some sc => by_cases h : k = key <;> simp [upd, h]
  | zremrangebyscore key lo hi =>
    simp only [Cmd.apply, Cmd.onZset]
    cases scoreOf lo with
    | none => by_cases h : k = key <;> simp [h]
    | some a =>
      cases scoreOf hi with
      | none => by_cases h : k = key <;> simp [h]
      | some b => by_cases h : k = key <;> simp [upd, h]
  | expire key ttl =>
    simp only [Cmd.apply, Cmd.onZset]
    split <;> rfl
  | sadd key member =>
    simp only [Cmd.apply, Cmd.onZset]
    split <;> rfl
  | srem key member => rfl
  | del keys => rfl

theorem apply_sets (s : Valkey) (c : Cmd) (k : String) :
    (c.apply s).sets k = c.onSet k (s.sets k) := by
  cases c with
  | zadd key score member =>
    simp only [Cmd.apply, Cmd.onSet]
    cases scoreOf score <;> rfl
  | zremrangebyscore key lo hi =>
    simp only [Cmd.apply, Cmd.onSet]
    cases scoreOf lo with
    | none => rfl
    | some a => cases scoreOf hi <;> rfl
  | expire key ttl =>
    simp only [Cmd.apply, Cmd.onSet]
    split <;> rfl
  | sadd key member =>
    simp only [Cmd.apply, Cmd.onSet]
    by_cases hm : member ∈ s.sets key
    · by_cases h : k = key
      · subst h
        simp [hm]
      · simp [hm, h]
    · by_cases h : k = key
      · subst h
        simp [hm, upd]
      · simp [hm, h, upd]
  | srem key member =>
    simp only [Cmd.apply, Cmd.onSet]
    by_cases h : k = key <;> simp [upd, h]
  | del keys => rfl

theorem runCmds_zsets (effect : Nat → Bool) (i : Nat) (cmds : List Cmd) (s : Valkey)
    (k : String) :
    (runCmds effect i cmds s).zsets k = zsetAfter effect i cmds k (s.zsets k) := by
  induction cmds generalizing i s with
  | nil => rfl
  | cons c cs ih =>
    rw [runCmds, zsetAfter, ih]
    cases effect i
    · rfl
    · simp [apply_zsets]

theorem runCmds_sets (effect : Nat → Bool) (i : Nat) (cmds : List Cmd) (s : Valkey)
    (k : String) :
    (runCmds effect i cmds s).sets k = setAfter effect i cmds k (s.sets k) := by
  induction cmds generalizing i s with
  | nil => rfl
  | cons c cs ih =>
    rw [runCmds, setAfter, ih]
    cases effect i
    · rfl
    · simp [apply_sets]

theorem runCmds_hashes (effect : Nat → Bool) (i : Nat) (cmds : List Cmd) (s : Valkey)
    (hdel : ∀ c ∈ cmds, ∀ keys, c ≠ Cmd.del keys) :
    (runCmds effect i cmds s).hashes = s.hashes := by
  induction cmds generalizing i s with
  | nil => rfl
  | cons c cs ih =>
    rw [runCmds, ih _ _ (fun c2 h2 => hdel c2 (List.mem_cons_of_mem _ h2))]
    cases effect i
    · rfl
    · simp only [if_true]
      cases c with
      | zadd key score member =>
        simp only [Cmd.apply]
        cases scoreOf score <;> rfl
      | zremrangebyscore key lo hi =>
        simp only [Cmd.apply]
        cases scoreOf lo with
        | none => rfl
        | some a => cases scoreOf hi <;> rfl
      | expire key ttl =>
        simp only [Cmd.apply]
        split <;> rfl
      | sadd key member =>
        simp only [Cmd.apply]
        split <;> rfl
      | srem key member => rfl
      | del keys => exact absurd rfl (hdel _ (List.mem_cons_self _ _) keys)

/-! ## Basic facts: order of a sorted set -/

theorem zinsert_perm (e : ZEntry) (l : List ZEntry) : List.Perm (zinsert e l) (e :: l) := by
  induction l with
  | nil => exact List.Perm.refl _
  | cons x xs ih =>
    unfold zinsert
    split
    · exact List.Perm.refl _
    · exact (List.Perm.cons x ih).trans (List.Perm.swap e x xs)

theorem zdesc_perm (z : List ZEntry) : List.Perm (zdesc z) z := by
  induction z with
  | nil => exact List.Perm.refl _
  | cons e z ih =>
    show List.Perm (zinsert e (zdesc z)) (e :: z)
    exact (zinsert_perm e _).trans (List.Perm.cons e ih)

theorem mem_zdesc (z : List ZEntry) (e : ZEntry) : e ∈ zdesc z ↔ e ∈ z :=
  (zdesc_perm z).mem_iff

theorem zdesc_length (z : List ZEntry) : (zdesc z).length = z.length :=
  (zdesc_perm z).length_eq

theorem zdesc_nil : zdesc [] = [] := rfl

theorem zdesc_cons (e : ZEntry) (z : List ZEntry) : zdesc (e :: z) = zinsert e (zdesc z) := rfl

theorem zge_score {a b : ZEntry} (h : zge a b = true) : b.1 ≤ a.1 := by
  unfold zge at h
  simp only [Bool.or_eq_true, Bool.and_eq_true, decide_eq_true_eq] at h
  rcases h with h | ⟨h, _⟩
  · exact le_of_lt h
  · exact le_of_eq h.symm

theorem zge_of_not {a b : ZEntry} (h : ¬ zge a b = true) : a.1 ≤ b.1 := by
  unfold zge at h
  simp only [Bool.or_eq_true, Bool.and_eq_true, decide_eq_true_eq, not_or] at h
  exact not_lt.mp h.1

theorem zge_of_lt {a b : ZEntry} (h : b.1 < a.1) : zge a b = true := by
  unfold zge
  simp [h]

theorem zinsert_sorted (e : ZEntry) (l : List ZEntry)
    (h : l.Pairwise (fun a b => b.1 ≤ a.1)) :
    (zinsert e l).Pairwise (fun a b => b.1 ≤ a.1) := by
  induction l with
  | nil => simp [zinsert]
  | cons x xs ih =>
    unfold zinsert
    rw [List.pairwise_cons] at h
    by_cases hz : zge e x = true
    · rw [if_pos hz, List.pairwise_cons]
      refine ⟨?_, List.pairwise_cons.mpr h⟩
      intro y hy
      rcases List.mem_cons.mp hy with rfl | hy
      · exact zge_score hz
      · exact le_trans (h.1 y hy) (zge_score hz)
    · rw [if_neg hz, List.pairwise_cons]
      refine ⟨?_, ih h.2⟩
      intro y hy
      rcases List.mem_cons.mp ((zinsert_perm e xs).mem_iff.mp hy) with rfl | hy
      · exact zge_of_not hz
      · exact h.1 y hy

/-- The listing of a sorted set is in descending order of score. -/
theorem zdesc_sorted (z : List ZEntry) : (zdesc z).Pairwise (fun a b => b.1 ≤ a.1) := by
  induction z with
  | nil => exact List.Pairwise.nil
  | cons e z ih => exact zinsert_sorted e _ ih

/-- An entry whose score is above all others is listed first. -/
theorem zdesc_cons_of_lt (e : ZEntry) (z : List ZEntry) (h : ∀ x ∈ z, x.1 < e.1) :
    zdesc (e :: z) = e :: zdesc z := by
  rw [zdesc_cons]
  cases hz : zdesc z with
  | nil => rfl
  | cons x xs =>
    have hx : x ∈ z := (mem_zdesc z x).mp (by rw [hz]; exact List.mem_cons_self _ _)
    unfold zinsert
    rw [if_pos (zge_of_lt (h x hx))]

/-! ## Basic facts: batches in which every command takes effect -/

theorem zsetAfter_all (i : Nat) (cmds : List Cmd) (k : String) (z : List ZEntry) :
    zsetAfter (fun _ => true) i cmds k z = cmds.foldl (fun acc c => c.onZset k acc) z := by
  induction cmds generalizing i z with
  | nil => rfl
  | cons c cs ih => simp [zsetAfter, ih]

theorem setAfter_all (i : Nat) (cmds : List Cmd) (k : String) (m : List String) :
    setAfter (fun _ => true) i cmds k m = cmds.foldl (fun acc c => c.onSet k acc) m := by
  induction cmds generalizing i m with
  | nil => rfl
  | cons c cs ih => simp [setAfter, ih]

theorem execPipeline_ok_zsets (cmds : List Cmd) (s : Valkey) (k : String) :
    (execPipeline ExecOutcome.ok cmds s).zsets k
      = cmds.foldl (fun acc c => c.onZset k acc) (s.zsets k) := by
  unfold execPipeline ExecOutcome.ok
  rw [runCmds_zsets, zsetAfter_all]

theorem execPipeline_ok_sets (cmds : List Cmd) (s : Valkey) (k : String) :
    (execPipeline ExecOutcome.ok cmds s).sets k
      = cmds.foldl (fun acc c => c.onSet k acc) (s.sets k) := by
  unfold execPipeline ExecOutcome.ok
  rw [runCmds_sets, setAfter_all]

/-- Series after the batch of an append in which every command takes effect. -/
theorem addCmds_histVagas (now : Int) (fl schema : String) (data : Record) (z : List ZEntry) :
    (addHistoricoVagasCmds now fl schema data).foldl
        (fun acc c => c.onZset (histVagas schema (jsString (getField data "requisicao"))) acc) z
      = zaddEntries z now (setField data "cached_at" (JVal.num now)) := by
  simp only [addHistoricoVagasCmds, List.foldl_append, List.foldl_cons, List.foldl_nil]
  generalize jsIncludes fl "shortlist" = b1
  generalize jsIncludes fl "cancelada" = b2
  generalize jsIncludes fl "fechada" = b3
  by_cases hs : getField data "status" = some (JVal.str "PROPOSTA") <;>
    cases b1 <;> cases b2 <;> cases b3 <;>
    simp [hs, Cmd.onZset, scoreOf, histVagas_ne_idxProposta, histVagas_ne_idxShortlist,
      histVagas_ne_idxCancelada, histVagas_ne_idxFechada]

/-- Proposal index after the batch of an append in which every command takes effect. -/
theorem addCmds_idxProposta (now : Int) (fl schema : String) (data : Record) (z : List ZEntry) :
    (addHistoricoVagasCmds now fl schema data).foldl
        (fun acc c => c.onZset (idxProposta schema (jsString (getField data "requisicao"))) acc) z
      = if getField data "status" = some (JVal.str "PROPOSTA")
          then zaddEntries z now (setField data "cached_at" (JVal.num now)) else z := by
  simp only [addHistoricoVagasCmds, List.foldl_append, List.foldl_cons, List.foldl_nil]
  generalize jsIncludes fl "shortlist" = b1
  generalize jsIncludes fl "cancelada" = b2
  generalize jsIncludes fl "fechada" = b3
  by_cases hs : getField data "status" = some (JVal.str "PROPOSTA") <;>
    cases b1 <;> cases b2 <;> cases b3 <;>
    simp [hs, Cmd.onZset, scoreOf, (histVagas_ne_idxProposta _ _).symm,
      idxProposta_ne_idxShortlist, idxProposta_ne_idxCancelada, idxProposta_ne_idxFechada]

/-- Shortlist index after the batch of an append in which every command takes effect. -/
theorem addCmds_idxShortlist (now : Int) (fl schema : String) (data : Record) (z : List ZEntry) :
    (addHistoricoVagasCmds now fl schema data).foldl
        (fun acc c => c.onZset (idxShortlist schema (jsString (getField data "requisicao"))) acc) z
      = if jsIncludes fl "shortlist" = true
          then zaddEntries z now (setField data "cached_at" (JVal.num now)) else z := by
  simp only [addHistoricoVagasCmds, List.foldl_append, List.foldl_cons, List.foldl_nil]
  generalize jsIncludes fl "shortlist" = b1
  generalize jsIncludes fl "cancelada" = b2
  generalize jsIncludes fl "fechada" = b3
  by_cases hs : getField data "status" = some (JVal.str "PROPOSTA") <;>
    cases b1 <;> cases b2 <;> cases b3 <;>
    simp [hs, Cmd.onZset, scoreOf, (histVagas_ne_idxShortlist _ _).symm,
      (idxProposta_ne_idxShortlist _ _).symm,
      idxShortlist_ne_idxCancelada, idxShortlist_ne_idxFechada]

theorem onSet_zadd (key : String) (score : JVal) (member : Record) (k : String)
    (m : List String) : (Cmd.zadd key score member).onSet k m = m := rfl

theorem onSet_expire (key : String) (ttl : Nat) (k : String) (m : List String) :
    (Cmd.expire key ttl).onSet k m = m := rfl

theorem onSet_zrem (key : String) (lo hi : JVal) (k : String) (m : List String) :
    (Cmd.zremrangebyscore key lo hi).onSet k m = m := rfl

theorem mem_onSet_sadd (key member : String) (m : List String) :
    member ∈ (Cmd.sadd key member).onSet key m := by
  simp only [Cmd.onSet, if_true]
  split
  · assumption
  · simp

/-- Sync queue after the batch of an append in which every command takes effect. -/
theorem addCmds_syncQueue (now : Int) (fl schema : String) (data : Record) (m : List String) :
    jsString (getField data "requisicao")
      ∈ (addHistoricoVagasCmds now fl schema data).foldl
        (fun acc c => c.onSet (syncQueue schema) acc) m := by
  simp only [addHistoricoVagasCmds, List.foldl_append, List.foldl_cons, List.foldl_nil]
  exact mem_onSet_sadd _ _ _

/-! ## Basic facts: the reconciliation loop -/

theorem getField_projectRow_aux (u : List String) (linha acc : Record) (c : String) :
    getField (u.foldl
        (fun acc col =>
          if hasField linha col && (getField linha col).isSome then
            setField acc col ((getField linha col).getD JVal.null)
          else acc) acc) c
      = if c ∈ u ∧ hasField linha c = true then getField linha c else getField acc c := by
  induction u generalizing acc with
  | nil => simp
  | cons col u ih =>
    rw [List.foldl_cons, ih]
    by_cases hc : c ∈ u ∧ hasField linha c = true
    · have : c ∈ col :: u ∧ hasField linha c = true := ⟨List.mem_cons_of_mem _ hc.1, hc.2⟩
      rw [if_pos hc, if_pos this]
    · rw [if_neg hc]
      by_cases hcol : c = col
      · subst hcol
        by_cases hh : hasField linha c = true
        · have hsome : (getField linha c).isSome = true := by rw [← hasField_eq_isSome]; exact hh
          obtain ⟨v, hv⟩ := Option.isSome_iff_exists.mp hsome
          simp [hh, hv, getField_setField]
        · have hh2 : hasField linha c = false := by simpa using hh
          simp [hh2]
      · have hne : ¬ (c ∈ col :: u ∧ hasField linha c = true) := by
          rintro ⟨h1, h2⟩
          rcases List.mem_cons.mp h1 with h1 | h1
          · exact hcol h1
          · exact hc ⟨h1, h2⟩
        rw [if_neg hne]
        split
        · rw [getField_setField, if_neg hcol]
        · rfl

/-- The projected row carries the record's value of every updatable column. -/
theorem getField_projectRow (u : List String) (linha : Record) (c : String) (hc : c ∈ u) :
    getField (projectRow u linha) c = getField linha c := by
  unfold projectRow
  rw [getField_projectRow_aux]
  by_cases hh : hasField linha c = true
  · rw [if_pos ⟨hc, hh⟩]
  · have hnone : getField linha c = none := by
      rw [hasField_eq_isSome] at hh
      simpa using hh
    simp [hh, hnone, getField_nil]

theorem removeSyncQueue_zsets (s : Valkey) (ok : Bool) (schema requisicao : String) :
    (removeSyncQueue s ok schema requisicao).2.zsets = s.zsets := by
  unfold removeSyncQueue
  cases ok <;> rfl

theorem removeSyncQueueCandidatos_zsets (s : Valkey) (ok : Bool) (schema cand : String) :
    (removeSyncQueueCandidatos s ok schema cand).2.zsets = s.zsets := by
  unfold removeSyncQueueCandidatos
  cases ok <;> rfl

theorem syncVagasStep_zsets (f : SyncFaults) (schema : String) (u : List String) (w : Worker)
    (req : String) : (syncVagasStep f schema u w req).cache.zsets = w.cache.zsets := by
  simp only [syncVagasStep]
  cases (getHistoricoVagas w.cache (f.histOk req) schema req).getLast? with
  | none => exact removeSyncQueue_zsets _ _ _ _
  | some linha =>
    simp only
    by_cases h1 : (!truthy (getField (projectRow u linha) "requisicao")) = true
    · rw [if_pos h1]
      exact removeSyncQueue_zsets _ _ _ _
    · rw [if_neg h1]
      by_cases h2 : f.insertOk req = true
      · rw [if_pos h2]
        exact removeSyncQueue_zsets _ _ _ _
      · rw [if_neg h2]

theorem syncVagasStep_rows (f : SyncFaults) (schema : String) (u : List String) (w : Worker)
    (req : String) (sc t : String) (row : Record) (h : row ∈ w.db.rows sc t) :
    row ∈ (syncVagasStep f schema u w req).db.rows sc t := by
  simp only [syncVagasStep]
  cases (getHistoricoVagas w.cache (f.histOk req) schema req).getLast? with
  | none => exact h
  | some linha =>
    simp only
    by_cases h1 : (!truthy (getField (projectRow u linha) "requisicao")) = true
    · rw [if_pos h1]
      exact h
    · rw [if_neg h1]
      by_cases h2 : f.insertOk req = true
      · rw [if_pos h2]
        simp only [Db.insert]
        by_cases h3 : sc = schema ∧ t = "historico_vagas"
        · rw [if_pos h3]
          exact List.mem_append_left _ h
        · rw [if_neg h3]
          exact h
      · rw [if_neg h2]
        exact h

theorem syncVagas_fold_zsets (f : SyncFaults) (schema : String) (u : List String)
    (q : List String) (w : Worker) :
    (q.foldl (syncVagasStep f schema u) w).cache.zsets = w.cache.zsets := by
  induction q generalizing w with
  | nil => rfl
  | cons a q ih => rw [List.foldl_cons, ih, syncVagasStep_zsets]

theorem syncVagas_fold_rows (f : SyncFaults) (schema : String) (u : List String)
    (q : List String) (w : Worker) (sc t : String) (row : Record) (h : row ∈ w.db.rows sc t) :
    row ∈ (q.foldl (syncVagasStep f schema u) w).db.rows sc t := by
  induction q generalizing w with
  | nil => exact h
  | cons a q ih =>
    rw [List.foldl_cons]
    exact ih _ (syncVagasStep_rows f schema u w a sc t row h)

theorem getLast_zrangeAll (z : List ZEntry) (e : ZEntry) (rest : List ZEntry)
    (h : zdesc z = e :: rest) : (zrangeAll z).getLast? = some e.2 := by
  unfold zrangeAll
  rw [h]
  simp

theorem syncVagasStep_inserts (schema : String) (u : List String) (w : Worker) (req : String)
    (e : ZEntry) (rest : List ZEntry)
    (hz : zdesc (w.cache.zsets (histVagas schema req)) = e :: rest)
    (ht : truthy (getField (projectRow u e.2) "requisicao") = true) :
    projectRow u e.2 ∈
      (syncVagasStep SyncFaults.none schema u w req).db.rows schema "historico_vagas" := by
  have hl : (getHistoricoVagas w.cache true schema req).getLast? = some e.2 := by
    simp only [getHistoricoVagas, if_true]
    exact getLast_zrangeAll _ e rest hz
  simp only [syncVagasStep, SyncFaults.none, hl, ht, Bool.not_true, Bool.false_eq_true, if_false,
    if_true, Db.insert, and_self]
  exact List.mem_append_right _ (List.mem_singleton_self _)

theorem syncVagas_fold_inserts (schema : String) (u : List String) (q : List String)
    (w : Worker) (req : String) (e : ZEntry) (rest : List ZEntry) (hq : req ∈ q)
    (hz : zdesc (w.cache.zsets (histVagas schema req)) = e :: rest)
    (ht : truthy (getField (projectRow u e.2) "requisicao") = true) :
    projectRow u e.2 ∈
      (q.foldl (syncVagasStep SyncFaults.none schema u) w).db.rows schema "historico_vagas" := by
  induction q generalizing w with
  | nil => exact absurd hq (List.not_mem_nil _)
  | cons a q ih =>
    rw [List.foldl_cons]
    by_cases ha : a = req
    · subst ha
      exact syncVagas_fold_rows _ _ _ _ _ _ _ _ (syncVagasStep_inserts schema u w a e rest hz ht)
    · have hq2 : req ∈ q := by
        rcases List.mem_cons.mp hq with h | h
        · exact absurd h.symm ha
        · exact h
      apply ih _ hq2
      rw [syncVagasStep_zsets]
      exact hz

theorem getTableColumns_cache (ok : Bool) (schema t : String) (w : Worker) :
    (getTableColumns ok schema t w).2.cache = w.cache := by
  unfold getTableColumns
  cases w.columnsCache (schema ++ "." ++ t) with
  | some cols => rfl
  | none => cases ok <;> rfl

theorem getTableColumns_db (ok : Bool) (schema t : String) (w : Worker) :
    (getTableColumns ok schema t w).2.db = w.db := by
  unfold getTableColumns
  cases w.columnsCache (schema ++ "." ++ t) with
  | some cols => rfl
  | none => cases ok <;> rfl

theorem mem_updatableOf (cols : List String) (c : String) (h : c ∈ cols)
    (h1 : c ≠ "id") (h2 : c ≠ "created_at") : c ∈ updatableOf cols := by
  unfold updatableOf
  rw [List.mem_filter]
  refine ⟨h, ?_⟩
  simp [h1, h2]

/-- A fault-free run of `syncVagas` inserts the projection of the latest record of every
    queued requisition whose projection has a `requisicao`. -/
theorem syncVagas_inserts_latest (schema : String) (w : Worker) (req : String)
    (e : ZEntry) (rest : List ZEntry)
    (hq : req ∈ w.cache.sets (syncQueue schema))
    (hz : zdesc (w.cache.zsets (histVagas schema req)) = e :: rest)
    (hcol : "requisicao" ∈ (getTableColumns true schema "historico_vagas" w).1)
    (ht : truthy (getField e.2 "requisicao") = true) :
    projectRow (updatableOf (getTableColumns true schema "historico_vagas" w).1) e.2 ∈
      (syncVagas SyncFaults.none schema w).db.rows schema "historico_vagas" := by
  have hu : "requisicao" ∈ updatableOf (getTableColumns true schema "historico_vagas" w).1 :=
    mem_updatableOf _ _ hcol (by decide) (by decide)
  have hne : (getSyncQueue w.cache true schema).isEmpty = false := by
    simp only [getSyncQueue, if_true]
    cases hs : w.cache.sets (syncQueue schema) with
    | nil => rw [hs] at hq; exact absurd hq (List.not_mem_nil _)
    | cons a l => rfl
  have hce : (getTableColumns true schema "historico_vagas" w).1.isEmpty = false := by
    cases hs : (getTableColumns true schema "historico_vagas" w).1 with
    | nil => rw [hs] at hcol; exact absurd hcol (List.not_mem_nil _)
    | cons a l => rfl
  simp only [syncVagas, SyncFaults.none, hne, hce, Bool.false_eq_true, if_false]
  apply syncVagas_fold_inserts schema _ _ _ req e rest
  · simpa [getSyncQueue] using hq
  · rw [getTableColumns_cache]
    exact hz
  · rw [getField_projectRow _ _ _ hu]
    exact ht

theorem syncCandidatosStep_zsets (f : SyncFaults) (schema : String) (u : List String) (w : Worker)
    (req : String) : (syncCandidatosStep f schema u w req).cache.zsets = w.cache.zsets := by
  simp only [syncCandidatosStep]
  cases (getHistoricoCandidatos w.cache (f.histOk req) schema req).getLast? with
  | none => exact removeSyncQueueCandidatos_zsets _ _ _ _
  | some linha =>
    simp only
    by_cases h1 : (!truthy (getField (projectRow u linha) "id_candidato")) = true
    · rw [if_pos h1]
      exact removeSyncQueueCandidatos_zsets _ _ _ _
    · rw [if_neg h1]
      by_cases h2 : f.insertOk req = true
      · rw [if_pos h2]
        exact removeSyncQueueCandidatos_zsets _ _ _ _
      · rw [if_neg h2]

theorem syncCandidatosStep_rows (f : SyncFaults) (schema : String) (u : List String) (w : Worker)
    (req : String) (sc t : String) (row : Record) (h : row ∈ w.db.rows sc t) :
    row ∈ (syncCandidatosStep f schema u w req).db.rows sc t := by
  simp only [syncCandidatosStep]
  cases (getHistoricoCandidatos w.cache (f.histOk req) schema req).getLast? with
  | none => exact h
  | some linha =>
    simp only
    by_cases h1 : (!truthy (getField (projectRow u linha) "id_candidato")) = true
    · rw [if_pos h1]
      exact h
    · rw [if_neg h1]
      by_cases h2 : f.insertOk req = true
      · rw [if_pos h2]
        simp only [Db.insert]
        by_cases h3 : sc = schema ∧ t = "historico_candidatos"
        · rw [if_pos h3]
          exact List.mem_append_left _ h
        · rw [if_neg h3]
          exact h
      · rw [if_neg h2]
        exact h

theorem syncCandidatos_fold_zsets (f : SyncFaults) (schema : String) (u : List String)
    (q : List String) (w : Worker) :
    (q.foldl (syncCandidatosStep f schema u) w).cache.zsets = w.cache.zsets := by
  induction q generalizing w with
  | nil => rfl
  | cons a q ih => rw [List.foldl_cons, ih, syncCandidatosStep_zsets]

theorem syncCandidatos_fold_rows (f : SyncFaults) (schema : String) (u : List String)
    (q : List String) (w : Worker) (sc t : String) (row : Record) (h : row ∈ w.db.rows sc t) :
    row ∈ (q.foldl (syncCandidatosStep f schema u) w).db.rows sc t := by
  induction q generalizing w with
  | nil => exact h
  | cons a q ih =>
    rw [List.foldl_cons]
    exact ih _ (syncCandidatosStep_rows f schema u w a sc t row h)

theorem syncCandidatosStep_inserts (schema : String) (u : List String) (w : Worker) (req : String)
    (e : ZEntry) (rest : List ZEntry)
    (hz : zdesc (w.cache.zsets (histCandidatos schema req)) = e :: rest)
    (ht : truthy (getField (projectRow u e.2) "id_candidato") = true) :
    projectRow u e.2 ∈
      (syncCandidatosStep SyncFaults.none schema u w req).db.rows schema "historico_candidatos" := by
  have hl : (getHistoricoCandidatos w.cache true schema req).getLast? = some e.2 := by
    simp only [getHistoricoCandidatos, if_true]
    exact getLast_zrangeAll _ e rest hz
  simp only [syncCandidatosStep, SyncFaults.none, hl, ht, Bool.not_true, Bool.false_eq_true, if_false,
    if_true, Db.insert, and_self]
  exact List.mem_append_right _ (List.mem_singleton_self _)

theorem syncCandidatos_fold_inserts (schema : String) (u : List String) (q : List String)
    (w : Worker) (req : String) (e : ZEntry) (rest : List ZEntry) (hq : req ∈ q)
    (hz : zdesc (w.cache.zsets (histCandidatos schema req)) = e :: rest)
    (ht : truthy (getField (projectRow u e.2) "id_candidato") = true) :
    projectRow u e.2 ∈
      (q.foldl (syncCandidatosStep SyncFaults.none schema u) w).db.rows schema "historico_candidatos" := by
  induction q generalizing w with
  | nil => exact absurd hq (List.not_mem_nil _)
  | cons a q ih =>
    rw [List.foldl_cons]
    by_cases ha : a = req
    · subst ha
      exact syncCandidatos_fold_rows _ _ _ _ _ _ _ _ (syncCandidatosStep_inserts schema u w a e rest hz ht)
    · have hq2 : req ∈ q := by
        rcases List.mem_cons.mp hq with h | h
        · exact absurd h.symm ha
        · exact h
      apply ih _ hq2
      rw [syncCandidatosStep_zsets]
      exact hz

/-- A fault-free run of `syncCandidatos` inserts the projection of the latest record of every
    queued candidate whose projection has an `id_candidato`. -/
theorem syncCandidatos_inserts_latest (schema : String) (w : Worker) (req : String)
    (e : ZEntry) (rest : List ZEntry)
    (hq : req ∈ w.cache.sets (syncQueueCandidatos schema))
    (hz : zdesc (w.cache.zsets (histCandidatos schema req)) = e :: rest)
    (hcol : "id_candidato" ∈ (getTableColumns true schema "historico_candidatos" w).1)
    (ht : truthy (getField e.2 "id_candidato") = true) :
    projectRow (updatableOf (getTableColumns true schema "historico_candidatos" w).1) e.2 ∈
      (syncCandidatos SyncFaults.none schema w).db.rows schema "historico_candidatos" := by
  have hu : "id_candidato" ∈ updatableOf (getTableColumns true schema "historico_candidatos" w).1 :=
    mem_updatableOf _ _ hcol (by decide) (by decide)
  have hne : (getSyncQueueCandidatos w.cache true schema).isEmpty = false := by
    simp only [getSyncQueueCandidatos, if_true]
    cases hs : w.cache.sets (syncQueueCandidatos schema) with
    | nil => rw [hs] at hq; exact absurd hq (List.not_mem_nil _)
    | cons a l => rfl
  have hce : (getTableColumns true schema "historico_candidatos" w).1.isEmpty = false := by
    cases hs : (getTableColumns true schema "historico_candidatos" w).1 with
    | nil => rw [hs] at hcol; exact absurd hcol (List.not_mem_nil _)
    | cons a l => rfl
  simp only [syncCandidatos, SyncFaults.none, hne, hce, Bool.false_eq_true, if_false]
  apply syncCandidatos_fold_inserts schema _ _ _ req e rest
  · simpa [getSyncQueueCandidatos] using hq
  · rw [getTableColumns_cache]
    exact hz
  · rw [getField_projectRow _ _ _ hu]
    exact ht

theorem addHistoricoVagas_true (s : Valkey) (now : Int) (hgetOk : Bool) (out : ExecOutcome)
    (schema : String) (data : Record)
    (h : (addHistoricoVagas s now hgetOk out schema data).1 = true) :
    ∃ fl, funcaoLowerOf (getFuncaoSistemaDoStatus s hgetOk schema (getField data "status"))
        = some fl
      ∧ out.rejects = false
      ∧ (addHistoricoVagas s now hgetOk out schema data).2
        = execPipeline out (addHistoricoVagasCmds now fl schema data) s := by
  unfold addHistoricoVagas at h ⊢
  cases hf : funcaoLowerOf (getFuncaoSistemaDoStatus s hgetOk schema (getField data "status")) with
  | none =>
    rw [hf] at h
    simp at h
  | some fl =>
    rw [hf] at h
    refine ⟨fl, rfl, ?_, rfl⟩
    simpa using h

theorem zdesc_zaddEntries_of_lt (z : List ZEntry) (now : Int) (m : Record)
    (h : ∀ e ∈ z, e.1 < now) :
    zdesc (zaddEntries z now m) = (now, m) :: zdesc (z.filter (fun e => e.2 ≠ m)) := by
  unfold zaddEntries
  apply zdesc_cons_of_lt
  intro x hx
  exact h x (List.mem_of_mem_filter hx)

theorem addCmds_histCandidatos (now : Int) (schema : String) (data : Record)
    (z : List ZEntry) :
    (addHistoricoCandidatosCmds now schema data).foldl
        (fun acc c =>
          c.onZset (histCandidatos schema (jsString (getField data "id_candidato"))) acc) z
      = zaddEntries z now (setField data "cached_at" (JVal.num now)) := by
  simp [addHistoricoCandidatosCmds, Cmd.onZset, scoreOf]

theorem addCmds_syncQueueCandidatos (now : Int) (schema : String) (data : Record)
    (m : List String) :
    jsString (getField data "id_candidato")
      ∈ (addHistoricoCandidatosCmds now schema data).foldl
        (fun acc c => c.onSet (syncQueueCandidatos schema) acc) m := by
  simp only [addHistoricoCandidatosCmds, List.foldl_cons, List.foldl_nil]
  exact mem_onSet_sadd _ _ _

/-- C1 (amended). Eventual durability of the latest cache-path write: if
    `addHistoricoVagas` returned true with every command of its batch taking effect, its
    clock reading is above every score already in the series, the payload has a truthy
    `requisicao`, the table has a `requisicao` column and no call of the following
    `syncVagas` run fails, then after the run the projection of that record on the
    updatable columns is a row of `historico_vagas`; the same for
    `addHistoricoCandidatos` and `syncCandidatos` with `id_candidato`. -/
theorem C1_latest_append_reaches_durable_store
    (s : Valkey) (w : Worker) (now : Int) (hgetOk : Bool) (schema : String) (data : Record)
    (s2 : Valkey) (w2 : Worker) (now2 : Int) (schema2 : String) (data2 : Record)
    (hret : (addHistoricoVagas s now hgetOk ExecOutcome.ok schema data).1 = true)
    (hw : w.cache = (addHistoricoVagas s now hgetOk ExecOutcome.ok schema data).2)
    (hnew : ∀ e ∈ s.zsets (histVagas schema (jsString (getField data "requisicao"))), e.1 < now)
    (hreq : truthy (getField data "requisicao") = true)
    (hcol : "requisicao" ∈ (getTableColumns true schema "historico_vagas" w).1)
    (hw2 : w2.cache = (addHistoricoCandidatos s2 now2 ExecOutcome.ok schema2 data2).2)
    (hnew2 : ∀ e ∈ s2.zsets (histCandidatos schema2 (jsString (getField data2 "id_candidato"))),
      e.1 < now2)
    (hreq2 : truthy (getField data2 "id_candidato") = true)
    (hcol2 : "id_candidato" ∈ (getTableColumns true schema2 "historico_candidatos" w2).1) :
    projectRow (updatableOf (getTableColumns true schema "historico_vagas" w).1)
        (setField data "cached_at" (JVal.num now))
      ∈ (syncVagas SyncFaults.none schema w).db.rows schema "historico_vagas"
    ∧ projectRow (updatableOf (getTableColumns true schema2 "historico_candidatos" w2).1)
        (setField data2 "cached_at" (JVal.num now2))
      ∈ (syncCandidatos SyncFaults.none schema2 w2).db.rows schema2 "historico_candidatos" := by
  constructor
  · obtain ⟨fl, _, _, hst⟩ := addHistoricoVagas_true _ _ _ _ _ _ hret
    apply syncVagas_inserts_latest schema w (jsString (getField data "requisicao"))
      (now, setField data "cached_at" (JVal.num now))
      (zdesc ((s.zsets (histVagas schema (jsString (getField data "requisicao")))).filter
        (fun e => e.2 ≠ setField data "cached_at" (JVal.num now))))
    · rw [hw, hst, execPipeline_ok_sets]
      exact addCmds_syncQueue _ _ _ _ _
    · rw [hw, hst, execPipeline_ok_zsets, addCmds_histVagas]
      exact zdesc_zaddEntries_of_lt _ _ _ hnew
    · exact hcol
    · rw [getField_setField]
      simpa using hreq
  · apply syncCandidatos_inserts_latest schema2 w2 (jsString (getField data2 "id_candidato"))
      (now2, setField data2 "cached_at" (JVal.num now2))
      (zdesc ((s2.zsets (histCandidatos schema2 (jsString (getField data2 "id_candidato")))).filter
        (fun e => e.2 ≠ setField data2 "cached_at" (JVal.num now2))))
    · rw [hw2]
      simp only [addHistoricoCandidatos]
      rw [execPipeline_ok_sets]
      exact addCmds_syncQueueCandidatos _ _ _ _
    · rw [hw2]
      simp only [addHistoricoCandidatos]
      rw [execPipeline_ok_zsets, addCmds_histCandidatos]
      exact zdesc_zaddEntries_of_lt _ _ _ hnew2
    · exact hcol2
    · rw [getField_setField]
      simpa using hreq2

/-- Witness of C1 (amended): one append per family on an empty cache, then a run. -/
theorem C1_latest_append_reaches_durable_store_witness :
    projectRow (updatableOf (getTableColumns true "t1" "historico_vagas"
        (exWorker (addHistoricoVagas Valkey.empty 1000 true ExecOutcome.ok "t1" exProposta).2)).1)
        (setField exProposta "cached_at" (JVal.num 1000))
      ∈ (syncVagas SyncFaults.none "t1"
          (exWorker (addHistoricoVagas Valkey.empty 1000 true ExecOutcome.ok "t1"
            exProposta).2)).db.rows "t1" "historico_vagas"
    ∧ projectRow (updatableOf (getTableColumns true "t1" "historico_candidatos"
        (exWorker (addHistoricoCandidatos Valkey.empty 1000 ExecOutcome.ok "t1" exCandidato).2)).1)
        (setField exCandidato "cached_at" (JVal.num 1000))
      ∈ (syncCandidatos SyncFaults.none "t1"
          (exWorker (addHistoricoCandidatos Valkey.empty 1000 ExecOutcome.ok "t1"
            exCandidato).2)).db.rows "t1" "historico_candidatos" :=
  C1_latest_append_reaches_durable_store Valkey.empty
    (exWorker (addHistoricoVagas Valkey.empty 1000 true ExecOutcome.ok "t1" exProposta).2)
    1000 true "t1" exProposta Valkey.empty
    (exWorker (addHistoricoCandidatos Valkey.empty 1000 ExecOutcome.ok "t1" exCandidato).2)
    1000 "t1" exCandidato
    (by decide) rfl (by intro e he; simp [Valkey.empty] at he) (by decide) (by decide)
    rfl (by intro e he; simp [Valkey.empty] at he) (by decide) (by decide)

/-- C1 (as stated) fails: two appends for `REQ100` both return true, the table has a
    `requisicao` column and no call of the run fails, yet the run inserts only the
    later record; the projection of the first one is not a row of the table. -/
theorem C1_first_of_two_appends_not_inserted :
    (addHistoricoVagas Valkey.empty 1000 true ExecOutcome.ok "t1" exAberta).1 = true
    ∧ (addHistoricoVagas exAfterAberta 2000 true ExecOutcome.ok "t1" exProposta).1 = true
    ∧ "requisicao" ∈ exDb.columns "t1" "historico_vagas"
    ∧ (syncVagas SyncFaults.none "t1" (exWorker exAfterBoth)).db.rows "t1" "historico_vagas"
        = [projectRow (updatableOf (exDb.columns "t1" "historico_vagas"))
            (setField exProposta "cached_at" (JVal.num 2000))]
    ∧ projectRow (updatableOf (exDb.columns "t1" "historico_vagas"))
        (setField exAberta "cached_at" (JVal.num 1000))
      ∉ (syncVagas SyncFaults.none "t1" (exWorker exAfterBoth)).db.rows "t1"
          "historico_vagas" := by
  decide

/-! ## C2: a write through the cache while the durable store is down -/

/-- The handler of `POST /historico/vagas` answers 500 whenever its own status lookup
    fails, without calling the cache. -/
theorem postHistoricoVagas_status_lookup_fails (f : PostFaults) (cachePresent : Bool)
    (now : Int) (campos : List Field) (schema : String) (body : Record) (cache : Valkey)
    (db : Db) (hreq : truthy (getField body "requisicao") = true)
    (hst : truthy (getField body "status") = true) (hq : f.statusQueryOk = false) :
    postHistoricoVagas f cachePresent now campos schema body cache db
      = ({ status := HttpStatus.INTERNAL_ERROR, success := some false, fonte := none },
          cache, db) := by
  unfold postHistoricoVagas
  simp only [hreq, hst, hq, Bool.not_true, Bool.or_self, Bool.false_eq_true, if_false,
    Bool.not_false, if_true]
  cases sanitizeSchema schema <;> rfl

/-- The handler of `POST /historico/candidatos` answers 201 from the cache whenever the
    append returns true, whatever the durable store does. -/
theorem postHistoricoCandidatos_cache_path (f : PostFaults) (now : Int) (schema : String)
    (body : Record) (cache : Valkey) (db : Db)
    (hid : truthy (getField body "id_candidato") = true)
    (hadd : (addHistoricoCandidatos cache now f.exec schema
      (dadosHistoricoCandidatos body)).1 = true) :
    (postHistoricoCandidatos f true now schema body cache db).1
      = { status := HttpStatus.CREATED, success := some true, fonte := some "valkey" } := by
  unfold postHistoricoCandidatos
  simp [hid, hadd]

/-- C2 at the failing input: a validated `POST /historico/vagas` body, a healthy cache
    on which the append would return true, and a durable store whose queries fail.
    The handler answers 500 with `success: false` and leaves the cache untouched. -/
theorem C2_vagas_post_needs_durable_store :
    truthy (getField exProposta "requisicao") = true
    ∧ truthy (getField exProposta "status") = true
    ∧ (addHistoricoVagas Valkey.empty 1000 true ExecOutcome.ok "t1"
        (dadosFiltradosVagas [] "" exProposta)).1 = true
    ∧ (postHistoricoVagas exDurableDown true 1000 [] "t1" exProposta Valkey.empty exDb).1
        = { status := HttpStatus.INTERNAL_ERROR, success := some false, fonte := none }
    ∧ (postHistoricoVagas exDurableDown true 1000 [] "t1" exProposta Valkey.empty
        exDb).1.status.code = 500
    ∧ (postHistoricoVagas exDurableDown true 1000 [] "t1" exProposta Valkey.empty
        exDb).2.1.zsets (histVagas "t1" "REQ100") = [] := by
  decide

/-! ## C7: patch with nothing to patch -/

/-- C7. Each patch operation returns false and leaves the cache as it was when the
    index it reads holds no record, whatever the outcome of its calls. -/
theorem C7_patch_with_nothing_to_patch (s : Valkey) (now1 now2 : Int) (readOk : Bool)
    (out : ExecOutcome) (schema requisicao : String) (operacao_status_proposta : JVal)
    (ordem : Option JVal) (dados : Record) :
    (s.zsets (idxProposta schema requisicao) = [] →
      updatePropostaStatus s now1 now2 readOk out schema requisicao operacao_status_proposta
          ordem = (false, s)
      ∧ updateDadosSelecionado s now1 now2 readOk out schema requisicao dados = (false, s))
    ∧ (s.zsets (idxShortlist schema requisicao) = [] →
      updateDadosCandidatos s now1 now2 readOk out schema requisicao dados = (false, s)) := by
  constructor
  · intro h
    have hget : ∀ o, getPropostaRecente s readOk schema requisicao o = none := by
      intro o
      unfold getPropostaRecente
      cases readOk
      · rfl
      · simp [zrevrangeAt, h, zdesc_nil]
    constructor
    · unfold updatePropostaStatus
      rw [hget]
    · unfold updateDadosSelecionado
      rw [hget]
  · intro h
    have hget : getShortlistRecente s readOk schema requisicao = none := by
      unfold getShortlistRecente
      cases readOk
      · rfl
      · simp [zrevrangeAt, h, zdesc_nil]
    unfold updateDadosCandidatos
    rw [hget]

/-- Witness of C7: requisition `REQ100` has a series but no proposal and no shortlist. -/
theorem C7_patch_with_nothing_to_patch_witness :
    exAfterAberta.zsets (histVagas "t1" "REQ100") ≠ []
    ∧ updatePropostaStatus exAfterAberta 3000 3001 true ExecOutcome.ok "t1" "REQ100"
        (JVal.str "ACEITA") (some (JVal.str "ultima")) = (false, exAfterAberta)
    ∧ updateDadosSelecionado exAfterAberta 3000 3001 true ExecOutcome.ok "t1" "REQ100"
        [("selecionado_nome", JVal.str "Ana")] = (false, exAfterAberta)
    ∧ updateDadosCandidatos exAfterAberta 3000 3001 true ExecOutcome.ok "t1" "REQ100"
        [("selecionado_nome", JVal.str "Ana")] = (false, exAfterAberta) :=
  ⟨by decide,
   ((C7_patch_with_nothing_to_patch exAfterAberta 3000 3001 true ExecOutcome.ok "t1" "REQ100"
      (JVal.str "ACEITA") (some (JVal.str "ultima")) [("selecionado_nome", JVal.str "Ana")]).1
      (by decide)).1,
   ((C7_patch_with_nothing_to_patch exAfterAberta 3000 3001 true ExecOutcome.ok "t1" "REQ100"
      (JVal.str "ACEITA") (some (JVal.str "ultima")) [("selecionado_nome", JVal.str "Ana")]).1
      (by decide)).2,
   (C7_patch_with_nothing_to_patch exAfterAberta 3000 3001 true ExecOutcome.ok "t1" "REQ100"
      (JVal.str "ACEITA") (some (JVal.str "ultima")) [("selecionado_nome", JVal.str "Ana")]).2
      (by decide)⟩

/-! ## C10: the series add and the sync mark of an append -/

theorem setAfter_append_single (effect : Nat → Bool) (i : Nat) (l : List Cmd) (c : Cmd)
    (k : String) (m : List String) :
    setAfter effect i (l ++ [c]) k m
      = if effect (i + l.length) then c.onSet k (setAfter effect i l k m)
        else setAfter effect i l k m := by
  induction l generalizing i m with
  | nil => simp [setAfter]
  | cons a l ih =>
    have hlen : i + 1 + l.length = i + (l.length + 1) := by omega
    rw [List.cons_append, setAfter, setAfter, ih, List.length_cons, hlen]

/-- C10 (amended). Whenever the last command of the batch, the `sadd`, takes effect, the
    entity id is in the tenant's sync queue after `addHistoricoVagas`
    (resp. `addHistoricoCandidatos`), whatever happens to the other commands. -/
theorem C10_sync_mark_when_sadd_takes_effect
    (s : Valkey) (now : Int) (hgetOk : Bool) (out : ExecOutcome) (schema : String)
    (data : Record) (fl : String)
    (s2 : Valkey) (now2 : Int) (out2 : ExecOutcome) (schema2 : String) (data2 : Record)
    (hfl : funcaoLowerOf (getFuncaoSistemaDoStatus s hgetOk schema (getField data "status"))
      = some fl)
    (hsadd : out.effect ((addHistoricoVagasCmds now fl schema data).length - 1) = true)
    (hsadd2 : out2.effect ((addHistoricoCandidatosCmds now2 schema2 data2).length - 1) = true) :
    jsString (getField data "requisicao")
      ∈ (addHistoricoVagas s now hgetOk out schema data).2.sets (syncQueue schema)
    ∧ jsString (getField data2 "id_candidato")
      ∈ (addHistoricoCandidatos s2 now2 out2 schema2 data2).2.sets
          (syncQueueCandidatos schema2) := by
  constructor
  · simp only [addHistoricoVagas, hfl, execPipeline]
    rw [runCmds_sets]
    simp only [addHistoricoVagasCmds] at hsadd ⊢
    rw [setAfter_append_single]
    simp only [List.length_append, List.length_singleton, Nat.add_sub_cancel, List.length_cons,
      List.length_nil] at hsadd
    simp only [Nat.zero_add, List.length_append, List.length_cons, List.length_nil]
    rw [if_pos hsadd]
    exact mem_onSet_sadd _ _ _
  · simp only [addHistoricoCandidatos, execPipeline]
    rw [runCmds_sets]
    simp only [addHistoricoCandidatosCmds, List.length_cons, List.length_nil] at hsadd2 ⊢
    simp only [setAfter]
    rw [if_pos hsadd2]
    exact mem_onSet_sadd _ _ _

/-- Witness of C10 (amended): appends on an empty cache with every command effective. -/
theorem C10_sync_mark_when_sadd_takes_effect_witness :
    "REQ100" ∈ (addHistoricoVagas Valkey.empty 1000 true ExecOutcome.ok "t1"
        exProposta).2.sets (syncQueue "t1")
    ∧ "C7" ∈ (addHistoricoCandidatos Valkey.empty 1000 ExecOutcome.ok "t1"
        exCandidato).2.sets (syncQueueCandidatos "t1") :=
  C10_sync_mark_when_sadd_takes_effect Valkey.empty 1000 true ExecOutcome.ok "t1" exProposta ""
    Valkey.empty 1000 ExecOutcome.ok "t1" exCandidato (by decide) rfl rfl

/-- C10 (as stated) fails: in the outcome where only the first command of the batch
    (the series `zadd`) takes effect, `addHistoricoVagas` returns true, the new record
    is in the series and the requisition is not in the sync queue. -/
theorem C10_series_add_without_sync_mark :
    (addHistoricoVagas Valkey.empty 1000 true exOnlyFirst "t1" exProposta).1 = true
    ∧ (1000, setField exProposta "cached_at" (JVal.num 1000))
      ∈ (addHistoricoVagas Valkey.empty 1000 true exOnlyFirst "t1" exProposta).2.zsets
          (histVagas "t1" "REQ100")
    ∧ "REQ100" ∉ (addHistoricoVagas Valkey.empty 1000 true exOnlyFirst "t1"
        exProposta).2.sets (syncQueue "t1") := by
  decide

/-! ## C3 and C5: reading back what was appended -/

theorem getFuncaoSistemaDoStatus_truthy (s : Valkey) (hgetOk : Bool) (schema : String)
    (status : Option JVal) (v : JVal)
    (h : getFuncaoSistemaDoStatus s hgetOk schema status = some v) : truthy (some v) = true := by
  unfold getFuncaoSistemaDoStatus at h
  cases hgetOk with
  | false => simp at h
  | true =>
    simp only [if_true] at h
    cases hh : hget s (statusVagas schema) (jsString status) with
    | none => rw [hh] at h; simp at h
    | some parsed =>
      rw [hh] at h
      simp only at h
      by_cases ht : truthy (getField parsed "funcao_sistema") = true
      · rw [if_pos ht] at h
        rw [← h]
        exact ht
      · rw [if_neg ht] at h
        simp at h

theorem zrevrangeAt_zero_of_cons (z : List ZEntry) (e : ZEntry) (rest : List ZEntry)
    (h : zdesc z = e :: rest) : (zrevrangeAt z 0).head? = some e.2 := by
  simp [zrevrangeAt, h]

theorem zrevrangeAt_one_of_cons (z : List ZEntry) (e e2 : ZEntry) (rest : List ZEntry)
    (h : zdesc z = e :: e2 :: rest) : (zrevrangeAt z 1).head? = some e2.2 := by
  simp [zrevrangeAt, h]

/-- C3 (amended). Read-after-append when the append is the newest entry of the index: if
    `addHistoricoVagas` with status `PROPOSTA` returns true, every command of its batch
    taking effect, and its clock reading is above every score already in the proposal
    index, then `getPropostaRecente(.., 'ultima')` returns the appended record (the
    payload plus `cached_at`); likewise `getShortlistRecente` when the tenant's mapping
    gives the status a `funcao_sistema` containing `shortlist`. -/
theorem C3_read_after_append
    (s : Valkey) (now : Int) (hgetOk : Bool) (schema : String) (data : Record)
    (s2 : Valkey) (now2 : Int) (hgetOk2 : Bool) (schema2 : String) (data2 : Record)
    (f2 : String)
    (hstatus : getField data "status" = some (JVal.str "PROPOSTA"))
    (hret : (addHistoricoVagas s now hgetOk ExecOutcome.ok schema data).1 = true)
    (hnew : ∀ e ∈ s.zsets (idxProposta schema (jsString (getField data "requisicao"))),
      e.1 < now)
    (hfun : getFuncaoSistemaDoStatus s2 hgetOk2 schema2 (getField data2 "status")
      = some (JVal.str f2))
    (hshort : jsIncludes (toLowerCase f2) "shortlist" = true)
    (hnew2 : ∀ e ∈ s2.zsets (idxShortlist schema2 (jsString (getField data2 "requisicao"))),
      e.1 < now2) :
    getPropostaRecente (addHistoricoVagas s now hgetOk ExecOutcome.ok schema data).2 true schema
        (jsString (getField data "requisicao")) (some (JVal.str "ultima"))
      = some (setField data "cached_at" (JVal.num now))
    ∧ (addHistoricoVagas s2 now2 hgetOk2 ExecOutcome.ok schema2 data2).1 = true
    ∧ getShortlistRecente (addHistoricoVagas s2 now2 hgetOk2 ExecOutcome.ok schema2 data2).2 true
        schema2 (jsString (getField data2 "requisicao"))
      = some (setField data2 "cached_at" (JVal.num now2)) := by
  refine ⟨?_, ?_, ?_⟩
  · obtain ⟨fl, _, _, hst⟩ := addHistoricoVagas_true _ _ _ _ _ _ hret
    rw [hst]
    simp only [getPropostaRecente, if_true]
    rw [execPipeline_ok_zsets, addCmds_idxProposta, if_pos hstatus]
    have ho : ordemOffset (some (JVal.str "ultima")) = 0 := by simp [ordemOffset]
    rw [ho]
    exact zrevrangeAt_zero_of_cons _ _ _ (zdesc_zaddEntries_of_lt _ _ _ hnew)
  · have ht := getFuncaoSistemaDoStatus_truthy _ _ _ _ _ hfun
    simp [addHistoricoVagas, hfun, funcaoLowerOf, ht, ExecOutcome.ok]
  · have ht := getFuncaoSistemaDoStatus_truthy _ _ _ _ _ hfun
    have hfl : funcaoLowerOf (getFuncaoSistemaDoStatus s2 hgetOk2 schema2
        (getField data2 "status")) = some (toLowerCase f2) := by
      rw [hfun]
      simp [funcaoLowerOf, ht]
    simp only [addHistoricoVagas, hfl, getShortlistRecente, if_true]
    rw [execPipeline_ok_zsets, addCmds_idxShortlist, if_pos hshort]
    exact zrevrangeAt_zero_of_cons _ _ _ (zdesc_zaddEntries_of_lt _ _ _ hnew2)

/-- Witness of C3 (amended): a proposal on the empty cache, and a status the tenant's
    mapping classifies as a shortlist. -/
theorem C3_read_after_append_witness :
    getPropostaRecente (addHistoricoVagas Valkey.empty 1000 true ExecOutcome.ok "t1"
        exProposta).2 true "t1" "REQ100" (some (JVal.str "ultima"))
      = some (setField exProposta "cached_at" (JVal.num 1000))
    ∧ (addHistoricoVagas exMapped 1000 true ExecOutcome.ok "t1" exTriagem).1 = true
    ∧ getShortlistRecente (addHistoricoVagas exMapped 1000 true ExecOutcome.ok "t1"
        exTriagem).2 true "t1" "REQ100"
      = some (setField exTriagem "cached_at" (JVal.num 1000)) :=
  C3_read_after_append Valkey.empty 1000 true "t1" exProposta exMapped 1000 true "t1" exTriagem
    "Shortlist" (by decide) (by decide) (by intro e he; simp [Valkey.empty] at he)
    (by decide) (by decide) (by intro e he; simp [exMapped, Valkey.empty] at he)

/-- C3 (as stated) fails: a proposal record is already cached for `REQ100` with the
    score 5000; an append for the same requisition reads the clock at 5000 too and
    returns true; `getPropostaRecente(.., 'ultima')` then returns the older record,
    whose bytes sort after those of the new one. -/
theorem C3_append_in_same_millisecond_not_read_back :
    getField exPropostaAna "status" = some (JVal.str "PROPOSTA")
    ∧ (addHistoricoVagas
        (addHistoricoVagas Valkey.empty 5000 true ExecOutcome.ok "t1" exPropostaZeta).2
        5000 true ExecOutcome.ok "t1" exPropostaAna).1 = true
    ∧ getPropostaRecente
        (addHistoricoVagas
          (addHistoricoVagas Valkey.empty 5000 true ExecOutcome.ok "t1" exPropostaZeta).2
          5000 true ExecOutcome.ok "t1" exPropostaAna).2
        true "t1" "REQ100" (some (JVal.str "ultima"))
      = some (setField exPropostaZeta "cached_at" (JVal.num 5000))
    ∧ setField exPropostaZeta "cached_at" (JVal.num 5000)
      ≠ setField exPropostaAna "cached_at" (JVal.num 5000) := by
  decide

/-- C5 (amended). Two appends with status `PROPOSTA` for the same requisition, starting
    with an empty proposal index, the second clock reading above the first: after the
    first append `'ultima'` is the first record; after the second, `'ultima'` is the
    second record and `'penultima'` the first. -/
theorem C5_two_appends_in_clock_order
    (s : Valkey) (t1 t2 : Int) (hgetOk1 hgetOk2 : Bool) (schema requisicao : String)
    (d1 d2 : Record)
    (hempty : s.zsets (idxProposta schema requisicao) = [])
    (hr1 : jsString (getField d1 "requisicao") = requisicao)
    (hr2 : jsString (getField d2 "requisicao") = requisicao)
    (hs1 : getField d1 "status" = some (JVal.str "PROPOSTA"))
    (hs2 : getField d2 "status" = some (JVal.str "PROPOSTA"))
    (hret1 : (addHistoricoVagas s t1 hgetOk1 ExecOutcome.ok schema d1).1 = true)
    (hret2 : (addHistoricoVagas (addHistoricoVagas s t1 hgetOk1 ExecOutcome.ok schema d1).2 t2
      hgetOk2 ExecOutcome.ok schema d2).1 = true)
    (hclock : t1 < t2) :
    getPropostaRecente (addHistoricoVagas s t1 hgetOk1 ExecOutcome.ok schema d1).2 true schema
        requisicao (some (JVal.str "ultima"))
      = some (setField d1 "cached_at" (JVal.num t1))
    ∧ getPropostaRecente
        (addHistoricoVagas (addHistoricoVagas s t1 hgetOk1 ExecOutcome.ok schema d1).2 t2
          hgetOk2 ExecOutcome.ok schema d2).2 true schema requisicao (some (JVal.str "ultima"))
      = some (setField d2 "cached_at" (JVal.num t2))
    ∧ getPropostaRecente
        (addHistoricoVagas (addHistoricoVagas s t1 hgetOk1 ExecOutcome.ok schema d1).2 t2
          hgetOk2 ExecOutcome.ok schema d2).2 true schema requisicao
          (some (JVal.str "penultima"))
      = some (setField d1 "cached_at" (JVal.num t1)) := by
  obtain ⟨fl1, _, _, hst1⟩ := addHistoricoVagas_true _ _ _ _ _ _ hret1
  obtain ⟨fl2, _, _, hst2⟩ := addHistoricoVagas_true _ _ _ _ _ _ hret2
  have hz1 : (addHistoricoVagas s t1 hgetOk1 ExecOutcome.ok schema d1).2.zsets
      (idxProposta schema requisicao) = [(t1, setField d1 "cached_at" (JVal.num t1))] := by
    rw [hst1, execPipeline_ok_zsets]
    have h := addCmds_idxProposta t1 fl1 schema d1 (s.zsets (idxProposta schema requisicao))
    rw [hr1, if_pos hs1] at h
    rw [h, hempty]
    rfl
  have hne : setField d1 "cached_at" (JVal.num t1) ≠ setField d2 "cached_at" (JVal.num t2) := by
    intro e
    have e2 := congrArg (fun r => getField r "cached_at") e
    simp only [getField_setField, if_true, Option.some.injEq, JVal.num.injEq] at e2
    omega
  have hz2 : (addHistoricoVagas (addHistoricoVagas s t1 hgetOk1 ExecOutcome.ok schema d1).2 t2
      hgetOk2 ExecOutcome.ok schema d2).2.zsets (idxProposta schema requisicao)
      = [(t2, setField d2 "cached_at" (JVal.num t2)),
         (t1, setField d1 "cached_at" (JVal.num t1))] := by
    rw [hst2, execPipeline_ok_zsets]
    have h := addCmds_idxProposta t2 fl2 schema d2
      ((addHistoricoVagas s t1 hgetOk1 ExecOutcome.ok schema d1).2.zsets
        (idxProposta schema requisicao))
    rw [hr2, if_pos hs2] at h
    rw [h, hz1]
    simp [zaddEntries, hne]
  have hd2 : zdesc [(t2, setField d2 "cached_at" (JVal.num t2)),
      (t1, setField d1 "cached_at" (JVal.num t1))]
      = [(t2, setField d2 "cached_at" (JVal.num t2)),
         (t1, setField d1 "cached_at" (JVal.num t1))] := by
    rw [zdesc_cons_of_lt]
    · rfl
    · intro x hx
      rw [List.mem_singleton] at hx
      rw [hx]
      exact hclock
  have hu : ordemOffset (some (JVal.str "ultima")) = 0 := by simp [ordemOffset]
  have hp : ordemOffset (some (JVal.str "penultima")) = 1 := by decide
  refine ⟨?_, ?_, ?_⟩
  · simp only [getPropostaRecente, if_true]
    rw [hz1, hu]
    rfl
  · simp only [getPropostaRecente, if_true]
    rw [hz2, hu]
    exact zrevrangeAt_zero_of_cons _ _ _ hd2
  · simp only [getPropostaRecente, if_true]
    rw [hz2, hp]
    exact zrevrangeAt_one_of_cons _ _ _ _ hd2

/-- Witness of C5 (amended): tenant `t1`, requisition `REQ100`, clock readings 1000
    and 2000. -/
theorem C5_two_appends_in_clock_order_witness :
    getPropostaRecente (addHistoricoVagas Valkey.empty 1000 true ExecOutcome.ok "t1"
        exPropostaZeta).2 true "t1" "REQ100" (some (JVal.str "ultima"))
      = some (setField exPropostaZeta "cached_at" (JVal.num 1000))
    ∧ getPropostaRecente
        (addHistoricoVagas (addHistoricoVagas Valkey.empty 1000 true ExecOutcome.ok "t1"
          exPropostaZeta).2 2000 true ExecOutcome.ok "t1" exPropostaAna).2 true "t1" "REQ100"
          (some (JVal.str "ultima"))
      = some (setField exPropostaAna "cached_at" (JVal.num 2000))
    ∧ getPropostaRecente
        (addHistoricoVagas (addHistoricoVagas Valkey.empty 1000 true ExecOutcome.ok "t1"
          exPropostaZeta).2 2000 true ExecOutcome.ok "t1" exPropostaAna).2 true "t1" "REQ100"
          (some (JVal.str "penultima"))
      = some (setField exPropostaZeta "cached_at" (JVal.num 1000)) :=
  C5_two_appends_in_clock_order Valkey.empty 1000 2000 true true "t1" "REQ100" exPropostaZeta
    exPropostaAna rfl (by decide) (by decide) (by decide) (by decide) (by decide) (by decide)
    (by decide)

/-- C5 (as stated) fails: tenant `t1` has nothing cached for `REQ100`; two appends with
    status `PROPOSTA` both return true and both read the clock at 1000. Then `'ultima'`
    returns the first record and `'penultima'` the second. -/
theorem C5_two_appends_in_same_millisecond :
    Valkey.empty.zsets (histVagas "t1" "REQ100") = []
    ∧ (addHistoricoVagas Valkey.empty 1000 true ExecOutcome.ok "t1" exPropostaZeta).1 = true
    ∧ (addHistoricoVagas exAfterZeta 1000 true ExecOutcome.ok "t1" exPropostaAna).1 = true
    ∧ getPropostaRecente exAfterZetaAna true "t1" "REQ100" (some (JVal.str "ultima"))
      = some (setField exPropostaZeta "cached_at" (JVal.num 1000))
    ∧ getPropostaRecente exAfterZetaAna true "t1" "REQ100" (some (JVal.str "penultima"))
      = some (setField exPropostaAna "cached_at" (JVal.num 1000))
    ∧ setField exPropostaZeta "cached_at" (JVal.num 1000)
      ≠ setField exPropostaAna "cached_at" (JVal.num 1000) := by
  decide

/-! ## C8: what a patch leaves alone -/

theorem zsetAfter_keeps (effect : Nat → Bool) (i : Nat) (cmds : List Cmd) (k : String)
    (z : List ZEntry) (e : ZEntry)
    (hc : ∀ c ∈ cmds, ∀ z2 : List ZEntry, e ∈ z2 → e ∈ c.onZset k z2) (he : e ∈ z) :
    e ∈ zsetAfter effect i cmds k z := by
  induction cmds generalizing i z with
  | nil => exact he
  | cons c cs ih =>
    rw [zsetAfter]
    apply ih
    · exact fun c2 h2 => hc c2 (List.mem_cons_of_mem _ h2)
    · cases effect i
      · exact he
      · exact hc c (List.mem_cons_self _ _) z he

theorem mem_zremEntries (z : List ZEntry) (a b : Int) (e : ZEntry) :
    e ∈ zremEntries z a b ↔ e ∈ z ∧ ¬ (a ≤ e.1 ∧ e.1 ≤ b) := by
  simp only [zremEntries, List.mem_filter, Bool.not_eq_true', Bool.and_eq_false_iff,
    decide_eq_false_iff_not, not_and_or]

theorem mem_zaddEntries (z : List ZEntry) (sc : Int) (m : Record) (e : ZEntry) :
    e ∈ zaddEntries z sc m ↔ e = (sc, m) ∨ (e ∈ z ∧ e.2 ≠ m) := by
  simp [zaddEntries, List.mem_filter]

/-- An entry under another score, other than the merged member, survives every command
    of a patch batch. -/
theorem patchCmds_keep (serie idx queue : String) (ts : JVal) (updated : Record)
    (req k : String) (e : ZEntry) (hsc : scoreOf ts ≠ some e.1) (hm : e.2 ≠ updated) :
    ∀ c ∈ patchCmds serie idx queue ts updated req, ∀ z2 : List ZEntry,
      e ∈ z2 → e ∈ c.onZset k z2 := by
  intro c hc z2 he
  simp only [patchCmds, List.mem_cons, List.mem_singleton, List.not_mem_nil, or_false] at hc
  have hrem : ∀ key, e ∈ (Cmd.zremrangebyscore key ts ts).onZset k z2 := by
    intro key
    simp only [Cmd.onZset]
    split
    · cases hts : scoreOf ts with
      | none => exact he
      | some a =>
        simp only
        rw [mem_zremEntries]
        refine ⟨he, ?_⟩
        rintro ⟨h1, h2⟩
        apply hsc
        rw [hts]
        exact congrArg some (le_antisymm h1 h2)
    · exact he
  have hadd : ∀ key, e ∈ (Cmd.zadd key ts updated).onZset k z2 := by
    intro key
    simp only [Cmd.onZset]
    split
    · cases hts : scoreOf ts with
      | none => exact he
      | some a =>
        simp only
        rw [mem_zaddEntries]
        exact Or.inr ⟨he, hm⟩
    · exact he
  rcases hc with rfl | rfl | rfl | rfl | rfl
  · exact hrem _
  · exact hrem _
  · exact hadd _
  · exact hadd _
  · exact he

/-- C8 (amended). In the entity's series a patch touches only the score of the record it
    read: every entry stored under another score, whose member is not the merged record,
    is the same member at the same score after the call, whatever the outcome of the
    batch. The record read is the one `getPropostaRecente(ordem)` resp.
    `getShortlistRecente` returns. -/
theorem C8_patch_frame (s : Valkey) (now1 now2 : Int) (readOk : Bool) (out : ExecOutcome)
    (schema requisicao : String) (operacao_status_proposta : JVal) (ordem : Option JVal)
    (dados : Record) (e : ZEntry) (he : e ∈ s.zsets (histVagas schema requisicao)) :
    (∀ r, getPropostaRecente s readOk schema requisicao ordem = some r →
      scoreOf (patchTimestamp r now1) ≠ some e.1 →
      e.2 ≠ setField (setField r "operacao_status_proposta" operacao_status_proposta)
        "updated_at" (JVal.num now2) →
      e ∈ (updatePropostaStatus s now1 now2 readOk out schema requisicao
        operacao_status_proposta ordem).2.zsets (histVagas schema requisicao))
    ∧ (∀ r, getPropostaRecente s readOk schema requisicao (some (JVal.str "ultima")) = some r →
      scoreOf (patchTimestamp r now1) ≠ some e.1 →
      e.2 ≠ setField (spread r dados) "updated_at" (JVal.num now2) →
      e ∈ (updateDadosSelecionado s now1 now2 readOk out schema requisicao dados).2.zsets
        (histVagas schema requisicao))
    ∧ (∀ r, getShortlistRecente s readOk schema requisicao = some r →
      scoreOf (patchTimestamp r now1) ≠ some e.1 →
      e.2 ≠ setField (spread r dados) "updated_at" (JVal.num now2) →
      e ∈ (updateDadosCandidatos s now1 now2 readOk out schema requisicao dados).2.zsets
        (histVagas schema requisicao)) := by
  refine ⟨?_, ?_, ?_⟩
  · intro r hr hsc hm
    simp only [updatePropostaStatus, hr, execPipeline]
    rw [runCmds_zsets]
    exact zsetAfter_keeps _ _ _ _ _ _ (patchCmds_keep _ _ _ _ _ _ _ _ hsc hm) he
  · intro r hr hsc hm
    simp only [updateDadosSelecionado, hr, execPipeline]
    rw [runCmds_zsets]
    exact zsetAfter_keeps _ _ _ _ _ _ (patchCmds_keep _ _ _ _ _ _ _ _ hsc hm) he
  · intro r hr hsc hm
    simp only [updateDadosCandidatos, hr, execPipeline]
    rw [runCmds_zsets]
    exact zsetAfter_keeps _ _ _ _ _ _ (patchCmds_keep _ _ _ _ _ _ _ _ hsc hm) he

/-- Witness of C8 (amended): the `ABERTA` record of `REQ100`, stored under 500, stays in
    the series through each of the three patches. -/
theorem C8_patch_frame_witness :
    (500, setField exAberta "cached_at" (JVal.num 500))
      ∈ (updatePropostaStatus exThree 3000 3001 true ExecOutcome.ok "t1" "REQ100"
          (JVal.str "ACEITA") (some (JVal.str "ultima"))).2.zsets (histVagas "t1" "REQ100")
    ∧ (500, setField exAberta "cached_at" (JVal.num 500))
      ∈ (updateDadosSelecionado exThree 3000 3001 true ExecOutcome.ok "t1" "REQ100"
          [("selecionado_nome", JVal.str "Ana")]).2.zsets (histVagas "t1" "REQ100")
    ∧ (500, setField exAberta "cached_at" (JVal.num 500))
      ∈ (updateDadosCandidatos exThree 3000 3001 true ExecOutcome.ok "t1" "REQ100"
          [("selecionado_nome", JVal.str "Ana")]).2.zsets (histVagas "t1" "REQ100") :=
  have h := C8_patch_frame exThree 3000 3001 true ExecOutcome.ok "t1" "REQ100"
    (JVal.str "ACEITA") (some (JVal.str "ultima")) [("selecionado_nome", JVal.str "Ana")]
    (500, setField exAberta "cached_at" (JVal.num 500)) (by decide)
  ⟨h.1 (setField exProposta "cached_at" (JVal.num 2000)) (by decide) (by decide) (by decide),
   h.2.1 (setField exProposta "cached_at" (JVal.num 2000)) (by decide) (by decide) (by decide),
   h.2.2 (setField exTriagem "cached_at" (JVal.num 1000)) (by decide) (by decide) (by decide)⟩

/-- C8 (as stated) fails: `REQ100` has two proposals, stored under 1000 and 2000;
    `updatePropostaStatus` with `ordem = 'penultima'` returns true, leaves the most
    recent record as it was and replaces the other one, which is no longer a member
    of the series. -/
theorem C8_penultima_patches_an_earlier_record :
    (1000, setField exPropostaZeta "cached_at" (JVal.num 1000))
      ∈ exTwoPropostas.zsets (histVagas "t1" "REQ100")
    ∧ getPropostaRecente exTwoPropostas true "t1" "REQ100" (some (JVal.str "ultima"))
      = some (setField exPropostaAna "cached_at" (JVal.num 2000))
    ∧ (updatePropostaStatus exTwoPropostas 3000 3001 true ExecOutcome.ok "t1" "REQ100"
        (JVal.str "ACEITA") (some (JVal.str "penultima"))).1 = true
    ∧ (2000, setField exPropostaAna "cached_at" (JVal.num 2000))
      ∈ (updatePropostaStatus exTwoPropostas 3000 3001 true ExecOutcome.ok "t1" "REQ100"
          (JVal.str "ACEITA") (some (JVal.str "penultima"))).2.zsets (histVagas "t1" "REQ100")
    ∧ (1000, setField exPropostaZeta "cached_at" (JVal.num 1000))
      ∉ (updatePropostaStatus exTwoPropostas 3000 3001 true ExecOutcome.ok "t1" "REQ100"
          (JVal.str "ACEITA") (some (JVal.str "penultima"))).2.zsets
          (histVagas "t1" "REQ100") := by
  decide

/-! ## C6: the result of a patch -/

theorem zremEntries_same (z : List ZEntry) (a : Int) :
    zremEntries z a a = z.filter (fun e => decide (e.1 ≠ a)) := by
  unfold zremEntries
  apply List.filter_congr
  intro e _
  by_cases h : e.1 = a
  · simp [h]
  · have h2 : ¬ (a ≤ e.1 ∧ e.1 ≤ a) := fun hh => h (le_antisymm hh.2 hh.1)
    simp [h, h2]

theorem relabel_scores (a : Int) (m : Record) (l : List ZEntry) :
    (relabel a m l).map Prod.fst = l.map Prod.fst := by
  unfold relabel
  rw [List.map_map]
  apply List.map_congr_left
  intro e _
  by_cases h : e.1 = a <;> simp [h]

theorem relabel_of_no_score (a : Int) (m : Record) (l : List ZEntry)
    (h : ∀ e ∈ l, e.1 ≠ a) : relabel a m l = l := by
  unfold relabel
  conv_rhs => rw [← List.map_id l]
  apply List.map_congr_left
  intro e he
  simp [h e he]

theorem filter_of_no_score (a : Int) (l : List ZEntry) (h : ∀ e ∈ l, e.1 ≠ a) :
    l.filter (fun e => decide (e.1 ≠ a)) = l := by
  rw [List.filter_eq_self]
  intro e he
  simpa using h e he

theorem relabel_perm (a : Int) (m : Record) (z : List ZEntry)
    (hnd : (z.map Prod.fst).Nodup) (hex : ∃ e0 ∈ z, e0.1 = a) :
    List.Perm (relabel a m z) ((a, m) :: z.filter (fun e => decide (e.1 ≠ a))) := by
  induction z with
  | nil =>
    obtain ⟨e0, h0, _⟩ := hex
    exact absurd h0 (List.not_mem_nil _)
  | cons x xs ih =>
    rw [List.map_cons, List.nodup_cons] at hnd
    by_cases hx : x.1 = a
    · have hno : ∀ e ∈ xs, e.1 ≠ a := by
        intro e he hea
        apply hnd.1
        rw [hx, ← hea]
        exact List.mem_map_of_mem _ he
      have h1 : relabel a m (x :: xs) = (a, m) :: xs := by
        have := relabel_of_no_score a m xs hno
        unfold relabel at this ⊢
        simp [hx, this]
      have h2 : (x :: xs).filter (fun e => decide (e.1 ≠ a)) = xs := by
        rw [List.filter_cons]
        simp only [hx, ne_eq, not_true_eq_false, decide_False, Bool.false_eq_true, if_false]
        exact filter_of_no_score a xs hno
      rw [h1, h2]
    · have hex2 : ∃ e0 ∈ xs, e0.1 = a := by
        obtain ⟨e0, h0, h0a⟩ := hex
        rcases List.mem_cons.mp h0 with h | h
        · rw [h] at h0a
          exact absurd h0a hx
        · exact ⟨e0, h, h0a⟩
      have h1 : relabel a m (x :: xs) = x :: relabel a m xs := by
        unfold relabel
        simp [hx]
      have h2 : (x :: xs).filter (fun e => decide (e.1 ≠ a))
          = x :: xs.filter (fun e => decide (e.1 ≠ a)) := by
        rw [List.filter_cons]
        simp [hx]
      rw [h1, h2]
      exact (List.Perm.cons x (ih hnd.2 hex2)).trans (List.Perm.swap _ _ _)

theorem strict_of_nodup (l : List ZEntry) (hnd : (l.map Prod.fst).Nodup)
    (hs : l.Pairwise (fun a b => b.1 ≤ a.1)) : l.Pairwise (fun a b => b.1 < a.1) := by
  have hne : l.Pairwise (fun a b => a.1 ≠ b.1) := by
    unfold List.Nodup at hnd
    rwa [List.pairwise_map] at hnd
  exact (hs.and hne).imp (fun h => lt_of_le_of_ne h.1 (Ne.symm h.2))

/-- Order of a sorted set with distinct scores after the patch of the entry under `a`:
    the listing is the old one with the member under `a` replaced. -/
theorem zdesc_patch (z : List ZEntry) (a : Int) (m : Record)
    (hnd : (z.map Prod.fst).Nodup) (hex : ∃ e0 ∈ z, e0.1 = a)
    (hfresh : ∀ e ∈ z, e.1 ≠ a → e.2 ≠ m) :
    zdesc (zaddEntries (zremEntries z a a) a m) = relabel a m (zdesc z) := by
  have hz : zaddEntries (zremEntries z a a) a m
      = (a, m) :: z.filter (fun e => decide (e.1 ≠ a)) := by
    unfold zaddEntries
    rw [zremEntries_same, List.filter_eq_self.mpr]
    intro e he
    rw [List.mem_filter] at he
    have h1 : e.1 ≠ a := by simpa using he.2
    simpa using hfresh e he.1 h1
  rw [hz]
  have hperm : List.Perm (zdesc ((a, m) :: z.filter (fun e => decide (e.1 ≠ a))))
      (relabel a m (zdesc z)) := by
    refine (zdesc_perm _).trans ((relabel_perm a m z hnd hex).symm.trans ?_)
    unfold relabel
    exact List.Perm.map _ (zdesc_perm z).symm
  have hnd2 : ((relabel a m (zdesc z)).map Prod.fst).Nodup := by
    rw [relabel_scores]
    exact ((zdesc_perm z).map Prod.fst).nodup_iff.mpr hnd
  have hnd1 : ((zdesc ((a, m) :: z.filter (fun e => decide (e.1 ≠ a)))).map Prod.fst).Nodup :=
    (hperm.map Prod.fst).nodup_iff.mpr hnd2
  have hs2 : (relabel a m (zdesc z)).Pairwise (fun x y => y.1 ≤ x.1) := by
    have h0 := zdesc_sorted z
    have h1 : ((zdesc z).map Prod.fst).Pairwise (fun x y => y ≤ x) := by
      rw [List.pairwise_map]
      exact h0
    rw [← relabel_scores a m, List.pairwise_map] at h1
    exact h1
  haveI : IsAntisymm ZEntry (fun x y => y.1 < x.1) :=
    ⟨fun x y h1 h2 => absurd h1 (not_lt.mpr (le_of_lt h2))⟩
  exact List.eq_of_perm_of_sorted hperm (strict_of_nodup _ hnd1 (zdesc_sorted _))
    (strict_of_nodup _ hnd2 hs2)

theorem patchCmds_at_serie (serie idx queue req : String) (hne : serie ≠ idx) (sc : Int)
    (merged : Record) (z : List ZEntry) :
    (patchCmds serie idx queue (JVal.num sc) merged req).foldl
        (fun acc c => c.onZset serie acc) z
      = zaddEntries (zremEntries z sc sc) sc merged := by
  simp [patchCmds, Cmd.onZset, scoreOf, hne]

theorem patchCmds_at_idx (serie idx queue req : String) (hne : serie ≠ idx) (sc : Int)
    (merged : Record) (z : List ZEntry) :
    (patchCmds serie idx queue (JVal.num sc) merged req).foldl
        (fun acc c => c.onZset idx acc) z
      = zaddEntries (zremEntries z sc sc) sc merged := by
  simp [patchCmds, Cmd.onZset, scoreOf, Ne.symm hne]

theorem patchCmds_queue (serie idx queue req : String) (ts : JVal) (merged : Record)
    (m : List String) :
    req ∈ (patchCmds serie idx queue ts merged req).foldl (fun acc c => c.onSet queue acc) m := by
  simp only [patchCmds, List.foldl_cons, List.foldl_nil, onSet_zadd, onSet_zrem]
  exact mem_onSet_sadd _ _ _

theorem replacedAt_patch (z : List ZEntry) (sc : Int) (merged : Record) :
    ReplacedAt (zaddEntries (zremEntries z sc sc) sc merged) sc merged := by
  constructor
  · rw [mem_zaddEntries]
    exact Or.inl rfl
  · intro e he hsc
    rw [mem_zaddEntries, mem_zremEntries] at he
    rcases he with h | ⟨⟨_, h⟩, _⟩
    · exact h
    · exact absurd ⟨le_of_eq hsc.symm, le_of_eq hsc⟩ h

theorem head_drop_mem (l : List ZEntry) (off : Nat) (r : Record)
    (h : ((((l.drop off).take 1).map (fun e => e.2)).head?) = some r) :
    ∃ e, e ∈ l ∧ e.2 = r ∧ (l.drop off).head? = some e := by
  cases hd : l.drop off with
  | nil => rw [hd] at h; simp at h
  | cons e rest =>
    rw [hd] at h
    simp only [List.take_succ_cons, List.take_zero, List.map_cons, List.map_nil, List.head?_cons,
      Option.some.injEq] at h
    refine ⟨e, ?_, h, rfl⟩
    have : e ∈ l.drop off := by rw [hd]; exact List.mem_cons_self _ _
    exact List.mem_of_mem_drop this

/-- A patch batch in which every command takes effect, on an index with distinct scores
    whose record at position `off` is stored under `sc`. -/
theorem patch_generic (s : Valkey) (serie idx queue req : String) (hne : serie ≠ idx)
    (sc : Int) (merged : Record) (off : Nat) (r : Record)
    (hnd : ((s.zsets idx).map Prod.fst).Nodup)
    (hfresh : ∀ e ∈ s.zsets idx, e.1 ≠ sc → e.2 ≠ merged)
    (hpos : (zrevrangeAt (s.zsets idx) off).head? = some r)
    (hentry : ∀ e ∈ s.zsets idx, e.2 = r → e.1 = sc) :
    PatchResult s
        (true, execPipeline ExecOutcome.ok
          (patchCmds serie idx queue (JVal.num sc) merged req) s)
        serie idx queue req sc merged
    ∧ (zrevrangeAt ((execPipeline ExecOutcome.ok
          (patchCmds serie idx queue (JVal.num sc) merged req) s).zsets idx) off).head?
        = some merged := by
  obtain ⟨e, hez, her, hed⟩ := head_drop_mem (zdesc (s.zsets idx)) off r hpos
  have hem : e ∈ s.zsets idx := (mem_zdesc _ _).mp hez
  have hesc : e.1 = sc := hentry e hem her
  have hzd : zdesc ((execPipeline ExecOutcome.ok
      (patchCmds serie idx queue (JVal.num sc) merged req) s).zsets idx)
      = relabel sc merged (zdesc (s.zsets idx)) := by
    rw [execPipeline_ok_zsets, patchCmds_at_idx _ _ _ _ hne]
    exact zdesc_patch _ _ _ hnd ⟨e, hem, hesc⟩ hfresh
  refine ⟨⟨rfl, ?_, ?_, hzd, ?_⟩, ?_⟩
  · show ReplacedAt ((execPipeline ExecOutcome.ok _ s).zsets serie) sc merged
    rw [execPipeline_ok_zsets, patchCmds_at_serie _ _ _ _ hne]
    exact replacedAt_patch _ _ _
  · show ReplacedAt ((execPipeline ExecOutcome.ok _ s).zsets idx) sc merged
    rw [execPipeline_ok_zsets, patchCmds_at_idx _ _ _ _ hne]
    exact replacedAt_patch _ _ _
  · show req ∈ (execPipeline ExecOutcome.ok _ s).sets queue
    rw [execPipeline_ok_sets]
    exact patchCmds_queue _ _ _ _ _ _ _
  · unfold zrevrangeAt
    rw [hzd]
    unfold relabel
    rw [← List.map_drop]
    cases hd : (zdesc (s.zsets idx)).drop off with
    | nil => rw [hd] at hed; simp at hed
    | cons x rest =>
      rw [hd] at hed
      simp only [List.head?_cons, Option.some.injEq] at hed
      subst hed
      simp [hesc]

theorem patchTimestamp_of_cached_at (r : Record) (now sc : Int)
    (h : getField r "cached_at" = some (JVal.num sc)) (hnz : sc ≠ 0) :
    patchTimestamp r now = JVal.num sc := by
  simp [patchTimestamp, h, truthy, hnz]

/-- A patch of the record at a position of an index whose records carry their non-zero
    score as `cached_at`, with a merged record that keeps `cached_at`: the timestamp of
    the patch is the score, and the batch gives the patch result. -/
theorem patch_of_stamped (s : Valkey) (now1 : Int) (schema requisicao idx : String)
    (off : Nat) (r merged : Record) (sc : Int)
    (hne : histVagas schema requisicao ≠ idx)
    (hinv : ∀ e ∈ s.zsets idx, getField e.2 "cached_at" = some (JVal.num e.1) ∧ e.1 ≠ 0)
    (hnd : ((s.zsets idx).map Prod.fst).Nodup)
    (hpos : (zrevrangeAt (s.zsets idx) off).head? = some r)
    (hc : getField r "cached_at" = some (JVal.num sc))
    (hm : getField merged "cached_at" = some (JVal.num sc)) :
    patchTimestamp r now1 = JVal.num sc
    ∧ PatchResult s
        (true, execPipeline ExecOutcome.ok
          (patchCmds (histVagas schema requisicao) idx (syncQueue schema) (JVal.num sc) merged
            requisicao) s)
        (histVagas schema requisicao) idx (syncQueue schema) requisicao sc merged
    ∧ (zrevrangeAt ((execPipeline ExecOutcome.ok
          (patchCmds (histVagas schema requisicao) idx (syncQueue schema) (JVal.num sc) merged
            requisicao) s).zsets idx) off).head? = some merged := by
  obtain ⟨e, hez, her, _⟩ := head_drop_mem (zdesc (s.zsets idx)) off r hpos
  have hem : e ∈ s.zsets idx := (mem_zdesc _ _).mp hez
  have hesc : e.1 = sc := by
    have h1 := (hinv e hem).1
    rw [her, hc] at h1
    simpa using h1.symm
  have hnz : sc ≠ 0 := hesc ▸ (hinv e hem).2
  refine ⟨patchTimestamp_of_cached_at r now1 sc hc hnz, ?_⟩
  apply patch_generic s _ idx _ requisicao hne sc merged off r hnd
  · intro e2 he2 hsc2 heq
    have h1 := (hinv e2 he2).1
    rw [heq, hm] at h1
    apply hsc2
    simpa using h1.symm
  · exact hpos
  · intro e2 he2 heq
    have h1 := (hinv e2 he2).1
    rw [heq, hc] at h1
    simpa using h1.symm

/-- C6 (amended). Result of each of the three patch operations, on its own index: when
    the records of the index carry their non-zero score as `cached_at` and have distinct
    scores, the partial fields do not contain `cached_at`, the read succeeds and every
    command of the batch takes effect, the call returns true; in the series and in the
    index the merged record is the one and only member under the original score; the
    index lists its records in the same order as before, the merged record in the place
    of the old one, so the same read returns the merged record; the requisition is on the
    sync queue. The three operations are stated each for its own cache state and
    requisition: `updatePropostaStatus` and `updateDadosSelecionado` assume nothing of the
    shortlist index, `updateDadosCandidatos` nothing of the proposal index. -/
theorem C6_patch_result (now1 now2 : Int)
    (sP : Valkey) (schemaP reqP : String) (operacao_status_proposta : JVal)
    (ordem : Option JVal) (rP : Record) (scP : Int)
    (sU : Valkey) (schemaU reqU : String) (dadosU : Record) (rU : Record) (scU : Int)
    (sS : Valkey) (schemaS reqS : String) (dadosS : Record) (rS : Record) (scS : Int)
    (hinvP : ∀ e ∈ sP.zsets (idxProposta schemaP reqP),
      getField e.2 "cached_at" = some (JVal.num e.1) ∧ e.1 ≠ 0)
    (hndP : ((sP.zsets (idxProposta schemaP reqP)).map Prod.fst).Nodup)
    (hP : getPropostaRecente sP true schemaP reqP ordem = some rP)
    (hcP : getField rP "cached_at" = some (JVal.num scP))
    (hinvU : ∀ e ∈ sU.zsets (idxProposta schemaU reqU),
      getField e.2 "cached_at" = some (JVal.num e.1) ∧ e.1 ≠ 0)
    (hndU : ((sU.zsets (idxProposta schemaU reqU)).map Prod.fst).Nodup)
    (hdadosU : hasField dadosU "cached_at" = false)
    (hU : getPropostaRecente sU true schemaU reqU (some (JVal.str "ultima")) = some rU)
    (hcU : getField rU "cached_at" = some (JVal.num scU))
    (hinvS : ∀ e ∈ sS.zsets (idxShortlist schemaS reqS),
      getField e.2 "cached_at" = some (JVal.num e.1) ∧ e.1 ≠ 0)
    (hndS : ((sS.zsets (idxShortlist schemaS reqS)).map Prod.fst).Nodup)
    (hdadosS : hasField dadosS "cached_at" = false)
    (hS : getShortlistRecente sS true schemaS reqS = some rS)
    (hcS : getField rS "cached_at" = some (JVal.num scS)) :
    (PatchResult sP
        (updatePropostaStatus sP now1 now2 true ExecOutcome.ok schemaP reqP
          operacao_status_proposta ordem)
        (histVagas schemaP reqP) (idxProposta schemaP reqP) (syncQueue schemaP)
        reqP scP
        (setField (setField rP "operacao_status_proposta" operacao_status_proposta)
          "updated_at" (JVal.num now2))
      ∧ getPropostaRecente
          (updatePropostaStatus sP now1 now2 true ExecOutcome.ok schemaP reqP
            operacao_status_proposta ordem).2 true schemaP reqP ordem
        = some (setField (setField rP "operacao_status_proposta" operacao_status_proposta)
            "updated_at" (JVal.num now2)))
    ∧ (PatchResult sU
        (updateDadosSelecionado sU now1 now2 true ExecOutcome.ok schemaU reqU dadosU)
        (histVagas schemaU reqU) (idxProposta schemaU reqU) (syncQueue schemaU)
        reqU scU (setField (spread rU dadosU) "updated_at" (JVal.num now2))
      ∧ getPropostaRecente
          (updateDadosSelecionado sU now1 now2 true ExecOutcome.ok schemaU reqU dadosU).2
          true schemaU reqU (some (JVal.str "ultima"))
        = some (setField (spread rU dadosU) "updated_at" (JVal.num now2)))
    ∧ (PatchResult sS
        (updateDadosCandidatos sS now1 now2 true ExecOutcome.ok schemaS reqS dadosS)
        (histVagas schemaS reqS) (idxShortlist schemaS reqS) (syncQueue schemaS)
        reqS scS (setField (spread rS dadosS) "updated_at" (JVal.num now2))
      ∧ getShortlistRecente
          (updateDadosCandidatos sS now1 now2 true ExecOutcome.ok schemaS reqS dadosS).2
          true schemaS reqS
        = some (setField (spread rS dadosS) "updated_at" (JVal.num now2))) := by
  have hmergeD : ∀ (dados r : Record) (sc : Int), hasField dados "cached_at" = false →
      getField r "cached_at" = some (JVal.num sc) →
      getField (setField (spread r dados) "updated_at" (JVal.num now2)) "cached_at"
        = some (JVal.num sc) := by
    intro dados r sc hd h
    rw [getField_setField, if_neg (by decide), getField_spread_of_not_has _ _ _ hd]
    exact h
  refine ⟨?_, ?_, ?_⟩
  · have hm : getField (setField (setField rP "operacao_status_proposta"
        operacao_status_proposta) "updated_at" (JVal.num now2)) "cached_at"
        = some (JVal.num scP) := by
      rw [getField_setField, if_neg (by decide), getField_setField, if_neg (by decide)]
      exact hcP
    have hpos : (zrevrangeAt (sP.zsets (idxProposta schemaP reqP))
        (ordemOffset ordem)).head? = some rP := by
      simpa [getPropostaRecente] using hP
    obtain ⟨hts, hres, hget⟩ := patch_of_stamped sP now1 schemaP reqP _ _ rP _ scP
      (histVagas_ne_idxProposta _ _) hinvP hndP hpos hcP hm
    have hfun : updatePropostaStatus sP now1 now2 true ExecOutcome.ok schemaP reqP
        operacao_status_proposta ordem
        = (true, execPipeline ExecOutcome.ok
            (patchCmds (histVagas schemaP reqP) (idxProposta schemaP reqP)
              (syncQueue schemaP) (JVal.num scP)
              (setField (setField rP "operacao_status_proposta" operacao_status_proposta)
                "updated_at" (JVal.num now2)) reqP) sP) := by
      unfold updatePropostaStatus
      rw [hP]
      simp only [hts]
      rfl
    rw [hfun]
    refine ⟨hres, ?_⟩
    simp only [getPropostaRecente, if_true]
    exact hget
  · have hpos : (zrevrangeAt (sU.zsets (idxProposta schemaU reqU))
        (ordemOffset (some (JVal.str "ultima")))).head? = some rU := by
      simpa [getPropostaRecente] using hU
    obtain ⟨hts, hres, hget⟩ := patch_of_stamped sU now1 schemaU reqU _ _ rU _ scU
      (histVagas_ne_idxProposta _ _) hinvU hndU hpos hcU (hmergeD dadosU rU scU hdadosU hcU)
    have hfun : updateDadosSelecionado sU now1 now2 true ExecOutcome.ok schemaU reqU dadosU
        = (true, execPipeline ExecOutcome.ok
            (patchCmds (histVagas schemaU reqU) (idxProposta schemaU reqU)
              (syncQueue schemaU) (JVal.num scU)
              (setField (spread rU dadosU) "updated_at" (JVal.num now2)) reqU) sU) := by
      unfold updateDadosSelecionado
      rw [hU]
      simp only [hts]
      rfl
    rw [hfun]
    refine ⟨hres, ?_⟩
    simp only [getPropostaRecente, if_true]
    exact hget
  · have hpos : (zrevrangeAt (sS.zsets (idxShortlist schemaS reqS)) 0).head? = some rS := by
      simpa [getShortlistRecente] using hS
    obtain ⟨hts, hres, hget⟩ := patch_of_stamped sS now1 schemaS reqS _ _ rS _ scS
      (histVagas_ne_idxShortlist _ _) hinvS hndS hpos hcS (hmergeD dadosS rS scS hdadosS hcS)
    have hfun : updateDadosCandidatos sS now1 now2 true ExecOutcome.ok schemaS reqS dadosS
        = (true, execPipeline ExecOutcome.ok
            (patchCmds (histVagas schemaS reqS) (idxShortlist schemaS reqS)
              (syncQueue schemaS) (JVal.num scS)
              (setField (spread rS dadosS) "updated_at" (JVal.num now2)) reqS) sS) := by
      unfold updateDadosCandidatos
      rw [hS]
      simp only [hts]
      rfl
    rw [hfun]
    refine ⟨hres, ?_⟩
    simp only [getShortlistRecente, if_true]
    exact hget

/-- Witness of C6 (amended): the two patches of a proposal on `REQ100` of tenant `t1` in a
    cache where it has one proposal (under 1000) and no shortlist record, and the patch of
    the shortlist record in a cache where it has one shortlist record (under 1000) and no
    proposal. -/
theorem C6_patch_result_witness :
    (PatchResult exAfterZeta
        (updatePropostaStatus exAfterZeta 3000 3001 true ExecOutcome.ok "t1" "REQ100"
          (JVal.str "ACEITA") (some (JVal.str "ultima")))
        (histVagas "t1" "REQ100") (idxProposta "t1" "REQ100") (syncQueue "t1") "REQ100" 1000
        (setField (setField (setField exPropostaZeta "cached_at" (JVal.num 1000))
          "operacao_status_proposta" (JVal.str "ACEITA")) "updated_at" (JVal.num 3001))
      ∧ getPropostaRecente
          (updatePropostaStatus exAfterZeta 3000 3001 true ExecOutcome.ok "t1" "REQ100"
            (JVal.str "ACEITA") (some (JVal.str "ultima"))).2 true "t1" "REQ100"
            (some (JVal.str "ultima"))
        = some (setField (setField (setField exPropostaZeta "cached_at" (JVal.num 1000))
            "operacao_status_proposta" (JVal.str "ACEITA")) "updated_at" (JVal.num 3001)))
    ∧ (PatchResult exAfterZeta
        (updateDadosSelecionado exAfterZeta 3000 3001 true ExecOutcome.ok "t1" "REQ100"
          [("selecionado_nome", JVal.str "Ana")])
        (histVagas "t1" "REQ100") (idxProposta "t1" "REQ100") (syncQueue "t1") "REQ100" 1000
        (setField (spread (setField exPropostaZeta "cached_at" (JVal.num 1000))
          [("selecionado_nome", JVal.str "Ana")]) "updated_at" (JVal.num 3001))
      ∧ getPropostaRecente
          (updateDadosSelecionado exAfterZeta 3000 3001 true ExecOutcome.ok "t1" "REQ100"
            [("selecionado_nome", JVal.str "Ana")]).2 true "t1" "REQ100"
            (some (JVal.str "ultima"))
        = some (setField (spread (setField exPropostaZeta "cached_at" (JVal.num 1000))
            [("selecionado_nome", JVal.str "Ana")]) "updated_at" (JVal.num 3001)))
    ∧ (PatchResult exOnlyShortlist
        (updateDadosCandidatos exOnlyShortlist 3000 3001 true ExecOutcome.ok "t1" "REQ100"
          [("candidato_nome", JVal.str "Bia")])
        (histVagas "t1" "REQ100") (idxShortlist "t1" "REQ100") (syncQueue "t1") "REQ100" 1000
        (setField (spread (setField exTriagem "cached_at" (JVal.num 1000))
          [("candidato_nome", JVal.str "Bia")]) "updated_at" (JVal.num 3001))
      ∧ getShortlistRecente
          (updateDadosCandidatos exOnlyShortlist 3000 3001 true ExecOutcome.ok "t1" "REQ100"
            [("candidato_nome", JVal.str "Bia")]).2 true "t1" "REQ100"
        = some (setField (spread (setField exTriagem "cached_at" (JVal.num 1000))
            [("candidato_nome", JVal.str "Bia")]) "updated_at" (JVal.num 3001))) :=
  C6_patch_result 3000 3001
    exAfterZeta "t1" "REQ100" (JVal.str "ACEITA") (some (JVal.str "ultima"))
    (setField exPropostaZeta "cached_at" (JVal.num 1000)) 1000
    exAfterZeta "t1" "REQ100" [("selecionado_nome", JVal.str "Ana")]
    (setField exPropostaZeta "cached_at" (JVal.num 1000)) 1000
    exOnlyShortlist "t1" "REQ100" [("candidato_nome", JVal.str "Bia")]
    (setField exTriagem "cached_at" (JVal.num 1000)) 1000
    (by decide) (by decide) (by decide) (by decide)
    (by decide) (by decide) (by decide) (by decide) (by decide)
    (by decide) (by decide) (by decide) (by decide) (by decide)

/-- C6 (as stated) fails: `REQ100` has one proposal, stored under 1000. In the outcome
    where only the first command of the batch (the removal from the series) takes
    effect, `updateDadosSelecionado` returns true; the merged record is neither in the
    series nor in the index, the old version is still in the index and
    `getPropostaRecente(.., 'ultima')` returns the old version. -/
theorem C6_patch_returns_true_on_partial_batch :
    getPropostaRecente exAfterZeta true "t1" "REQ100" (some (JVal.str "ultima"))
      = some (setField exPropostaZeta "cached_at" (JVal.num 1000))
    ∧ (updateDadosSelecionado exAfterZeta 3000 3000 true exOnlyFirst "t1" "REQ100"
        [("selecionado_nome", JVal.str "Ana")]).1 = true
    ∧ (1000, setField (spread (setField exPropostaZeta "cached_at" (JVal.num 1000))
        [("selecionado_nome", JVal.str "Ana")]) "updated_at" (JVal.num 3000))
      ∉ (updateDadosSelecionado exAfterZeta 3000 3000 true exOnlyFirst "t1" "REQ100"
          [("selecionado_nome", JVal.str "Ana")]).2.zsets (histVagas "t1" "REQ100")
    ∧ (1000, setField (spread (setField exPropostaZeta "cached_at" (JVal.num 1000))
        [("selecionado_nome", JVal.str "Ana")]) "updated_at" (JVal.num 3000))
      ∉ (updateDadosSelecionado exAfterZeta 3000 3000 true exOnlyFirst "t1" "REQ100"
          [("selecionado_nome", JVal.str "Ana")]).2.zsets (idxProposta "t1" "REQ100")
    ∧ (1000, setField exPropostaZeta "cached_at" (JVal.num 1000))
      ∈ (updateDadosSelecionado exAfterZeta 3000 3000 true exOnlyFirst "t1" "REQ100"
          [("selecionado_nome", JVal.str "Ana")]).2.zsets (idxProposta "t1" "REQ100")
    ∧ getPropostaRecente
        (updateDadosSelecionado exAfterZeta 3000 3000 true exOnlyFirst "t1" "REQ100"
          [("selecionado_nome", JVal.str "Ana")]).2 true "t1" "REQ100"
          (some (JVal.str "ultima"))
      = some (setField exPropostaZeta "cached_at" (JVal.num 1000)) := by
  decide

/-! ## Keys of distinct entities are distinct -/

theorem split_at_colon (l1 l2 x y : List Char) (h1 : ':' ∉ l1) (h2 : ':' ∉ l2)
    (h : l1 ++ ':' :: x = l2 ++ ':' :: y) : l1 = l2 ∧ x = y := by
  induction l1 generalizing l2 with
  | nil =>
    cases l2 with
    | nil => simpa using h
    | cons c l2 =>
      simp only [List.nil_append, List.cons_append, List.cons.injEq] at h
      exact absurd (List.mem_cons_self _ _) (h.1 ▸ h2)
  | cons c l1 ih =>
    cases l2 with
    | nil =>
      simp only [List.nil_append, List.cons_append, List.cons.injEq] at h
      exact absurd (List.mem_cons_self _ _) (h.1 ▸ h1)
    | cons c2 l2 =>
      simp only [List.cons_append, List.cons.injEq] at h
      have := ih l2 (fun hh => h1 (List.mem_cons_of_mem _ hh))
        (fun hh => h2 (List.mem_cons_of_mem _ hh)) h.2
      exact ⟨by rw [h.1, this.1], this.2⟩

theorem no_colon_of_valid (schema : String) (h : sanitizeSchema schema = Except.ok schema) :
    ':' ∉ schema.data := by
  unfold sanitizeSchema at h
  by_cases h1 : schema.isEmpty = true
  · rw [if_pos h1] at h
    exact absurd h (by simp)
  · by_cases h2 : (!(schema.toList.all identChar)) = true
    · rw [if_neg h1, if_pos h2] at h
      exact absurd h (by simp)
    · intro hc
      have hall : schema.toList.all identChar = true := by simpa using h2
      rw [List.all_eq_true] at hall
      have := hall ':' hc
      revert this
      decide

theorem mid_inj (k k2 : KeyKind) (r r2 : String)
    (h : k.mid.data ++ r.data = k2.mid.data ++ r2.data) : k = k2 ∧ r = r2 := by
  cases k <;> cases k2 <;> simp [KeyKind.mid] at h <;>
    exact ⟨rfl, String.ext h⟩

theorem mid_colon (k : KeyKind) : ∃ rest, k.mid.data = ':' :: rest := by
  cases k <;> exact ⟨_, rfl⟩

/-- Keys of entities of sanitised tenants coincide only for the same kind, tenant and id. -/
theorem entityKey_inj (k k2 : KeyKind) (s s2 r r2 : String)
    (hs : sanitizeSchema s = Except.ok s) (hs2 : sanitizeSchema s2 = Except.ok s2)
    (h : entityKey k s r = entityKey k2 s2 r2) : k = k2 ∧ s = s2 ∧ r = r2 := by
  unfold entityKey at h
  have e := congrArg String.data h
  simp only [String.data_append, List.append_assoc, List.append_cancel_left_eq] at e
  obtain ⟨m, hm⟩ := mid_colon k
  obtain ⟨m2, hm2⟩ := mid_colon k2
  have e2 : s.data ++ ':' :: (m ++ r.data) = s2.data ++ ':' :: (m2 ++ r2.data) := by
    have e3 := e
    rw [hm, hm2] at e3
    simpa using e3
  obtain ⟨h1, h2⟩ := split_at_colon _ _ _ _ (no_colon_of_valid s hs) (no_colon_of_valid s2 hs2) e2
  have h3 : k.mid.data ++ r.data = k2.mid.data ++ r2.data := by
    rw [hm, hm2]
    simp [h2]
  obtain ⟨hk, hr⟩ := mid_inj k k2 r r2 h3
  exact ⟨hk, String.ext h1, hr⟩

/-! ## C9: invalidation -/

theorem onZset_of_not_zkey (c : Cmd) (k : String) (z : List ZEntry) (h : k ∉ c.zkeys) :
    c.onZset k z = z := by
  cases c with
  | zadd key score member =>
    have hk : k ≠ key := by simpa [Cmd.zkeys] using h
    simp [Cmd.onZset, hk]
  | zremrangebyscore key lo hi =>
    have hk : k ≠ key := by simpa [Cmd.zkeys] using h
    simp [Cmd.onZset, hk]
  | del keys =>
    have hk : k ∉ keys := by simpa [Cmd.zkeys] using h
    simp [Cmd.onZset, hk]
  | expire key ttl => rfl
  | sadd key member => rfl
  | srem key member => rfl

theorem zsetAfter_untouched (effect : Nat → Bool) (i : Nat) (cmds : List Cmd) (k : String)
    (z : List ZEntry) (h : ∀ c ∈ cmds, k ∉ c.zkeys) : zsetAfter effect i cmds k z = z := by
  induction cmds generalizing i z with
  | nil => rfl
  | cons c cs ih =>
    rw [zsetAfter, onZset_of_not_zkey c k z (h c (List.mem_cons_self _ _)), ih]
    · simp
    · exact fun c2 h2 => h c2 (List.mem_cons_of_mem _ h2)

theorem addVagasCmds_zkeys (now : Int) (fl schema : String) (data : Record) (c : Cmd)
    (hc : c ∈ addHistoricoVagasCmds now fl schema data) (key : String) (hk : key ∈ c.zkeys) :
    ∃ kind, kind ≠ KeyKind.histCand
      ∧ key = entityKey kind schema (jsString (getField data "requisicao")) := by
  simp only [addHistoricoVagasCmds, List.mem_append, List.mem_cons, List.mem_singleton,
    List.not_mem_nil, or_false] at hc
  rcases hc with ((((hc | hc) | hc) | hc) | hc) | hc
  · rcases hc with rfl | rfl
    · simp only [Cmd.zkeys, List.mem_singleton] at hk
      exact ⟨KeyKind.histVagas, by decide, hk⟩
    · simp [Cmd.zkeys] at hk
  · split at hc
    · simp only [List.mem_cons, List.mem_singleton, List.not_mem_nil, or_false] at hc
      rcases hc with rfl | rfl
      · simp only [Cmd.zkeys, List.mem_singleton] at hk
        exact ⟨KeyKind.idxProposta, by decide, hk⟩
      · simp [Cmd.zkeys] at hk
    · simp at hc
  · split at hc
    · simp only [List.mem_cons, List.mem_singleton, List.not_mem_nil, or_false] at hc
      rcases hc with rfl | rfl
      · simp only [Cmd.zkeys, List.mem_singleton] at hk
        exact ⟨KeyKind.idxShortlist, by decide, hk⟩
      · simp [Cmd.zkeys] at hk
    · simp at hc
  · split at hc
    · simp only [List.mem_cons, List.mem_singleton, List.not_mem_nil, or_false] at hc
      rcases hc with rfl | rfl
      · simp only [Cmd.zkeys, List.mem_singleton] at hk
        exact ⟨KeyKind.idxCancelada, by decide, hk⟩
      · simp [Cmd.zkeys] at hk
    · simp at hc
  · split at hc
    · simp only [List.mem_cons, List.mem_singleton, List.not_mem_nil, or_false] at hc
      rcases hc with rfl | rfl
      · simp only [Cmd.zkeys, List.mem_singleton] at hk
        exact ⟨KeyKind.idxFechada, by decide, hk⟩
      · simp [Cmd.zkeys] at hk
    · simp at hc
  · rw [hc] at hk
    simp [Cmd.zkeys] at hk

theorem patchCmds_zkeys (serie idx queue : String) (ts : JVal) (updated : Record)
    (req : String) (c : Cmd) (hc : c ∈ patchCmds serie idx queue ts updated req)
    (key : String) (hk : key ∈ c.zkeys) : key = serie ∨ key = idx := by
  simp only [patchCmds, List.mem_cons, List.mem_singleton, List.not_mem_nil, or_false] at hc
  rcases hc with rfl | rfl | rfl | rfl | rfl <;> simp [Cmd.zkeys] at hk <;> simp [hk]

theorem addCandidatosCmds_zkeys (now : Int) (schema : String) (data : Record) (c : Cmd)
    (hc : c ∈ addHistoricoCandidatosCmds now schema data) (key : String)
    (hk : key ∈ c.zkeys) :
    key = entityKey KeyKind.histCand schema (jsString (getField data "id_candidato")) := by
  simp only [addHistoricoCandidatosCmds, List.mem_cons, List.mem_singleton, List.not_mem_nil,
    or_false] at hc
  rcases hc with rfl | rfl | rfl
  · simpa [Cmd.zkeys] using hk
  · simp [Cmd.zkeys] at hk
  · simp [Cmd.zkeys] at hk

theorem entityKey_inj_of_tenantOk (k k2 : KeyKind) (s s2 r r2 : String)
    (hs : s2 = s ∨ (sanitizeSchema s = Except.ok s ∧ sanitizeSchema s2 = Except.ok s2))
    (h : entityKey k s r = entityKey k2 s2 r2) : k = k2 ∧ s = s2 ∧ r = r2 := by
  rcases hs with rfl | ⟨h1, h2⟩
  · unfold entityKey at h
    have e := congrArg String.data h
    simp only [String.data_append, List.append_assoc, List.append_cancel_left_eq] at e
    obtain ⟨hk, hr⟩ := mid_inj k k2 r r2 e
    exact ⟨hk, rfl, hr⟩
  · exact entityKey_inj k k2 s s2 r r2 h1 h2 h

theorem getPropostaRecente_of_empty (s : Valkey) (readOk : Bool) (schema req : String)
    (ordem : Option JVal) (h : s.zsets (idxProposta schema req) = []) :
    getPropostaRecente s readOk schema req ordem = none := by
  unfold getPropostaRecente
  cases readOk
  · rfl
  · simp [zrevrangeAt, h, zdesc_nil]

theorem getShortlistRecente_of_empty (s : Valkey) (readOk : Bool) (schema req : String)
    (h : s.zsets (idxShortlist schema req) = []) :
    getShortlistRecente s readOk schema req = none := by
  unfold getShortlistRecente
  cases readOk
  · rfl
  · simp [zrevrangeAt, h, zdesc_nil]

theorem execPipeline_untouched (out : ExecOutcome) (cmds : List Cmd) (s : Valkey) (k : String)
    (h : ∀ c ∈ cmds, k ∉ c.zkeys) : (execPipeline out cmds s).zsets k = s.zsets k := by
  unfold execPipeline
  rw [runCmds_zsets, zsetAfter_untouched _ _ _ _ _ h]

theorem delKeys_zsets_of_empty (s : Valkey) (keys : List String) (k : String)
    (h : s.zsets k = []) : ((Cmd.del keys).apply s).zsets k = [] := by
  simp only [Cmd.apply, Valkey.delKeys]
  split
  · rfl
  · exact h

/-- A call that is not an append for the requisition leaves its keys empty. -/
theorem run_keeps_requisicao_empty (op : CacheOp) (s : Valkey) (schema req : String)
    (hop : op.tenantOk schema) (hnot : ¬ op.appendsToRequisicao schema req)
    (hE : RequisicaoEmpty s schema req) : RequisicaoEmpty (op.run s) schema req := by
  intro kind hkind
  have hpatch : ∀ (sc r idxk : String) (k2 : KeyKind) (out : ExecOutcome) (ts : JVal)
      (upd : Record), (sc = schema ∨ (sanitizeSchema schema = Except.ok schema
        ∧ sanitizeSchema sc = Except.ok sc)) →
      ¬ (sc = schema ∧ r = req) → idxk = entityKey k2 sc r →
      (execPipeline out (patchCmds (histVagas sc r) idxk (syncQueue sc) ts upd r) s).zsets
        (entityKey kind schema req) = [] := by
    intro sc r idxk k2 out ts upd hten hdiff hidx
    rw [execPipeline_untouched, hE kind hkind]
    intro c hc hk
    rcases patchCmds_zkeys _ _ _ _ _ _ c hc _ hk with h | h
    · have := entityKey_inj_of_tenantOk kind KeyKind.histVagas schema sc req r hten h
      exact hdiff ⟨this.2.1.symm, this.2.2.symm⟩
    · rw [hidx] at h
      have := entityKey_inj_of_tenantOk kind k2 schema sc req r hten h
      exact hdiff ⟨this.2.1.symm, this.2.2.symm⟩
  cases op with
  | addVagas now hgetOk out sc data =>
    simp only [CacheOp.run, addHistoricoVagas]
    cases funcaoLowerOf (getFuncaoSistemaDoStatus s hgetOk sc (getField data "status")) with
    | none => exact hE kind hkind
    | some fl =>
      simp only
      rw [execPipeline_untouched, hE kind hkind]
      intro c hc hk
      obtain ⟨k2, _, heq⟩ := addVagasCmds_zkeys now fl sc data c hc _ hk
      have := entityKey_inj_of_tenantOk kind k2 schema sc req _ hop heq
      exact hnot ⟨this.2.1.symm, this.2.2.symm⟩
  | addCandidatos now out sc data =>
    simp only [CacheOp.run, addHistoricoCandidatos]
    rw [execPipeline_untouched, hE kind hkind]
    intro c hc hk
    have heq := addCandidatosCmds_zkeys now sc data c hc _ hk
    have := entityKey_inj_of_tenantOk kind KeyKind.histCand schema sc req _ hop heq
    exact hkind this.1
  | patchStatus now1 now2 readOk out sc r valor ordem =>
    simp only [CacheOp.run, updatePropostaStatus]
    by_cases hsame : sc = schema ∧ r = req
    · rw [hsame.1, hsame.2,
        getPropostaRecente_of_empty _ _ _ _ _ (hE KeyKind.idxProposta (by decide))]
      exact hE kind hkind
    · cases getPropostaRecente s readOk sc r ordem with
      | none => exact hE kind hkind
      | some p => exact hpatch sc r _ KeyKind.idxProposta out _ _ hop hsame rfl
  | patchCandidatos now1 now2 readOk out sc r dados =>
    simp only [CacheOp.run, updateDadosCandidatos]
    by_cases hsame : sc = schema ∧ r = req
    · rw [hsame.1, hsame.2,
        getShortlistRecente_of_empty _ _ _ _ (hE KeyKind.idxShortlist (by decide))]
      exact hE kind hkind
    · cases getShortlistRecente s readOk sc r with
      | none => exact hE kind hkind
      | some p => exact hpatch sc r _ KeyKind.idxShortlist out _ _ hop hsame rfl
  | patchSelecionado now1 now2 readOk out sc r dados =>
    simp only [CacheOp.run, updateDadosSelecionado]
    by_cases hsame : sc = schema ∧ r = req
    · rw [hsame.1, hsame.2,
        getPropostaRecente_of_empty _ _ _ _ _ (hE KeyKind.idxProposta (by decide))]
      exact hE kind hkind
    · cases getPropostaRecente s readOk sc r (some (JVal.str "ultima")) with
      | none => exact hE kind hkind
      | some p => exact hpatch sc r _ KeyKind.idxProposta out _ _ hop hsame rfl
  | invalidateRequisicao ok sc r =>
    simp only [CacheOp.run, invalidateCacheForRequisicao]
    cases ok
    · exact hE kind hkind
    · exact delKeys_zsets_of_empty _ _ _ (hE kind hkind)
  | invalidateCandidato ok sc c =>
    simp only [CacheOp.run, invalidateCacheForCandidato]
    cases ok
    · exact hE kind hkind
    · exact delKeys_zsets_of_empty _ _ _ (hE kind hkind)

/-- A call that is not an append for the candidate leaves the candidate's series empty. -/
theorem run_keeps_candidato_empty (op : CacheOp) (s : Valkey) (schema cand : String)
    (hop : op.tenantOk schema) (hnot : ¬ op.appendsToCandidato schema cand)
    (hE : s.zsets (entityKey KeyKind.histCand schema cand) = []) :
    (op.run s).zsets (entityKey KeyKind.histCand schema cand) = [] := by
  have hpatch : ∀ (sc r idxk : String) (k2 : KeyKind) (out : ExecOutcome) (ts : JVal)
      (upd : Record), (sc = schema ∨ (sanitizeSchema schema = Except.ok schema
        ∧ sanitizeSchema sc = Except.ok sc)) →
      k2 ≠ KeyKind.histCand → idxk = entityKey k2 sc r →
      (execPipeline out (patchCmds (histVagas sc r) idxk (syncQueue sc) ts upd r) s).zsets
        (entityKey KeyKind.histCand schema cand) = [] := by
    intro sc r idxk k2 out ts upd hten hk2 hidx
    rw [execPipeline_untouched, hE]
    intro c hc hk
    rcases patchCmds_zkeys _ _ _ _ _ _ c hc _ hk with h | h
    · have := entityKey_inj_of_tenantOk KeyKind.histCand KeyKind.histVagas schema sc cand r
        hten h
      exact absurd this.1 (by decide)
    · rw [hidx] at h
      have := entityKey_inj_of_tenantOk KeyKind.histCand k2 schema sc cand r hten h
      exact hk2 this.1.symm
  cases op with
  | addVagas now hgetOk out sc data =>
    simp only [CacheOp.run, addHistoricoVagas]
    cases funcaoLowerOf (getFuncaoSistemaDoStatus s hgetOk sc (getField data "status")) with
    | none => exact hE
    | some fl =>
      simp only
      rw [execPipeline_untouched, hE]
      intro c hc hk
      obtain ⟨k2, hk2, heq⟩ := addVagasCmds_zkeys now fl sc data c hc _ hk
      have := entityKey_inj_of_tenantOk KeyKind.histCand k2 schema sc cand _ hop heq
      exact hk2 this.1.symm
  | addCandidatos now out sc data =>
    simp only [CacheOp.run, addHistoricoCandidatos]
    rw [execPipeline_untouched, hE]
    intro c hc hk
    have heq := addCandidatosCmds_zkeys now sc data c hc _ hk
    have := entityKey_inj_of_tenantOk KeyKind.histCand KeyKind.histCand schema sc cand _ hop heq
    exact hnot ⟨this.2.1.symm, this.2.2.symm⟩
  | patchStatus now1 now2 readOk out sc r valor ordem =>
    simp only [CacheOp.run, updatePropostaStatus]
    cases getPropostaRecente s readOk sc r ordem with
    | none => exact hE
    | some p => exact hpatch sc r _ KeyKind.idxProposta out _ _ hop (by decide) rfl
  | patchCandidatos now1 now2 readOk out sc r dados =>
    simp only [CacheOp.run, updateDadosCandidatos]
    cases getShortlistRecente s readOk sc r with
    | none => exact hE
    | some p => exact hpatch sc r _ KeyKind.idxShortlist out _ _ hop (by decide) rfl
  | patchSelecionado now1 now2 readOk out sc r dados =>
    simp only [CacheOp.run, updateDadosSelecionado]
    cases getPropostaRecente s readOk sc r (some (JVal.str "ultima")) with
    | none => exact hE
    | some p => exact hpatch sc r _ KeyKind.idxProposta out _ _ hop (by decide) rfl
  | invalidateRequisicao ok sc r =>
    simp only [CacheOp.run, invalidateCacheForRequisicao]
    cases ok
    · exact hE
    · exact delKeys_zsets_of_empty _ _ _ hE
  | invalidateCandidato ok sc c =>
    simp only [CacheOp.run, invalidateCacheForCandidato]
    cases ok
    · exact hE
    · exact delKeys_zsets_of_empty _ _ _ hE

theorem runOps_keeps_requisicao_empty (ops : List CacheOp) (s : Valkey) (schema req : String)
    (hops : ∀ op ∈ ops, op.tenantOk schema ∧ ¬ op.appendsToRequisicao schema req)
    (hE : RequisicaoEmpty s schema req) : RequisicaoEmpty (runOps ops s) schema req := by
  induction ops generalizing s with
  | nil => exact hE
  | cons op ops ih =>
    unfold runOps
    rw [List.foldl_cons]
    apply ih
    · exact fun o ho => hops o (List.mem_cons_of_mem _ ho)
    · exact run_keeps_requisicao_empty op s schema req (hops op (List.mem_cons_self _ _)).1
        (hops op (List.mem_cons_self _ _)).2 hE

theorem runOps_keeps_candidato_empty (ops : List CacheOp) (s : Valkey) (schema cand : String)
    (hops : ∀ op ∈ ops, op.tenantOk schema ∧ ¬ op.appendsToCandidato schema cand)
    (hE : s.zsets (entityKey KeyKind.histCand schema cand) = []) :
    (runOps ops s).zsets (entityKey KeyKind.histCand schema cand) = [] := by
  induction ops generalizing s with
  | nil => exact hE
  | cons op ops ih =>
    unfold runOps
    rw [List.foldl_cons]
    apply ih
    · exact fun o ho => hops o (List.mem_cons_of_mem _ ho)
    · exact run_keeps_candidato_empty op s schema cand (hops op (List.mem_cons_self _ _)).1
        (hops op (List.mem_cons_self _ _)).2 hE

theorem zrangeAll_nil : zrangeAll [] = [] := rfl

/-! ## C9: invalidation and the calls in flight -/

/-- A call that runs to its end without another call in between does to the cache what
    the execution of its batch does. -/
theorem run_eq_batch (op : CacheOp) (s : Valkey) :
    op.run s
      = match op.batch s with
        | none => s
        | some b => execPipeline b.1 b.2 s := by
  cases op with
  | addVagas now hgetOk out schema data =>
    simp only [CacheOp.run, CacheOp.batch, addHistoricoVagas]
    cases funcaoLowerOf (getFuncaoSistemaDoStatus s hgetOk schema (getField data "status")) <;>
      rfl
  | addCandidatos now out schema data => rfl
  | patchStatus now1 now2 readOk out schema requisicao valor ordem =>
    simp only [CacheOp.run, CacheOp.batch, updatePropostaStatus]
    cases getPropostaRecente s readOk schema requisicao ordem <;> rfl
  | patchCandidatos now1 now2 readOk out schema requisicao dados =>
    simp only [CacheOp.run, CacheOp.batch, updateDadosCandidatos]
    cases getShortlistRecente s readOk schema requisicao <;> rfl
  | patchSelecionado now1 now2 readOk out schema requisicao dados =>
    simp only [CacheOp.run, CacheOp.batch, updateDadosSelecionado]
    cases getPropostaRecente s readOk schema requisicao (some (JVal.str "ultima")) <;> rfl
  | invalidateRequisicao ok schema requisicao =>
    cases ok <;> rfl
  | invalidateCandidato ok schema candidatoId =>
    cases ok <;> rfl

/-- Calls that run one after the other are the events `start`, `send` of each in turn. -/
theorem sequentialEvents_eq_runOps (ops : List CacheOp) (s : Valkey) :
    (sequentialEvents ops).foldl CacheServer.step { cache := s, pending := [] }
      = { cache := runOps ops s, pending := [] } := by
  induction ops generalizing s with
  | nil => rfl
  | cons op ops ih =>
    have hstep : ([CallEvent.start op, CallEvent.send 0]).foldl CacheServer.step
        { cache := s, pending := [] } = { cache := op.run s, pending := [] } := by
      rw [run_eq_batch]
      simp only [List.foldl_cons, List.foldl_nil, CacheServer.step]
      cases op.batch s <;> rfl
    simp only [List.foldl_cons, List.foldl_nil] at hstep
    simp only [sequentialEvents, List.foldl_cons]
    rw [hstep]
    exact ih (op.run s)

theorem mem_zkeys_of_addsTo (c : Cmd) (k : String) (h : c.addsTo k) : k ∈ c.zkeys := by
  cases c <;> simp [Cmd.addsTo, Cmd.zkeys] at h ⊢
  exact h.symm

/-- A command that is no `ZADD` to the key leaves an empty sorted set empty. -/
theorem onZset_empty (c : Cmd) (k : String) (h : ¬ c.addsTo k) : c.onZset k [] = [] := by
  cases c with
  | zadd key score member =>
    have hk : k ≠ key := fun e => h e.symm
    simp [Cmd.onZset, hk]
  | zremrangebyscore key lo hi =>
    simp only [Cmd.onZset]
    split
    · split <;> simp [zremEntries]
    · rfl
  | del keys => simp [Cmd.onZset]
  | expire key ttl => rfl
  | sadd key member => rfl
  | srem key member => rfl

theorem zsetAfter_empty (effect : Nat → Bool) (i : Nat) (cmds : List Cmd) (k : String)
    (h : ∀ c ∈ cmds, ¬ c.addsTo k) : zsetAfter effect i cmds k [] = [] := by
  induction cmds generalizing i with
  | nil => rfl
  | cons c cs ih =>
    rw [zsetAfter, onZset_empty c k (h c (List.mem_cons_self _ _))]
    simp only [ite_self]
    exact ih _ (fun c2 h2 => h c2 (List.mem_cons_of_mem _ h2))

/-- A batch without a `ZADD` to the key leaves an empty sorted set empty, whatever the
    outcome of its commands. -/
theorem execPipeline_empty (out : ExecOutcome) (cmds : List Cmd) (s : Valkey) (k : String)
    (h : ∀ c ∈ cmds, ¬ c.addsTo k) (hE : s.zsets k = []) :
    (execPipeline out cmds s).zsets k = [] := by
  unfold execPipeline
  rw [runCmds_zsets, hE]
  exact zsetAfter_empty _ _ _ _ h

/-- The batch of a call that is not an append for the requisition, built from a cache
    in which the requisition has no record, has no `ZADD` to a key of the requisition. -/
theorem batch_adds_nothing_to_requisicao (op : CacheOp) (s : Valkey) (schema req : String)
    (hop : op.tenantOk schema) (hnot : ¬ op.appendsToRequisicao schema req)
    (hE : RequisicaoEmpty s schema req) (b : ExecOutcome × List Cmd)
    (hb : op.batch s = some b) (kind : KeyKind) (hkind : kind ≠ KeyKind.histCand) :
    ∀ c ∈ b.2, ¬ c.addsTo (entityKey kind schema req) := by
  have hpatch : ∀ (sc r idxk : String) (k2 : KeyKind) (ts : JVal) (upd : Record),
      (sc = schema ∨ (sanitizeSchema schema = Except.ok schema
        ∧ sanitizeSchema sc = Except.ok sc)) →
      ¬ (sc = schema ∧ r = req) → idxk = entityKey k2 sc r →
      ∀ c ∈ patchCmds (histVagas sc r) idxk (syncQueue sc) ts upd r,
        ¬ c.addsTo (entityKey kind schema req) := by
    intro sc r idxk k2 ts upd hten hdiff hidx c hc hadd
    rcases patchCmds_zkeys _ _ _ _ _ _ c hc _ (mem_zkeys_of_addsTo c _ hadd) with h | h
    · have := entityKey_inj_of_tenantOk kind KeyKind.histVagas schema sc req r hten h
      exact hdiff ⟨this.2.1.symm, this.2.2.symm⟩
    · rw [hidx] at h
      have := entityKey_inj_of_tenantOk kind k2 schema sc req r hten h
      exact hdiff ⟨this.2.1.symm, this.2.2.symm⟩
  cases op with
  | addVagas now hgetOk out sc data =>
    simp only [CacheOp.batch] at hb
    cases hfl : funcaoLowerOf (getFuncaoSistemaDoStatus s hgetOk sc (getField data "status")) with
    | none => rw [hfl] at hb; cases hb
    | some fl =>
      rw [hfl] at hb
      cases hb
      intro c hc hadd
      obtain ⟨k2, _, heq⟩ := addVagasCmds_zkeys now fl sc data c hc _
        (mem_zkeys_of_addsTo c _ hadd)
      have := entityKey_inj_of_tenantOk kind k2 schema sc req _ hop heq
      exact hnot ⟨this.2.1.symm, this.2.2.symm⟩
  | addCandidatos now out sc data =>
    simp only [CacheOp.batch] at hb
    cases hb
    intro c hc hadd
    have heq := addCandidatosCmds_zkeys now sc data c hc _ (mem_zkeys_of_addsTo c _ hadd)
    have := entityKey_inj_of_tenantOk kind KeyKind.histCand schema sc req _ hop heq
    exact hkind this.1
  | patchStatus now1 now2 readOk out sc r valor ordem =>
    simp only [CacheOp.batch] at hb
    by_cases hsame : sc = schema ∧ r = req
    · rw [hsame.1, hsame.2,
        getPropostaRecente_of_empty _ _ _ _ _ (hE KeyKind.idxProposta (by decide))] at hb
      cases hb
    · cases hp : getPropostaRecente s readOk sc r ordem with
      | none => rw [hp] at hb; cases hb
      | some p =>
        rw [hp] at hb
        cases hb
        exact hpatch sc r _ KeyKind.idxProposta _ _ hop hsame rfl
  | patchCandidatos now1 now2 readOk out sc r dados =>
    simp only [CacheOp.batch] at hb
    by_cases hsame : sc = schema ∧ r = req
    · rw [hsame.1, hsame.2,
        getShortlistRecente_of_empty _ _ _ _ (hE KeyKind.idxShortlist (by decide))] at hb
      cases hb
    · cases hp : getShortlistRecente s readOk sc r with
      | none => rw [hp] at hb; cases hb
      | some p =>
        rw [hp] at hb
        cases hb
        exact hpatch sc r _ KeyKind.idxShortlist _ _ hop hsame rfl
  | patchSelecionado now1 now2 readOk out sc r dados =>
    simp only [CacheOp.batch] at hb
    by_cases hsame : sc = schema ∧ r = req
    · rw [hsame.1, hsame.2,
        getPropostaRecente_of_empty _ _ _ _ _ (hE KeyKind.idxProposta (by decide))] at hb
      cases hb
    · cases hp : getPropostaRecente s readOk sc r (some (JVal.str "ultima")) with
      | none => rw [hp] at hb; cases hb
      | some p =>
        rw [hp] at hb
        cases hb
        exact hpatch sc r _ KeyKind.idxProposta _ _ hop hsame rfl
  | invalidateRequisicao ok sc r =>
    cases ok
    · simp [CacheOp.batch] at hb
    · simp only [CacheOp.batch, if_true, Option.some.injEq] at hb
      subst hb
      intro c hc hadd
      simp only [List.mem_singleton] at hc
      subst hc
      exact hadd
  | invalidateCandidato ok sc cand =>
    cases ok
    · simp [CacheOp.batch] at hb
    · simp only [CacheOp.batch, if_true, Option.some.injEq] at hb
      subst hb
      intro c hc hadd
      simp only [List.mem_singleton] at hc
      subst hc
      exact hadd

/-- The batch of a call that is not an append for the candidate has no `ZADD` to the
    series of the candidate. -/
theorem batch_adds_nothing_to_candidato (op : CacheOp) (s : Valkey) (schema cand : String)
    (hop : op.tenantOk schema) (hnot : ¬ op.appendsToCandidato schema cand)
    (b : ExecOutcome × List Cmd) (hb : op.batch s = some b) :
    ∀ c ∈ b.2, ¬ c.addsTo (entityKey KeyKind.histCand schema cand) := by
  have hpatch : ∀ (sc r idxk : String) (k2 : KeyKind) (ts : JVal) (upd : Record),
      (sc = schema ∨ (sanitizeSchema schema = Except.ok schema
        ∧ sanitizeSchema sc = Except.ok sc)) →
      k2 ≠ KeyKind.histCand → idxk = entityKey k2 sc r →
      ∀ c ∈ patchCmds (histVagas sc r) idxk (syncQueue sc) ts upd r,
        ¬ c.addsTo (entityKey KeyKind.histCand schema cand) := by
    intro sc r idxk k2 ts upd hten hk2 hidx c hc hadd
    rcases patchCmds_zkeys _ _ _ _ _ _ c hc _ (mem_zkeys_of_addsTo c _ hadd) with h | h
    · have := entityKey_inj_of_tenantOk KeyKind.histCand KeyKind.histVagas schema sc cand r
        hten h
      exact absurd this.1 (by decide)
    · rw [hidx] at h
      have := entityKey_inj_of_tenantOk KeyKind.histCand k2 schema sc cand r hten h
      exact hk2 this.1.symm
  cases op with
  | addVagas now hgetOk out sc data =>
    simp only [CacheOp.batch] at hb
    cases hfl : funcaoLowerOf (getFuncaoSistemaDoStatus s hgetOk sc (getField data "status")) with
    | none => rw [hfl] at hb; cases hb
    | some fl =>
      rw [hfl] at hb
      cases hb
      intro c hc hadd
      obtain ⟨k2, hk2, heq⟩ := addVagasCmds_zkeys now fl sc data c hc _
        (mem_zkeys_of_addsTo c _ hadd)
      have := entityKey_inj_of_tenantOk KeyKind.histCand k2 schema sc cand _ hop heq
      exact hk2 this.1.symm
  | addCandidatos now out sc data =>
    simp only [CacheOp.batch] at hb
    cases hb
    intro c hc hadd
    have heq := addCandidatosCmds_zkeys now sc data c hc _ (mem_zkeys_of_addsTo c _ hadd)
    have := entityKey_inj_of_tenantOk KeyKind.histCand KeyKind.histCand schema sc cand _ hop heq
    exact hnot ⟨this.2.1.symm, this.2.2.symm⟩
  | patchStatus now1 now2 readOk out sc r valor ordem =>
    simp only [CacheOp.batch] at hb
    cases hp : getPropostaRecente s readOk sc r ordem with
    | none => rw [hp] at hb; cases hb
    | some p =>
      rw [hp] at hb
      cases hb
      exact hpatch sc r _ KeyKind.idxProposta _ _ hop (by decide) rfl
  | patchCandidatos now1 now2 readOk out sc r dados =>
    simp only [CacheOp.batch] at hb
    cases hp : getShortlistRecente s readOk sc r with
    | none => rw [hp] at hb; cases hb
    | some p =>
      rw [hp] at hb
      cases hb
      exact hpatch sc r _ KeyKind.idxShortlist _ _ hop (by decide) rfl
  | patchSelecionado now1 now2 readOk out sc r dados =>
    simp only [CacheOp.batch] at hb
    cases hp : getPropostaRecente s readOk sc r (some (JVal.str "ultima")) with
    | none => rw [hp] at hb; cases hb
    | some p =>
      rw [hp] at hb
      cases hb
      exact hpatch sc r _ KeyKind.idxProposta _ _ hop (by decide) rfl
  | invalidateRequisicao ok sc r =>
    cases ok
    · simp [CacheOp.batch] at hb
    · simp only [CacheOp.batch, if_true, Option.some.injEq] at hb
      subst hb
      intro c hc hadd
      simp only [List.mem_singleton] at hc
      subst hc
      exact hadd
  | invalidateCandidato ok sc cand2 =>
    cases ok
    · simp [CacheOp.batch] at hb
    · simp only [CacheOp.batch, if_true, Option.some.injEq] at hb
      subst hb
      intro c hc hadd
      simp only [List.mem_singleton] at hc
      subst hc
      exact hadd

/-- One event keeps the keys of an invalidated requisition empty, and the pending batches
    free of a `ZADD` to them, unless it starts an append for the requisition. -/
theorem step_keeps_requisicao_empty (l : CacheServer) (ev : CallEvent) (schema req : String)
    (hev : ∀ op, ev = CallEvent.start op →
      op.tenantOk schema ∧ ¬ op.appendsToRequisicao schema req)
    (hE : RequisicaoEmpty l.cache schema req)
    (hP : ∀ b ∈ l.pending, ∀ c ∈ b.2, ∀ kind, kind ≠ KeyKind.histCand →
      ¬ c.addsTo (entityKey kind schema req)) :
    RequisicaoEmpty (l.step ev).cache schema req
    ∧ ∀ b ∈ (l.step ev).pending, ∀ c ∈ b.2, ∀ kind, kind ≠ KeyKind.histCand →
      ¬ c.addsTo (entityKey kind schema req) := by
  cases ev with
  | start op =>
    obtain ⟨hop, hnot⟩ := hev op rfl
    simp only [CacheServer.step]
    cases hb : op.batch l.cache with
    | none => exact ⟨hE, hP⟩
    | some b =>
      refine ⟨hE, ?_⟩
      intro b2 hb2 c hc kind hkind
      rcases List.mem_append.mp hb2 with h | h
      · exact hP b2 h c hc kind hkind
      · rw [List.mem_singleton] at h
        subst h
        exact batch_adds_nothing_to_requisicao op l.cache schema req hop hnot hE b2 hb kind
          hkind c hc
  | send i =>
    simp only [CacheServer.step]
    cases hg : l.pending.get? i with
    | none => exact ⟨hE, hP⟩
    | some b =>
      have hmem : b ∈ l.pending := List.get?_mem hg
      refine ⟨?_, ?_⟩
      · intro kind hkind
        exact execPipeline_empty b.1 b.2 l.cache _
          (fun c hc => hP b hmem c hc kind hkind) (hE kind hkind)
      · intro b2 hb2 c hc kind hkind
        exact hP b2 (List.mem_of_mem_eraseIdx hb2) c hc kind hkind

theorem events_keep_requisicao_empty (evs : List CallEvent) (l : CacheServer)
    (schema req : String)
    (hev : ∀ op, CallEvent.start op ∈ evs →
      op.tenantOk schema ∧ ¬ op.appendsToRequisicao schema req)
    (hE : RequisicaoEmpty l.cache schema req)
    (hP : ∀ b ∈ l.pending, ∀ c ∈ b.2, ∀ kind, kind ≠ KeyKind.histCand →
      ¬ c.addsTo (entityKey kind schema req)) :
    RequisicaoEmpty (evs.foldl CacheServer.step l).cache schema req := by
  induction evs generalizing l with
  | nil => exact hE
  | cons ev evs ih =>
    rw [List.foldl_cons]
    have h := step_keeps_requisicao_empty l ev schema req
      (fun op hop => hev op (by rw [hop]; exact List.mem_cons_self _ _)) hE hP
    exact ih _ (fun op hop => hev op (List.mem_cons_of_mem _ hop)) h.1 h.2

/-- One event keeps the series of an invalidated candidate empty, and the pending batches
    free of a `ZADD` to it, unless it starts an append for the candidate. -/
theorem step_keeps_candidato_empty (l : CacheServer) (ev : CallEvent) (schema cand : String)
    (hev : ∀ op, ev = CallEvent.start op →
      op.tenantOk schema ∧ ¬ op.appendsToCandidato schema cand)
    (hE : l.cache.zsets (entityKey KeyKind.histCand schema cand) = [])
    (hP : ∀ b ∈ l.pending, ∀ c ∈ b.2,
      ¬ c.addsTo (entityKey KeyKind.histCand schema cand)) :
    (l.step ev).cache.zsets (entityKey KeyKind.histCand schema cand) = []
    ∧ ∀ b ∈ (l.step ev).pending, ∀ c ∈ b.2,
      ¬ c.addsTo (entityKey KeyKind.histCand schema cand) := by
  cases ev with
  | start op =>
    obtain ⟨hop, hnot⟩ := hev op rfl
    simp only [CacheServer.step]
    cases hb : op.batch l.cache with
    | none => exact ⟨hE, hP⟩
    | some b =>
      refine ⟨hE, ?_⟩
      intro b2 hb2 c hc
      rcases List.mem_append.mp hb2 with h | h
      · exact hP b2 h c hc
      · rw [List.mem_singleton] at h
        subst h
        exact batch_adds_nothing_to_candidato op l.cache schema cand hop hnot b2 hb c hc
  | send i =>
    simp only [CacheServer.step]
    cases hg : l.pending.get? i with
    | none => exact ⟨hE, hP⟩
    | some b =>
      have hmem : b ∈ l.pending := List.get?_mem hg
      refine ⟨?_, ?_⟩
      · exact execPipeline_empty b.1 b.2 l.cache _ (fun c hc => hP b hmem c hc) hE
      · intro b2 hb2 c hc
        exact hP b2 (List.mem_of_mem_eraseIdx hb2) c hc

theorem events_keep_candidato_empty (evs : List CallEvent) (l : CacheServer)
    (schema cand : String)
    (hev : ∀ op, CallEvent.start op ∈ evs →
      op.tenantOk schema ∧ ¬ op.appendsToCandidato schema cand)
    (hE : l.cache.zsets (entityKey KeyKind.histCand schema cand) = [])
    (hP : ∀ b ∈ l.pending, ∀ c ∈ b.2,
      ¬ c.addsTo (entityKey KeyKind.histCand schema cand)) :
    (evs.foldl CacheServer.step l).cache.zsets (entityKey KeyKind.histCand schema cand)
      = [] := by
  induction evs generalizing l with
  | nil => exact hE
  | cons ev evs ih =>
    rw [List.foldl_cons]
    have h := step_keeps_candidato_empty l ev schema cand
      (fun op hop => hev op (by rw [hop]; exact List.mem_cons_self _ _)) hE hP
    exact ih _ (fun op hop => hev op (List.mem_cons_of_mem _ hop)) h.1 h.2

/-- C9 (amended). After `invalidateCacheForRequisicao` returned true, if no batch with a
    `ZADD` to a key of the requisition is pending at that moment (no patch or append of
    the requisition has read the cache and not yet run its batch), then through every
    sequence of events of later calls (reads of calls, executions of batches, in any
    order) among which no append for that requisition starts, the series reads as `[]`,
    `getPropostaRecente` (every `ordem`) and `getShortlistRecente` return null and the
    cancelada and fechada indices hold nothing; likewise the candidate series after
    `invalidateCacheForCandidato` returned true. The tenant of every call is the tenant
    of the invalidation or both names pass `sanitizeSchema`. Calls that run one after the
    other, each batch executed right after it was built, are the special case of the
    events in which the cache goes through the results of the calls. -/
theorem C9_invalidation (s : Valkey) (ok ok2 readOk : Bool) (schema requisicao : String)
    (schema2 candidatoId : String) (ordem : Option JVal)
    (pending pending2 : List (ExecOutcome × List Cmd)) (evs evs2 : List CallEvent)
    (hret : (invalidateCacheForRequisicao s ok schema requisicao).1 = true)
    (hpend : ∀ b ∈ pending, ∀ c ∈ b.2, ∀ kind, kind ≠ KeyKind.histCand →
      ¬ c.addsTo (entityKey kind schema requisicao))
    (hevs : ∀ op, CallEvent.start op ∈ evs →
      op.tenantOk schema ∧ ¬ op.appendsToRequisicao schema requisicao)
    (hret2 : (invalidateCacheForCandidato s ok2 schema2 candidatoId).1 = true)
    (hpend2 : ∀ b ∈ pending2, ∀ c ∈ b.2,
      ¬ c.addsTo (entityKey KeyKind.histCand schema2 candidatoId))
    (hevs2 : ∀ op, CallEvent.start op ∈ evs2 →
      op.tenantOk schema2 ∧ ¬ op.appendsToCandidato schema2 candidatoId) :
    getHistoricoVagas
        (evs.foldl CacheServer.step
          { cache := (invalidateCacheForRequisicao s ok schema requisicao).2,
            pending := pending }).cache
        readOk schema requisicao = []
    ∧ getPropostaRecente
        (evs.foldl CacheServer.step
          { cache := (invalidateCacheForRequisicao s ok schema requisicao).2,
            pending := pending }).cache
        readOk schema requisicao ordem = none
    ∧ getShortlistRecente
        (evs.foldl CacheServer.step
          { cache := (invalidateCacheForRequisicao s ok schema requisicao).2,
            pending := pending }).cache
        readOk schema requisicao = none
    ∧ (evs.foldl CacheServer.step
          { cache := (invalidateCacheForRequisicao s ok schema requisicao).2,
            pending := pending }).cache.zsets (idxCancelada schema requisicao) = []
    ∧ (evs.foldl CacheServer.step
          { cache := (invalidateCacheForRequisicao s ok schema requisicao).2,
            pending := pending }).cache.zsets (idxFechada schema requisicao) = []
    ∧ getHistoricoCandidatos
        (evs2.foldl CacheServer.step
          { cache := (invalidateCacheForCandidato s ok2 schema2 candidatoId).2,
            pending := pending2 }).cache
        readOk schema2 candidatoId = []
    ∧ (∀ (ops : List CacheOp) (s0 : Valkey),
        (sequentialEvents ops).foldl CacheServer.step { cache := s0, pending := [] }
          = { cache := runOps ops s0, pending := [] }) := by
  have hok : ok = true := by
    cases ok
    · simp [invalidateCacheForRequisicao] at hret
    · rfl
  have hok2 : ok2 = true := by
    cases ok2
    · simp [invalidateCacheForCandidato] at hret2
    · rfl
  subst hok
  subst hok2
  have h0 : RequisicaoEmpty (invalidateCacheForRequisicao s true schema requisicao).2 schema
      requisicao := by
    intro kind hkind
    cases kind <;>
      first
        | exact absurd rfl hkind
        | simp [invalidateCacheForRequisicao, Cmd.apply, Valkey.delKeys, entityKey, KeyKind.mid,
            histVagas, idxProposta, idxShortlist, idxCancelada, idxFechada]
  have hE := events_keep_requisicao_empty evs
    { cache := (invalidateCacheForRequisicao s true schema requisicao).2, pending := pending }
    schema requisicao hevs h0 hpend
  have h1 : (invalidateCacheForCandidato s true schema2 candidatoId).2.zsets
      (entityKey KeyKind.histCand schema2 candidatoId) = [] := by
    simp [invalidateCacheForCandidato, Cmd.apply, Valkey.delKeys, entityKey, KeyKind.mid,
      histCandidatos]
  have hC := events_keep_candidato_empty evs2
    { cache := (invalidateCacheForCandidato s true schema2 candidatoId).2, pending := pending2 }
    schema2 candidatoId hevs2 h1 hpend2
  refine ⟨?_, ?_, ?_, ?_, ?_, ?_, fun ops s0 => sequentialEvents_eq_runOps ops s0⟩
  · have := hE KeyKind.histVagas (by decide)
    unfold getHistoricoVagas
    cases readOk
    · rfl
    · show zrangeAll (Valkey.zsets _ (entityKey KeyKind.histVagas schema requisicao)) = []
      rw [this]
      rfl
  · exact getPropostaRecente_of_empty _ _ _ _ _ (hE KeyKind.idxProposta (by decide))
  · exact getShortlistRecente_of_empty _ _ _ _ (hE KeyKind.idxShortlist (by decide))
  · exact hE KeyKind.idxCancelada (by decide)
  · exact hE KeyKind.idxFechada (by decide)
  · unfold getHistoricoCandidatos
    cases readOk
    · rfl
    · show zrangeAll (Valkey.zsets _ (entityKey KeyKind.histCand schema2 candidatoId)) = []
      rw [hC]
      rfl

/-- Witness of C9 (amended): tenant `t1` with cached history for `REQ100` and candidate
    `C7`; no batch is pending when the invalidations return; they are followed by a patch
    of `REQ100` and by appends for other entities whose batches are executed out of
    order; and the same calls run one after the other. -/
theorem C9_invalidation_witness :
    getHistoricoVagas exBoth true "t1" "REQ100" ≠ []
    ∧ getHistoricoVagas
        (exEventsAfterInvalidate.foldl CacheServer.step
          { cache := (invalidateCacheForRequisicao exBoth true "t1" "REQ100").2,
            pending := [] }).cache
        true "t1" "REQ100" = []
    ∧ getPropostaRecente
        (exEventsAfterInvalidate.foldl CacheServer.step
          { cache := (invalidateCacheForRequisicao exBoth true "t1" "REQ100").2,
            pending := [] }).cache
        true "t1" "REQ100" (some (JVal.str "penultima")) = none
    ∧ getShortlistRecente
        (exEventsAfterInvalidate.foldl CacheServer.step
          { cache := (invalidateCacheForRequisicao exBoth true "t1" "REQ100").2,
            pending := [] }).cache
        true "t1" "REQ100" = none
    ∧ (exEventsAfterInvalidate.foldl CacheServer.step
          { cache := (invalidateCacheForRequisicao exBoth true "t1" "REQ100").2,
            pending := [] }).cache.zsets (idxCancelada "t1" "REQ100") = []
    ∧ (exEventsAfterInvalidate.foldl CacheServer.step
          { cache := (invalidateCacheForRequisicao exBoth true "t1" "REQ100").2,
            pending := [] }).cache.zsets (idxFechada "t1" "REQ100") = []
    ∧ getHistoricoCandidatos
        (exEventsAfterInvalidateCandidato.foldl CacheServer.step
          { cache := (invalidateCacheForCandidato exBoth true "t1" "C7").2,
            pending := [] }).cache
        true "t1" "C7" = []
    ∧ (sequentialEvents exOpsAfterInvalidate).foldl CacheServer.step
          { cache := exBoth, pending := [] }
      = { cache := runOps exOpsAfterInvalidate exBoth, pending := [] } :=
  have h := C9_invalidation exBoth true true true "t1" "REQ100" "t1" "C7"
    (some (JVal.str "penultima")) [] [] exEventsAfterInvalidate
    exEventsAfterInvalidateCandidato rfl
    (by intro b hb; exact absurd hb (List.not_mem_nil _))
    (by
      intro op hop
      simp only [exEventsAfterInvalidate, List.mem_cons, List.mem_singleton, List.not_mem_nil,
        or_false, CallEvent.start.injEq, reduceCtorEq, false_or] at hop
      rcases hop with rfl | rfl | rfl
      · exact ⟨Or.inl rfl, fun h => h⟩
      · exact ⟨Or.inl rfl, fun h => absurd h.2 (by decide)⟩
      · exact ⟨Or.inl rfl, fun h => h⟩)
    rfl
    (by intro b hb; exact absurd hb (List.not_mem_nil _))
    (by
      intro op hop
      simp only [exEventsAfterInvalidateCandidato, exOpsAfterInvalidateCandidato,
        sequentialEvents, List.mem_cons, List.mem_singleton, List.not_mem_nil,
        or_false, CallEvent.start.injEq, reduceCtorEq, false_or] at hop
      rcases hop with rfl | rfl
      · exact ⟨Or.inl rfl, fun h => h⟩
      · exact ⟨Or.inl rfl, fun h => absurd h.2 (by decide)⟩)
  ⟨by decide, h.1, h.2.1, h.2.2.1, h.2.2.2.1, h.2.2.2.2.1, h.2.2.2.2.2.1,
    h.2.2.2.2.2.2 exOpsAfterInvalidate exBoth⟩

/-- C9 (as stated) fails. `REQ100` of tenant `t1` has one proposal. A call of
    `updateDadosSelecionado` reads it and builds its batch; before the batch is executed,
    `invalidateCacheForRequisicao` runs to its end and returns true, and the series and
    the proposal index read as empty; then the batch of the patch is executed. No append
    was made, and `getHistoricoVagas` and `getPropostaRecente` return the merged record
    again. -/
theorem C9_patch_in_flight_recreates_series :
    (invalidateCacheForRequisicao exAfterZeta true "t1" "REQ100").1 = true
    ∧ getHistoricoVagas
        ((exPatchAcrossInvalidation.take 3).foldl CacheServer.step
          { cache := exAfterZeta, pending := [] }).cache true "t1" "REQ100" = []
    ∧ getPropostaRecente
        ((exPatchAcrossInvalidation.take 3).foldl CacheServer.step
          { cache := exAfterZeta, pending := [] }).cache true "t1" "REQ100" none = none
    ∧ getHistoricoVagas
        (exPatchAcrossInvalidation.foldl CacheServer.step
          { cache := exAfterZeta, pending := [] }).cache true "t1" "REQ100"
      = [[("requisicao", JVal.str "REQ100"), ("status", JVal.str "PROPOSTA"),
          ("alterado_por", JVal.str "zeta"), ("cached_at", JVal.num 1000),
          ("selecionado_nome", JVal.str "Ana"), ("updated_at", JVal.num 1501)]]
    ∧ getPropostaRecente
        (exPatchAcrossInvalidation.foldl CacheServer.step
          { cache := exAfterZeta, pending := [] }).cache true "t1" "REQ100" none
      = some [("requisicao", JVal.str "REQ100"), ("status", JVal.str "PROPOSTA"),
          ("alterado_por", JVal.str "zeta"), ("cached_at", JVal.num 1000),
          ("selecionado_nome", JVal.str "Ana"), ("updated_at", JVal.num 1501)] := by
  decide

/-! ## C4: ordinal retrieval -/

theorem onZset_stamped (c : Cmd) (k : String) (z : List ZEntry) (hc : c.stamped)
    (hz : ScoreIsCachedAt z) : ScoreIsCachedAt (c.onZset k z) := by
  cases c with
  | zadd key score member =>
    simp only [Cmd.onZset]
    split
    · cases hsc : scoreOf score with
      | none => exact hz
      | some sc =>
        simp only
        intro e he
        rw [mem_zaddEntries] at he
        rcases he with rfl | ⟨he, _⟩
        · exact hc sc hsc
        · exact hz e he
    · exact hz
  | zremrangebyscore key lo hi =>
    simp only [Cmd.onZset]
    split
    · cases scoreOf lo with
      | none => exact hz
      | some a =>
        cases scoreOf hi with
        | none => exact hz
        | some b =>
          simp only
          intro e he
          exact hz e ((mem_zremEntries _ _ _ _).mp he).1
    · exact hz
  | del keys =>
    simp only [Cmd.onZset]
    split
    · intro e he
      exact absurd he (List.not_mem_nil _)
    · exact hz
  | expire key ttl => exact hz
  | sadd key member => exact hz
  | srem key member => exact hz

theorem zsetAfter_stamped (effect : Nat → Bool) (i : Nat) (cmds : List Cmd) (k : String)
    (z : List ZEntry) (hc : ∀ c ∈ cmds, c.stamped) (hz : ScoreIsCachedAt z) :
    ScoreIsCachedAt (zsetAfter effect i cmds k z) := by
  induction cmds generalizing i z with
  | nil => exact hz
  | cons c cs ih =>
    rw [zsetAfter]
    apply ih _ _ (fun c2 h2 => hc c2 (List.mem_cons_of_mem _ h2))
    cases effect i
    · exact hz
    · exact onZset_stamped c k z (hc c (List.mem_cons_self _ _)) hz

theorem execPipeline_stamped (out : ExecOutcome) (cmds : List Cmd) (s : Valkey)
    (hc : ∀ c ∈ cmds, c.stamped) (hs : ∀ k, ScoreIsCachedAt (s.zsets k)) (k : String) :
    ScoreIsCachedAt ((execPipeline out cmds s).zsets k) := by
  unfold execPipeline
  rw [runCmds_zsets]
  exact zsetAfter_stamped _ _ _ _ _ hc (hs k)

theorem addVagasCmds_stamped (now : Int) (fl schema : String) (data : Record) (h : 0 < now) :
    ∀ c ∈ addHistoricoVagasCmds now fl schema data, c.stamped := by
  intro c hc
  have hz : ∀ key, (Cmd.zadd key (JVal.num now) (setField data "cached_at"
      (JVal.num now))).stamped := by
    intro key sc hsc
    simp only [scoreOf, Option.some.injEq] at hsc
    subst hsc
    exact ⟨by rw [getField_setField, if_pos rfl], ne_of_gt h⟩
  simp only [addHistoricoVagasCmds, List.mem_append, List.mem_cons, List.mem_singleton,
    List.not_mem_nil, or_false] at hc
  rcases hc with ((((hc | hc) | hc) | hc) | hc) | hc
  · rcases hc with rfl | rfl
    · exact hz _
    · trivial
  · split at hc
    · simp only [List.mem_cons, List.mem_singleton, List.not_mem_nil, or_false] at hc
      rcases hc with rfl | rfl
      · exact hz _
      · trivial
    · simp at hc
  · split at hc
    · simp only [List.mem_cons, List.mem_singleton, List.not_mem_nil, or_false] at hc
      rcases hc with rfl | rfl
      · exact hz _
      · trivial
    · simp at hc
  · split at hc
    · simp only [List.mem_cons, List.mem_singleton, List.not_mem_nil, or_false] at hc
      rcases hc with rfl | rfl
      · exact hz _
      · trivial
    · simp at hc
  · split at hc
    · simp only [List.mem_cons, List.mem_singleton, List.not_mem_nil, or_false] at hc
      rcases hc with rfl | rfl
      · exact hz _
      · trivial
    · simp at hc
  · rw [hc]
    trivial

theorem addCandidatosCmds_stamped (now : Int) (schema : String) (data : Record) (h : 0 < now) :
    ∀ c ∈ addHistoricoCandidatosCmds now schema data, c.stamped := by
  intro c hc
  simp only [addHistoricoCandidatosCmds, List.mem_cons, List.mem_singleton, List.not_mem_nil,
    or_false] at hc
  rcases hc with rfl | rfl | rfl
  · intro sc hsc
    simp only [scoreOf, Option.some.injEq] at hsc
    subst hsc
    exact ⟨by rw [getField_setField, if_pos rfl], ne_of_gt h⟩
  · trivial
  · trivial

theorem patchCmds_stamped (serie idx queue req : String) (r updated : Record) (now1 : Int)
    (z : List ZEntry) (hz : ScoreIsCachedAt z) (hr : ∃ e ∈ z, e.2 = r)
    (hu : getField updated "cached_at" = getField r "cached_at") :
    ∀ c ∈ patchCmds serie idx queue (patchTimestamp r now1) updated req, c.stamped := by
  obtain ⟨e, he, her⟩ := hr
  have h1 := hz e he
  rw [her] at h1
  have hts : patchTimestamp r now1 = JVal.num e.1 :=
    patchTimestamp_of_cached_at r now1 e.1 h1.1 h1.2
  intro c hc
  simp only [patchCmds, List.mem_cons, List.mem_singleton, List.not_mem_nil, or_false] at hc
  have hadd : ∀ key, (Cmd.zadd key (patchTimestamp r now1) updated).stamped := by
    intro key sc hsc
    rw [hts] at hsc
    simp only [scoreOf, Option.some.injEq] at hsc
    subst hsc
    exact ⟨hu.trans h1.1, h1.2⟩
  rcases hc with rfl | rfl | rfl | rfl | rfl
  · trivial
  · trivial
  · exact hadd _
  · exact hadd _
  · trivial

theorem mem_of_zrevrangeAt (z : List ZEntry) (off : Nat) (r : Record)
    (h : (zrevrangeAt z off).head? = some r) : ∃ e ∈ z, e.2 = r := by
  obtain ⟨e, he, her, _⟩ := head_drop_mem (zdesc z) off r h
  exact ⟨e, (mem_zdesc z e).mp he, her⟩

/-- In every reachable state each cached record carries its score as `cached_at`. -/
theorem reachable_stamped (s : Valkey) (h : Reachable s) : ∀ k, ScoreIsCachedAt (s.zsets k) := by
  induction h with
  | init s h =>
    intro k e he
    rw [h k] at he
    exact absurd he (List.not_mem_nil _)
  | step s op _ hop ih =>
    intro k
    cases op with
    | addVagas now hgetOk out sc data =>
      simp only [CacheOp.run, addHistoricoVagas]
      cases funcaoLowerOf (getFuncaoSistemaDoStatus s hgetOk sc (getField data "status")) with
      | none => exact ih k
      | some fl => exact execPipeline_stamped _ _ _ (addVagasCmds_stamped _ _ _ _ hop) ih k
    | addCandidatos now out sc data =>
      exact execPipeline_stamped _ _ _ (addCandidatosCmds_stamped _ _ _ hop) ih k
    | patchStatus now1 now2 readOk out sc r valor ordem =>
      simp only [CacheOp.run, updatePropostaStatus]
      cases hg : getPropostaRecente s readOk sc r ordem with
      | none => exact ih k
      | some p =>
        have hmem : ∃ e ∈ s.zsets (idxProposta sc r), e.2 = p := by
          unfold getPropostaRecente at hg
          cases readOk
          · simp at hg
          · exact mem_of_zrevrangeAt _ _ _ (by simpa using hg)
        refine execPipeline_stamped _ _ _ (patchCmds_stamped _ _ _ _ p _ now1 _ (ih _) hmem ?_)
          ih k
        rw [getField_setField, if_neg (by decide), getField_setField, if_neg (by decide)]
    | patchCandidatos now1 now2 readOk out sc r dados =>
      simp only [CacheOp.run, updateDadosCandidatos]
      cases hg : getShortlistRecente s readOk sc r with
      | none => exact ih k
      | some p =>
        have hmem : ∃ e ∈ s.zsets (idxShortlist sc r), e.2 = p := by
          unfold getShortlistRecente at hg
          cases readOk
          · simp at hg
          · exact mem_of_zrevrangeAt _ _ _ (by simpa using hg)
        refine execPipeline_stamped _ _ _ (patchCmds_stamped _ _ _ _ p _ now1 _ (ih _) hmem ?_)
          ih k
        rw [getField_setField, if_neg (by decide), getField_spread_of_not_has _ _ _ hop]
    | patchSelecionado now1 now2 readOk out sc r dados =>
      simp only [CacheOp.run, updateDadosSelecionado]
      cases hg : getPropostaRecente s readOk sc r (some (JVal.str "ultima")) with
      | none => exact ih k
      | some p =>
        have hmem : ∃ e ∈ s.zsets (idxProposta sc r), e.2 = p := by
          unfold getPropostaRecente at hg
          cases readOk
          · simp at hg
          · exact mem_of_zrevrangeAt _ _ _ (by simpa using hg)
        refine execPipeline_stamped _ _ _ (patchCmds_stamped _ _ _ _ p _ now1 _ (ih _) hmem ?_)
          ih k
        rw [getField_setField, if_neg (by decide), getField_spread_of_not_has _ _ _ hop]
    | invalidateRequisicao ok sc r =>
      simp only [CacheOp.run, invalidateCacheForRequisicao]
      cases ok
      · exact ih k
      · simp only [if_true]
        rw [apply_zsets]
        exact onZset_stamped _ _ _ trivial (ih k)
    | invalidateCandidato ok sc c =>
      simp only [CacheOp.run, invalidateCacheForCandidato]
      cases ok
      · exact ih k
      · simp only [if_true]
        rw [apply_zsets]
        exact onZset_stamped _ _ _ trivial (ih k)

theorem getPropostaRecente_none_iff (s : Valkey) (readOk : Bool) (schema req : String)
    (ordem : Option JVal) :
    getPropostaRecente s readOk schema req ordem = none
      ↔ readOk = false
        ∨ (s.zsets (idxProposta schema req)).length < ordemOffset ordem + 1 := by
  unfold getPropostaRecente zrevrangeAt
  cases readOk with
  | false => simp
  | true =>
    simp only [if_true, Bool.true_eq_false, false_or]
    rw [← zdesc_length]
    cases hd : (zdesc (s.zsets (idxProposta schema req))).drop (ordemOffset ordem) with
    | nil =>
      have := List.drop_eq_nil_iff.mp hd
      simp
      omega
    | cons x rest =>
      have hlen : ¬ (zdesc (s.zsets (idxProposta schema req))).length ≤ ordemOffset ordem := by
        intro hle
        rw [List.drop_eq_nil_iff.mpr hle] at hd
        exact absurd hd (by simp)
      simp
      omega

/-- Ordinal retrieval while no patch has carried `cached_at`: in a reachable state
    `'ultima'` returns a record of largest `cached_at`, `'penultima'` a record of largest
    `cached_at` among the others, and the call returns null exactly when the read fails
    or the index holds fewer than ordinal+1 records. -/
theorem ordinal_retrieval_of_reachable (s : Valkey) (hreach : Reachable s) (schema requisicao : String)
    (readOk : Bool) (ordem : Option JVal) :
    (getPropostaRecente s readOk schema requisicao ordem = none
      ↔ readOk = false
        ∨ (s.zsets (idxProposta schema requisicao)).length < ordemOffset ordem + 1)
    ∧ (∀ r1, getPropostaRecente s true schema requisicao (some (JVal.str "ultima")) = some r1 →
        ∃ c1, getField r1 "cached_at" = some (JVal.num c1)
          ∧ ∀ e ∈ s.zsets (idxProposta schema requisicao),
              ∃ c, getField e.2 "cached_at" = some (JVal.num c) ∧ c ≤ c1)
    ∧ (∀ r1 r2,
        getPropostaRecente s true schema requisicao (some (JVal.str "ultima")) = some r1 →
        getPropostaRecente s true schema requisicao (some (JVal.str "penultima")) = some r2 →
        ∃ c1 c2, getField r1 "cached_at" = some (JVal.num c1)
          ∧ getField r2 "cached_at" = some (JVal.num c2) ∧ c2 ≤ c1
          ∧ ∀ e ∈ s.zsets (idxProposta schema requisicao), e.2 ≠ r1 →
              ∃ c, getField e.2 "cached_at" = some (JVal.num c) ∧ c ≤ c2) := by
  have hinv := reachable_stamped s hreach (idxProposta schema requisicao)
  have hu : ordemOffset (some (JVal.str "ultima")) = 0 := by simp [ordemOffset]
  have hp : ordemOffset (some (JVal.str "penultima")) = 1 := by decide
  have hsorted := zdesc_sorted (s.zsets (idxProposta schema requisicao))
  refine ⟨getPropostaRecente_none_iff _ _ _ _ _, ?_, ?_⟩
  · intro r1 h1
    simp only [getPropostaRecente, if_true, hu] at h1
    obtain ⟨e1, he1, her1, hd1⟩ := head_drop_mem _ 0 r1 h1
    rw [List.drop_zero] at hd1
    cases hz : zdesc (s.zsets (idxProposta schema requisicao)) with
    | nil => rw [hz] at hd1; simp at hd1
    | cons x rest =>
      rw [hz] at hd1 hsorted
      simp only [List.head?_cons, Option.some.injEq] at hd1
      subst hd1
      rw [List.pairwise_cons] at hsorted
      refine ⟨x.1, ?_, ?_⟩
      · rw [← her1]
        exact (hinv x ((mem_zdesc _ _).mp he1)).1
      · intro e he
        refine ⟨e.1, (hinv e he).1, ?_⟩
        have hm : e ∈ x :: rest := by rw [← hz]; exact (mem_zdesc _ _).mpr he
        rcases List.mem_cons.mp hm with h | h
        · rw [h]
        · exact hsorted.1 e h
  · intro r1 r2 h1 h2
    simp only [getPropostaRecente, if_true, hu] at h1
    simp only [getPropostaRecente, if_true, hp] at h2
    obtain ⟨e1, he1, her1, hd1⟩ := head_drop_mem _ 0 r1 h1
    obtain ⟨e2, he2, her2, hd2⟩ := head_drop_mem _ 1 r2 h2
    rw [List.drop_zero] at hd1
    cases hz : zdesc (s.zsets (idxProposta schema requisicao)) with
    | nil => rw [hz] at hd1; simp at hd1
    | cons x rest =>
      rw [hz] at hd1 hd2 hsorted
      simp only [List.head?_cons, Option.some.injEq] at hd1
      subst hd1
      cases rest with
      | nil => simp at hd2
      | cons y rest2 =>
        simp only [List.drop_succ_cons, List.drop_zero, List.head?_cons,
          Option.some.injEq] at hd2
        subst hd2
        rw [List.pairwise_cons, List.pairwise_cons] at hsorted
        refine ⟨x.1, y.1, ?_, ?_, ?_, ?_⟩
        · rw [← her1]
          exact (hinv x ((mem_zdesc _ _).mp he1)).1
        · rw [← her2]
          exact (hinv y ((mem_zdesc _ _).mp he2)).1
        · exact hsorted.1 y (List.mem_cons_self _ _)
        · intro e he hne
          refine ⟨e.1, (hinv e he).1, ?_⟩
          have hm : e ∈ x :: y :: rest2 := by rw [← hz]; exact (mem_zdesc _ _).mpr he
          rcases List.mem_cons.mp hm with h | h
          · exact absurd (by rw [h]; exact her1) hne
          · rcases List.mem_cons.mp h with h | h
            · rw [h]
            · exact hsorted.2.1 e h

/-- Ordinal retrieval for `REQ100` of tenant `t1` after proposals at 1000 and 2000. -/
theorem ordinal_retrieval_of_reachable_example :
    (getPropostaRecente exTwoPropostas true "t1" "REQ100" (some (JVal.str "penultima")) = none
      ↔ true = false
        ∨ (exTwoPropostas.zsets (idxProposta "t1" "REQ100")).length
            < ordemOffset (some (JVal.str "penultima")) + 1)
    ∧ (∀ r1, getPropostaRecente exTwoPropostas true "t1" "REQ100" (some (JVal.str "ultima"))
          = some r1 →
        ∃ c1, getField r1 "cached_at" = some (JVal.num c1)
          ∧ ∀ e ∈ exTwoPropostas.zsets (idxProposta "t1" "REQ100"),
              ∃ c, getField e.2 "cached_at" = some (JVal.num c) ∧ c ≤ c1)
    ∧ (∀ r1 r2,
        getPropostaRecente exTwoPropostas true "t1" "REQ100" (some (JVal.str "ultima"))
          = some r1 →
        getPropostaRecente exTwoPropostas true "t1" "REQ100" (some (JVal.str "penultima"))
          = some r2 →
        ∃ c1 c2, getField r1 "cached_at" = some (JVal.num c1)
          ∧ getField r2 "cached_at" = some (JVal.num c2) ∧ c2 ≤ c1
          ∧ ∀ e ∈ exTwoPropostas.zsets (idxProposta "t1" "REQ100"), e.2 ≠ r1 →
              ∃ c, getField e.2 "cached_at" = some (JVal.num c) ∧ c ≤ c2) :=
  ordinal_retrieval_of_reachable exTwoPropostas
    (Reachable.step _ (CacheOp.addVagas 2000 true ExecOutcome.ok "t1" exPropostaAna)
      (Reachable.step _ (CacheOp.addVagas 1000 true ExecOutcome.ok "t1" exPropostaZeta)
        (Reachable.init Valkey.empty (fun _ => rfl)) (by show (0 : Int) < 1000; decide))
      (by show (0 : Int) < 2000; decide))
    "t1" "REQ100" true (some (JVal.str "penultima"))

/-- C4 at the failing input: the proposal index of `REQ100` is reached by an append at
    1000, `updateDadosSelecionado` with the partial fields `{cached_at: 9999}` and an
    append at 2000. `getPropostaRecente(.., 'ultima')` returns the record whose
    `cached_at` is 2000 and `'penultima'` the one whose `cached_at` is 9999, the largest
    of the index: retrieval follows the score, which the patch left at 1000. -/
theorem C4_order_is_by_score_not_by_cached_at :
    getPropostaRecente exFutureStamp true "t1" "REQ100" (some (JVal.str "ultima"))
      = some (setField exPropostaAna "cached_at" (JVal.num 2000))
    ∧ getField (setField exPropostaAna "cached_at" (JVal.num 2000)) "cached_at"
      = some (JVal.num 2000)
    ∧ getPropostaRecente exFutureStamp true "t1" "REQ100" (some (JVal.str "penultima"))
      = some exFutureStampRecord
    ∧ getField exFutureStampRecord "cached_at" = some (JVal.num 9999)
    ∧ (1000, exFutureStampRecord) ∈ exFutureStamp.zsets (idxProposta "t1" "REQ100") := by
  decide

/-! ## C11: what the return value of an append reports -/

/-- C11 (amended). `addHistoricoVagas` returns false exactly when `toLowerCase` throws on
    the mapped `funcao_sistema` (a truthy value that is not a string) or `exec()` rejects.
    A failed status lookup is swallowed by `getFuncaoSistemaDoStatus` and failed
    commands of the batch are not looked at: with a failed lookup the call returns
    true whenever `exec()` resolves. -/
theorem C11_append_return_value (s : Valkey) (now : Int) (hgetOk : Bool) (out : ExecOutcome)
    (schema : String) (data : Record) :
    (addHistoricoVagas s now hgetOk out schema data).1
      = ((funcaoLowerOf (getFuncaoSistemaDoStatus s hgetOk schema
          (getField data "status"))).isSome && !out.rejects)
    ∧ (addHistoricoVagas s now false out schema data).1 = !out.rejects := by
  constructor
  · unfold addHistoricoVagas
    cases funcaoLowerOf (getFuncaoSistemaDoStatus s hgetOk schema (getField data "status")) <;>
      simp
  · simp [addHistoricoVagas, getFuncaoSistemaDoStatus, funcaoLowerOf, truthy]

/-- C11 (as stated) fails: the status lookup of an append for `REQ100` fails and the call
    returns true (the record is then classified in no index, although the tenant's
    mapping makes its status a shortlist); and in the outcome where only the first
    command of the batch takes effect the call returns true as well. -/
theorem C11_append_true_despite_faults :
    (addHistoricoVagas exMapped 1000 false ExecOutcome.ok "t1" exTriagem).1 = true
    ∧ (addHistoricoVagas exMapped 1000 false ExecOutcome.ok "t1" exTriagem).2.zsets
        (idxShortlist "t1" "REQ100") = []
    ∧ (addHistoricoVagas exMapped 1000 true ExecOutcome.ok "t1" exTriagem).2.zsets
        (idxShortlist "t1" "REQ100") = [(1000, setField exTriagem "cached_at" (JVal.num 1000))]
    ∧ (addHistoricoVagas exMapped 1000 true exOnlyFirst "t1" exTriagem).1 = true
    ∧ (addHistoricoVagas exMapped 1000 true exOnlyFirst "t1" exTriagem).2.zsets
        (idxShortlist "t1" "REQ100") = []
    ∧ (addHistoricoVagas exMapped 1000 true exOnlyFirst "t1" exTriagem).2.sets
        (syncQueue "t1") = [] := by
  decide

/-! ## C13: which indices an append writes -/

/-- Cancelada index after the batch of an append in which every command takes effect. -/
theorem addCmds_idxCancelada (now : Int) (fl schema : String) (data : Record) (z : List ZEntry) :
    (addHistoricoVagasCmds now fl schema data).foldl
        (fun acc c => c.onZset (idxCancelada schema (jsString (getField data "requisicao"))) acc) z
      = if jsIncludes fl "cancelada" = true
          then zaddEntries z now (setField data "cached_at" (JVal.num now)) else z := by
  simp only [addHistoricoVagasCmds, List.foldl_append, List.foldl_cons, List.foldl_nil]
  generalize jsIncludes fl "shortlist" = b1
  generalize jsIncludes fl "cancelada" = b2
  generalize jsIncludes fl "fechada" = b3
  by_cases hs : getField data "status" = some (JVal.str "PROPOSTA") <;>
    cases b1 <;> cases b2 <;> cases b3 <;>
    simp [hs, Cmd.onZset, scoreOf, (histVagas_ne_idxCancelada _ _).symm,
      (idxProposta_ne_idxCancelada _ _).symm, (idxShortlist_ne_idxCancelada _ _).symm,
      idxCancelada_ne_idxFechada]

/-- Fechada index after the batch of an append in which every command takes effect. -/
theorem addCmds_idxFechada (now : Int) (fl schema : String) (data : Record) (z : List ZEntry) :
    (addHistoricoVagasCmds now fl schema data).foldl
        (fun acc c => c.onZset (idxFechada schema (jsString (getField data "requisicao"))) acc) z
      = if jsIncludes fl "fechada" = true
          then zaddEntries z now (setField data "cached_at" (JVal.num now)) else z := by
  simp only [addHistoricoVagasCmds, List.foldl_append, List.foldl_cons, List.foldl_nil]
  generalize jsIncludes fl "shortlist" = b1
  generalize jsIncludes fl "cancelada" = b2
  generalize jsIncludes fl "fechada" = b3
  by_cases hs : getField data "status" = some (JVal.str "PROPOSTA") <;>
    cases b1 <;> cases b2 <;> cases b3 <;>
    simp [hs, Cmd.onZset, scoreOf, (histVagas_ne_idxFechada _ _).symm,
      (idxProposta_ne_idxFechada _ _).symm, (idxShortlist_ne_idxFechada _ _).symm,
      (idxCancelada_ne_idxFechada _ _).symm]

/-- C13 (amended). After an append in which every command takes effect, the proposal index
    receives the new record exactly when `data.status` is the literal `PROPOSTA`, and the
    shortlist, cancelada and fechada indices receive it exactly when the lower-cased
    `funcao_sistema` of the tenant's mapping contains `shortlist`, `cancelada`,
    `fechada`; an index that does not receive it is left as it was. -/
theorem C13_index_membership (s : Valkey) (now : Int) (hgetOk : Bool) (schema : String)
    (data : Record) (fl : String)
    (hfl : funcaoLowerOf (getFuncaoSistemaDoStatus s hgetOk schema (getField data "status"))
      = some fl) :
    (addHistoricoVagas s now hgetOk ExecOutcome.ok schema data).1 = true
    ∧ (addHistoricoVagas s now hgetOk ExecOutcome.ok schema data).2.zsets
        (idxProposta schema (jsString (getField data "requisicao")))
      = (if getField data "status" = some (JVal.str "PROPOSTA") then
          zaddEntries (s.zsets (idxProposta schema (jsString (getField data "requisicao")))) now
            (setField data "cached_at" (JVal.num now))
        else s.zsets (idxProposta schema (jsString (getField data "requisicao"))))
    ∧ (addHistoricoVagas s now hgetOk ExecOutcome.ok schema data).2.zsets
        (idxShortlist schema (jsString (getField data "requisicao")))
      = (if jsIncludes fl "shortlist" = true then
          zaddEntries (s.zsets (idxShortlist schema (jsString (getField data "requisicao")))) now
            (setField data "cached_at" (JVal.num now))
        else s.zsets (idxShortlist schema (jsString (getField data "requisicao"))))
    ∧ (addHistoricoVagas s now hgetOk ExecOutcome.ok schema data).2.zsets
        (idxCancelada schema (jsString (getField data "requisicao")))
      = (if jsIncludes fl "cancelada" = true then
          zaddEntries (s.zsets (idxCancelada schema (jsString (getField data "requisicao")))) now
            (setField data "cached_at" (JVal.num now))
        else s.zsets (idxCancelada schema (jsString (getField data "requisicao"))))
    ∧ (addHistoricoVagas s now hgetOk ExecOutcome.ok schema data).2.zsets
        (idxFechada schema (jsString (getField data "requisicao")))
      = (if jsIncludes fl "fechada" = true then
          zaddEntries (s.zsets (idxFechada schema (jsString (getField data "requisicao")))) now
            (setField data "cached_at" (JVal.num now))
        else s.zsets (idxFechada schema (jsString (getField data "requisicao")))) := by
  have hst : addHistoricoVagas s now hgetOk ExecOutcome.ok schema data
      = (true, execPipeline ExecOutcome.ok (addHistoricoVagasCmds now fl schema data) s) := by
    simp [addHistoricoVagas, hfl, ExecOutcome.ok]
  rw [hst]
  refine ⟨rfl, ?_, ?_, ?_, ?_⟩
  · rw [execPipeline_ok_zsets, addCmds_idxProposta]
  · rw [execPipeline_ok_zsets, addCmds_idxShortlist]
  · rw [execPipeline_ok_zsets, addCmds_idxCancelada]
  · rw [execPipeline_ok_zsets, addCmds_idxFechada]

/-- Witness for C13: the tenant maps `TRIAGEM` to the function `Shortlist`. -/
theorem C13_index_membership_witness :
    funcaoLowerOf (getFuncaoSistemaDoStatus exMapped true "t1" (getField exTriagem "status"))
      = some "shortlist"
    ∧ (addHistoricoVagas exMapped 1000 true ExecOutcome.ok "t1" exTriagem).2.zsets
        (idxShortlist "t1" (jsString (getField exTriagem "requisicao")))
      = (if jsIncludes "shortlist" "shortlist" = true then
          zaddEntries (exMapped.zsets (idxShortlist "t1" (jsString (getField exTriagem "requisicao"))))
            1000 (setField exTriagem "cached_at" (JVal.num 1000))
        else exMapped.zsets (idxShortlist "t1" (jsString (getField exTriagem "requisicao")))) :=
  ⟨by decide, (C13_index_membership exMapped 1000 true "t1" exTriagem "shortlist" (by decide)).2.2.1⟩

/-- C13 (as stated) fails: on a cache without any status mapping, a record whose status is
    `PROPOSTA` has no mapping entry and no `funcao_sistema`, and the append still puts it
    in the proposal index. -/
theorem C13_unmapped_status_is_indexed :
    getFuncaoSistemaDoStatus Valkey.empty true "t1" (getField exProposta "status") = none
    ∧ (addHistoricoVagas Valkey.empty 1000 true ExecOutcome.ok "t1" exProposta).1 = true
    ∧ (addHistoricoVagas Valkey.empty 1000 true ExecOutcome.ok "t1" exProposta).2.zsets
        (idxProposta "t1" "REQ100")
      = [(1000, setField exProposta "cached_at" (JVal.num 1000))] := by
  decide

/-! ## C12: expiry of the keys a write touches -/

/-- With every command taking effect, a batch is the left fold of `Cmd.apply`. -/
theorem runCmds_all (cmds : List Cmd) : ∀ (i : Nat) (s : Valkey),
    runCmds (fun _ => true) i cmds s = cmds.foldl Cmd.apply s := by
  induction cmds with
  | nil => intro i s; rfl
  | cons c cs ih => intro i s; simp [runCmds, ih]

/-- A `zadd` followed by `expire` on the same key leaves the key existing with that expiry. -/
theorem zadd_expire_sets (s : Valkey) (k : String) (now : Int) (l : Record) (ttl : Nat) :
    ((Cmd.expire k ttl).apply ((Cmd.zadd k (JVal.num now) l).apply s)).zsets k ≠ []
    ∧ ((Cmd.expire k ttl).apply ((Cmd.zadd k (JVal.num now) l).apply s)).expiry k = some ttl := by
  simp [Cmd.apply, scoreOf, Valkey.exists, upd, zaddEntries]

/-- A `zadd` followed by `expire` on some key keeps an existing key with its expiry,
    when the expiry written is the same. -/
theorem zadd_expire_keeps (s : Valkey) (k k2 : String) (now : Int) (l : Record) (ttl : Nat)
    (h : s.zsets k ≠ [] ∧ s.expiry k = some ttl) :
    ((Cmd.expire k2 ttl).apply ((Cmd.zadd k2 (JVal.num now) l).apply s)).zsets k ≠ []
    ∧ ((Cmd.expire k2 ttl).apply ((Cmd.zadd k2 (JVal.num now) l).apply s)).expiry k = some ttl := by
  by_cases hk : k = k2
  · subst hk; exact zadd_expire_sets s k now l ttl
  · simp [Cmd.apply, scoreOf, Valkey.exists, upd, zaddEntries, hk, h.1, h.2]

/-- A `sadd` keeps the sorted sets and the expiries. -/
theorem sadd_keeps (s : Valkey) (q m : String) :
    ((Cmd.sadd q m).apply s).zsets = s.zsets ∧ ((Cmd.sadd q m).apply s).expiry = s.expiry := by
  simp only [Cmd.apply]
  split <;> exact ⟨rfl, rfl⟩

/-- After an append in which every command takes effect, the series key and every index
    key the append wrote exist and carry `THIRTY_DAYS`. -/
theorem addHistoricoVagas_expiry (s : Valkey) (now : Int) (fl schema : String) (data : Record) :
    let s2 := execPipeline ExecOutcome.ok (addHistoricoVagasCmds now fl schema data) s
    let req := jsString (getField data "requisicao")
    (s2.zsets (histVagas schema req) ≠ [] ∧ s2.expiry (histVagas schema req) = some THIRTY_DAYS)
    ∧ (getField data "status" = some (JVal.str "PROPOSTA") →
        s2.zsets (idxProposta schema req) ≠ []
        ∧ s2.expiry (idxProposta schema req) = some THIRTY_DAYS)
    ∧ (jsIncludes fl "shortlist" = true →
        s2.zsets (idxShortlist schema req) ≠ []
        ∧ s2.expiry (idxShortlist schema req) = some THIRTY_DAYS)
    ∧ (jsIncludes fl "cancelada" = true →
        s2.zsets (idxCancelada schema req) ≠ []
        ∧ s2.expiry (idxCancelada schema req) = some THIRTY_DAYS)
    ∧ (jsIncludes fl "fechada" = true →
        s2.zsets (idxFechada schema req) ≠ []
        ∧ s2.expiry (idxFechada schema req) = some THIRTY_DAYS) := by
  intro s2 req
  have hs2 : s2 = (addHistoricoVagasCmds now fl schema data).foldl Cmd.apply s := by
    show runCmds (fun _ => true) 0 _ s = _
    exact runCmds_all _ 0 s
  -- an optional block keeps what is there and, when present, establishes its own key
  have opt : ∀ (c : Prop) [Decidable c] (k2 : String) (t : Valkey),
      (∀ k, (t.zsets k ≠ [] ∧ t.expiry k = some THIRTY_DAYS) →
        (((if c then [Cmd.zadd k2 (JVal.num now) (setField data "cached_at" (JVal.num now)),
            Cmd.expire k2 THIRTY_DAYS] else []).foldl Cmd.apply t).zsets k ≠ []
          ∧ ((if c then [Cmd.zadd k2 (JVal.num now) (setField data "cached_at" (JVal.num now)),
            Cmd.expire k2 THIRTY_DAYS] else []).foldl Cmd.apply t).expiry k = some THIRTY_DAYS))
      ∧ (c →
        (((if c then [Cmd.zadd k2 (JVal.num now) (setField data "cached_at" (JVal.num now)),
            Cmd.expire k2 THIRTY_DAYS] else []).foldl Cmd.apply t).zsets k2 ≠ []
          ∧ ((if c then [Cmd.zadd k2 (JVal.num now) (setField data "cached_at" (JVal.num now)),
            Cmd.expire k2 THIRTY_DAYS] else []).foldl Cmd.apply t).expiry k2
              = some THIRTY_DAYS)) := by
    intro c _ k2 t
    by_cases hc : c
    · simp only [if_pos hc, List.foldl_cons, List.foldl_nil]
      exact ⟨fun k h => zadd_expire_keeps t k k2 now _ _ h, fun _ => zadd_expire_sets t k2 now _ _⟩
    · simp only [if_neg hc, List.foldl_nil]
      exact ⟨fun k h => h, fun h => absurd h hc⟩
  have last : ∀ (t : Valkey) (q m k : String),
      (t.zsets k ≠ [] ∧ t.expiry k = some THIRTY_DAYS) →
      (([Cmd.sadd q m].foldl Cmd.apply t).zsets k ≠ []
        ∧ ([Cmd.sadd q m].foldl Cmd.apply t).expiry k = some THIRTY_DAYS) := by
    intro t q m k h
    simp only [List.foldl_cons, List.foldl_nil, (sadd_keeps t q m).1, (sadd_keeps t q m).2]
    exact h
  rw [hs2]
  simp only [addHistoricoVagasCmds, List.foldl_append]
  refine ⟨?_, ?_, ?_, ?_, ?_⟩
  · apply last
    apply (opt _ _ _).1
    apply (opt _ _ _).1
    apply (opt _ _ _).1
    apply (opt _ _ _).1
    simp only [List.foldl_cons, List.foldl_nil]
    exact zadd_expire_sets s _ now _ _
  · intro h
    apply last
    apply (opt _ _ _).1
    apply (opt _ _ _).1
    apply (opt _ _ _).1
    exact (opt _ _ _).2 h
  · intro h
    apply last
    apply (opt _ _ _).1
    apply (opt _ _ _).1
    exact (opt _ _ _).2 h
  · intro h
    apply last
    apply (opt _ _ _).1
    exact (opt _ _ _).2 h
  · intro h
    apply last
    exact (opt _ _ _).2 h

/-- C12: a patch leaves keys without expiry. After the append of one proposal for `REQ100`
    the series key and the proposal-index key carry `THIRTY_DAYS`; the patch
    `updatePropostaStatus` then succeeds with every command taking effect, and afterwards
    both keys hold the patched record and neither has an expiry: the batch removes the
    only member under the score, which deletes the key with its expiry, and adds the
    patched record back without any `expire`. -/
theorem C12_patch_leaves_keys_without_expiry :
    exAfterZeta.expiry (histVagas "t1" "REQ100") = some THIRTY_DAYS
    ∧ exAfterZeta.expiry (idxProposta "t1" "REQ100") = some THIRTY_DAYS
    ∧ (updatePropostaStatus exAfterZeta 2000 2000 true ExecOutcome.ok "t1" "REQ100"
        (JVal.str "ACEITA") none).1 = true
    ∧ ((updatePropostaStatus exAfterZeta 2000 2000 true ExecOutcome.ok "t1" "REQ100"
        (JVal.str "ACEITA") none).2.zsets (histVagas "t1" "REQ100")).length = 1
    ∧ ((updatePropostaStatus exAfterZeta 2000 2000 true ExecOutcome.ok "t1" "REQ100"
        (JVal.str "ACEITA") none).2.zsets (idxProposta "t1" "REQ100")).length = 1
    ∧ (updatePropostaStatus exAfterZeta 2000 2000 true ExecOutcome.ok "t1" "REQ100"
        (JVal.str "ACEITA") none).2.expiry (histVagas "t1" "REQ100") = none
    ∧ (updatePropostaStatus exAfterZeta 2000 2000 true ExecOutcome.ok "t1" "REQ100"
        (JVal.str "ACEITA") none).2.expiry (idxProposta "t1" "REQ100") = none := by
  decide

/-! ## C16: when an id leaves the sync queue -/

theorem getHistoricoVagas_congr (c c2 : Valkey) (ok : Bool) (schema req : String)
    (h : c2.zsets = c.zsets) :
    getHistoricoVagas c2 ok schema req = getHistoricoVagas c ok schema req := by
  unfold getHistoricoVagas
  rw [h]

theorem removeSyncQueue_sets (s : Valkey) (ok : Bool) (schema a req : String)
    (h : req ∈ s.sets (syncQueue schema)) (hne : a ≠ req) :
    req ∈ (removeSyncQueue s ok schema a).2.sets (syncQueue schema) := by
  unfold removeSyncQueue
  cases ok
  · exact h
  · simp only [if_true, Cmd.apply, upd]
    simp [h, Ne.symm hne]

/-- One step of the loop of `syncVagas` keeps a queued id, unless the step is the one of
    that id and the series was found empty, the projection of its latest record has no
    truthy `requisicao`, or the insert succeeded. -/
theorem syncVagasStep_queue (f : SyncFaults) (schema : String) (u : List String) (w : Worker)
    (a req : String) (h : req ∈ w.cache.sets (syncQueue schema)) :
    req ∈ (syncVagasStep f schema u w a).cache.sets (syncQueue schema)
    ∨ (a = req ∧
        (getHistoricoVagas w.cache (f.histOk req) schema req = []
         ∨ ∃ linha, (getHistoricoVagas w.cache (f.histOk req) schema req).getLast? = some linha
            ∧ (truthy (getField (projectRow u linha) "requisicao") = false
               ∨ (f.insertOk req = true
                  ∧ projectRow u linha ∈
                      (syncVagasStep f schema u w a).db.rows schema "historico_vagas")))) := by
  by_cases ha : a = req
  · subst ha
    simp only [syncVagasStep]
    cases hl : (getHistoricoVagas w.cache (f.histOk a) schema a).getLast? with
    | none =>
      right
      exact ⟨trivial, Or.inl (List.getLast?_eq_none_iff.mp hl)⟩
    | some linha =>
      simp only
      by_cases h1 : (!truthy (getField (projectRow u linha) "requisicao")) = true
      · right
        refine ⟨trivial, Or.inr ⟨linha, rfl, Or.inl ?_⟩⟩
        simpa using h1
      · rw [if_neg h1]
        by_cases h2 : f.insertOk a = true
        · rw [if_pos h2]
          right
          refine ⟨trivial, Or.inr ⟨linha, rfl, Or.inr ⟨h2, ?_⟩⟩⟩
          simp only [Db.insert, and_self, if_true]
          exact List.mem_append_right _ (List.mem_singleton_self _)
        · rw [if_neg h2]
          exact Or.inl h
  · left
    simp only [syncVagasStep]
    cases (getHistoricoVagas w.cache (f.histOk a) schema a).getLast? with
    | none => exact removeSyncQueue_sets _ _ _ _ _ h ha
    | some linha =>
      simp only
      by_cases h1 : (!truthy (getField (projectRow u linha) "requisicao")) = true
      · rw [if_pos h1]
        exact removeSyncQueue_sets _ _ _ _ _ h ha
      · rw [if_neg h1]
        by_cases h2 : f.insertOk a = true
        · rw [if_pos h2]
          exact removeSyncQueue_sets _ _ _ _ _ h ha
        · rw [if_neg h2]
          exact h

theorem syncVagas_fold_queue (f : SyncFaults) (schema : String) (u : List String)
    (q : List String) (w : Worker) (req : String) (h : req ∈ w.cache.sets (syncQueue schema)) :
    req ∈ (q.foldl (syncVagasStep f schema u) w).cache.sets (syncQueue schema)
    ∨ (getHistoricoVagas w.cache (f.histOk req) schema req = []
         ∨ ∃ linha, (getHistoricoVagas w.cache (f.histOk req) schema req).getLast? = some linha
            ∧ (truthy (getField (projectRow u linha) "requisicao") = false
               ∨ (f.insertOk req = true
                  ∧ projectRow u linha ∈
                      (q.foldl (syncVagasStep f schema u) w).db.rows schema
                        "historico_vagas"))) := by
  induction q generalizing w with
  | nil => exact Or.inl h
  | cons a q ih =>
    rw [List.foldl_cons]
    rcases syncVagasStep_queue f schema u w a req h with h1 | ⟨_, h1⟩
    · rcases ih _ h1 with h2 | h2
      · exact Or.inl h2
      · right
        rw [getHistoricoVagas_congr _ _ _ _ _ (syncVagasStep_zsets f schema u w a)] at h2
        exact h2
    · right
      rcases h1 with h1 | ⟨linha, hl, h1⟩
      · exact Or.inl h1
      · refine Or.inr ⟨linha, hl, ?_⟩
        rcases h1 with h1 | ⟨h1, h3⟩
        · exact Or.inl h1
        · exact Or.inr ⟨h1, syncVagas_fold_rows _ _ _ _ _ _ _ _ h3⟩

/-- A run of `syncVagas` keeps a queued id, unless its series was found empty, the
    projection of its latest record has no truthy `requisicao`, or its insert succeeded. -/
theorem syncVagas_queue (f : SyncFaults) (schema : String) (w : Worker) (req : String)
    (h : req ∈ w.cache.sets (syncQueue schema)) :
    req ∈ (syncVagas f schema w).cache.sets (syncQueue schema)
    ∨ (getHistoricoVagas w.cache (f.histOk req) schema req = []
         ∨ ∃ linha, (getHistoricoVagas w.cache (f.histOk req) schema req).getLast? = some linha
            ∧ (truthy (getField (projectRow
                  (updatableOf (getTableColumns f.columnsOk schema "historico_vagas" w).1) linha)
                  "requisicao") = false
               ∨ (f.insertOk req = true
                  ∧ projectRow
                      (updatableOf (getTableColumns f.columnsOk schema "historico_vagas" w).1)
                      linha ∈ (syncVagas f schema w).db.rows schema "historico_vagas"))) := by
  unfold syncVagas
  simp only
  by_cases hq : (getSyncQueue w.cache f.queueOk schema).isEmpty = true
  · rw [if_pos hq]; exact Or.inl h
  · rw [if_neg hq]
    by_cases hc : (getTableColumns f.columnsOk schema "historico_vagas" w).1.isEmpty = true
    · rw [if_pos hc, getTableColumns_cache]; exact Or.inl h
    · rw [if_neg hc]
      have h0 : req ∈ (getTableColumns f.columnsOk schema "historico_vagas" w).2.cache.sets
          (syncQueue schema) := by rw [getTableColumns_cache]; exact h
      have := syncVagas_fold_queue f schema
        (updatableOf (getTableColumns f.columnsOk schema "historico_vagas" w).1)
        (getSyncQueue w.cache f.queueOk schema) _ req h0
      rw [getTableColumns_cache] at this
      exact this

/-! ## C17: an insert that throws -/

/-- The step of an id whose insert is attempted and throws: the error counter goes up by
    one and nothing else changes. -/
theorem syncVagasStep_insert_throws (f : SyncFaults) (schema : String) (u : List String)
    (w : Worker) (req : String) (e : ZEntry) (rest : List ZEntry)
    (hz : zdesc (w.cache.zsets (histVagas schema req)) = e :: rest)
    (hr : f.histOk req = true)
    (ht : truthy (getField (projectRow u e.2) "requisicao") = true)
    (hi : f.insertOk req = false) :
    syncVagasStep f schema u w req = w.countError := by
  have hl : (getHistoricoVagas w.cache (f.histOk req) schema req).getLast? = some e.2 := by
    rw [hr]
    simp only [getHistoricoVagas, if_true]
    exact getLast_zrangeAll _ e rest hz
  simp only [syncVagasStep, hl, ht, hi, Bool.not_true, Bool.false_eq_true, if_false,
    Worker.countError]

theorem syncVagas_fold_keeps_failed (f : SyncFaults) (schema : String) (u : List String)
    (q : List String) (w : Worker) (req : String) (e : ZEntry) (rest : List ZEntry)
    (h : req ∈ w.cache.sets (syncQueue schema))
    (hz : zdesc (w.cache.zsets (histVagas schema req)) = e :: rest)
    (hr : f.histOk req = true)
    (ht : truthy (getField (projectRow u e.2) "requisicao") = true)
    (hi : f.insertOk req = false) :
    req ∈ (q.foldl (syncVagasStep f schema u) w).cache.sets (syncQueue schema) := by
  have hl : (getHistoricoVagas w.cache (f.histOk req) schema req).getLast? = some e.2 := by
    rw [hr]
    simp only [getHistoricoVagas, if_true]
    exact getLast_zrangeAll _ e rest hz
  rcases syncVagas_fold_queue f schema u q w req h with h1 | h1 | ⟨linha, h2, h3⟩
  · exact h1
  · rw [h1] at hl
    exact absurd hl (by simp)
  · rw [hl] at h2
    cases h2
    rcases h3 with h3 | ⟨h3, _⟩
    · rw [ht] at h3; exact absurd h3 (by simp)
    · rw [hi] at h3; exact absurd h3 (by simp)

/-- A run of `syncVagas` in which the insert of a queued id is attempted and throws: at the
    turn of that id the error counter goes up by one and nothing else changes, the ids
    queued after it are processed from that state, and the id is still queued at the end. -/
theorem syncVagas_retry (f : SyncFaults) (schema : String) (w : Worker) (req : String)
    (e : ZEntry) (rest : List ZEntry) (pre post : List String)
    (hq : getSyncQueue w.cache f.queueOk schema = pre ++ req :: post)
    (hc : (getTableColumns f.columnsOk schema "historico_vagas" w).1 ≠ [])
    (hz : zdesc (w.cache.zsets (histVagas schema req)) = e :: rest)
    (hr : f.histOk req = true)
    (ht : truthy (getField (projectRow
      (updatableOf (getTableColumns f.columnsOk schema "historico_vagas" w).1) e.2)
      "requisicao") = true)
    (hi : f.insertOk req = false) :
    syncVagas f schema w
      = post.foldl
          (syncVagasStep f schema
            (updatableOf (getTableColumns f.columnsOk schema "historico_vagas" w).1))
          (pre.foldl
              (syncVagasStep f schema
                (updatableOf (getTableColumns f.columnsOk schema "historico_vagas" w).1))
              (getTableColumns f.columnsOk schema "historico_vagas" w).2).countError
    ∧ req ∈ (syncVagas f schema w).cache.sets (syncQueue schema) := by
  have hne : (getSyncQueue w.cache f.queueOk schema).isEmpty = false := by
    rw [hq]; cases pre <;> rfl
  have hce : (getTableColumns f.columnsOk schema "historico_vagas" w).1.isEmpty = false := by
    cases hs : (getTableColumns f.columnsOk schema "historico_vagas" w).1 with
    | nil => exact absurd hs hc
    | cons a l => rfl
  have hmem : req ∈ w.cache.sets (syncQueue schema) := by
    unfold getSyncQueue at hq
    cases hk : f.queueOk
    · rw [hk] at hq
      simp at hq
    · rw [hk, if_pos rfl] at hq
      rw [hq]
      simp
  have hrun : syncVagas f schema w
      = (getSyncQueue w.cache f.queueOk schema).foldl
          (syncVagasStep f schema
            (updatableOf (getTableColumns f.columnsOk schema "historico_vagas" w).1))
          (getTableColumns f.columnsOk schema "historico_vagas" w).2 := by
    simp only [syncVagas, hne, hce, Bool.false_eq_true, if_false]
  constructor
  · rw [hrun, hq, List.foldl_append, List.foldl_cons]
    congr 1
    apply syncVagasStep_insert_throws f schema _ _ req e rest _ hr ht hi
    rw [syncVagas_fold_zsets, getTableColumns_cache]
    exact hz
  · rw [hrun]
    apply syncVagas_fold_keeps_failed f schema _ _ _ req e rest _ _ hr ht hi
    · rw [getTableColumns_cache]; exact hmem
    · rw [getTableColumns_cache]; exact hz

/-! ## C18: draining the queue -/

theorem syncVagasStep_none_sets (schema : String) (u : List String) (w : Worker) (a : String) :
    (syncVagasStep SyncFaults.none schema u w a).cache.sets (syncQueue schema)
      = (w.cache.sets (syncQueue schema)).filter (fun x => x ≠ a) := by
  have hrem : (removeSyncQueue w.cache true schema a).2.sets (syncQueue schema)
      = (w.cache.sets (syncQueue schema)).filter (fun x => x ≠ a) := by
    simp [removeSyncQueue, Cmd.apply, upd]
  simp only [syncVagasStep, SyncFaults.none]
  cases (getHistoricoVagas w.cache true schema a).getLast? with
  | none => exact hrem
  | some linha =>
    simp only
    by_cases h1 : (!truthy (getField (projectRow u linha) "requisicao")) = true
    · rw [if_pos h1]; exact hrem
    · rw [if_neg h1, if_pos trivial]; exact hrem

theorem syncVagas_fold_none_sets (schema : String) (u : List String) (q : List String)
    (w : Worker) :
    (q.foldl (syncVagasStep SyncFaults.none schema u) w).cache.sets (syncQueue schema)
      = (w.cache.sets (syncQueue schema)).filter (fun x => decide (x ∉ q)) := by
  induction q generalizing w with
  | nil => simp
  | cons a q ih =>
    rw [List.foldl_cons, ih, syncVagasStep_none_sets, List.filter_filter]
    apply List.filter_congr
    intro x _
    simp only [List.mem_cons, not_or, decide_not, Bool.decide_or, Bool.not_or, Bool.and_comm,
      Bool.decide_and, ne_eq]

/-- A run of `syncVagas` in which no call fails and the table has a column empties the
    sync queue. -/
theorem syncVagas_drains (schema : String) (w : Worker)
    (hc : (getTableColumns true schema "historico_vagas" w).1 ≠ []) :
    (syncVagas SyncFaults.none schema w).cache.sets (syncQueue schema) = [] := by
  have hce : (getTableColumns true schema "historico_vagas" w).1.isEmpty = false := by
    cases hs : (getTableColumns true schema "historico_vagas" w).1 with
    | nil => exact absurd hs hc
    | cons a l => rfl
  simp only [syncVagas, SyncFaults.none, getSyncQueue, if_true]
  by_cases hq : (w.cache.sets (syncQueue schema)).isEmpty = true
  · rw [if_pos hq]
    exact List.isEmpty_iff.mp hq
  · rw [if_neg hq, hce]
    simp only [Bool.false_eq_true, if_false]
    have := syncVagas_fold_none_sets schema
      (updatableOf (getTableColumns true schema "historico_vagas" w).1)
      (w.cache.sets (syncQueue schema)) (getTableColumns true schema "historico_vagas" w).2
    simp only [SyncFaults.none] at this
    rw [this, getTableColumns_cache]
    simp

/-! ### The same for `syncCandidatos` -/

theorem getHistoricoCandidatos_congr (c c2 : Valkey) (ok : Bool) (schema req : String)
    (h : c2.zsets = c.zsets) :
    getHistoricoCandidatos c2 ok schema req = getHistoricoCandidatos c ok schema req := by
  unfold getHistoricoCandidatos
  rw [h]

theorem removeSyncQueueCandidatos_sets (s : Valkey) (ok : Bool) (schema a req : String)
    (h : req ∈ s.sets (syncQueueCandidatos schema)) (hne : a ≠ req) :
    req ∈ (removeSyncQueueCandidatos s ok schema a).2.sets (syncQueueCandidatos schema) := by
  unfold removeSyncQueueCandidatos
  cases ok
  · exact h
  · simp only [if_true, Cmd.apply, upd]
    simp [h, Ne.symm hne]

/-- One step of the loop of `syncCandidatos` keeps a queued id, unless the step is the one of
    that id and the series was found empty, the projection of its latest record has no
    truthy `id_candidato`, or the insert succeeded. -/
theorem syncCandidatosStep_queue (f : SyncFaults) (schema : String) (u : List String) (w : Worker)
    (a req : String) (h : req ∈ w.cache.sets (syncQueueCandidatos schema)) :
    req ∈ (syncCandidatosStep f schema u w a).cache.sets (syncQueueCandidatos schema)
    ∨ (a = req ∧
        (getHistoricoCandidatos w.cache (f.histOk req) schema req = []
         ∨ ∃ linha, (getHistoricoCandidatos w.cache (f.histOk req) schema req).getLast? = some linha
            ∧ (truthy (getField (projectRow u linha) "id_candidato") = false
               ∨ (f.insertOk req = true
                  ∧ projectRow u linha ∈
                      (syncCandidatosStep f schema u w a).db.rows schema "historico_candidatos")))) := by
  by_cases ha : a = req
  · subst ha
    simp only [syncCandidatosStep]
    cases hl : (getHistoricoCandidatos w.cache (f.histOk a) schema a).getLast? with
    | none =>
      right
      exact ⟨trivial, Or.inl (List.getLast?_eq_none_iff.mp hl)⟩
    | some linha =>
      simp only
      by_cases h1 : (!truthy (getField (projectRow u linha) "id_candidato")) = true
      · right
        refine ⟨trivial, Or.inr ⟨linha, rfl, Or.inl ?_⟩⟩
        simpa using h1
      · rw [if_neg h1]
        by_cases h2 : f.insertOk a = true
        · rw [if_pos h2]
          right
          refine ⟨trivial, Or.inr ⟨linha, rfl, Or.inr ⟨h2, ?_⟩⟩⟩
          simp only [Db.insert, and_self, if_true]
          exact List.mem_append_right _ (List.mem_singleton_self _)
        · rw [if_neg h2]
          exact Or.inl h
  · left
    simp only [syncCandidatosStep]
    cases (getHistoricoCandidatos w.cache (f.histOk a) schema a).getLast? with
    | none => exact removeSyncQueueCandidatos_sets _ _ _ _ _ h ha
    | some linha =>
      simp only
      by_cases h1 : (!truthy (getField (projectRow u linha) "id_candidato")) = true
      · rw [if_pos h1]
        exact removeSyncQueueCandidatos_sets _ _ _ _ _ h ha
      · rw [if_neg h1]
        by_cases h2 : f.insertOk a = true
        · rw [if_pos h2]
          exact removeSyncQueueCandidatos_sets _ _ _ _ _ h ha
        · rw [if_neg h2]
          exact h

theorem syncCandidatos_fold_queue (f : SyncFaults) (schema : String) (u : List String)
    (q : List String) (w : Worker) (req : String) (h : req ∈ w.cache.sets (syncQueueCandidatos schema)) :
    req ∈ (q.foldl (syncCandidatosStep f schema u) w).cache.sets (syncQueueCandidatos schema)
    ∨ (getHistoricoCandidatos w.cache (f.histOk req) schema req = []
         ∨ ∃ linha, (getHistoricoCandidatos w.cache (f.histOk req) schema req).getLast? = some linha
            ∧ (truthy (getField (projectRow u linha) "id_candidato") = false
               ∨ (f.insertOk req = true
                  ∧ projectRow u linha ∈
                      (q.foldl (syncCandidatosStep f schema u) w).db.rows schema
                        "historico_candidatos"))) := by
  induction q generalizing w with
  | nil => exact Or.inl h
  | cons a q ih =>
    rw [List.foldl_cons]
    rcases syncCandidatosStep_queue f schema u w a req h with h1 | ⟨_, h1⟩
    · rcases ih _ h1 with h2 | h2
      · exact Or.inl h2
      · right
        rw [getHistoricoCandidatos_congr _ _ _ _ _ (syncCandidatosStep_zsets f schema u w a)] at h2
        exact h2
    · right
      rcases h1 with h1 | ⟨linha, hl, h1⟩
      · exact Or.inl h1
      · refine Or.inr ⟨linha, hl, ?_⟩
        rcases h1 with h1 | ⟨h1, h3⟩
        · exact Or.inl h1
        · exact Or.inr ⟨h1, syncCandidatos_fold_rows _ _ _ _ _ _ _ _ h3⟩

/-- A run of `syncCandidatos` keeps a queued id, unless its series was found empty, the
    projection of its latest record has no truthy `id_candidato`, or its insert succeeded. -/
theorem syncCandidatos_queue (f : SyncFaults) (schema : String) (w : Worker) (req : String)
    (h : req ∈ w.cache.sets (syncQueueCandidatos schema)) :
    req ∈ (syncCandidatos f schema w).cache.sets (syncQueueCandidatos schema)
    ∨ (getHistoricoCandidatos w.cache (f.histOk req) schema req = []
         ∨ ∃ linha, (getHistoricoCandidatos w.cache (f.histOk req) schema req).getLast? = some linha
            ∧ (truthy (getField (projectRow
                  (updatableOf (getTableColumns f.columnsOk schema "historico_candidatos" w).1) linha)
                  "id_candidato") = false
               ∨ (f.insertOk req = true
                  ∧ projectRow
                      (updatableOf (getTableColumns f.columnsOk schema "historico_candidatos" w).1)
                      linha ∈ (syncCandidatos f schema w).db.rows schema "historico_candidatos"))) := by
  unfold syncCandidatos
  simp only
  by_cases hq : (getSyncQueueCandidatos w.cache f.queueOk schema).isEmpty = true
  · rw [if_pos hq]; exact Or.inl h
  · rw [if_neg hq]
    by_cases hc : (getTableColumns f.columnsOk schema "historico_candidatos" w).1.isEmpty = true
    · rw [if_pos hc, getTableColumns_cache]; exact Or.inl h
    · rw [if_neg hc]
      have h0 : req ∈ (getTableColumns f.columnsOk schema "historico_candidatos" w).2.cache.sets
          (syncQueueCandidatos schema) := by rw [getTableColumns_cache]; exact h
      have := syncCandidatos_fold_queue f schema
        (updatableOf (getTableColumns f.columnsOk schema "historico_candidatos" w).1)
        (getSyncQueueCandidatos w.cache f.queueOk schema) _ req h0
      rw [getTableColumns_cache] at this
      exact this

/-- The step of an id whose insert is attempted and throws: the error counter goes up by
    one and nothing else changes. -/
theorem syncCandidatosStep_insert_throws (f : SyncFaults) (schema : String) (u : List String)
    (w : Worker) (req : String) (e : ZEntry) (rest : List ZEntry)
    (hz : zdesc (w.cache.zsets (histCandidatos schema req)) = e :: rest)
    (hr : f.histOk req = true)
    (ht : truthy (getField (projectRow u e.2) "id_candidato") = true)
    (hi : f.insertOk req = false) :
    syncCandidatosStep f schema u w req = w.countError := by
  have hl : (getHistoricoCandidatos w.cache (f.histOk req) schema req).getLast? = some e.2 := by
    rw [hr]
    simp only [getHistoricoCandidatos, if_true]
    exact getLast_zrangeAll _ e rest hz
  simp only [syncCandidatosStep, hl, ht, hi, Bool.not_true, Bool.false_eq_true, if_false,
    Worker.countError]

theorem syncCandidatos_fold_keeps_failed (f : SyncFaults) (schema : String) (u : List String)
    (q : List String) (w : Worker) (req : String) (e : ZEntry) (rest : List ZEntry)
    (h : req ∈ w.cache.sets (syncQueueCandidatos schema))
    (hz : zdesc (w.cache.zsets (histCandidatos schema req)) = e :: rest)
    (hr : f.histOk req = true)
    (ht : truthy (getField (projectRow u e.2) "id_candidato") = true)
    (hi : f.insertOk req = false) :
    req ∈ (q.foldl (syncCandidatosStep f schema u) w).cache.sets (syncQueueCandidatos schema) := by
  have hl : (getHistoricoCandidatos w.cache (f.histOk req) schema req).getLast? = some e.2 := by
    rw [hr]
    simp only [getHistoricoCandidatos, if_true]
    exact getLast_zrangeAll _ e rest hz
  rcases syncCandidatos_fold_queue f schema u q w req h with h1 | h1 | ⟨linha, h2, h3⟩
  · exact h1
  · rw [h1] at hl
    exact absurd hl (by simp)
  · rw [hl] at h2
    cases h2
    rcases h3 with h3 | ⟨h3, _⟩
    · rw [ht] at h3; exact absurd h3 (by simp)
    · rw [hi] at h3; exact absurd h3 (by simp)

/-- A run of `syncCandidatos` in which the insert of a queued id is attempted and throws: at the
    turn of that id the error counter goes up by one and nothing else changes, the ids
    queued after it are processed from that state, and the id is still queued at the end. -/
theorem syncCandidatos_retry (f : SyncFaults) (schema : String) (w : Worker) (req : String)
    (e : ZEntry) (rest : List ZEntry) (pre post : List String)
    (hq : getSyncQueueCandidatos w.cache f.queueOk schema = pre ++ req :: post)
    (hc : (getTableColumns f.columnsOk schema "historico_candidatos" w).1 ≠ [])
    (hz : zdesc (w.cache.zsets (histCandidatos schema req)) = e :: rest)
    (hr : f.histOk req = true)
    (ht : truthy (getField (projectRow
      (updatableOf (getTableColumns f.columnsOk schema "historico_candidatos" w).1) e.2)
      "id_candidato") = true)
    (hi : f.insertOk req = false) :
    syncCandidatos f schema w
      = post.foldl
          (syncCandidatosStep f schema
            (updatableOf (getTableColumns f.columnsOk schema "historico_candidatos" w).1))
          (pre.foldl
              (syncCandidatosStep f schema
                (updatableOf (getTableColumns f.columnsOk schema "historico_candidatos" w).1))
              (getTableColumns f.columnsOk schema "historico_candidatos" w).2).countError
    ∧ req ∈ (syncCandidatos f schema w).cache.sets (syncQueueCandidatos schema) := by
  have hne : (getSyncQueueCandidatos w.cache f.queueOk schema).isEmpty = false := by
    rw [hq]; cases pre <;> rfl
  have hce : (getTableColumns f.columnsOk schema "historico_candidatos" w).1.isEmpty = false := by
    cases hs : (getTableColumns f.columnsOk schema "historico_candidatos" w).1 with
    | nil => exact absurd hs hc
    | cons a l => rfl
  have hmem : req ∈ w.cache.sets (syncQueueCandidatos schema) := by
    unfold getSyncQueueCandidatos at hq
    cases hk : f.queueOk
    · rw [hk] at hq
      simp at hq
    · rw [hk, if_pos rfl] at hq
      rw [hq]
      simp
  have hrun : syncCandidatos f schema w
      = (getSyncQueueCandidatos w.cache f.queueOk schema).foldl
          (syncCandidatosStep f schema
            (updatableOf (getTableColumns f.columnsOk schema "historico_candidatos" w).1))
          (getTableColumns f.columnsOk schema "historico_candidatos" w).2 := by
    simp only [syncCandidatos, hne, hce, Bool.false_eq_true, if_false]
  constructor
  · rw [hrun, hq, List.foldl_append, List.foldl_cons]
    congr 1
    apply syncCandidatosStep_insert_throws f schema _ _ req e rest _ hr ht hi
    rw [syncCandidatos_fold_zsets, getTableColumns_cache]
    exact hz
  · rw [hrun]
    apply syncCandidatos_fold_keeps_failed f schema _ _ _ req e rest _ _ hr ht hi
    · rw [getTableColumns_cache]; exact hmem
    · rw [getTableColumns_cache]; exact hz

theorem syncCandidatosStep_none_sets (schema : String) (u : List String) (w : Worker) (a : String) :
    (syncCandidatosStep SyncFaults.none schema u w a).cache.sets (syncQueueCandidatos schema)
      = (w.cache.sets (syncQueueCandidatos schema)).filter (fun x => x ≠ a) := by
  have hrem : (removeSyncQueueCandidatos w.cache true schema a).2.sets (syncQueueCandidatos schema)
      = (w.cache.sets (syncQueueCandidatos schema)).filter (fun x => x ≠ a) := by
    simp [removeSyncQueueCandidatos, Cmd.apply, upd]
  simp only [syncCandidatosStep, SyncFaults.none]
  cases (getHistoricoCandidatos w.cache true schema a).getLast? with
  | none => exact hrem
  | some linha =>
    simp only
    by_cases h1 : (!truthy (getField (projectRow u linha) "id_candidato")) = true
    · rw [if_pos h1]; exact hrem
    · rw [if_neg h1, if_pos trivial]; exact hrem

theorem syncCandidatos_fold_none_sets (schema : String) (u : List String) (q : List String)
    (w : Worker) :
    (q.foldl (syncCandidatosStep SyncFaults.none schema u) w).cache.sets (syncQueueCandidatos schema)
      = (w.cache.sets (syncQueueCandidatos schema)).filter (fun x => decide (x ∉ q)) := by
  induction q generalizing w with
  | nil => simp
  | cons a q ih =>
    rw [List.foldl_cons, ih, syncCandidatosStep_none_sets, List.filter_filter]
    apply List.filter_congr
    intro x _
    simp only [List.mem_cons, not_or, decide_not, Bool.decide_or, Bool.not_or, Bool.and_comm,
      Bool.decide_and, ne_eq]

/-- A run of `syncCandidatos` in which no call fails and the table has a column empties the
    sync queue. -/
theorem syncCandidatos_drains (schema : String) (w : Worker)
    (hc : (getTableColumns true schema "historico_candidatos" w).1 ≠ []) :
    (syncCandidatos SyncFaults.none schema w).cache.sets (syncQueueCandidatos schema) = [] := by
  have hce : (getTableColumns true schema "historico_candidatos" w).1.isEmpty = false := by
    cases hs : (getTableColumns true schema "historico_candidatos" w).1 with
    | nil => exact absurd hs hc
    | cons a l => rfl
  simp only [syncCandidatos, SyncFaults.none, getSyncQueueCandidatos, if_true]
  by_cases hq : (w.cache.sets (syncQueueCandidatos schema)).isEmpty = true
  · rw [if_pos hq]
    exact List.isEmpty_iff.mp hq
  · rw [if_neg hq, hce]
    simp only [Bool.false_eq_true, if_false]
    have := syncCandidatos_fold_none_sets schema
      (updatableOf (getTableColumns true schema "historico_candidatos" w).1)
      (w.cache.sets (syncQueueCandidatos schema)) (getTableColumns true schema "historico_candidatos" w).2
    simp only [SyncFaults.none] at this
    rw [this, getTableColumns_cache]
    simp

/-! ## C16, C17, C18: the claims about one run -/

/-- C16 (amended). An id that was queued when a run of `syncVagas` (resp. `syncCandidatos`)
    started and is not queued when it ends had its series found empty, or the projection
    of its latest record on the updatable columns has no truthy `requisicao` (resp.
    `id_candidato`), or its durable insert succeeded and the projected row is in the table;
    in every other case the id is still queued after the run. -/
theorem C16_queue_entries_leave (f : SyncFaults) (schema : String) (w : Worker) (req : String)
    (f2 : SyncFaults) (schema2 : String) (w2 : Worker) (cand : String)
    (hq : req ∈ w.cache.sets (syncQueue schema))
    (hgone : req ∉ (syncVagas f schema w).cache.sets (syncQueue schema))
    (hq2 : cand ∈ w2.cache.sets (syncQueueCandidatos schema2))
    (hgone2 : cand ∉ (syncCandidatos f2 schema2 w2).cache.sets (syncQueueCandidatos schema2)) :
    (getHistoricoVagas w.cache (f.histOk req) schema req = []
      ∨ ∃ linha, (getHistoricoVagas w.cache (f.histOk req) schema req).getLast? = some linha
          ∧ (truthy (getField (projectRow
                (updatableOf (getTableColumns f.columnsOk schema "historico_vagas" w).1) linha)
                "requisicao") = false
             ∨ (f.insertOk req = true
                ∧ projectRow
                    (updatableOf (getTableColumns f.columnsOk schema "historico_vagas" w).1)
                    linha ∈ (syncVagas f schema w).db.rows schema "historico_vagas")))
    ∧ (getHistoricoCandidatos w2.cache (f2.histOk cand) schema2 cand = []
      ∨ ∃ linha, (getHistoricoCandidatos w2.cache (f2.histOk cand) schema2 cand).getLast?
            = some linha
          ∧ (truthy (getField (projectRow
                (updatableOf (getTableColumns f2.columnsOk schema2 "historico_candidatos" w2).1)
                linha) "id_candidato") = false
             ∨ (f2.insertOk cand = true
                ∧ projectRow
                    (updatableOf
                      (getTableColumns f2.columnsOk schema2 "historico_candidatos" w2).1)
                    linha
                  ∈ (syncCandidatos f2 schema2 w2).db.rows schema2 "historico_candidatos"))) :=
  ⟨(syncVagas_queue f schema w req hq).resolve_left hgone,
   (syncCandidatos_queue f2 schema2 w2 cand hq2).resolve_left hgone2⟩

/-- Witness for C16: a run without faults over one queued requisition and one over one
    queued candidate. -/
theorem C16_queue_entries_leave_witness :
    (getHistoricoVagas (exWorker exAfterAberta).cache (SyncFaults.none.histOk "REQ100") "t1"
        "REQ100" = []
      ∨ ∃ linha, (getHistoricoVagas (exWorker exAfterAberta).cache
            (SyncFaults.none.histOk "REQ100") "t1" "REQ100").getLast? = some linha
          ∧ (truthy (getField (projectRow
                (updatableOf (getTableColumns SyncFaults.none.columnsOk "t1" "historico_vagas"
                  (exWorker exAfterAberta)).1) linha) "requisicao") = false
             ∨ (SyncFaults.none.insertOk "REQ100" = true
                ∧ projectRow
                    (updatableOf (getTableColumns SyncFaults.none.columnsOk "t1"
                      "historico_vagas" (exWorker exAfterAberta)).1)
                    linha ∈ (syncVagas SyncFaults.none "t1" (exWorker exAfterAberta)).db.rows
                      "t1" "historico_vagas")))
    ∧ (getHistoricoCandidatos (exWorker exAfterCandidato).cache (SyncFaults.none.histOk "C7")
        "t1" "C7" = []
      ∨ ∃ linha, (getHistoricoCandidatos (exWorker exAfterCandidato).cache
            (SyncFaults.none.histOk "C7") "t1" "C7").getLast? = some linha
          ∧ (truthy (getField (projectRow
                (updatableOf (getTableColumns SyncFaults.none.columnsOk "t1"
                  "historico_candidatos" (exWorker exAfterCandidato)).1)
                linha) "id_candidato") = false
             ∨ (SyncFaults.none.insertOk "C7" = true
                ∧ projectRow
                    (updatableOf
                      (getTableColumns SyncFaults.none.columnsOk "t1" "historico_candidatos"
                        (exWorker exAfterCandidato)).1)
                    linha
                  ∈ (syncCandidatos SyncFaults.none "t1" (exWorker exAfterCandidato)).db.rows
                      "t1" "historico_candidatos"))) :=
  C16_queue_entries_leave SyncFaults.none "t1" (exWorker exAfterAberta) "REQ100"
    SyncFaults.none "t1" (exWorker exAfterCandidato) "C7"
    (by decide) (by decide) (by decide) (by decide)

/-- C16 (as stated) fails: the table has no `requisicao` column, the series of `REQ100` is
    read and is not empty, no insert is made, and the run removes `REQ100` from the sync
    queue. -/
theorem C16_id_dropped_without_insert :
    "REQ100" ∈ ({ exWorker exAfterAberta with db := exDbNoIdColumn } : Worker).cache.sets
      (syncQueue "t1")
    ∧ getHistoricoVagas exAfterAberta true "t1" "REQ100"
        = [setField exAberta "cached_at" (JVal.num 1000)]
    ∧ (syncVagas SyncFaults.none "t1"
        { exWorker exAfterAberta with db := exDbNoIdColumn }).db.rows "t1" "historico_vagas" = []
    ∧ (syncVagas SyncFaults.none "t1"
        { exWorker exAfterAberta with db := exDbNoIdColumn }).cache.sets (syncQueue "t1") = [] := by
  decide

/-- C17. When the durable insert of a queued id is attempted (its series is read and is not
    empty, and the projection of its latest record has a truthy `requisicao`, resp.
    `id_candidato`) and throws, then at the turn of that id `stats.errors` goes up by one
    and nothing else changes (the synced counters and the queue included), the ids queued
    after it are processed from that state in the same run, and the id is still in the
    sync queue when the run ends. -/
theorem C17_retry_on_durable_failure (f : SyncFaults) (schema : String) (w : Worker)
    (req : String) (e : ZEntry) (rest : List ZEntry) (pre post : List String)
    (f2 : SyncFaults) (schema2 : String) (w2 : Worker)
    (cand : String) (e2 : ZEntry) (rest2 : List ZEntry) (pre2 post2 : List String)
    (hq : getSyncQueue w.cache f.queueOk schema = pre ++ req :: post)
    (hc : (getTableColumns f.columnsOk schema "historico_vagas" w).1 ≠ [])
    (hz : zdesc (w.cache.zsets (histVagas schema req)) = e :: rest)
    (hr : f.histOk req = true)
    (ht : truthy (getField (projectRow
      (updatableOf (getTableColumns f.columnsOk schema "historico_vagas" w).1) e.2)
      "requisicao") = true)
    (hi : f.insertOk req = false)
    (hq2 : getSyncQueueCandidatos w2.cache f2.queueOk schema2 = pre2 ++ cand :: post2)
    (hc2 : (getTableColumns f2.columnsOk schema2 "historico_candidatos" w2).1 ≠ [])
    (hz2 : zdesc (w2.cache.zsets (histCandidatos schema2 cand)) = e2 :: rest2)
    (hr2 : f2.histOk cand = true)
    (ht2 : truthy (getField (projectRow
      (updatableOf (getTableColumns f2.columnsOk schema2 "historico_candidatos" w2).1) e2.2)
      "id_candidato") = true)
    (hi2 : f2.insertOk cand = false) :
    (syncVagas f schema w
      = post.foldl
          (syncVagasStep f schema
            (updatableOf (getTableColumns f.columnsOk schema "historico_vagas" w).1))
          (pre.foldl
              (syncVagasStep f schema
                (updatableOf (getTableColumns f.columnsOk schema "historico_vagas" w).1))
              (getTableColumns f.columnsOk schema "historico_vagas" w).2).countError
      ∧ req ∈ (syncVagas f schema w).cache.sets (syncQueue schema))
    ∧ (syncCandidatos f2 schema2 w2
      = post2.foldl
          (syncCandidatosStep f2 schema2
            (updatableOf (getTableColumns f2.columnsOk schema2 "historico_candidatos" w2).1))
          (pre2.foldl
              (syncCandidatosStep f2 schema2
                (updatableOf (getTableColumns f2.columnsOk schema2 "historico_candidatos" w2).1))
              (getTableColumns f2.columnsOk schema2 "historico_candidatos" w2).2).countError
      ∧ cand ∈ (syncCandidatos f2 schema2 w2).cache.sets (syncQueueCandidatos schema2)) :=
  ⟨syncVagas_retry f schema w req e rest pre post hq hc hz hr ht hi,
   syncCandidatos_retry f2 schema2 w2 cand e2 rest2 pre2 post2 hq2 hc2 hz2 hr2 ht2 hi2⟩

/-- Witness for C17: `REQ100` and `REQ200` are queued and only the insert for `REQ100`
    throws; one candidate is queued and its insert throws. After the run `REQ100` is still
    queued, `REQ200` is not, one error and one synced requisition are counted. -/
theorem C17_retry_on_durable_failure_witness :
    ("REQ100" ∈ (syncVagas exInsertFailsOnce "t1" (exWorker exTwoQueued)).cache.sets
        (syncQueue "t1")
      ∧ "C7" ∈ (syncCandidatos exInsertFailsOnce "t1" (exWorker exAfterCandidato)).cache.sets
        (syncQueueCandidatos "t1"))
    ∧ (syncVagas exInsertFailsOnce "t1" (exWorker exTwoQueued)).cache.sets (syncQueue "t1")
        = ["REQ100"]
    ∧ (syncVagas exInsertFailsOnce "t1" (exWorker exTwoQueued)).stats
        = { vagas_synced := 1, candidatos_synced := 0, errors := 1, cycles := 0 } :=
  ⟨⟨(C17_retry_on_durable_failure exInsertFailsOnce "t1" (exWorker exTwoQueued) "REQ100"
      (1000, setField exAberta "cached_at" (JVal.num 1000)) [] [] ["REQ200"]
      exInsertFailsOnce "t1" (exWorker exAfterCandidato) "C7"
      (1000, setField exCandidato "cached_at" (JVal.num 1000)) [] [] []
      (by decide) (by decide) (by decide) (by decide) (by decide) (by decide)
      (by decide) (by decide) (by decide) (by decide) (by decide) (by decide)).1.2,
    (C17_retry_on_durable_failure exInsertFailsOnce "t1" (exWorker exTwoQueued) "REQ100"
      (1000, setField exAberta "cached_at" (JVal.num 1000)) [] [] ["REQ200"]
      exInsertFailsOnce "t1" (exWorker exAfterCandidato) "C7"
      (1000, setField exCandidato "cached_at" (JVal.num 1000)) [] [] []
      (by decide) (by decide) (by decide) (by decide) (by decide) (by decide)
      (by decide) (by decide) (by decide) (by decide) (by decide) (by decide)).2.2⟩,
   by decide, by decide⟩

/-- C18 (amended). When no call of a run of `syncVagas` (resp. `syncCandidatos`) fails and
    the column lookup of the history table returns at least one column, no id is in the
    tenant's sync queue when the run ends. -/
theorem C18_queue_drain (schema : String) (w : Worker) (schema2 : String) (w2 : Worker)
    (hc : (getTableColumns true schema "historico_vagas" w).1 ≠ [])
    (hc2 : (getTableColumns true schema2 "historico_candidatos" w2).1 ≠ []) :
    (∀ req, req ∉ (syncVagas SyncFaults.none schema w).cache.sets (syncQueue schema))
    ∧ (∀ cand, cand ∉
        (syncCandidatos SyncFaults.none schema2 w2).cache.sets (syncQueueCandidatos schema2)) := by
  constructor
  · intro req
    rw [syncVagas_drains schema w hc]
    exact List.not_mem_nil _
  · intro cand
    rw [syncCandidatos_drains schema2 w2 hc2]
    exact List.not_mem_nil _

/-- Witness for C18: two queued requisitions and one queued candidate. -/
theorem C18_queue_drain_witness :
    (∀ req, req ∉ (syncVagas SyncFaults.none "t1" (exWorker exTwoQueued)).cache.sets
        (syncQueue "t1"))
    ∧ (∀ cand, cand ∉ (syncCandidatos SyncFaults.none "t1"
        (exWorker exAfterCandidato)).cache.sets (syncQueueCandidatos "t1")) :=
  C18_queue_drain "t1" (exWorker exTwoQueued) "t1" (exWorker exAfterCandidato)
    (by decide) (by decide)

/-- C18 (as stated) fails: the catalog lists no column for the history table (the lookup
    itself succeeds), no call of the run fails, and `REQ100` is still queued after the run;
    the empty column list stays in `columnsCache`. -/
theorem C18_queue_not_drained_without_columns :
    (getTableColumns true "t1" "historico_vagas"
        { exWorker exAfterAberta with db := exDbNoTable }).1 = []
    ∧ (syncVagas SyncFaults.none "t1"
        { exWorker exAfterAberta with db := exDbNoTable }).cache.sets (syncQueue "t1")
      = ["REQ100"]
    ∧ (syncVagas SyncFaults.none "t1"
        { exWorker exAfterAberta with db := exDbNoTable }).columnsCache "t1.historico_vagas"
      = some [] := by
  decide

/-! ## C19: the guard of `mainLoop` -/

theorem getTableColumns_isRunning (ok : Bool) (schema t : String) (w : Worker) :
    (getTableColumns ok schema t w).2.isRunning = w.isRunning := by
  unfold getTableColumns
  cases w.columnsCache (schema ++ "." ++ t) with
  | some cols => rfl
  | none => cases ok <;> rfl

theorem syncVagasStep_isRunning (f : SyncFaults) (schema : String) (u : List String) (w : Worker)
    (req : String) : (syncVagasStep f schema u w req).isRunning = w.isRunning := by
  simp only [syncVagasStep]
  cases (getHistoricoVagas w.cache (f.histOk req) schema req).getLast? with
  | none => rfl
  | some linha =>
    simp only
    by_cases h1 : (!truthy (getField (projectRow u linha) "requisicao")) = true
    · rw [if_pos h1]
    · rw [if_neg h1]
      by_cases h2 : f.insertOk req = true
      · rw [if_pos h2]
      · rw [if_neg h2]

theorem syncVagas_isRunning (f : SyncFaults) (schema : String) (w : Worker) :
    (syncVagas f schema w).isRunning = w.isRunning := by
  have hfold : ∀ (u : List String) (q : List String) (w : Worker),
      (q.foldl (syncVagasStep f schema u) w).isRunning = w.isRunning := by
    intro u q
    induction q with
    | nil => intro w; rfl
    | cons a q ih => intro w; rw [List.foldl_cons, ih, syncVagasStep_isRunning]
  unfold syncVagas
  simp only
  split
  · rfl
  · split
    · exact getTableColumns_isRunning _ _ _ _
    · rw [hfold, getTableColumns_isRunning]

theorem syncCandidatosStep_isRunning (f : SyncFaults) (schema : String) (u : List String)
    (w : Worker) (req : String) :
    (syncCandidatosStep f schema u w req).isRunning = w.isRunning := by
  simp only [syncCandidatosStep]
  cases (getHistoricoCandidatos w.cache (f.histOk req) schema req).getLast? with
  | none => rfl
  | some linha =>
    simp only
    by_cases h1 : (!truthy (getField (projectRow u linha) "id_candidato")) = true
    · rw [if_pos h1]
    · rw [if_neg h1]
      by_cases h2 : f.insertOk req = true
      · rw [if_pos h2]
      · rw [if_neg h2]

theorem syncCandidatos_isRunning (f : SyncFaults) (schema : String) (w : Worker) :
    (syncCandidatos f schema w).isRunning = w.isRunning := by
  have hfold : ∀ (u : List String) (q : List String) (w : Worker),
      (q.foldl (syncCandidatosStep f schema u) w).isRunning = w.isRunning := by
    intro u q
    induction q with
    | nil => intro w; rfl
    | cons a q ih => intro w; rw [List.foldl_cons, ih, syncCandidatosStep_isRunning]
  unfold syncCandidatos
  simp only
  split
  · rfl
  · split
    · exact getTableColumns_isRunning _ _ _ _
    · rw [hfold, getTableColumns_isRunning]

/-- The `for` loop of `mainLoop` never writes `isRunning`. -/
theorem cycleLoop_isRunning (f : CycleFaults) (schemas : List String) (w : Worker) :
    (cycleLoop f schemas w).isRunning = w.isRunning := by
  unfold cycleLoop
  induction schemas generalizing w with
  | nil => rfl
  | cons a l ih => rw [List.foldl_cons, ih, syncCandidatos_isRunning, syncVagas_isRunning]

/-- Every turn of the event loop keeps: either `isRunning` is true and exactly one
    invocation is in flight, or `isRunning` is false and none is. -/
theorem scheduler_step_inv (l : Scheduler) (ev : LoopEvent)
    (h : (l.worker.isRunning = true ∧ l.inFlight.length = 1)
      ∨ (l.worker.isRunning = false ∧ l.inFlight = [])) :
    ((l.step ev).worker.isRunning = true ∧ (l.step ev).inFlight.length = 1)
      ∨ ((l.step ev).worker.isRunning = false ∧ (l.step ev).inFlight = []) := by
  cases ev with
  | invoke =>
    rcases h with ⟨h1, h2⟩ | ⟨h1, h2⟩
    · simp [Scheduler.step, h1, h2]
    · simp [Scheduler.step, h1, h2]
  | advance i fv fc =>
    rcases h with ⟨h1, h2⟩ | ⟨h1, h2⟩
    · obtain ⟨c, hc⟩ := List.length_eq_one.mp h2
      cases i with
      | zero =>
        cases c with
        | nil => simp [Scheduler.step, hc]
        | cons schema rest =>
          simp [Scheduler.step, hc, syncCandidatos_isRunning, syncVagas_isRunning, h1]
      | succ n => simp [Scheduler.step, hc, h1]
    · simp [Scheduler.step, h2, h1]
  | raise i =>
    rcases h with ⟨h1, h2⟩ | ⟨h1, h2⟩
    · obtain ⟨c, hc⟩ := List.length_eq_one.mp h2
      cases i with
      | zero => simp [Scheduler.step, hc]
      | succ n => simp [Scheduler.step, hc, h1]
    · simp [Scheduler.step, h2, h1]

theorem scheduler_run_inv (evs : List LoopEvent) (l : Scheduler)
    (h : (l.worker.isRunning = true ∧ l.inFlight.length = 1)
      ∨ (l.worker.isRunning = false ∧ l.inFlight = [])) :
    ((evs.foldl Scheduler.step l).worker.isRunning = true
        ∧ (evs.foldl Scheduler.step l).inFlight.length = 1)
      ∨ ((evs.foldl Scheduler.step l).worker.isRunning = false
        ∧ (evs.foldl Scheduler.step l).inFlight = []) := by
  induction evs generalizing l with
  | nil => exact h
  | cons ev evs ih =>
    rw [List.foldl_cons]
    exact ih _ (scheduler_step_inv l ev h)

/-- The events of one cycle that no other invocation interrupts. -/
theorem scheduler_cycle (f : CycleFaults) (schemas : List String) (w : Worker) :
    (schemas.map (fun s => LoopEvent.advance 0 (f.vagas s) (f.candidatos s))).foldl
        Scheduler.step { worker := w, inFlight := [schemas] }
      = { worker := cycleLoop f schemas w, inFlight := [[]] } := by
  induction schemas generalizing w with
  | nil => rfl
  | cons a l ih =>
    rw [List.map_cons, List.foldl_cons]
    have : Scheduler.step { worker := w, inFlight := [a :: l] }
        (LoopEvent.advance 0 (f.vagas a) (f.candidatos a))
        = { worker := syncCandidatos (f.candidatos a) a (syncVagas (f.vagas a) a w),
            inFlight := [l] } := rfl
    rw [this, ih]
    rfl

/-- The function `mainLoop` is the event sequence of one uninterrupted invocation: the
    guard, one turn per active schema, and the final turn. -/
theorem mainLoop_eq_schedule (f : CycleFaults) (w : Worker) (hf : f.throwsAfter = none)
    (hw : w.isRunning = false) :
    ([LoopEvent.invoke]
      ++ w.activeSchemas.map (fun s => LoopEvent.advance 0 (f.vagas s) (f.candidatos s))
      ++ [LoopEvent.advance 0 SyncFaults.none SyncFaults.none]).foldl
        Scheduler.step { worker := w, inFlight := [] }
      = { worker := mainLoop f w, inFlight := [] } := by
  rw [List.foldl_append, List.foldl_append]
  have h1 : [LoopEvent.invoke].foldl Scheduler.step { worker := w, inFlight := [] }
      = { worker := { w with isRunning := true }, inFlight := [w.activeSchemas] } := by
    simp [Scheduler.step, hw]
  rw [h1]
  have h2 := scheduler_cycle f w.activeSchemas { w with isRunning := true }
  rw [h2]
  simp only [List.foldl_cons, List.foldl_nil, Scheduler.step, List.get?_cons_zero, mainLoop, hw,
    cycleBody, hf, List.eraseIdx_cons_zero, Bool.false_eq_true, if_false]

/-! ## C19: the cycle counter and the schedule of an invocation -/

theorem getTableColumns_cycles (ok : Bool) (schema t : String) (w : Worker) :
    (getTableColumns ok schema t w).2.stats.cycles = w.stats.cycles := by
  unfold getTableColumns
  cases w.columnsCache (schema ++ "." ++ t) with
  | some cols => rfl
  | none => cases ok <;> rfl

theorem syncVagasStep_cycles (f : SyncFaults) (schema : String) (u : List String) (w : Worker)
    (req : String) : (syncVagasStep f schema u w req).stats.cycles = w.stats.cycles := by
  simp only [syncVagasStep]
  cases (getHistoricoVagas w.cache (f.histOk req) schema req).getLast? with
  | none => rfl
  | some linha =>
    simp only
    by_cases h1 : (!truthy (getField (projectRow u linha) "requisicao")) = true
    · rw [if_pos h1]
    · rw [if_neg h1]
      by_cases h2 : f.insertOk req = true
      · rw [if_pos h2]
      · rw [if_neg h2]

theorem syncVagas_cycles (f : SyncFaults) (schema : String) (w : Worker) :
    (syncVagas f schema w).stats.cycles = w.stats.cycles := by
  have hfold : ∀ (u : List String) (q : List String) (w : Worker),
      (q.foldl (syncVagasStep f schema u) w).stats.cycles = w.stats.cycles := by
    intro u q
    induction q with
    | nil => intro w; rfl
    | cons a q ih => intro w; rw [List.foldl_cons, ih, syncVagasStep_cycles]
  unfold syncVagas
  simp only
  split
  · rfl
  · split
    · exact getTableColumns_cycles _ _ _ _
    · rw [hfold, getTableColumns_cycles]

theorem syncCandidatosStep_cycles (f : SyncFaults) (schema : String) (u : List String)
    (w : Worker) (req : String) :
    (syncCandidatosStep f schema u w req).stats.cycles = w.stats.cycles := by
  simp only [syncCandidatosStep]
  cases (getHistoricoCandidatos w.cache (f.histOk req) schema req).getLast? with
  | none => rfl
  | some linha =>
    simp only
    by_cases h1 : (!truthy (getField (projectRow u linha) "id_candidato")) = true
    · rw [if_pos h1]
    · rw [if_neg h1]
      by_cases h2 : f.insertOk req = true
      · rw [if_pos h2]
      · rw [if_neg h2]

theorem syncCandidatos_cycles (f : SyncFaults) (schema : String) (w : Worker) :
    (syncCandidatos f schema w).stats.cycles = w.stats.cycles := by
  have hfold : ∀ (u : List String) (q : List String) (w : Worker),
      (q.foldl (syncCandidatosStep f schema u) w).stats.cycles = w.stats.cycles := by
    intro u q
    induction q with
    | nil => intro w; rfl
    | cons a q ih => intro w; rw [List.foldl_cons, ih, syncCandidatosStep_cycles]
  unfold syncCandidatos
  simp only
  split
  · rfl
  · split
    · exact getTableColumns_cycles _ _ _ _
    · rw [hfold, getTableColumns_cycles]

/-- The `for` loop of `mainLoop` never writes `stats.cycles`. -/
theorem cycleLoop_cycles (f : CycleFaults) (schemas : List String) (w : Worker) :
    (cycleLoop f schemas w).stats.cycles = w.stats.cycles := by
  unfold cycleLoop
  induction schemas generalizing w with
  | nil => rfl
  | cons a l ih => rw [List.foldl_cons, ih, syncCandidatos_cycles, syncVagas_cycles]

/-- Turns of an invocation in flight over the first schemas of its list. -/
theorem scheduler_cycle_prefix (f : CycleFaults) (pre post : List String) (w : Worker) :
    (pre.map (fun s => LoopEvent.advance 0 (f.vagas s) (f.candidatos s))).foldl
        Scheduler.step { worker := w, inFlight := [pre ++ post] }
      = { worker := cycleLoop f pre w, inFlight := [post] } := by
  induction pre generalizing w with
  | nil => rfl
  | cons a l ih =>
    rw [List.map_cons, List.foldl_cons]
    have : Scheduler.step { worker := w, inFlight := [(a :: l) ++ post] }
        (LoopEvent.advance 0 (f.vagas a) (f.candidatos a))
        = { worker := syncCandidatos (f.candidatos a) a (syncVagas (f.vagas a) a w),
            inFlight := [l ++ post] } := rfl
    rw [this, ih]
    rfl

/-- The function `mainLoop` with an exception after `n` schemas is the event sequence of
    one uninterrupted invocation: the guard, one turn for each of the first `n` active
    schemas, and the turn of the exception. -/
theorem mainLoop_eq_schedule_raise (f : CycleFaults) (w : Worker) (n : Nat)
    (hf : f.throwsAfter = some n) (hw : w.isRunning = false) :
    ([LoopEvent.invoke]
      ++ (w.activeSchemas.take n).map
          (fun s => LoopEvent.advance 0 (f.vagas s) (f.candidatos s))
      ++ [LoopEvent.raise 0]).foldl
        Scheduler.step { worker := w, inFlight := [] }
      = { worker := mainLoop f w, inFlight := [] } := by
  rw [List.foldl_append, List.foldl_append]
  have h1 : [LoopEvent.invoke].foldl Scheduler.step { worker := w, inFlight := [] }
      = { worker := { w with isRunning := true },
          inFlight := [w.activeSchemas.take n ++ w.activeSchemas.drop n] } := by
    simp [Scheduler.step, hw]
  rw [h1]
  have h2 := scheduler_cycle_prefix f (w.activeSchemas.take n) (w.activeSchemas.drop n)
    { w with isRunning := true }
  rw [h2]
  simp only [List.foldl_cons, List.foldl_nil, Scheduler.step, List.get?_cons_zero, mainLoop, hw,
    cycleBody, hf, List.eraseIdx_cons_zero, Bool.false_eq_true, if_false]

/-- C19. An invocation of `mainLoop` while `isRunning` is true changes nothing: neither the
    cache with its sync queues, nor the durable store, the counters or `isRunning`, and it
    starts no cycle. An invocation while `isRunning` is false sets `isRunning` to true
    before its first `await` and starts a cycle over the active schemas; the loop never
    writes the flag, so the whole cycle body runs with it set; the flag is reset to false
    at the end, when the loop ends normally (then `stats.cycles` went up by one) and
    when it ends by an exception (then `stats.cycles` is as it was). Run without another
    invocation in between, the turns of the event loop for one invocation give the result
    of `mainLoop`. In every state the event loop reaches from an idle worker, whatever the
    order of timer invocations, resumptions and exceptions, `isRunning` is true exactly
    when one cycle is in flight, and never more than one is. -/
theorem C19_skip_if_running (f : CycleFaults) (w : Worker) (cs : List (List String))
    (evs : List LoopEvent) (l : Scheduler)
    (hrun : w.isRunning = true)
    (hidle : l.worker.isRunning = false) (hnone : l.inFlight = []) :
    mainLoop f w = w
    ∧ Scheduler.step { worker := w, inFlight := cs } LoopEvent.invoke
        = { worker := w, inFlight := cs }
    ∧ Scheduler.step l LoopEvent.invoke
        = { worker := { l.worker with isRunning := true },
            inFlight := [l.worker.activeSchemas] }
    ∧ (∀ schemas, (cycleLoop f schemas { l.worker with isRunning := true }).isRunning = true)
    ∧ mainLoop f l.worker
        = { cycleBody f { l.worker with isRunning := true } with isRunning := false }
    ∧ (mainLoop f l.worker).isRunning = false
    ∧ (f.throwsAfter = none →
        (mainLoop f l.worker).stats.cycles = l.worker.stats.cycles + 1
        ∧ ([LoopEvent.invoke]
            ++ l.worker.activeSchemas.map
                (fun s => LoopEvent.advance 0 (f.vagas s) (f.candidatos s))
            ++ [LoopEvent.advance 0 SyncFaults.none SyncFaults.none]).foldl
              Scheduler.step l
          = { worker := mainLoop f l.worker, inFlight := [] })
    ∧ (∀ n, f.throwsAfter = some n →
        (mainLoop f l.worker).stats.cycles = l.worker.stats.cycles
        ∧ ([LoopEvent.invoke]
            ++ (l.worker.activeSchemas.take n).map
                (fun s => LoopEvent.advance 0 (f.vagas s) (f.candidatos s))
            ++ [LoopEvent.raise 0]).foldl
              Scheduler.step l
          = { worker := mainLoop f l.worker, inFlight := [] })
    ∧ (∀ (w2 : Worker) (fv fc : SyncFaults),
        Scheduler.step { worker := w2, inFlight := [[]] } (LoopEvent.advance 0 fv fc)
          = { worker :=
                { w2 with
                  stats := { w2.stats with cycles := w2.stats.cycles + 1 }
                  isRunning := false }
              inFlight := [] })
    ∧ (∀ (w2 : Worker) (c : List String),
        Scheduler.step { worker := w2, inFlight := [c] } (LoopEvent.raise 0)
          = { worker := { w2 with isRunning := false }, inFlight := [] })
    ∧ (evs.foldl Scheduler.step l).inFlight.length ≤ 1
    ∧ ((evs.foldl Scheduler.step l).worker.isRunning = true
        ↔ (evs.foldl Scheduler.step l).inFlight.length = 1)
    ∧ ((evs.foldl Scheduler.step l).worker.isRunning = false
        ↔ (evs.foldl Scheduler.step l).inFlight = []) := by
  have hl : l = { worker := l.worker, inFlight := [] } := by
    cases l with
    | mk wk fl =>
      simp only at hnone
      rw [hnone]
  refine ⟨?_, ?_, ?_, ?_, ?_, ?_, ?_, ?_, ?_, ?_, ?_⟩
  · simp [mainLoop, hrun]
  · simp [Scheduler.step, hrun]
  · simp [Scheduler.step, hidle, hnone]
  · intro schemas
    rw [cycleLoop_isRunning]
  · simp [mainLoop, hidle]
  · simp [mainLoop, hidle]
  · intro hf
    constructor
    · simp only [mainLoop, hidle, cycleBody, hf, Bool.false_eq_true, if_false]
      rw [cycleLoop_cycles]
    · rw [hl]
      exact mainLoop_eq_schedule f l.worker hf hidle
  · intro n hf
    constructor
    · simp only [mainLoop, hidle, cycleBody, hf, Bool.false_eq_true, if_false]
      rw [cycleLoop_cycles]
    · rw [hl]
      exact mainLoop_eq_schedule_raise f l.worker n hf hidle
  · intro w2 fv fc
    rfl
  · intro w2 c
    rfl
  · rcases scheduler_run_inv evs l (Or.inr ⟨hidle, hnone⟩) with ⟨h1, h2⟩ | ⟨h1, h2⟩
    · refine ⟨by omega, ⟨fun _ => h2, fun _ => h1⟩, ⟨fun h => ?_, fun h => ?_⟩⟩
      · rw [h1] at h; exact absurd h (by simp)
      · rw [h] at h2; exact absurd h2 (by simp)
    · refine ⟨by simp [h2], ⟨fun h => ?_, fun h => ?_⟩, ⟨fun _ => h2, fun _ => h1⟩⟩
      · rw [h1] at h; exact absurd h (by simp)
      · rw [h2] at h; exact absurd h (by simp)

/-- Witness for C19: a second timer invocation arrives while the cycle over tenant `t1`
    is in flight; and an invocation of the idle worker runs one cycle to its end. -/
theorem C19_skip_if_running_witness :
    mainLoop CycleFaults.none { exWorker exAfterAberta with isRunning := true }
      = { exWorker exAfterAberta with isRunning := true }
    ∧ ([LoopEvent.invoke, LoopEvent.invoke,
        LoopEvent.advance 0 SyncFaults.none SyncFaults.none].foldl Scheduler.step
        { worker := exWorker exAfterAberta, inFlight := [] }).inFlight.length ≤ 1
    ∧ (mainLoop CycleFaults.none (exWorker exAfterAberta)).stats.cycles
        = (exWorker exAfterAberta).stats.cycles + 1
    ∧ (mainLoop CycleFaults.none (exWorker exAfterAberta)).isRunning = false :=
  ⟨(C19_skip_if_running CycleFaults.none { exWorker exAfterAberta with isRunning := true } []
      [LoopEvent.invoke, LoopEvent.invoke, LoopEvent.advance 0 SyncFaults.none SyncFaults.none]
      { worker := exWorker exAfterAberta, inFlight := [] } rfl rfl rfl).1,
   (C19_skip_if_running CycleFaults.none { exWorker exAfterAberta with isRunning := true } []
      [LoopEvent.invoke, LoopEvent.invoke, LoopEvent.advance 0 SyncFaults.none SyncFaults.none]
      { worker := exWorker exAfterAberta, inFlight := [] } rfl rfl
      rfl).2.2.2.2.2.2.2.2.2.2.1,
   ((C19_skip_if_running CycleFaults.none { exWorker exAfterAberta with isRunning := true }
      [] [] { worker := exWorker exAfterAberta, inFlight := [] } rfl rfl
      rfl).2.2.2.2.2.2.1 rfl).1,
   (C19_skip_if_running CycleFaults.none { exWorker exAfterAberta with isRunning := true }
      [] [] { worker := exWorker exAfterAberta, inFlight := [] } rfl rfl rfl).2.2.2.2.2.1⟩

/-! ## C20: tenant discovery -/

/-- With `schemas.json` present and readable, `activeSchemas` becomes the names of its
    active entries when there is one, and the rows of the catalog probe otherwise. -/
theorem discoverSchemas_with_file (d : Discovery) (w : Worker) (entries : List SchemaEntry)
    (hf : d.file = some entries) (hr : d.readOk = true) (hp : d.probeOk = true) :
    (discoverSchemas d w).2 = true
    ∧ (discoverSchemas d w).1.activeSchemas
        = (if (entries.filter (fun s => s.active)).map (fun s => s.name) = [] then d.probe
           else (entries.filter (fun s => s.active)).map (fun s => s.name)) := by
  simp only [discoverSchemas, hf, hr, hp, if_true]
  cases h : (entries.filter (fun s => s.active)).map (fun s => s.name) with
  | nil => simp
  | cons a l => simp

/-- Without `schemas.json`, `activeSchemas` becomes the rows of the catalog probe only when it
    was empty before the call; otherwise the call completes and leaves it as it was. -/
theorem discoverSchemas_without_file (d : Discovery) (w : Worker)
    (hf : d.file = none) (hp : d.probeOk = true) :
    (discoverSchemas d w).2 = true
    ∧ (discoverSchemas d w).1.activeSchemas
        = (if w.activeSchemas = [] then d.probe else w.activeSchemas) := by
  simp only [discoverSchemas, hf, hp, if_true]
  cases h : w.activeSchemas with
  | nil => simp
  | cons a l => simp

/-- C20: without `schemas.json`, a refresh keeps the tenants found earlier. The worker found
    `RPO_a` at start-up; at the next refresh the file is absent and the catalog probe would
    return `RPO_a` and the newly provisioned `RPO_b`; the call completes without error and
    `activeSchemas` is still `RPO_a` alone, because the probe runs only when the list it
    would replace is empty. -/
theorem C20_refresh_without_file_keeps_previous :
    exWorkerWithTenant.activeSchemas = ["RPO_a"]
    ∧ (discoverSchemas exNoFileTwoTenants exWorkerWithTenant).2 = true
    ∧ (discoverSchemas exNoFileTwoTenants exWorkerWithTenant).1.activeSchemas = ["RPO_a"]
    ∧ (discoverSchemas exNoFileTwoTenants
        { exWorkerWithTenant with activeSchemas := [] }).1.activeSchemas = ["RPO_a", "RPO_b"] := by
  decide

/-! ## C15: distinct scores in a series -/

/-- A call that is not about the entity owning a key leaves the sorted set at that key
    as it is. -/
theorem run_untouched (op : CacheOp) (s : Valkey) (kind : KeyKind) (schema id : String)
    (hop : op.tenantOk schema) (hnot : ¬ op.touches kind schema id) :
    (op.run s).zsets (entityKey kind schema id) = s.zsets (entityKey kind schema id) := by
  have hpatch : ∀ (sc r idxk : String) (k2 : KeyKind) (out : ExecOutcome) (ts : JVal)
      (upd : Record), (sc = schema ∨ (sanitizeSchema schema = Except.ok schema
        ∧ sanitizeSchema sc = Except.ok sc)) →
      ¬ (kind ≠ KeyKind.histCand ∧ sc = schema ∧ r = id) → k2 ≠ KeyKind.histCand →
      idxk = entityKey k2 sc r →
      (execPipeline out (patchCmds (histVagas sc r) idxk (syncQueue sc) ts upd r) s).zsets
        (entityKey kind schema id) = s.zsets (entityKey kind schema id) := by
    intro sc r idxk k2 out ts upd hten hdiff hk2 hidx
    rw [execPipeline_untouched]
    intro c hc hk
    rcases patchCmds_zkeys _ _ _ _ _ _ c hc _ hk with h | h
    · have := entityKey_inj_of_tenantOk kind KeyKind.histVagas schema sc id r hten h
      exact hdiff ⟨by rw [this.1]; decide, this.2.1.symm, this.2.2.symm⟩
    · rw [hidx] at h
      have := entityKey_inj_of_tenantOk kind k2 schema sc id r hten h
      exact hdiff ⟨by rw [this.1]; exact hk2, this.2.1.symm, this.2.2.symm⟩
  have hdel : ∀ (sc : String) (keys : List String),
      (∀ key ∈ keys, key ≠ entityKey kind schema id) →
      ((Cmd.del keys).apply s).zsets (entityKey kind schema id)
        = s.zsets (entityKey kind schema id) := by
    intro sc keys hk
    simp only [Cmd.apply, Valkey.delKeys]
    rw [if_neg]
    intro hmem
    exact hk _ hmem rfl
  cases op with
  | addVagas now hgetOk out sc data =>
    simp only [CacheOp.run, addHistoricoVagas]
    cases funcaoLowerOf (getFuncaoSistemaDoStatus s hgetOk sc (getField data "status")) with
    | none => rfl
    | some fl =>
      simp only
      rw [execPipeline_untouched]
      intro c hc hk
      obtain ⟨k2, hk2, heq⟩ := addVagasCmds_zkeys now fl sc data c hc _ hk
      have := entityKey_inj_of_tenantOk kind k2 schema sc id _ hop heq
      exact hnot ⟨by rw [this.1]; exact hk2, this.2.1.symm, this.2.2.symm⟩
  | addCandidatos now out sc data =>
    simp only [CacheOp.run, addHistoricoCandidatos]
    rw [execPipeline_untouched]
    intro c hc hk
    have heq := addCandidatosCmds_zkeys now sc data c hc _ hk
    have := entityKey_inj_of_tenantOk kind KeyKind.histCand schema sc id _ hop heq
    exact hnot ⟨this.1, this.2.1.symm, this.2.2.symm⟩
  | patchStatus now1 now2 readOk out sc r valor ordem =>
    simp only [CacheOp.run, updatePropostaStatus]
    cases getPropostaRecente s readOk sc r ordem with
    | none => rfl
    | some p => exact hpatch sc r _ KeyKind.idxProposta out _ _ hop hnot (by decide) rfl
  | patchCandidatos now1 now2 readOk out sc r dados =>
    simp only [CacheOp.run, updateDadosCandidatos]
    cases getShortlistRecente s readOk sc r with
    | none => rfl
    | some p => exact hpatch sc r _ KeyKind.idxShortlist out _ _ hop hnot (by decide) rfl
  | patchSelecionado now1 now2 readOk out sc r dados =>
    simp only [CacheOp.run, updateDadosSelecionado]
    cases getPropostaRecente s readOk sc r (some (JVal.str "ultima")) with
    | none => rfl
    | some p => exact hpatch sc r _ KeyKind.idxProposta out _ _ hop hnot (by decide) rfl
  | invalidateRequisicao ok sc r =>
    simp only [CacheOp.run, invalidateCacheForRequisicao]
    cases ok
    · rfl
    · apply hdel sc
      intro key hkey heq
      simp only [List.mem_cons, List.mem_singleton, List.not_mem_nil, or_false] at hkey
      have hall : ∀ k2 : KeyKind, k2 ≠ KeyKind.histCand → key = entityKey k2 sc r → False := by
        intro k2 hk2 h2
        rw [h2] at heq
        have := entityKey_inj_of_tenantOk kind k2 schema sc id r hop heq.symm
        exact hnot ⟨by rw [this.1]; exact hk2, this.2.1.symm, this.2.2.symm⟩
      rcases hkey with h | h | h | h | h
      · exact hall KeyKind.histVagas (by decide) h
      · exact hall KeyKind.idxProposta (by decide) h
      · exact hall KeyKind.idxShortlist (by decide) h
      · exact hall KeyKind.idxCancelada (by decide) h
      · exact hall KeyKind.idxFechada (by decide) h
  | invalidateCandidato ok sc c =>
    simp only [CacheOp.run, invalidateCacheForCandidato]
    cases ok
    · rfl
    · apply hdel sc
      intro key hkey heq
      simp only [List.mem_singleton] at hkey
      rw [hkey] at heq
      have := entityKey_inj_of_tenantOk kind KeyKind.histCand schema sc id c hop heq.symm
      exact hnot ⟨this.1, this.2.1.symm, this.2.2.symm⟩

theorem zsetAfter_preserves (P : List ZEntry → Prop) (effect : Nat → Bool) (i : Nat)
    (cmds : List Cmd) (k : String) (z : List ZEntry)
    (hc : ∀ c ∈ cmds, ∀ z2 : List ZEntry, P z2 → P (c.onZset k z2)) (hz : P z) :
    P (zsetAfter effect i cmds k z) := by
  induction cmds generalizing i z with
  | nil => exact hz
  | cons c cs ih =>
    rw [zsetAfter]
    apply ih _ _ (fun c2 h2 => hc c2 (List.mem_cons_of_mem _ h2))
    cases effect i
    · exact hz
    · exact hc c (List.mem_cons_self _ _) z hz

theorem execPipeline_all_zsets (out : ExecOutcome) (h : ∀ i, out.effect i = true)
    (cmds : List Cmd) (s : Valkey) (k : String) :
    (execPipeline out cmds s).zsets k
      = cmds.foldl (fun acc c => c.onZset k acc) (s.zsets k) := by
  have he : out.effect = fun _ => true := funext h
  unfold execPipeline
  rw [runCmds_zsets, he, zsetAfter_all]

theorem nodup_scores_filter (z : List ZEntry) (p : ZEntry → Bool)
    (hnd : (z.map Prod.fst).Nodup) : ((z.filter p).map Prod.fst).Nodup :=
  List.Nodup.sublist (List.Sublist.map _ (List.filter_sublist z)) hnd

/-- Adding a member under a score keeps scores distinct when every entry already under
    that score carries that member. -/
theorem nodup_zaddEntries (z : List ZEntry) (sc : Int) (m : Record)
    (hnd : (z.map Prod.fst).Nodup) (hsame : ∀ e ∈ z, e.1 = sc → e.2 = m) :
    ((zaddEntries z sc m).map Prod.fst).Nodup := by
  unfold zaddEntries
  rw [List.map_cons, List.nodup_cons]
  refine ⟨?_, nodup_scores_filter z _ hnd⟩
  intro hmem
  rw [List.mem_map] at hmem
  obtain ⟨e, he, hsc⟩ := hmem
  rw [List.mem_filter] at he
  have := hsame e he.1 hsc
  simp [this] at he

theorem nodup_patched (z : List ZEntry) (sc : Int) (m : Record)
    (hnd : (z.map Prod.fst).Nodup) :
    ((zaddEntries (zremEntries z sc sc) sc m).map Prod.fst).Nodup := by
  apply nodup_zaddEntries
  · exact nodup_scores_filter z _ hnd
  · intro e he hsc
    rw [mem_zremEntries] at he
    exact absurd ⟨le_of_eq hsc.symm, le_of_eq hsc⟩ he.2

/-- Shape of the commands of an append for a requisition. -/
theorem addVagasCmds_shape (now : Int) (fl schema : String) (data : Record) :
    ∀ c ∈ addHistoricoVagasCmds now fl schema data,
      (∃ key, c = Cmd.zadd key (JVal.num now) (setField data "cached_at" (JVal.num now)))
      ∨ (∃ key ttl, c = Cmd.expire key ttl) ∨ (∃ key m, c = Cmd.sadd key m) := by
  intro c hc
  simp only [addHistoricoVagasCmds, List.mem_append, List.mem_cons, List.mem_singleton,
    List.not_mem_nil, or_false] at hc
  rcases hc with ((((hc | hc) | hc) | hc) | hc) | hc
  · rcases hc with rfl | rfl
    · exact Or.inl ⟨_, rfl⟩
    · exact Or.inr (Or.inl ⟨_, _, rfl⟩)
  · split at hc
    · simp only [List.mem_cons, List.mem_singleton, List.not_mem_nil, or_false] at hc
      rcases hc with rfl | rfl
      · exact Or.inl ⟨_, rfl⟩
      · exact Or.inr (Or.inl ⟨_, _, rfl⟩)
    · simp at hc
  · split at hc
    · simp only [List.mem_cons, List.mem_singleton, List.not_mem_nil, or_false] at hc
      rcases hc with rfl | rfl
      · exact Or.inl ⟨_, rfl⟩
      · exact Or.inr (Or.inl ⟨_, _, rfl⟩)
    · simp at hc
  · split at hc
    · simp only [List.mem_cons, List.mem_singleton, List.not_mem_nil, or_false] at hc
      rcases hc with rfl | rfl
      · exact Or.inl ⟨_, rfl⟩
      · exact Or.inr (Or.inl ⟨_, _, rfl⟩)
    · simp at hc
  · split at hc
    · simp only [List.mem_cons, List.mem_singleton, List.not_mem_nil, or_false] at hc
      rcases hc with rfl | rfl
      · exact Or.inl ⟨_, rfl⟩
      · exact Or.inr (Or.inl ⟨_, _, rfl⟩)
    · simp at hc
  · exact Or.inr (Or.inr ⟨_, _, hc⟩)

/-- Shape of the commands of an append for a candidate. -/
theorem addCandidatosCmds_shape (now : Int) (schema : String) (data : Record) :
    ∀ c ∈ addHistoricoCandidatosCmds now schema data,
      (∃ key, c = Cmd.zadd key (JVal.num now) (setField data "cached_at" (JVal.num now)))
      ∨ (∃ key ttl, c = Cmd.expire key ttl) ∨ (∃ key m, c = Cmd.sadd key m) := by
  intro c hc
  simp only [addHistoricoCandidatosCmds, List.mem_cons, List.mem_singleton, List.not_mem_nil,
    or_false] at hc
  rcases hc with rfl | rfl | rfl
  · exact Or.inl ⟨_, rfl⟩
  · exact Or.inr (Or.inl ⟨_, _, rfl⟩)
  · exact Or.inr (Or.inr ⟨_, _, rfl⟩)

/-- A batch made of `zadd`s of one member under one score, `expire`s and `sadd`s keeps the
    scores of a sorted set distinct when the score is not in the set at the start. -/
theorem append_keeps_nodup (effect : Nat → Bool) (cmds : List Cmd) (now : Int) (m : Record)
    (k : String) (z : List ZEntry)
    (hshape : ∀ c ∈ cmds, (∃ key, c = Cmd.zadd key (JVal.num now) m)
      ∨ (∃ key ttl, c = Cmd.expire key ttl) ∨ (∃ key mm, c = Cmd.sadd key mm))
    (hnd : (z.map Prod.fst).Nodup) (hfresh : ∀ e ∈ z, e.1 ≠ now) :
    ((zsetAfter effect 0 cmds k z).map Prod.fst).Nodup := by
  have := zsetAfter_preserves
    (fun z2 => (z2.map Prod.fst).Nodup ∧ ∀ e ∈ z2, e.1 = now → e.2 = m) effect 0 cmds k z
    (by
      intro c hc z2 hz2
      rcases hshape c hc with ⟨key, rfl⟩ | ⟨key, ttl, rfl⟩ | ⟨key, mm, rfl⟩
      · simp only [Cmd.onZset, scoreOf]
        split
        · refine ⟨nodup_zaddEntries z2 now m hz2.1 hz2.2, ?_⟩
          intro e he hsc
          rw [mem_zaddEntries] at he
          rcases he with rfl | ⟨he, _⟩
          · rfl
          · exact hz2.2 e he hsc
        · exact hz2
      · exact hz2
      · exact hz2)
    ⟨hnd, fun e he hsc => absurd hsc (hfresh e he)⟩
  exact this.1

theorem patchCmds_at_serie_any (serie idx queue req : String) (hne : serie ≠ idx) (ts : JVal)
    (merged : Record) (z : List ZEntry) :
    (patchCmds serie idx queue ts merged req).foldl (fun acc c => c.onZset serie acc) z
      = (match scoreOf ts with
         | some sc => zaddEntries (zremEntries z sc sc) sc merged
         | none => z) := by
  cases h : scoreOf ts <;> simp [patchCmds, Cmd.onZset, h, hne]

/-- A patch in which every command takes effect keeps the scores of the series distinct. -/
theorem patch_keeps_nodup (s : Valkey) (out : ExecOutcome) (h : ∀ i, out.effect i = true)
    (sc r idxk : String) (k2 : KeyKind) (hk2 : k2 ≠ KeyKind.histVagas)
    (hidx : idxk = entityKey k2 sc r) (ts : JVal) (merged : Record)
    (hnd : ((s.zsets (histVagas sc r)).map Prod.fst).Nodup) :
    (((execPipeline out (patchCmds (histVagas sc r) idxk (syncQueue sc) ts merged r) s).zsets
      (histVagas sc r)).map Prod.fst).Nodup := by
  have hne : histVagas sc r ≠ idxk := by
    intro heq
    rw [hidx] at heq
    have := entityKey_inj_of_tenantOk KeyKind.histVagas k2 sc sc r r (Or.inl rfl) heq
    exact hk2 this.1.symm
  rw [execPipeline_all_zsets out h, patchCmds_at_serie_any _ _ _ _ hne]
  cases scoreOf ts with
  | none => exact hnd
  | some a => exact nodup_patched _ a merged hnd

/-- States of `ReachableApart` are states of `Reachable`. -/
theorem reachable_of_apart (schema : String) (s : Valkey) (h : ReachableApart schema s) :
    Reachable s := by
  induction h with
  | init s h => exact Reachable.init s h
  | step s op _ _ hcached _ ih => exact Reachable.step s op ih hcached

/-- In every state of `ReachableApart` the scores of each series are distinct. -/
theorem reachableApart_nodup (schema : String) (s : Valkey) (h : ReachableApart schema s) :
    ∀ kind, (kind = KeyKind.histVagas ∨ kind = KeyKind.histCand) → ∀ id,
      ((s.zsets (entityKey kind schema id)).map Prod.fst).Nodup := by
  induction h with
  | init s h =>
    intro kind _ id
    rw [h]
    exact List.nodup_nil
  | step s op _ hten _ hop ih =>
    intro kind hkind id
    by_cases htouch : op.touches kind schema id
    · have hdel : ∀ keys : List String,
          ((((Cmd.del keys).apply s).zsets (entityKey kind schema id)).map Prod.fst).Nodup := by
        intro keys
        simp only [Cmd.apply, Valkey.delKeys]
        split
        · exact List.nodup_nil
        · exact ih kind hkind id
      cases op with
      | addVagas now hgetOk out sc data =>
        obtain ⟨h1, h2, h3⟩ := htouch
        have hk : kind = KeyKind.histVagas := hkind.resolve_right h1
        subst hk; subst h2; subst h3
        simp only [CacheOp.run, addHistoricoVagas]
        cases funcaoLowerOf (getFuncaoSistemaDoStatus s hgetOk sc (getField data "status")) with
        | none => exact ih _ hkind _
        | some fl =>
          simp only [execPipeline]
          rw [runCmds_zsets]
          exact append_keeps_nodup _ _ now _ _ _ (addVagasCmds_shape now fl sc data)
            (ih _ hkind _) hop
      | addCandidatos now out sc data =>
        obtain ⟨h1, h2, h3⟩ := htouch
        subst h1; subst h2; subst h3
        simp only [CacheOp.run, addHistoricoCandidatos, execPipeline]
        rw [runCmds_zsets]
        exact append_keeps_nodup _ _ now _ _ _ (addCandidatosCmds_shape now sc data)
          (ih _ hkind _) hop
      | patchStatus now1 now2 readOk out sc r valor ordem =>
        obtain ⟨h1, h2, h3⟩ := htouch
        have hk : kind = KeyKind.histVagas := hkind.resolve_right h1
        subst hk; subst h2; subst h3
        simp only [CacheOp.run, updatePropostaStatus]
        cases getPropostaRecente s readOk sc r ordem with
        | none => exact ih _ hkind _
        | some p =>
          exact patch_keeps_nodup s out hop sc r _ KeyKind.idxProposta (by decide) rfl _ _
            (ih _ hkind _)
      | patchCandidatos now1 now2 readOk out sc r dados =>
        obtain ⟨h1, h2, h3⟩ := htouch
        have hk : kind = KeyKind.histVagas := hkind.resolve_right h1
        subst hk; subst h2; subst h3
        simp only [CacheOp.run, updateDadosCandidatos]
        cases getShortlistRecente s readOk sc r with
        | none => exact ih _ hkind _
        | some p =>
          exact patch_keeps_nodup s out hop sc r _ KeyKind.idxShortlist (by decide) rfl _ _
            (ih _ hkind _)
      | patchSelecionado now1 now2 readOk out sc r dados =>
        obtain ⟨h1, h2, h3⟩ := htouch
        have hk : kind = KeyKind.histVagas := hkind.resolve_right h1
        subst hk; subst h2; subst h3
        simp only [CacheOp.run, updateDadosSelecionado]
        cases getPropostaRecente s readOk sc r (some (JVal.str "ultima")) with
        | none => exact ih _ hkind _
        | some p =>
          exact patch_keeps_nodup s out hop sc r _ KeyKind.idxProposta (by decide) rfl _ _
            (ih _ hkind _)
      | invalidateRequisicao ok sc r =>
        simp only [CacheOp.run, invalidateCacheForRequisicao]
        cases ok
        · exact ih kind hkind id
        · exact hdel _
      | invalidateCandidato ok sc c =>
        simp only [CacheOp.run, invalidateCacheForCandidato]
        cases ok
        · exact ih kind hkind id
        · exact hdel _
    · rw [run_untouched op s kind schema id hten htouch]
      exact ih kind hkind id

theorem nodup_cached_at (z : List ZEntry) (hs : ScoreIsCachedAt z)
    (hnd : (z.map Prod.fst).Nodup) :
    (z.map (fun e => getField e.2 "cached_at")).Nodup := by
  have heq : z.map (fun e => getField e.2 "cached_at")
      = (z.map Prod.fst).map (fun n => some (JVal.num n)) := by
    rw [List.map_map]
    apply List.map_congr_left
    intro e he
    exact (hs e he).1
  rw [heq]
  apply List.Nodup.map _ hnd
  intro a b hab
  simpa using hab

/-- C15 (amended). In every cache state reached from a cache without history by appends,
    patches and invalidations on sanitised tenants, in which each append reads a positive
    clock value that is not yet a score of the series of its entity, the partial fields of
    a patch do not contain `cached_at`, and every command of the batch of a patch takes
    effect, no series of a requisition or of a candidate holds two records under the same
    score or with the same `cached_at`. -/
theorem C15_distinct_scores (schema : String) (s : Valkey) (h : ReachableApart schema s)
    (id : String) :
    ((s.zsets (histVagas schema id)).map Prod.fst).Nodup
    ∧ ((s.zsets (histVagas schema id)).map (fun e => getField e.2 "cached_at")).Nodup
    ∧ ((s.zsets (histCandidatos schema id)).map Prod.fst).Nodup
    ∧ ((s.zsets (histCandidatos schema id)).map (fun e => getField e.2 "cached_at")).Nodup := by
  have hst := reachable_stamped s (reachable_of_apart schema s h)
  have h1 := reachableApart_nodup schema s h KeyKind.histVagas (Or.inl rfl) id
  have h2 := reachableApart_nodup schema s h KeyKind.histCand (Or.inr rfl) id
  exact ⟨h1, nodup_cached_at _ (hst _) h1, h2, nodup_cached_at _ (hst _) h2⟩

/-- Witness for C15: two proposals for `REQ100`, appended at 1000 and at 2000. -/
theorem C15_distinct_scores_witness :
    ((exTwoPropostas.zsets (histVagas "t1" "REQ100")).map Prod.fst).Nodup
    ∧ ((exTwoPropostas.zsets (histVagas "t1" "REQ100")).map
        (fun e => getField e.2 "cached_at")).Nodup :=
  ⟨(C15_distinct_scores "t1" exTwoPropostas
      (ReachableApart.step _ (CacheOp.addVagas 2000 true ExecOutcome.ok "t1" exPropostaAna)
        (ReachableApart.step _ (CacheOp.addVagas 1000 true ExecOutcome.ok "t1" exPropostaZeta)
          (ReachableApart.init Valkey.empty (fun _ => rfl)) (Or.inl rfl)
          (show (0 : Int) < 1000 by decide)
          (show ∀ e ∈ Valkey.empty.zsets (histVagas "t1" "REQ100"), e.1 ≠ 1000 by decide))
        (Or.inl rfl) (show (0 : Int) < 2000 by decide)
        (show ∀ e ∈ exAfterZeta.zsets (histVagas "t1" "REQ100"), e.1 ≠ 2000 by decide))
      "REQ100").1,
   (C15_distinct_scores "t1" exTwoPropostas
      (ReachableApart.step _ (CacheOp.addVagas 2000 true ExecOutcome.ok "t1" exPropostaAna)
        (ReachableApart.step _ (CacheOp.addVagas 1000 true ExecOutcome.ok "t1" exPropostaZeta)
          (ReachableApart.init Valkey.empty (fun _ => rfl)) (Or.inl rfl)
          (show (0 : Int) < 1000 by decide)
          (show ∀ e ∈ Valkey.empty.zsets (histVagas "t1" "REQ100"), e.1 ≠ 1000 by decide))
        (Or.inl rfl) (show (0 : Int) < 2000 by decide)
        (show ∀ e ∈ exAfterZeta.zsets (histVagas "t1" "REQ100"), e.1 ≠ 2000 by decide))
      "REQ100").2.1⟩

/-- C15 (as stated) fails: two appends for `REQ100` read the same clock value 1000 (the
    clock is non-decreasing), both return true, and the series holds two records under
    the score 1000, both with `cached_at` 1000. -/
theorem C15_same_millisecond_same_score :
    (addHistoricoVagas Valkey.empty 1000 true ExecOutcome.ok "t1" exPropostaZeta).1 = true
    ∧ (addHistoricoVagas exAfterZeta 1000 true ExecOutcome.ok "t1" exPropostaAna).1 = true
    ∧ (exAfterZetaAna.zsets (histVagas "t1" "REQ100")).map Prod.fst = [1000, 1000]
    ∧ (exAfterZetaAna.zsets (histVagas "t1" "REQ100")).map
        (fun e => getField e.2 "cached_at") = [some (JVal.num 1000), some (JVal.num 1000)]
    ∧ ((exAfterZetaAna.zsets (histVagas "t1" "REQ100")).map Prod.snd).Nodup := by
  decide

/-! ## C14: index entries are series entries -/

theorem indexInSeries_congr (z z2 : KeyKind → List ZEntry)
    (h : ∀ kind, kind ≠ KeyKind.histCand → z2 kind = z kind) (hinv : IndexInSeries z) :
    IndexInSeries z2 := by
  have hidx : ∀ kind : KeyKind, kind.isIndex = true → kind ≠ KeyKind.histCand := by
    intro kind hk hc
    rw [hc] at hk
    exact absurd hk (by decide)
  constructor
  · intro kind hk e he
    rw [h kind (hidx kind hk)] at he
    rw [h KeyKind.histVagas (by decide)]
    exact hinv.1 kind hk e he
  · intro k1 k2 h1 h2 hne e1 he1 e2 he2
    rw [h k1 (hidx k1 h1)] at he1
    rw [h k2 (hidx k2 h2)] at he2
    exact hinv.2 k1 k2 h1 h2 hne e1 he1 e2 he2

theorem indexInSeries_of_empty (z : KeyKind → List ZEntry)
    (h : ∀ kind, kind.isIndex = true → z kind = []) : IndexInSeries z := by
  constructor
  · intro kind hk e he
    rw [h kind hk] at he
    exact absurd he (List.not_mem_nil _)
  · intro k1 k2 h1 _ _ e1 he1
    rw [h k1 h1] at he1
    exact absurd he1 (List.not_mem_nil _)

/-- An append that adds one record under a fresh score to the series and to at most one
    index keeps the indices within the series. -/
theorem indexInSeries_append (z z2 : KeyKind → List ZEntry) (now : Int) (l : Record)
    (w : KeyKind → Bool)
    (hser : z2 KeyKind.histVagas = zaddEntries (z KeyKind.histVagas) now l)
    (hidx : ∀ kind, kind.isIndex = true →
      z2 kind = if w kind = true then zaddEntries (z kind) now l else z kind)
    (hone : ∀ k1 k2, w k1 = true → w k2 = true → k1 = k2)
    (hfresh : ∀ e ∈ z KeyKind.histVagas, e.1 ≠ now)
    (hst : ∀ kind, ScoreIsCachedAt (z kind))
    (hl : getField l "cached_at" = some (JVal.num now))
    (hinv : IndexInSeries z) : IndexInSeries z2 := by
  have hF : ∀ kind, kind.isIndex = true → ∀ e ∈ z2 kind,
      (e = (now, l) ∧ w kind = true) ∨ e ∈ z kind := by
    intro kind hk e he
    rw [hidx kind hk] at he
    by_cases hw : w kind = true
    · rw [if_pos hw, mem_zaddEntries] at he
      rcases he with h | ⟨h, _⟩
      · exact Or.inl ⟨h, hw⟩
      · exact Or.inr h
    · rw [if_neg hw] at he
      exact Or.inr he
  constructor
  · intro kind hk e he
    rw [hser, mem_zaddEntries]
    rcases hF kind hk e he with ⟨h, _⟩ | h
    · exact Or.inl h
    · right
      have hs := hinv.1 kind hk e h
      refine ⟨hs, ?_⟩
      intro heq
      have h1 := (hst kind e h).1
      rw [heq, hl] at h1
      have : now = e.1 := by simpa using h1
      exact hfresh e hs this.symm
  · intro k1 k2 h1 h2 hne e1 he1 e2 he2
    rcases hF k1 h1 e1 he1 with ⟨a1, w1⟩ | a1
    · rcases hF k2 h2 e2 he2 with ⟨_, w2⟩ | a2
      · exact absurd (hone k1 k2 w1 w2) hne
      · rw [a1]
        exact fun h => hfresh e2 (hinv.1 k2 h2 e2 a2) h.symm
    · rcases hF k2 h2 e2 he2 with ⟨a2, _⟩ | a2
      · rw [a2]
        exact hfresh e1 (hinv.1 k1 h1 e1 a1)
      · exact hinv.2 k1 k2 h1 h2 hne e1 a1 e2 a2

/-- A patch that replaces the entries under the score of a record of one index, in the
    series and in that index, keeps the indices within the series. -/
theorem indexInSeries_patch (z z2 : KeyKind → List ZEntry) (x : KeyKind)
    (hx : x.isIndex = true) (ts : Int) (m : Record) (e0 : ZEntry)
    (he0 : e0 ∈ z x) (hts : e0.1 = ts)
    (hser : z2 KeyKind.histVagas = zaddEntries (zremEntries (z KeyKind.histVagas) ts ts) ts m)
    (hat : z2 x = zaddEntries (zremEntries (z x) ts ts) ts m)
    (hoth : ∀ kind, kind.isIndex = true → kind ≠ x → z2 kind = z kind)
    (hst : ∀ kind, ScoreIsCachedAt (z kind))
    (hm : getField m "cached_at" = some (JVal.num ts))
    (hinv : IndexInSeries z) : IndexInSeries z2 := by
  have hnot : ∀ e : ZEntry, e.1 ≠ ts → ¬ (ts ≤ e.1 ∧ e.1 ≤ ts) := by
    intro e h1 h2
    exact h1 (le_antisymm h2.2 h2.1)
  have hG : ∀ e ∈ z2 x, ∃ e2 ∈ z x, e2.1 = e.1 := by
    intro e he
    rw [hat, mem_zaddEntries] at he
    rcases he with h | ⟨h, _⟩
    · exact ⟨e0, he0, by rw [h]; exact hts⟩
    · exact ⟨e, ((mem_zremEntries _ _ _ _).mp h).1, rfl⟩
  constructor
  · intro kind hk e he
    rw [hser, mem_zaddEntries]
    by_cases hkx : kind = x
    · subst hkx
      rw [hat, mem_zaddEntries] at he
      rcases he with h | ⟨h, hne⟩
      · exact Or.inl h
      · right
        rw [mem_zremEntries] at h
        exact ⟨(mem_zremEntries _ _ _ _).mpr ⟨hinv.1 kind hk e h.1, h.2⟩, hne⟩
    · right
      rw [hoth kind hk hkx] at he
      have hsc : e.1 ≠ ts := by
        rw [← hts]
        exact hinv.2 kind x hk hx hkx e he e0 he0
      refine ⟨(mem_zremEntries _ _ _ _).mpr ⟨hinv.1 kind hk e he, hnot e hsc⟩, ?_⟩
      intro heq
      have h1 := (hst kind e he).1
      rw [heq, hm] at h1
      have : ts = e.1 := by simpa using h1
      exact hsc this.symm
  · intro k1 k2 h1 h2 hne e1 he1 e2 he2
    by_cases hk1 : k1 = x
    · subst hk1
      obtain ⟨e3, he3, h3⟩ := hG e1 he1
      rw [hoth k2 h2 (Ne.symm hne)] at he2
      rw [← h3]
      exact hinv.2 k1 k2 h1 h2 hne e3 he3 e2 he2
    · rw [hoth k1 h1 hk1] at he1
      by_cases hk2 : k2 = x
      · subst hk2
        obtain ⟨e3, he3, h3⟩ := hG e2 he2
        rw [← h3]
        exact hinv.2 k1 k2 h1 h2 hne e1 he1 e3 he3
      · rw [hoth k2 h2 hk2] at he2
        exact hinv.2 k1 k2 h1 h2 hne e1 he1 e2 he2

theorem touches_histVagas_of_kind (op : CacheOp) (kind : KeyKind) (schema id : String)
    (hk : kind ≠ KeyKind.histCand) (h : op.touches kind schema id) :
    op.touches KeyKind.histVagas schema id := by
  cases op with
  | addVagas now hgetOk out sc data => exact ⟨by decide, h.2⟩
  | addCandidatos now out sc data => exact absurd h.1 hk
  | patchStatus now1 now2 readOk out sc r valor ordem => exact ⟨by decide, h.2⟩
  | patchCandidatos now1 now2 readOk out sc r dados => exact ⟨by decide, h.2⟩
  | patchSelecionado now1 now2 readOk out sc r dados => exact ⟨by decide, h.2⟩
  | invalidateRequisicao ok sc r => exact ⟨by decide, h.2⟩
  | invalidateCandidato ok sc c => exact absurd h.1 hk

theorem add_index_zsets (s : Valkey) (now : Int) (fl schema : String) (data : Record)
    (out : ExecOutcome) (hall : ∀ i, out.effect i = true) (kind : KeyKind)
    (hk : kind.isIndex = true) :
    (execPipeline out (addHistoricoVagasCmds now fl schema data) s).zsets
        (entityKey kind schema (jsString (getField data "requisicao")))
      = (if writesIndex data fl kind = true then
          zaddEntries (s.zsets (entityKey kind schema (jsString (getField data "requisicao"))))
            now (setField data "cached_at" (JVal.num now))
         else s.zsets (entityKey kind schema (jsString (getField data "requisicao")))) := by
  rw [execPipeline_all_zsets out hall]
  cases kind with
  | histVagas => exact absurd hk (by decide)
  | histCand => exact absurd hk (by decide)
  | idxProposta =>
    simp only [writesIndex, decide_eq_true_eq]
    exact addCmds_idxProposta now fl schema data _
  | idxShortlist => exact addCmds_idxShortlist now fl schema data _
  | idxCancelada => exact addCmds_idxCancelada now fl schema data _
  | idxFechada => exact addCmds_idxFechada now fl schema data _

/-- A patch through the index of kind `x`, with every command taking effect, keeps the
    indices of the requisition within its series. -/
theorem patch_keeps_indexInSeries (s : Valkey) (out : ExecOutcome)
    (hall : ∀ i, out.effect i = true) (sc r : String) (x : KeyKind) (hx : x.isIndex = true)
    (p : Record) (now1 : Int) (merged : Record) (e0 : ZEntry)
    (he0 : e0 ∈ s.zsets (entityKey x sc r)) (hp : e0.2 = p)
    (hmerged : getField merged "cached_at" = getField p "cached_at")
    (hst : ∀ k, ScoreIsCachedAt (s.zsets k))
    (hinv : IndexInSeries (entityZsets s sc r)) :
    IndexInSeries (entityZsets
      (execPipeline out (patchCmds (histVagas sc r) (entityKey x sc r) (syncQueue sc)
        (patchTimestamp p now1) merged r) s) sc r) := by
  have h1 := hst _ e0 he0
  rw [hp] at h1
  have hts : patchTimestamp p now1 = JVal.num e0.1 :=
    patchTimestamp_of_cached_at p now1 e0.1 h1.1 h1.2
  have hxv : x ≠ KeyKind.histVagas := by
    intro h; rw [h] at hx; exact absurd hx (by decide)
  have hne : histVagas sc r ≠ entityKey x sc r := by
    intro heq
    have := entityKey_inj_of_tenantOk KeyKind.histVagas x sc sc r r (Or.inl rfl) heq
    exact hxv this.1.symm
  rw [hts]
  apply indexInSeries_patch (entityZsets s sc r) _ x hx e0.1 merged e0 he0 rfl
  · show (execPipeline out _ s).zsets (histVagas sc r) = _
    rw [execPipeline_all_zsets out hall]
    exact patchCmds_at_serie _ _ _ _ hne _ _ _
  · show (execPipeline out _ s).zsets (entityKey x sc r) = _
    rw [execPipeline_all_zsets out hall]
    exact patchCmds_at_idx _ _ _ _ hne _ _ _
  · intro kind hk hkx
    show (execPipeline out _ s).zsets (entityKey kind sc r) = _
    rw [execPipeline_untouched]
    · rfl
    · intro c hc hmem
      rcases patchCmds_zkeys _ _ _ _ _ _ c hc _ hmem with h | h
      · have := entityKey_inj_of_tenantOk kind KeyKind.histVagas sc sc r r (Or.inl rfl) h
        rw [this.1] at hk
        exact absurd hk (by decide)
      · have := entityKey_inj_of_tenantOk kind x sc sc r r (Or.inl rfl) h
        exact hkx this.1
  · intro kind
    exact hst _
  · rw [hmerged]
    exact h1.1
  · exact hinv

/-- A call that meets `keepsIndexInSeries` and leaves `cached_at` alone keeps the indices of
    every requisition within its series. -/
theorem run_keeps_indexInSeries (op : CacheOp) (s : Valkey) (schema req : String)
    (hten : op.tenantOk schema) (hcached : op.keepsCachedAt) (hop : op.keepsIndexInSeries s)
    (hst : ∀ k, ScoreIsCachedAt (s.zsets k))
    (hinv : IndexInSeries (entityZsets s schema req)) :
    IndexInSeries (entityZsets (op.run s) schema req) := by
  by_cases htouch : op.touches KeyKind.histVagas schema req
  · cases op with
    | addVagas now hgetOk out sc data =>
      obtain ⟨_, h2, h3⟩ := htouch
      subst h2; subst h3
      simp only [CacheOp.run, addHistoricoVagas]
      cases hfl : funcaoLowerOf
          (getFuncaoSistemaDoStatus s hgetOk sc (getField data "status")) with
      | none => exact hinv
      | some fl =>
        simp only
        apply indexInSeries_append (entityZsets s sc _) _ now
          (setField data "cached_at" (JVal.num now)) (writesIndex data fl)
        · show (execPipeline out _ s).zsets (histVagas sc _) = _
          rw [execPipeline_all_zsets out hop.1]
          exact addCmds_histVagas now fl sc data _
        · intro kind hk
          exact add_index_zsets s now fl sc data out hop.1 kind hk
        · exact hop.2.2 fl hfl
        · exact hop.2.1
        · intro kind
          exact hst _
        · rw [getField_setField, if_pos rfl]
        · exact hinv
    | addCandidatos now out sc data => exact absurd htouch.1 (by decide)
    | patchStatus now1 now2 readOk out sc r valor ordem =>
      obtain ⟨_, h2, h3⟩ := htouch
      subst h2; subst h3
      simp only [CacheOp.run, updatePropostaStatus]
      cases hg : getPropostaRecente s readOk sc r ordem with
      | none => exact hinv
      | some p =>
        have hmem : ∃ e ∈ s.zsets (idxProposta sc r), e.2 = p := by
          unfold getPropostaRecente at hg
          cases readOk
          · simp at hg
          · exact mem_of_zrevrangeAt _ _ _ (by simpa using hg)
        obtain ⟨e0, he0, hp⟩ := hmem
        apply patch_keeps_indexInSeries s out hop sc r KeyKind.idxProposta rfl p now1 _ e0 he0 hp
          _ hst hinv
        rw [getField_setField, if_neg (by decide), getField_setField, if_neg (by decide)]
    | patchCandidatos now1 now2 readOk out sc r dados =>
      obtain ⟨_, h2, h3⟩ := htouch
      subst h2; subst h3
      simp only [CacheOp.run, updateDadosCandidatos]
      cases hg : getShortlistRecente s readOk sc r with
      | none => exact hinv
      | some p =>
        have hmem : ∃ e ∈ s.zsets (idxShortlist sc r), e.2 = p := by
          unfold getShortlistRecente at hg
          cases readOk
          · simp at hg
          · exact mem_of_zrevrangeAt _ _ _ (by simpa using hg)
        obtain ⟨e0, he0, hp⟩ := hmem
        apply patch_keeps_indexInSeries s out hop sc r KeyKind.idxShortlist rfl p now1 _ e0 he0
          hp _ hst hinv
        rw [getField_setField, if_neg (by decide), getField_spread_of_not_has _ _ _ hcached]
    | patchSelecionado now1 now2 readOk out sc r dados =>
      obtain ⟨_, h2, h3⟩ := htouch
      subst h2; subst h3
      simp only [CacheOp.run, updateDadosSelecionado]
      cases hg : getPropostaRecente s readOk sc r (some (JVal.str "ultima")) with
      | none => exact hinv
      | some p =>
        have hmem : ∃ e ∈ s.zsets (idxProposta sc r), e.2 = p := by
          unfold getPropostaRecente at hg
          cases readOk
          · simp at hg
          · exact mem_of_zrevrangeAt _ _ _ (by simpa using hg)
        obtain ⟨e0, he0, hp⟩ := hmem
        apply patch_keeps_indexInSeries s out hop sc r KeyKind.idxProposta rfl p now1 _ e0 he0
          hp _ hst hinv
        rw [getField_setField, if_neg (by decide), getField_spread_of_not_has _ _ _ hcached]
    | invalidateRequisicao ok sc r =>
      obtain ⟨_, h2, h3⟩ := htouch
      subst h2; subst h3
      simp only [CacheOp.run, invalidateCacheForRequisicao]
      cases ok
      · exact hinv
      · apply indexInSeries_of_empty
        intro kind hk
        show ((Cmd.del _).apply s).zsets (entityKey kind sc r) = []
        simp only [Cmd.apply, Valkey.delKeys]
        rw [if_pos]
        cases kind with
        | histVagas => exact absurd hk (by decide)
        | histCand => exact absurd hk (by decide)
        | idxProposta => exact List.mem_cons_of_mem _ (List.mem_cons_self _ _)
        | idxShortlist =>
          exact List.mem_cons_of_mem _ (List.mem_cons_of_mem _ (List.mem_cons_self _ _))
        | idxCancelada =>
          exact List.mem_cons_of_mem _ (List.mem_cons_of_mem _
            (List.mem_cons_of_mem _ (List.mem_cons_self _ _)))
        | idxFechada =>
          exact List.mem_cons_of_mem _ (List.mem_cons_of_mem _
            (List.mem_cons_of_mem _ (List.mem_cons_of_mem _ (List.mem_cons_self _ _))))
    | invalidateCandidato ok sc c => exact absurd htouch.1 (by decide)
  · apply indexInSeries_congr _ _ _ hinv
    intro kind hk
    exact run_untouched op s kind schema req hten
      (fun h => htouch (touches_histVagas_of_kind op kind schema req hk h))

/-- States of `ReachableIndexed` are states of `Reachable`. -/
theorem reachable_of_indexed (schema : String) (s : Valkey) (h : ReachableIndexed schema s) :
    Reachable s := by
  induction h with
  | init s h => exact Reachable.init s h
  | step s op _ _ hcached _ ih => exact Reachable.step s op ih hcached

/-- In every state of `ReachableIndexed` the indices of each requisition are within its
    series and share no score. -/
theorem reachableIndexed_inv (schema : String) (s : Valkey) (h : ReachableIndexed schema s) :
    ∀ req, IndexInSeries (entityZsets s schema req) := by
  induction h with
  | init s h =>
    intro req
    apply indexInSeries_of_empty
    intro kind _
    exact h _
  | step s op hs hten hcached hop ih =>
    intro req
    exact run_keeps_indexInSeries op s schema req hten hcached hop
      (reachable_stamped s (reachable_of_indexed schema s hs)) (ih req)

/-- C14 (amended). In every cache state reached from a cache without history by
    `addHistoricoVagas`, the three patch operations, `invalidateCacheForRequisicao` and the
    candidate operations on sanitised tenants, in which every command of the batch of an
    append or of a patch takes effect, each append reads a positive clock value that is not
    yet a score of the series of its requisition and writes at most one index, and the
    partial fields of a patch do not contain `cached_at`, every entry of each of the four
    category indices of a requisition is an entry of the series of that requisition. -/
theorem C14_index_subset (schema : String) (s : Valkey) (h : ReachableIndexed schema s)
    (req : String) :
    s.zsets (idxProposta schema req) ⊆ s.zsets (histVagas schema req)
    ∧ s.zsets (idxShortlist schema req) ⊆ s.zsets (histVagas schema req)
    ∧ s.zsets (idxCancelada schema req) ⊆ s.zsets (histVagas schema req)
    ∧ s.zsets (idxFechada schema req) ⊆ s.zsets (histVagas schema req) := by
  have hinv := (reachableIndexed_inv schema s h req).1
  exact ⟨fun e he => hinv KeyKind.idxProposta rfl e he,
    fun e he => hinv KeyKind.idxShortlist rfl e he,
    fun e he => hinv KeyKind.idxCancelada rfl e he,
    fun e he => hinv KeyKind.idxFechada rfl e he⟩

/-- C14 (as stated) fails: a `TRIAGEM` record (a shortlist status) and a `PROPOSTA` record are
    appended for `REQ100` in the same millisecond, then the status of the proposal is
    patched; every call returns true and every command takes effect. The patch removes
    from the series all entries under the score 1000, so the shortlist index still
    holds the `TRIAGEM` record and the series does not. -/
theorem C14_index_entry_outside_series :
    (addHistoricoVagas exMapped 1000 true ExecOutcome.ok "t1" exTriagem).1 = true
    ∧ (addHistoricoVagas (addHistoricoVagas exMapped 1000 true ExecOutcome.ok "t1" exTriagem).2
        1000 true ExecOutcome.ok "t1" exProposta).1 = true
    ∧ (updatePropostaStatus exSameMs 2000 2000 true ExecOutcome.ok "t1" "REQ100"
        (JVal.str "ACEITA") none).1 = true
    ∧ (1000, setField exTriagem "cached_at" (JVal.num 1000))
        ∈ exSameMsPatched.zsets (idxShortlist "t1" "REQ100")
    ∧ (1000, setField exTriagem "cached_at" (JVal.num 1000))
        ∉ exSameMsPatched.zsets (histVagas "t1" "REQ100") := by
  decide

/-- Witness for C14: one proposal for `REQ100` appended at 1000, then a patch of its
    status. -/
theorem C14_index_subset_witness :
    exPatchedOnce.zsets (idxProposta "t1" "REQ100")
      ⊆ exPatchedOnce.zsets (histVagas "t1" "REQ100")
    ∧ exPatchedOnce.zsets (idxProposta "t1" "REQ100") ≠ [] :=
  ⟨(C14_index_subset "t1" exPatchedOnce
      (ReachableIndexed.step exAfterZeta
        (CacheOp.patchStatus 2000 2000 true ExecOutcome.ok "t1" "REQ100" (JVal.str "ACEITA")
          none)
        (ReachableIndexed.step Valkey.empty
          (CacheOp.addVagas 1000 true ExecOutcome.ok "t1" exPropostaZeta)
          (ReachableIndexed.init Valkey.empty (fun _ => rfl)) (Or.inl rfl)
          (show (0 : Int) < 1000 by decide)
          (show (∀ i, ExecOutcome.ok.effect i = true)
              ∧ (∀ e ∈ Valkey.empty.zsets (histVagas "t1" "REQ100"), e.1 ≠ 1000)
              ∧ (∀ fl, funcaoLowerOf (getFuncaoSistemaDoStatus Valkey.empty true "t1"
                    (getField exPropostaZeta "status")) = some fl →
                  ∀ k1 k2, writesIndex exPropostaZeta fl k1 = true →
                    writesIndex exPropostaZeta fl k2 = true → k1 = k2) from
            ⟨fun _ => rfl, by decide, by
              intro fl hfl
              have hv : funcaoLowerOf (getFuncaoSistemaDoStatus Valkey.empty true "t1"
                  (getField exPropostaZeta "status")) = some "" := by decide
              rw [hv] at hfl
              cases hfl
              intro k1 k2
              cases k1 <;> cases k2 <;> decide⟩))
        (Or.inl rfl) trivial (fun _ => rfl)) "REQ100").1,
   by decide⟩

/-! ## `clearHistoricoVagas` and the category indices -/

/-- A key of a category index does not match the pattern of `clearHistoricoVagas`, a series
    key does. -/
theorem clearHistoricoVagas_zsets (s : Valkey) (schema req : String) :
    (clearHistoricoVagas s none schema).2.zsets (histVagas schema req) = []
    ∧ (clearHistoricoVagas s none schema).2.zsets (idxProposta schema req)
        = s.zsets (idxProposta schema req)
    ∧ (clearHistoricoVagas s none schema).2.zsets (idxShortlist schema req)
        = s.zsets (idxShortlist schema req)
    ∧ (clearHistoricoVagas s none schema).2.zsets (idxCancelada schema req)
        = s.zsets (idxCancelada schema req)
    ∧ (clearHistoricoVagas s none schema).2.zsets (idxFechada schema req)
        = s.zsets (idxFechada schema req) := by
  have hpre : ∀ (a b c : List Char), (a ++ b).isPrefixOf (a ++ c) = b.isPrefixOf c := by
    intro a b c
    induction a with
    | nil => rfl
    | cons x a ih => simp [List.isPrefixOf, ih]
  have hyes : matchesPrefix (allHistVagasPrefix schema) (histVagas schema req) = true := by
    simp only [matchesPrefix, allHistVagasPrefix, histVagas, String.data_append, List.append_assoc,
      hpre]
    simp
  have hno : ∀ (mid : String) (cs : List Char), mid.data = ':' :: 'i' :: cs →
      matchesPrefix (allHistVagasPrefix schema) (PREFIX ++ ":" ++ schema ++ mid ++ req)
        = false := by
    intro mid cs hmid
    simp only [matchesPrefix, allHistVagasPrefix, String.data_append, List.append_assoc, hpre,
      hmid]
    simp [List.isPrefixOf]
  refine ⟨?_, ?_, ?_, ?_, ?_⟩
  · simp only [clearHistoricoVagas, Valkey.delWhere, hyes, if_true]
  · have := hno ":idx:proposta:" _ rfl
    simp only [clearHistoricoVagas, Valkey.delWhere]
    rw [if_neg]
    rw [Bool.not_eq_true]
    exact this
  · have := hno ":idx:shortlist:" _ rfl
    simp only [clearHistoricoVagas, Valkey.delWhere]
    rw [if_neg]
    rw [Bool.not_eq_true]
    exact this
  · have := hno ":idx:cancelada:" _ rfl
    simp only [clearHistoricoVagas, Valkey.delWhere]
    rw [if_neg]
    rw [Bool.not_eq_true]
    exact this
  · have := hno ":idx:fechada:" _ rfl
    simp only [clearHistoricoVagas, Valkey.delWhere]
    rw [if_neg]
    rw [Bool.not_eq_true]
    exact this

/-- After `clearHistoricoVagas` on the cache holding three records of `REQ100`, the series
    is gone and the proposal index still holds its entry. -/
theorem clearHistoricoVagas_leaves_index_entry :
    (clearHistoricoVagas exThree none "t1").1 = true
    ∧ (clearHistoricoVagas exThree none "t1").2.zsets (histVagas "t1" "REQ100") = []
    ∧ (clearHistoricoVagas exThree none "t1").2.zsets (idxProposta "t1" "REQ100")
        = [(2000, setField exProposta "cached_at" (JVal.num 2000))] := by
  decide

/-! ## C30: column type mapping -/

/-- The function `mapearTipoSQL` returns one of seven type names. -/
theorem mapearTipoSQL_range (t : Option JVal) :
    mapearTipoSQL t ∈
      ["INTEGER", "DECIMAL", "BOOLEAN", "DATE", "TIMESTAMP", "VARCHAR(255)", "TEXT"] := by
  unfold mapearTipoSQL
  simp only
  split
  · simp
  · split
    · simp
    · split
      · simp
      · split
        · simp
        · split
          · simp
          · split
            · simp
            · split <;> simp

/-- An absent or falsy `tipo_do_dado` is mapped to `TEXT`. -/
theorem mapearTipoSQL_falsy (t : Option JVal) (h : truthy t = false) :
    mapearTipoSQL t = "TEXT" := by
  simp [mapearTipoSQL, h]

theorem isPrefixOf_of_append (p q : List Char) : ∀ l : List Char,
    (p ++ q).isPrefixOf l = true → p.isPrefixOf l = true := by
  induction p with
  | nil => intro l _; simp [List.isPrefixOf]
  | cons a p ih =>
    intro l h
    cases l with
    | nil => simp [List.isPrefixOf] at h
    | cons b l =>
      simp only [List.cons_append, List.isPrefixOf, Bool.and_eq_true] at h ⊢
      exact ⟨h.1, ih l h.2⟩

/-- A text that contains a word contains every prefix of the word. -/
theorem includesChars_of_append (p q : List Char) (hp : p ≠ []) : ∀ l : List Char,
    includesChars (p ++ q) l = true → includesChars p l = true := by
  intro l
  induction l with
  | nil =>
    intro h
    cases p with
    | nil => exact absurd rfl hp
    | cons a p => simp [includesChars] at h
  | cons c cs ih =>
    intro h
    simp only [includesChars, Bool.or_eq_true] at h ⊢
    rcases h with h | h
    · exact Or.inl (isPrefixOf_of_append p q _ h)
    · exact Or.inr (ih h)

/-- A text that contains `datetime` is never mapped to `TIMESTAMP`: it contains `date`, which
    is tested first. -/
theorem mapearTipoSQL_datetime (t : Option JVal)
    (h : jsIncludes (toLowerCase (jsString t)) "datetime" = true) :
    mapearTipoSQL t ≠ "TIMESTAMP" := by
  have hd : jsIncludes (toLowerCase (jsString t)) "date" = true := by
    unfold jsIncludes at h ⊢
    exact includesChars_of_append "date".toList "time".toList (by decide) _ h
  unfold mapearTipoSQL
  simp only [hd, Bool.or_true]
  split
  · decide
  · split
    · decide
    · split
      · decide
      · split
        · decide
        · simp

/-- C30: the text `datetime` is mapped to `DATE`. The test for `data` or `date` comes before
    the test for `timestamp` or `datetime`, and every text that contains `datetime` contains
    `date`; the text `timestamp` alone is mapped to `TIMESTAMP`. -/
theorem C30_datetime_is_mapped_to_date :
    mapearTipoSQL (some (JVal.str "datetime")) = "DATE"
    ∧ mapearTipoSQL (some (JVal.str "DateTime")) = "DATE"
    ∧ mapearTipoSQL (some (JVal.str "timestamp")) = "TIMESTAMP"
    ∧ mapearTipoSQL none = "TEXT"
    ∧ mapearTipoSQL (some (JVal.str "")) = "TEXT" := by
  decide

/-! ## C29: bearer authentication -/

/-- Middleware `requireAuth` calls `next()` exactly when a non-empty token is configured and
    the header is `Bearer ` followed by it. -/
theorem requireAuth_next_iff (apiToken authorization : Option String) :
    requireAuth apiToken authorization = AuthOutcome.next
      ↔ ∃ tok, apiToken = some tok ∧ tok ≠ "" ∧ authorization = some ("Bearer " ++ tok) := by
  unfold requireAuth
  cases authorization with
  | none => simp
  | some h =>
    simp only
    by_cases hp : h = "" ∨ "Bearer ".toList.isPrefixOf h.toList = false
    · rw [if_pos hp]
      constructor
      · intro hh; cases hh
      · rintro ⟨tok, _, _, heq⟩
        simp only [Option.some.injEq] at heq
        subst heq
        exfalso
        rcases hp with hp | hp
        · have := congrArg String.data hp
          simp at this
        · have hpre : "Bearer ".toList.isPrefixOf ("Bearer " ++ tok).toList = true :=
            List.isPrefixOf_iff_prefix.mpr ⟨tok.data, by simp [String.toList]⟩
          rw [hpre] at hp
          cases hp
    · rw [if_neg hp]
      simp only [not_or, Bool.not_eq_false] at hp
      obtain ⟨rest, hrest⟩ := List.isPrefixOf_iff_prefix.mp hp.2
      have hdrop : h.toList.drop 7 = rest := by
        rw [← hrest]
        rfl
      have hh : h = "Bearer " ++ String.mk rest := by
        apply String.ext
        rw [String.data_append]
        exact hrest.symm
      cases apiToken with
      | none => simp
      | some tok =>
        simp only
        by_cases ht : tok = "" ∨ String.mk (List.drop 7 h.toList) ≠ tok
        · rw [if_pos ht]
          constructor
          · intro hx; cases hx
          · rintro ⟨tok2, h1, h2, h3⟩
            simp only [Option.some.injEq] at h1 h3
            subst h1
            exfalso
            rcases ht with ht | ht
            · exact h2 ht
            · apply ht
              rw [hdrop]
              rw [hh] at h3
              have := congrArg String.data h3
              simp only [String.data_append, List.append_cancel_left_eq] at this
              exact String.ext this
        · rw [if_neg ht]
          simp only [not_or, Decidable.not_not] at ht
          constructor
          · intro _
            refine ⟨tok, rfl, ht.1, ?_⟩
            rw [hh, ← ht.2, hdrop]
          · intro _; trivial

/-- Middleware `authenticate` calls `next()` exactly when the header is `Bearer ` followed by
    the text of `process.env.API_TOKEN`, which is `undefined` when the variable is not set. -/
theorem authenticate_next_iff (apiToken authorization : Option String) :
    authenticate apiToken authorization = AuthOutcome.next
      ↔ authorization = some ("Bearer " ++ envText apiToken) := by
  unfold authenticate
  cases authorization with
  | none => simp
  | some token =>
    simp only [Option.some.injEq]
    constructor
    · intro h
      split at h
      · cases h
      · split at h
        · cases h
        · split at h
          · cases h
          · rename_i h3
            simpa using h3
    · intro h
      subst h
      have hne : ¬ ("Bearer " ++ envText apiToken = "") := by
        intro he
        have := congrArg String.data he
        simp at this
      simp [hne]

/-- C29: `authenticate` accepts `Bearer undefined` when no token is configured, and can throw.
    With `API_TOKEN` unset the expected text is the template `Bearer ` followed by
    `undefined`, so that header value reaches `next()`, where `requireAuth` of
    `routes/monitor.js` answers 401. With the token `abcde` configured, a header of the
    same number of UTF-16 units and a character outside ASCII passes the length test
    and makes `crypto.timingSafeEqual` throw on buffers of different byte length. -/
theorem C29_authenticate_without_configured_token :
    authenticate none (some "Bearer undefined") = AuthOutcome.next
    ∧ requireAuth none (some "Bearer undefined") = AuthOutcome.unauthorized
    ∧ authenticate (some "abcde") (some exHeaderLatin1) = AuthOutcome.throws
    ∧ requireAuth (some "abcde") (some exHeaderLatin1) = AuthOutcome.unauthorized
    ∧ authenticate (some "abcde") (some "Bearer abcde") = AuthOutcome.next := by
  decide

/-! ## C24: tenant key isolation -/

theorem key_eq_tail (b : KeyBuilder) (schema id : String) :
    (b.key schema id).data = PREFIX.data ++ (':' :: (schema.data ++ (b.tail id).data)) := by
  cases b <;>
    simp [KeyBuilder.key, KeyBuilder.tail, histVagas, histCandidatos, idxProposta, idxShortlist,
      idxCancelada, idxFechada, statusVagas, VALKEY_KEYS.statusCandidatos, VALKEY_KEYS.dicVagas,
      VALKEY_KEYS.dicCandidatos, VALKEY_KEYS.config, fallbackLog, syncQueue, syncQueueCandidatos,
      String.data_append, List.append_assoc]

theorem tail_colon (b : KeyBuilder) (id : String) :
    ∃ rest, (b.tail id).data = ':' :: rest := by
  cases b <;> simp [KeyBuilder.tail, String.data_append]

theorem tail_inj (b b2 : KeyBuilder) (id id2 : String)
    (h : (b.tail id).data = (b2.tail id2).data) :
    b = b2 ∧ (b.perEntity = true → id = id2) := by
  cases b <;> cases b2 <;>
    simp [KeyBuilder.tail, String.data_append, KeyBuilder.perEntity] at h ⊢ <;>
    exact String.ext h

/-- C24. Two keys produced by key builders of `VALKEY_KEYS` for tenant names that
    `sanitizeSchema` accepts, with arbitrary entity ids, are equal only if the tenant is the
    same and the builder is the same (and, for a builder that takes an id, the id is the
    same): keys of different tenants never coincide, and within one tenant keys of
    different kinds never coincide. -/
theorem C24_tenant_key_isolation (b1 b2 : KeyBuilder) (s1 s2 id1 id2 : String)
    (h1 : sanitizeSchema s1 = Except.ok s1) (h2 : sanitizeSchema s2 = Except.ok s2)
    (h : b1.key s1 id1 = b2.key s2 id2) :
    s1 = s2 ∧ b1 = b2 ∧ (b1.perEntity = true → id1 = id2) := by
  have e := congrArg String.data h
  rw [key_eq_tail, key_eq_tail] at e
  simp only [List.append_cancel_left_eq, List.cons.injEq, true_and] at e
  obtain ⟨r1, hr1⟩ := tail_colon b1 id1
  obtain ⟨r2, hr2⟩ := tail_colon b2 id2
  rw [hr1, hr2] at e
  obtain ⟨hs, hr⟩ := split_at_colon _ _ _ _ (no_colon_of_valid s1 h1) (no_colon_of_valid s2 h2) e
  have ht : (b1.tail id1).data = (b2.tail id2).data := by rw [hr1, hr2, hr]
  exact ⟨String.ext hs, tail_inj b1 b2 id1 id2 ht⟩

/-- Witness for C24: the series key of `REQ100` of tenant `t1`, built twice. -/
theorem C24_tenant_key_isolation_witness :
    "t1" = "t1" ∧ KeyBuilder.histVagas = KeyBuilder.histVagas
      ∧ (KeyBuilder.histVagas.perEntity = true → "REQ100" = "REQ100") :=
  C24_tenant_key_isolation KeyBuilder.histVagas KeyBuilder.histVagas "t1" "t1" "REQ100" "REQ100"
    rfl rfl rfl

/-- Keys of two different sanitised tenants differ, whatever the builders and the ids, also
    for ids that contain `:`. -/
theorem keys_of_distinct_tenants (b1 b2 : KeyBuilder) (s1 s2 id1 id2 : String)
    (h1 : sanitizeSchema s1 = Except.ok s1) (h2 : sanitizeSchema s2 = Except.ok s2)
    (hne : s1 ≠ s2) : b1.key s1 id1 ≠ b2.key s2 id2 := by
  intro h
  have e := congrArg String.data h
  rw [key_eq_tail, key_eq_tail] at e
  simp only [List.append_cancel_left_eq, List.cons.injEq, true_and] at e
  obtain ⟨r1, hr1⟩ := tail_colon b1 id1
  obtain ⟨r2, hr2⟩ := tail_colon b2 id2
  rw [hr1, hr2] at e
  exact hne (String.ext
    (split_at_colon _ _ _ _ (no_colon_of_valid s1 h1) (no_colon_of_valid s2 h2) e).1)

/-! ## C23: tenant identifier validation -/

theorem identChar_iff (c : Char) : identChar c = true ↔ asciiWordChar c := by
  unfold identChar asciiWordChar Char.isAlphanum Char.isAlpha Char.isUpper Char.isLower
    Char.isDigit
  have hval : c.toNat = c.val.toNat := rfl
  have h95 : (c == '_') = true ↔ c.val.toNat = 95 := by
    rw [beq_iff_eq]
    constructor
    · intro h; rw [h]; rfl
    · intro h
      apply Char.ext
      apply UInt32.ext
      exact h
  simp only [Bool.or_eq_true, Bool.and_eq_true, decide_eq_true_eq, h95, hval, UInt32.le_def,
    Fin.le_def]
  constructor
  · rintro (((⟨h1, h2⟩ | ⟨h1, h2⟩) | ⟨h1, h2⟩) | h)
    · exact Or.inr (Or.inl ⟨h1, h2⟩)
    · exact Or.inl ⟨h1, h2⟩
    · exact Or.inr (Or.inr (Or.inl ⟨h1, h2⟩))
    · exact Or.inr (Or.inr (Or.inr h))
  · rintro (⟨h1, h2⟩ | ⟨h1, h2⟩ | ⟨h1, h2⟩ | h)
    · exact Or.inl (Or.inl (Or.inr ⟨h1, h2⟩))
    · exact Or.inl (Or.inl (Or.inl ⟨h1, h2⟩))
    · exact Or.inl (Or.inr ⟨h1, h2⟩)
    · exact Or.inr h

/-- The function `sanitizeSchema` returns its argument unchanged exactly for the well-formed
    names, and throws for every other text. -/
theorem sanitizeSchema_iff (s : String) :
    (sanitizeSchema s = Except.ok s ↔ wellFormedName s)
    ∧ (¬ wellFormedName s → ∃ e, sanitizeSchema s = Except.error e) := by
  have hall : s.toList.all identChar = true ↔ ∀ c ∈ s.toList, asciiWordChar c := by
    rw [List.all_eq_true]
    exact forall_congr' (fun c => imp_congr Iff.rfl (identChar_iff c))
  unfold sanitizeSchema wellFormedName
  by_cases h1 : s.isEmpty = true
  · have hs : s = "" := (String.isEmpty_iff s).mp h1
    rw [if_pos h1]
    exact ⟨⟨fun h => (by cases h), fun h => absurd hs h.1⟩, fun _ => ⟨_, rfl⟩⟩
  · have hs : s ≠ "" := fun h => h1 ((String.isEmpty_iff s).mpr h)
    rw [if_neg h1]
    by_cases h2 : (!(s.toList.all identChar)) = true
    · have hn : ¬ ∀ c ∈ s.toList, asciiWordChar c := by
        intro h
        rw [hall.mpr h] at h2
        cases h2
      rw [if_pos h2]
      exact ⟨⟨fun h => (by cases h), fun h => absurd h.2.2 hn⟩, fun _ => ⟨_, rfl⟩⟩
    · have hy : ∀ c ∈ s.toList, asciiWordChar c := by
        apply hall.mp
        simpa using h2
      rw [if_neg h2]
      by_cases h3 : s.length > 63
      · rw [if_pos h3]
        exact ⟨⟨fun h => (by cases h), fun h => absurd h.2.1 (by omega)⟩, fun _ => ⟨_, rfl⟩⟩
      · rw [if_neg h3]
        exact ⟨⟨fun _ => ⟨hs, by omega, hy⟩, fun _ => rfl⟩,
          fun h => absurd ⟨hs, by omega, hy⟩ h⟩

/-- The function `sanitizeTable` makes the same tests as `sanitizeSchema`. -/
theorem sanitizeTable_eq (t : String) :
    (sanitizeTable t = Except.ok t ↔ sanitizeSchema t = Except.ok t)
    ∧ ((∃ e, sanitizeTable t = Except.error e) ↔ ∃ e, sanitizeSchema t = Except.error e) := by
  unfold sanitizeTable sanitizeSchema
  by_cases h1 : t.isEmpty = true
  · rw [if_pos h1, if_pos h1]
    exact ⟨⟨fun h => (by cases h), fun h => (by cases h)⟩, ⟨fun _ => ⟨_, rfl⟩, fun _ => ⟨_, rfl⟩⟩⟩
  · rw [if_neg h1, if_neg h1]
    by_cases h2 : (!(t.toList.all identChar)) = true
    · rw [if_pos h2, if_pos h2]
      exact ⟨⟨fun h => (by cases h), fun h => (by cases h)⟩,
        ⟨fun _ => ⟨_, rfl⟩, fun _ => ⟨_, rfl⟩⟩⟩
    · rw [if_neg h2, if_neg h2]
      by_cases h3 : t.length > 63
      · rw [if_pos h3, if_pos h3]
        exact ⟨⟨fun h => (by cases h), fun h => (by cases h)⟩,
          ⟨fun _ => ⟨_, rfl⟩, fun _ => ⟨_, rfl⟩⟩⟩
      · rw [if_neg h3, if_neg h3]
        exact ⟨⟨fun _ => rfl, fun _ => rfl⟩,
          ⟨fun ⟨_, h⟩ => (by cases h), fun ⟨_, h⟩ => (by cases h)⟩⟩

/-- A value that `sanitizeSchema` accepts is a well-formed text, and the function returns
    it unchanged. -/
theorem sanitizeSchemaValue_ok (v : Option JVal) (r : String)
    (h : sanitizeSchemaValue v = Except.ok r) :
    v = some (JVal.str r) ∧ wellFormedName r := by
  unfold sanitizeSchemaValue at h
  cases v with
  | none => cases h
  | some j =>
    cases j with
    | str s =>
      simp only at h
      have hs : sanitizeSchema s = Except.ok s := by
        unfold sanitizeSchema at h ⊢
        split at h
        · cases h
        · split at h
          · cases h
          · split at h
            · cases h
            · rename_i h1 h2 h3
              rw [if_neg h1, if_neg h2, if_neg h3]
      have hw := (sanitizeSchema_iff s).1.mp hs
      rw [hs] at h
      cases h
      exact ⟨rfl, hw⟩
    | null => cases h
    | bool b => cases h
    | num n => cases h

/-- Function `buildQuery` produces a query only when the schema and the table are
    well-formed names; otherwise it throws. -/
theorem buildQuery_ok (schema table : Option JVal) (tpl : String) (q : Query)
    (h : buildQuery schema table tpl = Except.ok q) :
    ∃ s t, schema = some (JVal.str s) ∧ table = some (JVal.str t)
      ∧ wellFormedName s ∧ wellFormedName t ∧ q = { template := tpl, idents := [s, t] } := by
  unfold buildQuery at h
  cases hs : sanitizeSchemaValue schema with
  | error e => rw [hs] at h; cases h
  | ok s =>
    cases ht : sanitizeTableValue table with
    | error e => rw [hs, ht] at h; cases h
    | ok t =>
      rw [hs, ht] at h
      simp only [Except.ok.injEq] at h
      obtain ⟨h1, h2⟩ := sanitizeSchemaValue_ok schema s hs
      refine ⟨s, t, h1, ?_, h2, ?_, h.symm⟩
      · unfold sanitizeTableValue at ht
        cases table with
        | none => cases ht
        | some j =>
          cases j with
          | str x =>
            simp only at ht
            have hx : sanitizeTable x = Except.ok x := by
              unfold sanitizeTable at ht ⊢
              split at ht
              · cases ht
              · split at ht
                · cases ht
                · split at ht
                  · cases ht
                  · rename_i h1 h2 h3
                    rw [if_neg h1, if_neg h2, if_neg h3]
            rw [hx] at ht
            cases ht
            rfl
          | null => cases ht
          | bool b => cases ht
          | num n => cases ht
      · unfold sanitizeTableValue at ht
        cases table with
        | none => cases ht
        | some j =>
          cases j with
          | str x =>
            simp only at ht
            have hx : sanitizeTable x = Except.ok x := by
              unfold sanitizeTable at ht ⊢
              split at ht
              · cases ht
              · split at ht
                · cases ht
                · split at ht
                  · cases ht
                  · rename_i h1 h2 h3
                    rw [if_neg h1, if_neg h2, if_neg h3]
            rw [hx] at ht
            cases ht
            exact (sanitizeSchema_iff t).1.mp ((sanitizeTable_eq t).1.mp hx)
          | null => cases ht
          | bool b => cases ht
          | num n => cases ht

/-- The branch of the middleware for a falsy schema input: 400 when `required` is set,
    otherwise the default schema, accepted or answered with 500. -/
theorem validateSchemaMiddleware_falsy (checkExists required : Bool) (pgschema : Option String)
    (schemaExists : Option Bool) (req : SchemaSources)
    (hf : truthy (jsOr (jsOr (jsOr req.header req.body) req.query) req.params) = false) :
    validateSchemaMiddleware checkExists required pgschema schemaExists req
      = if required = true then MiddlewareOutcome.respond 400
        else
          match sanitizeSchema (defaultSchema pgschema) with
          | Except.ok s => MiddlewareOutcome.next s
          | Except.error _ => MiddlewareOutcome.respond 500 := by
  cases required <;> cases pgschema <;>
    simp [validateSchemaMiddleware, defaultSchema, hf]

/-- C23 (amended). The function `sanitizeSchema` returns its argument unchanged exactly when
    it is a non-empty text of at most 63 characters, all ASCII letters, digits or
    underscores, and throws on every other text and on every value that is not a text;
    `buildQuery` produces a query only when the schema and the table are of that form;
    and the middleware answers 400 without calling `next()` for every truthy schema input
    that `sanitizeSchema` rejects, whatever its options. A falsy schema input (absent or
    the empty text) is answered with 400 exactly when `required` is set; otherwise the
    default schema (`PGSCHEMA`, or `RPO_template_v5` when that is unset or empty) is
    taken, whatever `checkExists`: `next()` is called with it when it is well formed and
    the answer is 500 when it is not. -/
theorem C23_tenant_identifier_validation (s : String) (v table : Option JVal) (tpl : String)
    (checkExists required : Bool) (pgschema : Option String) (schemaExists : Option Bool)
    (req : SchemaSources) :
    (sanitizeSchema s = Except.ok s ↔ wellFormedName s)
    ∧ (¬ wellFormedName s → ∃ e, sanitizeSchema s = Except.error e)
    ∧ ((∀ t, v ≠ some (JVal.str t)) → ∃ e, sanitizeSchemaValue v = Except.error e)
    ∧ ((∀ q, buildQuery v table tpl ≠ Except.ok q)
        ∨ ∃ a b, v = some (JVal.str a) ∧ table = some (JVal.str b)
            ∧ wellFormedName a ∧ wellFormedName b)
    ∧ (truthy (jsOr (jsOr (jsOr req.header req.body) req.query) req.params) = true →
        (∀ r, sanitizeSchemaValue (jsOr (jsOr (jsOr req.header req.body) req.query) req.params)
          ≠ Except.ok r) →
        validateSchemaMiddleware checkExists required pgschema schemaExists req
          = MiddlewareOutcome.respond 400)
    ∧ (truthy (jsOr (jsOr (jsOr req.header req.body) req.query) req.params) = false →
        (validateSchemaMiddleware checkExists true pgschema schemaExists req
            = MiddlewareOutcome.respond 400)
        ∧ (wellFormedName (defaultSchema pgschema) →
            validateSchemaMiddleware checkExists false pgschema schemaExists req
              = MiddlewareOutcome.next (defaultSchema pgschema))
        ∧ (¬ wellFormedName (defaultSchema pgschema) →
            validateSchemaMiddleware checkExists false pgschema schemaExists req
              = MiddlewareOutcome.respond 500)
        ∧ (validateSchemaMiddleware checkExists required pgschema schemaExists req
              = MiddlewareOutcome.respond 400 ↔ required = true)) := by
  refine ⟨(sanitizeSchema_iff s).1, (sanitizeSchema_iff s).2, ?_, ?_, ?_, ?_⟩
  · intro hv
    unfold sanitizeSchemaValue
    cases v with
    | none => exact ⟨_, rfl⟩
    | some j =>
      cases j with
      | str t => exact absurd rfl (hv t)
      | null => exact ⟨_, rfl⟩
      | bool b => exact ⟨_, rfl⟩
      | num n => exact ⟨_, rfl⟩
  · cases hq : buildQuery v table tpl with
    | error e =>
      left
      intro q hq2
      cases hq2
    | ok q =>
      right
      obtain ⟨a, b, h1, h2, h3, h4, _⟩ := buildQuery_ok v table tpl q hq
      exact ⟨a, b, h1, h2, h3, h4⟩
  · intro ht hrej
    unfold validateSchemaMiddleware
    simp only [ht, Bool.not_true, Bool.false_eq_true, if_false]
    cases hsv : sanitizeSchemaValue (jsOr (jsOr (jsOr req.header req.body) req.query)
        req.params) with
    | error e => rfl
    | ok r => exact absurd hsv (hrej r)
  · intro hf
    have hgood : wellFormedName (defaultSchema pgschema) →
        validateSchemaMiddleware checkExists false pgschema schemaExists req
          = MiddlewareOutcome.next (defaultSchema pgschema) := by
      intro hw
      rw [validateSchemaMiddleware_falsy _ _ _ _ _ hf,
        (sanitizeSchema_iff (defaultSchema pgschema)).1.mpr hw]
      rfl
    have hbad : ¬ wellFormedName (defaultSchema pgschema) →
        validateSchemaMiddleware checkExists false pgschema schemaExists req
          = MiddlewareOutcome.respond 500 := by
      intro hw
      obtain ⟨e, he⟩ := (sanitizeSchema_iff (defaultSchema pgschema)).2 hw
      rw [validateSchemaMiddleware_falsy _ _ _ _ _ hf, he]
      rfl
    refine ⟨?_, hgood, hbad, ?_⟩
    · rw [validateSchemaMiddleware_falsy _ _ _ _ _ hf]
      rfl
    · cases required
      · constructor
        · intro h
          by_cases hw : wellFormedName (defaultSchema pgschema)
          · rw [hgood hw] at h
            cases h
          · rw [hbad hw] at h
            cases h
        · intro h
          cases h
      · constructor
        · intro _
          rfl
        · intro _
          rw [validateSchemaMiddleware_falsy _ _ _ _ _ hf]
          rfl

/-- Witness for C23: the tenant name `RPO_cliente1`; a request whose header carries a
    name with a hyphen; and a request without schema, served with the default tenant
    when `PGSCHEMA` is unset and answered with 500 when `PGSCHEMA` is `rpo-x`. -/
theorem C23_tenant_identifier_validation_witness :
    (sanitizeSchema "RPO_cliente1" = Except.ok "RPO_cliente1" ↔ wellFormedName "RPO_cliente1")
    ∧ validateSchemaMiddleware false false none none
        { header := some (JVal.str "rpo-x"), body := none, query := none, params := none }
      = MiddlewareOutcome.respond 400
    ∧ validateSchemaMiddleware false false none none
        { header := none, body := none, query := none, params := none }
      = MiddlewareOutcome.next "RPO_template_v5"
    ∧ validateSchemaMiddleware true false (some "rpo-x") none
        { header := none, body := none, query := none, params := none }
      = MiddlewareOutcome.respond 500 :=
  ⟨(C23_tenant_identifier_validation "RPO_cliente1" none none "" false false none none
      { header := some (JVal.str "rpo-x"), body := none, query := none, params := none }).1,
   (C23_tenant_identifier_validation "RPO_cliente1" none none "" false false none none
      { header := some (JVal.str "rpo-x"), body := none, query := none, params := none }).2.2.2.2.1
      (by decide) (by intro r h; cases h),
   ((C23_tenant_identifier_validation "RPO_cliente1" none none "" false false none none
      { header := none, body := none, query := none, params := none }).2.2.2.2.2
      (by decide)).2.1
      ((sanitizeSchema_iff "RPO_template_v5").1.mp rfl),
   ((C23_tenant_identifier_validation "RPO_cliente1" none none "" true false (some "rpo-x")
      none { header := none, body := none, query := none, params := none }).2.2.2.2.2
      (by decide)).2.2.1
      (fun h => by
        have h2 := (sanitizeSchema_iff "rpo-x").1.mpr h
        cases h2)⟩

/-- C23 (as stated) fails: the empty text is not a well-formed tenant name and
    `sanitizeSchema` rejects it, yet a request whose `X-Schema` header is empty is not
    answered with 400: the middleware takes the default schema and calls `next()`. -/
theorem C23_empty_schema_falls_back_to_default :
    ¬ wellFormedName ""
    ∧ sanitizeSchema "" = Except.error "Schema e obrigatorio e deve ser string"
    ∧ validateSchemaMiddleware false false none none
        { header := some (JVal.str ""), body := none, query := none, params := none }
      = MiddlewareOutcome.next "RPO_template_v5" :=
  ⟨fun h => h.1 rfl, rfl, rfl⟩

/-! ## C25: bulk clear -/

/-- After `clearHistoricoVagas` returned true, the series of every requisition of the
    tenant reads as empty. -/
theorem clearHistoricoVagas_series (s : Valkey) (schema req : String) (readOk : Bool) :
    (clearHistoricoVagas s none schema).1 = true
    ∧ getHistoricoVagas (clearHistoricoVagas s none schema).2 readOk schema req = [] := by
  refine ⟨rfl, ?_⟩
  unfold getHistoricoVagas
  rw [(clearHistoricoVagas_zsets s schema req).1]
  cases readOk <;> rfl

/-- After `clearHistoricoCandidatos` returned true, the series of every candidate of the
    tenant reads as empty. -/
theorem clearHistoricoCandidatos_series (s : Valkey) (schema cand : String) (readOk : Bool) :
    (clearHistoricoCandidatos s none schema).1 = true
    ∧ getHistoricoCandidatos (clearHistoricoCandidatos s none schema).2 readOk schema cand
        = [] := by
  refine ⟨rfl, ?_⟩
  have hpre : ∀ (a b c : List Char), (a ++ b).isPrefixOf (a ++ c) = b.isPrefixOf c := by
    intro a b c
    induction a with
    | nil => rfl
    | cons x a ih => simp [List.isPrefixOf, ih]
  have hyes : matchesPrefix (allHistCandPrefix schema) (histCandidatos schema cand) = true := by
    simp only [matchesPrefix, allHistCandPrefix, histCandidatos, String.data_append,
      List.append_assoc, hpre]
    simp
  unfold getHistoricoCandidatos
  have hz : (clearHistoricoCandidatos s none schema).2.zsets (histCandidatos schema cand)
      = [] := by
    simp only [clearHistoricoCandidatos, Valkey.delWhere, hyes, if_true]
  rw [hz]
  cases readOk <;> rfl

/-- After `clearHistoricoVagas` the two index reads return what they returned before. -/
theorem clearHistoricoVagas_index_reads (s : Valkey) (schema req : String) (readOk : Bool)
    (ordem : Option JVal) :
    getPropostaRecente (clearHistoricoVagas s none schema).2 readOk schema req ordem
      = getPropostaRecente s readOk schema req ordem
    ∧ getShortlistRecente (clearHistoricoVagas s none schema).2 readOk schema req
      = getShortlistRecente s readOk schema req := by
  unfold getPropostaRecente getShortlistRecente
  rw [(clearHistoricoVagas_zsets s schema req).2.1, (clearHistoricoVagas_zsets s schema req).2.2.1]
  exact ⟨rfl, rfl⟩

/-- C25: index keys survive the bulk clear. The cache holds three records of `REQ100` of
    tenant `t1`, one of them a shortlist record and one a proposal; `clearHistoricoVagas`
    returns true, the series then reads as empty, and `getPropostaRecente` and
    `getShortlistRecente` still return the proposal and the shortlist record: the loop
    deletes the keys matching `hist_vagas:*` only. -/
theorem C25_clear_leaves_index_keys :
    (clearHistoricoVagas exThree none "t1").1 = true
    ∧ getHistoricoVagas (clearHistoricoVagas exThree none "t1").2 true "t1" "REQ100" = []
    ∧ getPropostaRecente (clearHistoricoVagas exThree none "t1").2 true "t1" "REQ100" none
        = some (setField exProposta "cached_at" (JVal.num 2000))
    ∧ getShortlistRecente (clearHistoricoVagas exThree none "t1").2 true "t1" "REQ100"
        = some (setField exTriagem "cached_at" (JVal.num 1000))
    ∧ (invalidateCacheForRequisicao exThree true "t1" "REQ100").2.zsets
        (idxProposta "t1" "REQ100") = [] := by
  decide

/-! ## C26: sentinels of the cache operations -/

/-- C26 (amended). No operation of the cache module propagates a failure of the client:
    when the call an operation awaits fails (the read, the single command, `exec()` of the
    batch, a step of the `SCAN` loop), the operation returns its sentinel: false for the
    appends, the patches, the queue removals, the fallback log, the invalidations, the bulk
    clears and the reference loads (a patch whose read fails returns false without
    writing); `null` for the latest reads and `getConfig`; `[]` for the series and queue
    reads. The status lookup inside `addHistoricoVagas` is the exception: its failure is
    swallowed and the append returns whatever `exec()` gives. -/
theorem C26_sentinels (s : Valkey) (c : ConfigCache) (now now2 : Int) (hgetOk : Bool)
    (effect : Nat → Bool) (out : ExecOutcome) (done : String → Bool)
    (schema id label : String) (data : Record) (items : List Record) (valor : JVal)
    (ordem : Option JVal) :
    (addHistoricoVagas s now hgetOk { effect := effect, rejects := true } schema data).1 = false
    ∧ (addHistoricoCandidatos s now { effect := effect, rejects := true } schema data).1 = false
    ∧ getHistoricoVagas s false schema id = []
    ∧ getHistoricoCandidatos s false schema id = []
    ∧ getPropostaRecente s false schema id ordem = none
    ∧ getShortlistRecente s false schema id = none
    ∧ updatePropostaStatus s now now2 false out schema id valor ordem = (false, s)
    ∧ updateDadosCandidatos s now now2 false out schema id data = (false, s)
    ∧ updateDadosSelecionado s now now2 false out schema id data = (false, s)
    ∧ (updatePropostaStatus s now now2 true { effect := effect, rejects := true } schema id valor
        ordem).1 = false
    ∧ (updateDadosCandidatos s now now2 true { effect := effect, rejects := true } schema id
        data).1 = false
    ∧ (updateDadosSelecionado s now now2 true { effect := effect, rejects := true } schema id
        data).1 = false
    ∧ getSyncQueue s false schema = []
    ∧ getSyncQueueCandidatos s false schema = []
    ∧ removeSyncQueue s false schema id = (false, s)
    ∧ removeSyncQueueCandidatos s false schema id = (false, s)
    ∧ addToFallbackLog s false schema id = (false, s)
    ∧ invalidateCacheForRequisicao s false schema id = (false, s)
    ∧ invalidateCacheForCandidato s false schema id = (false, s)
    ∧ (clearHistoricoVagas s (some done) schema).1 = false
    ∧ (clearHistoricoCandidatos s (some done) schema).1 = false
    ∧ (loadStatusVagas s { effect := effect, rejects := true } schema items).1 = false
    ∧ (loadStatusCandidatos s { effect := effect, rejects := true } schema items).1 = false
    ∧ (loadDicionarioVagas s { effect := effect, rejects := true } schema items).1 = false
    ∧ (loadDicionarioCandidatos s { effect := effect, rejects := true } schema items).1 = false
    ∧ (loadConfig c { effect := effect, rejects := true } schema items).1 = false
    ∧ getConfig c false schema label = none
    ∧ (addHistoricoVagas s now false out schema data).1 = !out.rejects := by
  refine ⟨?_, rfl, rfl, rfl, rfl, rfl, ?_, ?_, ?_, ?_, ?_, ?_, rfl, rfl, rfl, rfl, rfl, rfl, rfl,
    rfl, rfl, rfl, rfl, rfl, rfl, rfl, rfl, ?_⟩
  · unfold addHistoricoVagas
    cases funcaoLowerOf (getFuncaoSistemaDoStatus s hgetOk schema (getField data "status")) <;>
      rfl
  · simp [updatePropostaStatus, getPropostaRecente]
  · simp [updateDadosCandidatos, getShortlistRecente]
  · simp [updateDadosSelecionado, getPropostaRecente]
  · unfold updatePropostaStatus
    cases getPropostaRecente s true schema id ordem <;> rfl
  · unfold updateDadosCandidatos
    cases getShortlistRecente s true schema id <;> rfl
  · unfold updateDadosSelecionado
    cases getPropostaRecente s true schema id (some (JVal.str "ultima")) <;> rfl
  · simp [addHistoricoVagas, getFuncaoSistemaDoStatus, funcaoLowerOf, truthy]

/-- C26 (as stated) fails: the `hget` of the status lookup rejects during an append, and
    `addHistoricoVagas` returns true, not its sentinel: the record is written to the
    series as a record of a status without mapping. -/
theorem C26_append_after_failed_lookup :
    (addHistoricoVagas exMapped 1000 false ExecOutcome.ok "t1" exTriagem).1 = true
    ∧ (addHistoricoVagas exMapped 1000 false ExecOutcome.ok "t1" exTriagem).2.zsets
        (histVagas "t1" "REQ100") = [(1000, setField exTriagem "cached_at" (JVal.num 1000))]
    ∧ getFuncaoSistemaDoStatus exMapped false "t1" (some (JVal.str "TRIAGEM")) = none
    ∧ getFuncaoSistemaDoStatus exMapped true "t1" (some (JVal.str "TRIAGEM"))
        = some (JVal.str "Shortlist") := by
  decide

/-! ## C21: bookkeeping of the fallback path -/

theorem setAfter_untouched (effect : Nat → Bool) (i : Nat) (cmds : List Cmd) (k : String)
    (m : List String) (h : ∀ c ∈ cmds, ∀ m2 : List String, c.onSet k m2 = m2) :
    setAfter effect i cmds k m = m := by
  induction cmds generalizing i m with
  | nil => rfl
  | cons c cs ih =>
    rw [setAfter, h c (List.mem_cons_self _ _), ih]
    · simp
    · exact fun c2 h2 => h c2 (List.mem_cons_of_mem _ h2)

theorem tenantKey_ne (schema a b : String) (h : a.data ≠ b.data) :
    PREFIX ++ ":" ++ schema ++ a ≠ PREFIX ++ ":" ++ schema ++ b := by
  intro e
  apply h
  have e2 := congrArg String.data e
  simpa [String.data_append, List.append_assoc] using e2

theorem fallbackLog_ne_syncQueue (schema : String) : fallbackLog schema ≠ syncQueue schema :=
  tenantKey_ne schema _ _ (by decide)

theorem fallbackLog_ne_syncQueueCandidatos (schema : String) :
    fallbackLog schema ≠ syncQueueCandidatos schema :=
  tenantKey_ne schema _ _ (by decide)

/-- The append for a candidate never changes the fallback log of the tenant. -/
theorem addHistoricoCandidatos_fallbackLog (s : Valkey) (now : Int) (out : ExecOutcome)
    (schema : String) (data : Record) :
    (addHistoricoCandidatos s now out schema data).2.sets (fallbackLog schema)
      = s.sets (fallbackLog schema) := by
  unfold addHistoricoCandidatos execPipeline
  rw [runCmds_sets]
  apply setAfter_untouched
  intro c hc m
  simp only [addHistoricoCandidatosCmds, List.mem_cons, List.mem_singleton, List.not_mem_nil,
    or_false] at hc
  rcases hc with rfl | rfl | rfl
  · rfl
  · rfl
  · simp [Cmd.onSet, fallbackLog_ne_syncQueueCandidatos]

/-- The handler of `POST /historico/candidatos` never changes the fallback log. -/
theorem postHistoricoCandidatos_fallbackLog (f : PostFaults) (cachePresent : Bool) (now : Int)
    (schema : String) (body : Record) (cache : Valkey) (db : Db) :
    (postHistoricoCandidatos f cachePresent now schema body cache db).2.1.sets (fallbackLog schema)
      = cache.sets (fallbackLog schema) := by
  have hadd := addHistoricoCandidatos_fallbackLog cache now f.exec schema
    (dadosHistoricoCandidatos body)
  unfold postHistoricoCandidatos
  by_cases hid : (!truthy (getField body "id_candidato")) = true
  · rw [if_pos hid]
  · rw [if_neg hid]
    cases cachePresent
    · simp only [Bool.false_eq_true, if_false]
      cases sanitizeSchema schema with
      | error e => rfl
      | ok safe =>
        simp only
        cases f.insertOk <;> rfl
    · simp only [if_true]
      cases (addHistoricoCandidatos cache now f.exec schema (dadosHistoricoCandidatos body)).1
      · simp only [Bool.false_eq_true, if_false]
        cases sanitizeSchema schema with
        | error e => exact hadd
        | ok safe =>
          simp only
          cases f.insertOk
          · exact hadd
          · exact hadd
      · exact hadd

/-- A batch none of whose commands takes effect leaves the cache as it was. -/
theorem runCmds_none (effect : Nat → Bool) (h : ∀ i, effect i = false) (cmds : List Cmd) :
    ∀ (i : Nat) (s : Valkey), runCmds effect i cmds s = s := by
  induction cmds with
  | nil => intro i s; rfl
  | cons c cs ih =>
    intro i s
    rw [runCmds, h i, ih]
    rfl

/-- An append none of whose commands takes effect leaves the cache as it was. -/
theorem addHistoricoVagas_no_effect (s : Valkey) (now : Int) (hgetOk : Bool) (out : ExecOutcome)
    (h : ∀ i, out.effect i = false) (schema : String) (data : Record) :
    (addHistoricoVagas s now hgetOk out schema data).2 = s := by
  unfold addHistoricoVagas
  cases funcaoLowerOf (getFuncaoSistemaDoStatus s hgetOk schema (getField data "status")) with
  | none => rfl
  | some fl => exact runCmds_none _ h _ 0 s

/-- The fallback path of `POST /historico/vagas` after a failed append and a successful
    insert: the cache is the one the failed append left, plus the `sadd` of the fallback
    log when it succeeds. -/
theorem postHistoricoVagas_fallback (f : PostFaults) (now : Int) (campos : List Field)
    (schema : String) (body : Record) (cache : Valkey) (db : Db) (fl : String)
    (hreq : truthy (getField body "requisicao") = true)
    (hst : truthy (getField body "status") = true)
    (hs : sanitizeSchema schema = Except.ok schema)
    (hq : f.statusQueryOk = true)
    (hfl : funcaoLowerOf
      ((((db.statusVagas schema).filter
        (fun r => getField r "status" = getField body "status")).head?).bind
          (fun r => getField r "funcao_sistema")) = some fl)
    (hfail : (addHistoricoVagas cache now f.hgetOk f.exec schema
      (dadosFiltradosVagas campos fl body)).1 = false)
    (hins : f.insertOk = true) :
    postHistoricoVagas f true now campos schema body cache db
      = ({ status := HttpStatus.CREATED, success := some true, fonte := some "postgresql" },
         (addToFallbackLog
            (addHistoricoVagas cache now f.hgetOk f.exec schema
              (dadosFiltradosVagas campos fl body)).2
            f.fallbackLogOk schema (jsString (getField body "requisicao"))).2,
         db.insert schema "historico_vagas"
           (buildInsertRow campos (dadosFiltradosVagas campos fl body))) := by
  unfold postHistoricoVagas
  simp only [hreq, hst, hs, hq, hfl, hfail, hins, Bool.not_true, Bool.or_self,
    Bool.false_eq_true, if_false, if_true]

/-- The handler of `POST /historico/vagas` once the append did not succeed (it returned
    false, or no cache is configured): the answer depends on the insert alone. -/
theorem postHistoricoVagas_after_failed_append (f : PostFaults) (cachePresent : Bool)
    (now : Int) (campos : List Field) (schema : String) (body : Record) (cache : Valkey)
    (db : Db) (fl : String)
    (hreq : truthy (getField body "requisicao") = true)
    (hst : truthy (getField body "status") = true)
    (hs : sanitizeSchema schema = Except.ok schema)
    (hq : f.statusQueryOk = true)
    (hfl : funcaoLowerOf
      ((((db.statusVagas schema).filter
        (fun r => getField r "status" = getField body "status")).head?).bind
          (fun r => getField r "funcao_sistema")) = some fl)
    (hfail : cachePresent = false ∨ (addHistoricoVagas cache now f.hgetOk f.exec schema
      (dadosFiltradosVagas campos fl body)).1 = false) :
    (f.insertOk = true →
      (postHistoricoVagas f cachePresent now campos schema body cache db).1
          = { status := HttpStatus.CREATED, success := some true, fonte := some "postgresql" }
      ∧ (postHistoricoVagas f cachePresent now campos schema body cache db).2.2
          = db.insert schema "historico_vagas"
              (buildInsertRow campos (dadosFiltradosVagas campos fl body)))
    ∧ (f.insertOk = false →
      (postHistoricoVagas f cachePresent now campos schema body cache db).1
          = { status := HttpStatus.SERVICE_UNAVAILABLE, success := some false, fonte := none }
      ∧ (postHistoricoVagas f cachePresent now campos schema body cache db).2.2 = db) := by
  have htried : (if cachePresent = true then
      addHistoricoVagas cache now f.hgetOk f.exec schema (dadosFiltradosVagas campos fl body)
      else (false, cache)).1 = false := by
    cases cachePresent
    · rfl
    · rcases hfail with h | h
      · cases h
      · simpa using h
  unfold postHistoricoVagas
  simp only [hreq, hst, hs, hq, hfl, htried, Bool.not_true, Bool.or_self, Bool.false_eq_true,
    if_false]
  constructor
  · intro hi
    simp only [hi, if_true]
    exact ⟨trivial, trivial⟩
  · intro hi
    simp only [hi, Bool.false_eq_true, if_false]
    exact ⟨trivial, trivial⟩

/-- The handler of `POST /historico/candidatos` once the append did not succeed. -/
theorem postHistoricoCandidatos_after_failed_append (f : PostFaults) (cachePresent : Bool)
    (now : Int) (schema : String) (body : Record) (cache : Valkey) (db : Db)
    (hid : truthy (getField body "id_candidato") = true)
    (hs : sanitizeSchema schema = Except.ok schema)
    (hfail : cachePresent = false ∨ (addHistoricoCandidatos cache now f.exec schema
      (dadosHistoricoCandidatos body)).1 = false) :
    (f.insertOk = true →
      (postHistoricoCandidatos f cachePresent now schema body cache db).1
          = { status := HttpStatus.CREATED, success := some true, fonte := some "postgresql" }
      ∧ (postHistoricoCandidatos f cachePresent now schema body cache db).2.2
          = db.insert schema "historico_candidatos"
              ((dadosHistoricoCandidatos body).filter (fun p => p.2 ≠ JVal.null)))
    ∧ (f.insertOk = false →
      (postHistoricoCandidatos f cachePresent now schema body cache db).1
          = { status := HttpStatus.SERVICE_UNAVAILABLE, success := some false, fonte := none }
      ∧ (postHistoricoCandidatos f cachePresent now schema body cache db).2.2 = db) := by
  have htried : (if cachePresent = true then
      addHistoricoCandidatos cache now f.exec schema (dadosHistoricoCandidatos body)
      else (false, cache)).1 = false := by
    cases cachePresent
    · rfl
    · rcases hfail with h | h
      · cases h
      · simpa using h
  unfold postHistoricoCandidatos
  simp only [hid, hs, htried, Bool.not_true, Bool.false_eq_true, if_false]
  constructor
  · intro hi
    simp only [hi, if_true]
    exact ⟨trivial, trivial⟩
  · intro hi
    simp only [hi, Bool.false_eq_true, if_false]
    exact ⟨trivial, trivial⟩

/-- The handler of `POST /historico/vagas` answers 201 only from its two success branches:
    the append returned true, or the insert succeeded. -/
theorem postHistoricoVagas_created (f : PostFaults) (cachePresent : Bool) (now : Int)
    (campos : List Field) (schema : String) (body : Record) (cache : Valkey) (db : Db)
    (h : (postHistoricoVagas f cachePresent now campos schema body cache db).1.status
      = HttpStatus.CREATED) :
    (cachePresent = true ∧ ∃ fl, (addHistoricoVagas cache now f.hgetOk f.exec schema
        (dadosFiltradosVagas campos fl body)).1 = true
      ∧ (postHistoricoVagas f cachePresent now campos schema body cache db).1.fonte
          = some "valkey")
    ∨ (f.insertOk = true
      ∧ (postHistoricoVagas f cachePresent now campos schema body cache db).1.fonte
          = some "postgresql") := by
  unfold postHistoricoVagas at h ⊢
  by_cases h1 : (!truthy (getField body "requisicao") || !truthy (getField body "status")) = true
  · rw [if_pos h1] at h
    cases h
  · rw [if_neg h1] at h ⊢
    cases hs : sanitizeSchema schema with
    | error e =>
      rw [hs] at h
      cases h
    | ok target =>
      rw [hs] at h
      simp only at h ⊢
      by_cases hq : (!f.statusQueryOk) = true
      · rw [if_pos hq] at h
        cases h
      · rw [if_neg hq] at h ⊢
        cases hfl : funcaoLowerOf
            ((((db.statusVagas target).filter
              (fun r => getField r "status" = getField body "status")).head?).bind
                (fun r => getField r "funcao_sistema")) with
        | none =>
          rw [hfl] at h
          cases h
        | some fl =>
          rw [hfl] at h
          simp only at h ⊢
          have htarget : target = schema := by
            unfold sanitizeSchema at hs
            split at hs
            · cases hs
            · split at hs
              · cases hs
              · split at hs
                · cases hs
                · cases hs; rfl
          subst htarget
          cases cachePresent
          · simp only [Bool.false_eq_true, if_false] at h ⊢
            by_cases hi : f.insertOk = true
            · right
              simp only [hi, if_true]
              exact ⟨trivial, trivial⟩
            · rw [if_neg hi] at h
              cases h
          · simp only [if_true] at h ⊢
            by_cases ha : (addHistoricoVagas cache now f.hgetOk f.exec target
                (dadosFiltradosVagas campos fl body)).1 = true
            · left
              rw [if_pos ha]
              exact ⟨trivial, fl, ha, rfl⟩
            · rw [if_neg ha] at h ⊢
              by_cases hi : f.insertOk = true
              · right
                simp only [hi, if_true]
                exact ⟨trivial, trivial⟩
              · rw [if_neg hi] at h
                cases h

/-- The handler of `POST /historico/candidatos` answers 201 only from its two success
    branches. -/
theorem postHistoricoCandidatos_created (f : PostFaults) (cachePresent : Bool) (now : Int)
    (schema : String) (body : Record) (cache : Valkey) (db : Db)
    (h : (postHistoricoCandidatos f cachePresent now schema body cache db).1.status
      = HttpStatus.CREATED) :
    (cachePresent = true ∧ (addHistoricoCandidatos cache now f.exec schema
        (dadosHistoricoCandidatos body)).1 = true
      ∧ (postHistoricoCandidatos f cachePresent now schema body cache db).1.fonte
          = some "valkey")
    ∨ (f.insertOk = true
      ∧ (postHistoricoCandidatos f cachePresent now schema body cache db).1.fonte
          = some "postgresql") := by
  unfold postHistoricoCandidatos at h ⊢
  by_cases h1 : (!truthy (getField body "id_candidato")) = true
  · rw [if_pos h1] at h
    cases h
  · rw [if_neg h1] at h ⊢
    cases cachePresent
    · simp only [Bool.false_eq_true, if_false] at h ⊢
      cases hs : sanitizeSchema schema with
      | error e => rw [hs] at h; cases h
      | ok safe =>
        rw [hs] at h
        simp only at h ⊢
        by_cases hi : f.insertOk = true
        · right
          simp only [hi, if_true]
          exact ⟨trivial, trivial⟩
        · rw [if_neg hi] at h
          cases h
    · simp only [if_true] at h ⊢
      by_cases ha : (addHistoricoCandidatos cache now f.exec schema
          (dadosHistoricoCandidatos body)).1 = true
      · left
        rw [if_pos ha]
        exact ⟨trivial, ha, rfl⟩
      · rw [if_neg ha] at h ⊢
        cases hs : sanitizeSchema schema with
        | error e => rw [hs] at h; cases h
        | ok safe =>
          rw [hs] at h
          simp only at h ⊢
          by_cases hi : f.insertOk = true
          · right
            simp only [hi, if_true]
            exact ⟨trivial, trivial⟩
          · rw [if_neg hi] at h
            cases h

/-- C21 (amended). On the fallback path of `POST /historico/vagas`, when a cache is
    configured, the append returned false, the insert succeeded and the `sadd` of
    `addToFallbackLog` succeeds, the requisition is in the tenant's fallback log, and the
    two sync queues hold what the failed append left (what they held before the request
    when no command of its batch took effect). The handler of `POST /historico/candidatos`
    never writes the fallback log, and leaves the cache as the append attempt left it. -/
theorem C21_fallback_bookkeeping (f : PostFaults) (now : Int) (campos : List Field)
    (schema : String) (body : Record) (cache : Valkey) (db : Db) (fl : String)
    (f2 : PostFaults) (cachePresent2 : Bool) (now2 : Int) (schema2 : String) (body2 : Record)
    (cache2 : Valkey) (db2 : Db)
    (hreq : truthy (getField body "requisicao") = true)
    (hst : truthy (getField body "status") = true)
    (hs : sanitizeSchema schema = Except.ok schema)
    (hq : f.statusQueryOk = true)
    (hfl : funcaoLowerOf
      ((((db.statusVagas schema).filter
        (fun r => getField r "status" = getField body "status")).head?).bind
          (fun r => getField r "funcao_sistema")) = some fl)
    (hfail : (addHistoricoVagas cache now f.hgetOk f.exec schema
      (dadosFiltradosVagas campos fl body)).1 = false)
    (hins : f.insertOk = true) (hlog : f.fallbackLogOk = true)
    (hid2 : truthy (getField body2 "id_candidato") = true) :
    jsString (getField body "requisicao")
      ∈ (postHistoricoVagas f true now campos schema body cache db).2.1.sets (fallbackLog schema)
    ∧ (postHistoricoVagas f true now campos schema body cache db).2.1.sets (syncQueue schema)
      = (addHistoricoVagas cache now f.hgetOk f.exec schema
          (dadosFiltradosVagas campos fl body)).2.sets (syncQueue schema)
    ∧ (postHistoricoVagas f true now campos schema body cache db).2.1.sets
        (syncQueueCandidatos schema)
      = (addHistoricoVagas cache now f.hgetOk f.exec schema
          (dadosFiltradosVagas campos fl body)).2.sets (syncQueueCandidatos schema)
    ∧ ((∀ i, f.exec.effect i = false) →
        (postHistoricoVagas f true now campos schema body cache db).2.1.sets (syncQueue schema)
          = cache.sets (syncQueue schema)
        ∧ (postHistoricoVagas f true now campos schema body cache db).2.1.sets
            (syncQueueCandidatos schema) = cache.sets (syncQueueCandidatos schema))
    ∧ (postHistoricoCandidatos f2 cachePresent2 now2 schema2 body2 cache2 db2).2.1.sets
        (fallbackLog schema2) = cache2.sets (fallbackLog schema2)
    ∧ (postHistoricoCandidatos f2 cachePresent2 now2 schema2 body2 cache2 db2).2.1
      = (if cachePresent2 = true then
          (addHistoricoCandidatos cache2 now2 f2.exec schema2
            (dadosHistoricoCandidatos body2)).2
         else cache2) := by
  have hpost := postHistoricoVagas_fallback f now campos schema body cache db fl hreq hst hs hq
    hfl hfail hins
  have hstate : (postHistoricoVagas f true now campos schema body cache db).2.1
      = (Cmd.sadd (fallbackLog schema) (jsString (getField body "requisicao"))).apply
          (addHistoricoVagas cache now f.hgetOk f.exec schema
            (dadosFiltradosVagas campos fl body)).2 := by
    rw [hpost]
    simp only [addToFallbackLog, hlog, if_true]
  have hq1 : (postHistoricoVagas f true now campos schema body cache db).2.1.sets
      (syncQueue schema)
      = (addHistoricoVagas cache now f.hgetOk f.exec schema
          (dadosFiltradosVagas campos fl body)).2.sets (syncQueue schema) := by
    rw [hstate, apply_sets]
    simp [Cmd.onSet, (fallbackLog_ne_syncQueue schema).symm]
  have hq2 : (postHistoricoVagas f true now campos schema body cache db).2.1.sets
      (syncQueueCandidatos schema)
      = (addHistoricoVagas cache now f.hgetOk f.exec schema
          (dadosFiltradosVagas campos fl body)).2.sets (syncQueueCandidatos schema) := by
    rw [hstate, apply_sets]
    simp [Cmd.onSet, (fallbackLog_ne_syncQueueCandidatos schema).symm]
  refine ⟨?_, hq1, hq2, ?_, postHistoricoCandidatos_fallbackLog _ _ _ _ _ _ _, ?_⟩
  · rw [hstate, apply_sets]
    exact mem_onSet_sadd _ _ _
  · intro hnone
    rw [hq1, hq2, addHistoricoVagas_no_effect _ _ _ _ hnone]
    exact ⟨rfl, rfl⟩
  · unfold postHistoricoCandidatos
    simp only [hid2, Bool.not_true, Bool.false_eq_true, if_false]
    cases cachePresent2
    · simp only [Bool.false_eq_true, if_false]
      cases sanitizeSchema schema2 with
      | error e => rfl
      | ok safe =>
        simp only
        cases f2.insertOk <;> rfl
    · simp only [if_true]
      cases (addHistoricoCandidatos cache2 now2 f2.exec schema2
          (dadosHistoricoCandidatos body2)).1
      · simp only [Bool.false_eq_true, if_false]
        cases sanitizeSchema schema2 with
        | error e => rfl
        | ok safe =>
          simp only
          cases f2.insertOk <;> rfl
      · rfl

/-- Witness for C21: `exec()` of the append rejects without effect and every other call
    works, for a write of `REQ100` and for a write of candidate `C7`. -/
theorem C21_fallback_bookkeeping_witness :
    "REQ100" ∈ (postHistoricoVagas exExecRejects true 1000 [] "t1" exProposta Valkey.empty
        exDb).2.1.sets (fallbackLog "t1")
    ∧ (postHistoricoVagas exExecRejects true 1000 [] "t1" exProposta Valkey.empty
        exDb).2.1.sets (syncQueue "t1") = []
    ∧ (postHistoricoCandidatos exExecRejects true 1000 "t1" exBodyCandidato Valkey.empty
        exDb).2.1.sets (fallbackLog "t1") = [] :=
  ⟨(C21_fallback_bookkeeping exExecRejects 1000 [] "t1" exProposta Valkey.empty exDb ""
      exExecRejects true 1000 "t1" exBodyCandidato Valkey.empty exDb
      (by decide) (by decide) rfl rfl (by decide) (by decide) rfl rfl (by decide)).1,
   ((C21_fallback_bookkeeping exExecRejects 1000 [] "t1" exProposta Valkey.empty exDb ""
      exExecRejects true 1000 "t1" exBodyCandidato Valkey.empty exDb
      (by decide) (by decide) rfl rfl (by decide) (by decide) rfl rfl (by decide)).2.2.2.1
      (fun _ => rfl)).1,
   (C21_fallback_bookkeeping exExecRejects 1000 [] "t1" exProposta Valkey.empty exDb ""
      exExecRejects true 1000 "t1" exBodyCandidato Valkey.empty exDb
      (by decide) (by decide) rfl rfl (by decide) (by decide) rfl rfl (by decide)).2.2.2.2.1⟩

/-- C21 (as stated) fails: the append for candidate `C7` fails, the insert succeeds and the
    answer is 201 from the durable store, and the candidate is not in the fallback log,
    although the `sadd` would succeed; and when the cache is down during a write of
    `REQ100`, the fallback write succeeds and `REQ100` is not in the fallback log either. -/
theorem C21_fallback_without_marker :
    (postHistoricoCandidatos exExecRejects true 1000 "t1" exBodyCandidato Valkey.empty exDb).1
      = { status := HttpStatus.CREATED, success := some true, fonte := some "postgresql" }
    ∧ (postHistoricoCandidatos exExecRejects true 1000 "t1" exBodyCandidato Valkey.empty
        exDb).2.1.sets (fallbackLog "t1") = []
    ∧ (postHistoricoVagas exCacheDown true 1000 [] "t1" exProposta Valkey.empty exDb).1
      = { status := HttpStatus.CREATED, success := some true, fonte := some "postgresql" }
    ∧ (postHistoricoVagas exCacheDown true 1000 [] "t1" exProposta Valkey.empty
        exDb).2.1.sets (fallbackLog "t1") = []
    ∧ (postHistoricoVagas exExecRejects false 1000 [] "t1" exProposta Valkey.empty
        exDb).2.1.sets (fallbackLog "t1") = [] := by
  decide

/-! ## C22: outcome table of the request path -/

/-- After an append that returned true and whose commands all took effect, the record is
    in the series of the requisition under the clock reading. -/
theorem addHistoricoVagas_series (s : Valkey) (now : Int) (hgetOk : Bool) (out : ExecOutcome)
    (schema : String) (data : Record)
    (h : (addHistoricoVagas s now hgetOk out schema data).1 = true)
    (he : ∀ i, out.effect i = true) :
    (now, setField data "cached_at" (JVal.num now))
      ∈ (addHistoricoVagas s now hgetOk out schema data).2.zsets
          (histVagas schema (jsString (getField data "requisicao"))) := by
  obtain ⟨fl, _, _, hst⟩ := addHistoricoVagas_true _ _ _ _ _ _ h
  have hall : out.effect = fun _ => true := funext he
  rw [hst]
  unfold execPipeline
  rw [hall, runCmds_zsets, zsetAfter_all, addCmds_histVagas]
  exact (mem_zaddEntries _ _ _ _).mpr (Or.inl rfl)

/-- After an append for a candidate whose commands all took effect, the record is in the
    series of the candidate under the clock reading. -/
theorem addHistoricoCandidatos_series (s : Valkey) (now : Int) (out : ExecOutcome)
    (schema : String) (data : Record) (he : ∀ i, out.effect i = true) :
    (now, setField data "cached_at" (JVal.num now))
      ∈ (addHistoricoCandidatos s now out schema data).2.zsets
          (histCandidatos schema (jsString (getField data "id_candidato"))) := by
  have hall : out.effect = fun _ => true := funext he
  simp only [addHistoricoCandidatos]
  unfold execPipeline
  rw [hall, runCmds_zsets, zsetAfter_all, addCmds_histCandidatos]
  exact (mem_zaddEntries _ _ _ _).mpr (Or.inl rfl)

/-- The handler of `POST /historico/vagas` answers 201 only from its two success branches:
    from the cache, when the append returned true, leaving the cache as the append left it
    and the table as it was; or from the durable store, when the insert succeeded, with the
    row in the table. -/
theorem postHistoricoVagas_created_stores (f : PostFaults) (cachePresent : Bool) (now : Int)
    (campos : List Field) (schema : String) (body : Record) (cache : Valkey) (db : Db)
    (h : (postHistoricoVagas f cachePresent now campos schema body cache db).1.status
      = HttpStatus.CREATED) :
    ∃ fl,
      (cachePresent = true
        ∧ (addHistoricoVagas cache now f.hgetOk f.exec schema
            (dadosFiltradosVagas campos fl body)).1 = true
        ∧ postHistoricoVagas f cachePresent now campos schema body cache db
          = ({ status := HttpStatus.CREATED, success := some true, fonte := some "valkey" },
             (addHistoricoVagas cache now f.hgetOk f.exec schema
                (dadosFiltradosVagas campos fl body)).2, db))
      ∨ (f.insertOk = true
        ∧ (postHistoricoVagas f cachePresent now campos schema body cache db).1
          = { status := HttpStatus.CREATED, success := some true, fonte := some "postgresql" }
        ∧ (postHistoricoVagas f cachePresent now campos schema body cache db).2.2
          = db.insert schema "historico_vagas"
              (buildInsertRow campos (dadosFiltradosVagas campos fl body))) := by
  unfold postHistoricoVagas at h ⊢
  by_cases h1 : (!truthy (getField body "requisicao") || !truthy (getField body "status")) = true
  · rw [if_pos h1] at h
    cases h
  · rw [if_neg h1] at h ⊢
    cases hs : sanitizeSchema schema with
    | error e =>
      rw [hs] at h
      cases h
    | ok target =>
      rw [hs] at h
      simp only at h ⊢
      by_cases hq : (!f.statusQueryOk) = true
      · rw [if_pos hq] at h
        cases h
      · rw [if_neg hq] at h ⊢
        cases hfl : funcaoLowerOf
            ((((db.statusVagas target).filter
              (fun r => getField r "status" = getField body "status")).head?).bind
                (fun r => getField r "funcao_sistema")) with
        | none =>
          rw [hfl] at h
          cases h
        | some fl =>
          rw [hfl] at h
          simp only at h ⊢
          have htarget : target = schema := by
            unfold sanitizeSchema at hs
            split at hs
            · cases hs
            · split at hs
              · cases hs
              · split at hs
                · cases hs
                · cases hs; rfl
          subst htarget
          refine ⟨fl, ?_⟩
          cases cachePresent
          · simp only [Bool.false_eq_true, if_false] at h ⊢
            by_cases hi : f.insertOk = true
            · right
              simp only [hi, if_true]
              exact ⟨trivial, trivial, trivial⟩
            · rw [if_neg hi] at h
              cases h
          · simp only [if_true] at h ⊢
            by_cases ha : (addHistoricoVagas cache now f.hgetOk f.exec target
                (dadosFiltradosVagas campos fl body)).1 = true
            · left
              rw [if_pos ha]
              exact ⟨trivial, ha, rfl⟩
            · rw [if_neg ha] at h ⊢
              by_cases hi : f.insertOk = true
              · right
                simp only [hi, if_true]
                exact ⟨trivial, trivial, trivial⟩
              · rw [if_neg hi] at h
                cases h

/-- The handler of `POST /historico/candidatos` answers 201 only from its two success
    branches, with the stores as the branch leaves them. -/
theorem postHistoricoCandidatos_created_stores (f : PostFaults) (cachePresent : Bool)
    (now : Int) (schema : String) (body : Record) (cache : Valkey) (db : Db)
    (h : (postHistoricoCandidatos f cachePresent now schema body cache db).1.status
      = HttpStatus.CREATED) :
    (cachePresent = true
      ∧ (addHistoricoCandidatos cache now f.exec schema (dadosHistoricoCandidatos body)).1
          = true
      ∧ postHistoricoCandidatos f cachePresent now schema body cache db
        = ({ status := HttpStatus.CREATED, success := some true, fonte := some "valkey" },
           (addHistoricoCandidatos cache now f.exec schema (dadosHistoricoCandidatos body)).2,
           db))
    ∨ (f.insertOk = true
      ∧ (postHistoricoCandidatos f cachePresent now schema body cache db).1
        = { status := HttpStatus.CREATED, success := some true, fonte := some "postgresql" }
      ∧ ∃ safe, sanitizeSchema schema = Except.ok safe
        ∧ (postHistoricoCandidatos f cachePresent now schema body cache db).2.2
          = db.insert safe "historico_candidatos"
              ((dadosHistoricoCandidatos body).filter (fun p => p.2 ≠ JVal.null))) := by
  unfold postHistoricoCandidatos at h ⊢
  by_cases h1 : (!truthy (getField body "id_candidato")) = true
  · rw [if_pos h1] at h
    cases h
  · rw [if_neg h1] at h ⊢
    cases cachePresent
    · simp only [Bool.false_eq_true, if_false] at h ⊢
      cases hs : sanitizeSchema schema with
      | error e => rw [hs] at h; cases h
      | ok safe =>
        rw [hs] at h
        simp only at h ⊢
        by_cases hi : f.insertOk = true
        · right
          simp only [hi, if_true]
          exact ⟨trivial, trivial, safe, rfl, rfl⟩
        · rw [if_neg hi] at h
          cases h
    · simp only [if_true] at h ⊢
      by_cases ha : (addHistoricoCandidatos cache now f.exec schema
          (dadosHistoricoCandidatos body)).1 = true
      · left
        rw [if_pos ha]
        exact ⟨trivial, ha, rfl⟩
      · rw [if_neg ha] at h ⊢
        cases hs : sanitizeSchema schema with
        | error e => rw [hs] at h; cases h
        | ok safe =>
          rw [hs] at h
          simp only at h ⊢
          by_cases hi : f.insertOk = true
          · right
            simp only [hi, if_true]
            exact ⟨trivial, trivial, safe, rfl, rfl⟩
          · rw [if_neg hi] at h
            cases h

/-- C22 (amended). For a request that has reached the cache step of its handler
    (`POST /historico/vagas`: the body has `requisicao` and `status`, the tenant name is
    the validated one, the status lookup of the handler returned and the `funcao_sistema`
    it found, if any, is a text; `POST /historico/candidatos`: the body has `id_candidato`
    and the tenant name is the validated one): when the append does not succeed (it
    returns false or no cache is configured), the handler makes the insert; it answers 201
    with `success: true` and `fonte: 'postgresql'`, the row being in the table, when the
    insert succeeds, and 503 with `success: false`, the table unchanged, when it throws.
    For every request, a 201 is either `'valkey'`, given only when the append returned
    true, with the table left as it was and the record in the series if every command of
    the batch took effect; or `'postgresql'`, given only when the insert succeeded, with
    the row in the table. -/
theorem C22_request_outcome_table (f : PostFaults) (cachePresent : Bool) (now : Int)
    (campos : List Field) (schema : String) (body : Record) (cache : Valkey) (db : Db)
    (fl : String)
    (f2 : PostFaults) (cachePresent2 : Bool) (now2 : Int) (schema2 : String) (body2 : Record)
    (cache2 : Valkey) (db2 : Db)
    (hreq : truthy (getField body "requisicao") = true)
    (hst : truthy (getField body "status") = true)
    (hs : sanitizeSchema schema = Except.ok schema)
    (hq : f.statusQueryOk = true)
    (hfl : funcaoLowerOf
      ((((db.statusVagas schema).filter
        (fun r => getField r "status" = getField body "status")).head?).bind
          (fun r => getField r "funcao_sistema")) = some fl)
    (hfail : cachePresent = false ∨ (addHistoricoVagas cache now f.hgetOk f.exec schema
      (dadosFiltradosVagas campos fl body)).1 = false)
    (hid2 : truthy (getField body2 "id_candidato") = true)
    (hs2 : sanitizeSchema schema2 = Except.ok schema2)
    (hfail2 : cachePresent2 = false ∨ (addHistoricoCandidatos cache2 now2 f2.exec schema2
      (dadosHistoricoCandidatos body2)).1 = false) :
    (f.insertOk = true →
      (postHistoricoVagas f cachePresent now campos schema body cache db).1
          = { status := HttpStatus.CREATED, success := some true, fonte := some "postgresql" }
      ∧ (postHistoricoVagas f cachePresent now campos schema body cache db).2.2
          = db.insert schema "historico_vagas"
              (buildInsertRow campos (dadosFiltradosVagas campos fl body)))
    ∧ (f.insertOk = false →
      (postHistoricoVagas f cachePresent now campos schema body cache db).1
          = { status := HttpStatus.SERVICE_UNAVAILABLE, success := some false, fonte := none }
      ∧ (postHistoricoVagas f cachePresent now campos schema body cache db).2.2 = db)
    ∧ (f2.insertOk = true →
      (postHistoricoCandidatos f2 cachePresent2 now2 schema2 body2 cache2 db2).1
          = { status := HttpStatus.CREATED, success := some true, fonte := some "postgresql" }
      ∧ (postHistoricoCandidatos f2 cachePresent2 now2 schema2 body2 cache2 db2).2.2
          = db2.insert schema2 "historico_candidatos"
              ((dadosHistoricoCandidatos body2).filter (fun p => p.2 ≠ JVal.null)))
    ∧ (f2.insertOk = false →
      (postHistoricoCandidatos f2 cachePresent2 now2 schema2 body2 cache2 db2).1
          = { status := HttpStatus.SERVICE_UNAVAILABLE, success := some false, fonte := none }
      ∧ (postHistoricoCandidatos f2 cachePresent2 now2 schema2 body2 cache2 db2).2.2 = db2)
    ∧ HttpStatus.CREATED.code = 201 ∧ HttpStatus.SERVICE_UNAVAILABLE.code = 503
    ∧ (∀ (g : PostFaults) (cp : Bool) (t : Int) (cs : List Field) (sc : String) (b : Record)
        (c : Valkey) (d : Db),
        (postHistoricoVagas g cp t cs sc b c d).1.status = HttpStatus.CREATED →
          ∃ l,
            (cp = true
              ∧ (addHistoricoVagas c t g.hgetOk g.exec sc (dadosFiltradosVagas cs l b)).1 = true
              ∧ postHistoricoVagas g cp t cs sc b c d
                = ({ status := HttpStatus.CREATED, success := some true,
                     fonte := some "valkey" },
                   (addHistoricoVagas c t g.hgetOk g.exec sc (dadosFiltradosVagas cs l b)).2,
                   d)
              ∧ ((∀ i, g.exec.effect i = true) →
                  (t, setField (dadosFiltradosVagas cs l b) "cached_at" (JVal.num t))
                    ∈ (postHistoricoVagas g cp t cs sc b c d).2.1.zsets
                        (histVagas sc
                          (jsString (getField (dadosFiltradosVagas cs l b) "requisicao")))))
            ∨ (g.insertOk = true
              ∧ (postHistoricoVagas g cp t cs sc b c d).1
                = { status := HttpStatus.CREATED, success := some true,
                    fonte := some "postgresql" }
              ∧ (postHistoricoVagas g cp t cs sc b c d).2.2
                = d.insert sc "historico_vagas"
                    (buildInsertRow cs (dadosFiltradosVagas cs l b))))
    ∧ (∀ (g : PostFaults) (cp : Bool) (t : Int) (sc : String) (b : Record) (c : Valkey)
        (d : Db),
        (postHistoricoCandidatos g cp t sc b c d).1.status = HttpStatus.CREATED →
          (cp = true
            ∧ (addHistoricoCandidatos c t g.exec sc (dadosHistoricoCandidatos b)).1 = true
            ∧ postHistoricoCandidatos g cp t sc b c d
              = ({ status := HttpStatus.CREATED, success := some true, fonte := some "valkey" },
                 (addHistoricoCandidatos c t g.exec sc (dadosHistoricoCandidatos b)).2, d)
            ∧ ((∀ i, g.exec.effect i = true) →
                (t, setField (dadosHistoricoCandidatos b) "cached_at" (JVal.num t))
                  ∈ (postHistoricoCandidatos g cp t sc b c d).2.1.zsets
                      (histCandidatos sc
                        (jsString (getField (dadosHistoricoCandidatos b) "id_candidato")))))
          ∨ (g.insertOk = true
            ∧ (postHistoricoCandidatos g cp t sc b c d).1
              = { status := HttpStatus.CREATED, success := some true,
                  fonte := some "postgresql" }
            ∧ ∃ safe, sanitizeSchema sc = Except.ok safe
              ∧ (postHistoricoCandidatos g cp t sc b c d).2.2
                = d.insert safe "historico_candidatos"
                    ((dadosHistoricoCandidatos b).filter (fun p => p.2 ≠ JVal.null)))) := by
  have hv := postHistoricoVagas_after_failed_append f cachePresent now campos schema body cache
    db fl hreq hst hs hq hfl hfail
  have hc := postHistoricoCandidatos_after_failed_append f2 cachePresent2 now2 schema2 body2
    cache2 db2 hid2 hs2 hfail2
  refine ⟨hv.1, hv.2, hc.1, hc.2, rfl, rfl, ?_, ?_⟩
  · intro g cp t cs sc b c d h
    obtain ⟨l, hl⟩ := postHistoricoVagas_created_stores g cp t cs sc b c d h
    refine ⟨l, ?_⟩
    rcases hl with ⟨h1, h2, h3⟩ | h4
    · left
      refine ⟨h1, h2, h3, ?_⟩
      intro he
      rw [h3]
      exact addHistoricoVagas_series c t g.hgetOk g.exec sc _ h2 he
    · exact Or.inr h4
  · intro g cp t sc b c d h
    rcases postHistoricoCandidatos_created_stores g cp t sc b c d h with ⟨h1, h2, h3⟩ | h4
    · left
      refine ⟨h1, h2, h3, ?_⟩
      intro he
      rw [h3]
      exact addHistoricoCandidatos_series c t g.exec sc _ he
    · exact Or.inr h4

/-- Witness for C22: the cache is down and the durable store works; the answers are 201 from
    the durable store. -/
theorem C22_request_outcome_table_witness :
    (postHistoricoVagas exCacheDown true 1000 [] "t1" exProposta Valkey.empty exDb).1
      = { status := HttpStatus.CREATED, success := some true, fonte := some "postgresql" }
    ∧ (postHistoricoCandidatos exCacheDown false 1000 "t1" exBodyCandidato Valkey.empty exDb).1
      = { status := HttpStatus.CREATED, success := some true, fonte := some "postgresql" } :=
  ⟨((C22_request_outcome_table exCacheDown true 1000 [] "t1" exProposta Valkey.empty exDb ""
      exCacheDown false 1000 "t1" exBodyCandidato Valkey.empty exDb
      (by decide) (by decide) rfl rfl (by decide) (Or.inr (by decide)) (by decide) rfl
      (Or.inl rfl)).1 rfl).1,
   ((C22_request_outcome_table exCacheDown true 1000 [] "t1" exProposta Valkey.empty exDb ""
      exCacheDown false 1000 "t1" exBodyCandidato Valkey.empty exDb
      (by decide) (by decide) rfl rfl (by decide) (Or.inr (by decide)) (by decide) rfl
      (Or.inl rfl)).2.2.1 rfl).1⟩

/-- C22 (as stated) fails. The `exec()` of the append resolves although none of its
    commands took effect, and the durable store is down: both handlers answer 201 with
    `fonte: 'valkey'`, and the record is neither in the series nor in the table. And with
    no cache configured and the durable store down, the handler of `POST /historico/vagas`
    answers 500 from its status lookup and never makes the insert, where the handler of
    `POST /historico/candidatos` answers 503. -/
theorem C22_created_without_record :
    (postHistoricoVagas exNothingApplied true 1000 [] "t1" exProposta Valkey.empty exDb).1
      = { status := HttpStatus.CREATED, success := some true, fonte := some "valkey" }
    ∧ (postHistoricoVagas exNothingApplied true 1000 [] "t1" exProposta Valkey.empty
        exDb).2.1.zsets (histVagas "t1" "REQ100") = []
    ∧ (postHistoricoVagas exNothingApplied true 1000 [] "t1" exProposta Valkey.empty
        exDb).2.2.rows "t1" "historico_vagas" = []
    ∧ (postHistoricoCandidatos exNothingApplied true 1000 "t1" exBodyCandidato Valkey.empty
        exDb).1
      = { status := HttpStatus.CREATED, success := some true, fonte := some "valkey" }
    ∧ (postHistoricoCandidatos exNothingApplied true 1000 "t1" exBodyCandidato Valkey.empty
        exDb).2.1.zsets (histCandidatos "t1" "C7") = []
    ∧ (postHistoricoCandidatos exNothingApplied true 1000 "t1" exBodyCandidato Valkey.empty
        exDb).2.2.rows "t1" "historico_candidatos" = []
    ∧ (postHistoricoVagas exDurableDown false 1000 [] "t1" exProposta Valkey.empty exDb).1
      = { status := HttpStatus.INTERNAL_ERROR, success := some false, fonte := none }
    ∧ (postHistoricoCandidatos exDurableDown false 1000 "t1" exBodyCandidato Valkey.empty
        exDb).1
      = { status := HttpStatus.SERVICE_UNAVAILABLE, success := some false, fonte := none } := by
  decide

/-! ## C27: the row the worker inserts -/

theorem mem_objectKeys_iff (r : Record) (k : String) :
    k ∈ objectKeys r ↔ hasField r k = true := by
  induction r with
  | nil => simp [objectKeys, hasField]
  | cons p r ih =>
    simp only [objectKeys, List.map_cons, List.mem_cons, hasField, List.any_cons,
      Bool.or_eq_true, beq_iff_eq] at ih ⊢
    constructor
    · rintro (h | h)
      · exact Or.inl h.symm
      · exact Or.inr (ih.mp h)
    · rintro (h | h)
      · exact Or.inl h.symm
      · exact Or.inr (ih.mpr h)

theorem objectKeys_map_set (r : Record) (k : String) (v : JVal) :
    objectKeys (r.map (fun p => if p.1 == k then (k, v) else p)) = objectKeys r := by
  unfold objectKeys
  rw [List.map_map]
  apply List.map_congr_left
  intro p _
  by_cases h : p.1 = k
  · simp [h]
  · simp [h]

theorem objectKeys_setField (r : Record) (k : String) (v : JVal) :
    objectKeys (setField r k v)
      = if hasField r k = true then objectKeys r else objectKeys r ++ [k] := by
  unfold setField
  by_cases h : hasField r k = true
  · rw [if_pos h, if_pos h]
    exact objectKeys_map_set r k v
  · rw [if_neg h, if_neg h]
    simp [objectKeys]

theorem objectKeys_setField_nodup (r : Record) (k : String) (v : JVal)
    (h : (objectKeys r).Nodup) : (objectKeys (setField r k v)).Nodup := by
  rw [objectKeys_setField]
  by_cases hk : hasField r k = true
  · rw [if_pos hk]; exact h
  · rw [if_neg hk]
    rw [List.nodup_append]
    refine ⟨h, List.nodup_singleton k, ?_⟩
    intro a ha hb
    rw [List.mem_singleton] at hb
    subst hb
    exact hk ((mem_objectKeys_iff r a).mp ha)

theorem projectRow_nodup_aux (u : List String) (linha acc : Record)
    (h : (objectKeys acc).Nodup) :
    (objectKeys (u.foldl
        (fun acc col =>
          if hasField linha col && (getField linha col).isSome then
            setField acc col ((getField linha col).getD JVal.null)
          else acc) acc)).Nodup := by
  induction u generalizing acc with
  | nil => exact h
  | cons col u ih =>
    rw [List.foldl_cons]
    apply ih
    split
    · exact objectKeys_setField_nodup _ _ _ h
    · exact h

/-- The projected row has no column twice. -/
theorem projectRow_nodup (u : List String) (linha : Record) :
    (objectKeys (projectRow u linha)).Nodup :=
  projectRow_nodup_aux u linha [] List.nodup_nil

/-- The columns of the projected row are the updatable columns that are properties of the
    record. -/
theorem mem_projectRow_keys (u : List String) (linha : Record) (c : String) :
    c ∈ objectKeys (projectRow u linha) ↔ c ∈ u ∧ hasField linha c = true := by
  rw [mem_objectKeys_iff, hasField_eq_isSome]
  unfold projectRow
  rw [getField_projectRow_aux]
  by_cases h : c ∈ u ∧ hasField linha c = true
  · rw [if_pos h]
    have := h.2
    rw [hasField_eq_isSome] at this
    exact ⟨fun _ => h, fun _ => this⟩
  · rw [if_neg h, getField_nil]
    exact ⟨fun hh => by simp at hh, fun hh => absurd hh h⟩

theorem getField_of_mem (r : Record) (p : String × JVal) (hn : (objectKeys r).Nodup)
    (hp : p ∈ r) : getField r p.1 = some p.2 := by
  induction r with
  | nil => exact absurd hp (List.not_mem_nil _)
  | cons q r ih =>
    rw [getField_cons]
    simp only [objectKeys, List.map_cons, List.nodup_cons] at hn
    rcases List.mem_cons.mp hp with h | h
    · subst h
      simp
    · have hne : q.1 ≠ p.1 := by
        intro he
        apply hn.1
        rw [he]
        exact List.mem_map_of_mem (fun p => p.1) h
      simp only [beq_iff_eq, hne, if_false]
      exact ih hn.2 h

/-- Every column of the projected row is bound to the record's value of that property. -/
theorem projectRow_values (u : List String) (linha : Record) (p : String × JVal)
    (hp : p ∈ projectRow u linha) : getField linha p.1 = some p.2 := by
  have h1 := getField_of_mem _ p (projectRow_nodup u linha) hp
  have hk : p.1 ∈ objectKeys (projectRow u linha) :=
    List.mem_map_of_mem (fun p => p.1) hp
  rw [← getField_projectRow u linha p.1 ((mem_projectRow_keys u linha p.1).mp hk).1]
  exact h1

theorem projectRow_keys_aux (u : List String) (linha acc : Record) (hu : u.Nodup)
    (hacc : ∀ c ∈ u, hasField acc c = false) :
    objectKeys (u.foldl
        (fun acc col =>
          if hasField linha col && (getField linha col).isSome then
            setField acc col ((getField linha col).getD JVal.null)
          else acc) acc)
      = objectKeys acc ++ u.filter (fun c => hasField linha c) := by
  induction u generalizing acc with
  | nil => simp
  | cons col u ih =>
    rw [List.foldl_cons]
    rw [List.nodup_cons] at hu
    have hcol : hasField acc col = false := hacc col (List.mem_cons_self _ _)
    by_cases hh : hasField linha col = true
    · have hsome : (getField linha col).isSome = true := by
        rw [← hasField_eq_isSome]; exact hh
      simp only [hh, hsome, Bool.and_self, if_true]
      rw [ih _ hu.2, objectKeys_setField, hcol]
      · simp [List.filter_cons, hh]
      · intro c hc
        have hne : c ≠ col := by
          intro he; subst he; exact hu.1 hc
        have h0 := hacc c (List.mem_cons_of_mem _ hc)
        rw [hasField_eq_isSome, getField_setField, if_neg hne, ← hasField_eq_isSome]
        exact h0
    · have hh2 : hasField linha col = false := by simpa using hh
      simp only [hh2, Bool.false_and, Bool.false_eq_true, if_false]
      rw [ih _ hu.2 (fun c hc => hacc c (List.mem_cons_of_mem _ hc))]
      simp [List.filter_cons, hh2]

/-- For a column list without repetition, the columns of the projected row are the
    updatable columns that are properties of the record, in the order of the table. -/
theorem projectRow_keys (u : List String) (linha : Record) (hu : u.Nodup) :
    objectKeys (projectRow u linha) = u.filter (fun c => hasField linha c) := by
  unfold projectRow
  rw [projectRow_keys_aux u linha [] hu (fun _ _ => rfl)]
  rfl

theorem not_mem_updatableOf (cols : List String) :
    "id" ∉ updatableOf cols ∧ "created_at" ∉ updatableOf cols := by
  unfold updatableOf
  constructor <;>
  · intro h
    rw [List.mem_filter] at h
    simp at h

/-- The statement of the worker binds the i-th placeholder to the i-th value, names
    `created_at` after the projected columns and binds it to `NOW()`. -/
theorem workerInsert_shape (row : Record) :
    (workerInsert row).columns = objectKeys row ++ ["created_at"]
    ∧ (workerInsert row).exprs
        = (List.range row.length).map (fun i => SqlExpr.param (i + 1)) ++ [SqlExpr.now]
    ∧ (workerInsert row).vals.length = row.length
    ∧ ∀ i (h : i < row.length),
        (row.get ⟨i, h⟩) = ((objectKeys row).getD i "", (workerInsert row).vals.getD i JVal.null) := by
  refine ⟨rfl, ?_, ?_, ?_⟩
  · simp [workerInsert, objectValues]
  · simp [workerInsert, objectValues]
  · intro i h
    simp [workerInsert, objectValues, objectKeys, List.getD, h]

/-- In a sorted set whose scores are the `cached_at` of the members, the last record of
    `ZRANGE key 0 -1` has the greatest `cached_at`. -/
theorem latest_has_greatest_cached_at (z : List ZEntry) (h : ScoreIsCachedAt z)
    (linha : Record) (hl : (zrangeAll z).getLast? = some linha) :
    ∃ c, getField linha "cached_at" = some (JVal.num c)
      ∧ ∀ r ∈ zrangeAll z, ∃ c2, getField r "cached_at" = some (JVal.num c2) ∧ c2 ≤ c := by
  cases hz : zdesc z with
  | nil =>
    simp [zrangeAll, hz] at hl
  | cons e rest =>
    have hlast := getLast_zrangeAll z e rest hz
    rw [hl] at hlast
    have hlin : linha = e.2 := Option.some.inj hlast
    have hperm := zdesc_perm z
    have he : e ∈ z := hperm.subset (by rw [hz]; exact List.mem_cons_self _ _)
    refine ⟨e.1, by rw [hlin]; exact (h e he).1, ?_⟩
    intro r hr
    simp only [zrangeAll, List.mem_map, List.mem_reverse] at hr
    obtain ⟨x, hx, hxr⟩ := hr
    have hxz : x ∈ z := hperm.subset hx
    refine ⟨x.1, by rw [← hxr]; exact (h x hxz).1, ?_⟩
    have hsorted := zdesc_sorted z
    rw [hz] at hsorted hx
    rcases List.mem_cons.mp hx with h1 | h1
    · rw [h1]
    · exact (List.pairwise_cons.mp hsorted).1 x h1

/-- One step of the loop of `syncVagas` leaves the table alone or appends the projection
    of the last record of the series. -/
theorem syncVagasStep_db (f : SyncFaults) (schema : String) (u : List String) (w : Worker)
    (req : String) :
    (syncVagasStep f schema u w req).db = w.db
    ∨ ∃ linha, (getHistoricoVagas w.cache (f.histOk req) schema req).getLast? = some linha
        ∧ (syncVagasStep f schema u w req).db
            = w.db.insert schema "historico_vagas" (projectRow u linha) := by
  simp only [syncVagasStep]
  cases hl : (getHistoricoVagas w.cache (f.histOk req) schema req).getLast? with
  | none => exact Or.inl rfl
  | some linha =>
    simp only
    by_cases h1 : (!truthy (getField (projectRow u linha) "requisicao")) = true
    · rw [if_pos h1]; exact Or.inl rfl
    · rw [if_neg h1]
      by_cases h2 : f.insertOk req = true
      · rw [if_pos h2]; exact Or.inr ⟨linha, rfl, rfl⟩
      · rw [if_neg h2]; exact Or.inl rfl

/-- One step of the loop of `syncCandidatos` leaves the table alone or appends the
    projection of the last record of the series. -/
theorem syncCandidatosStep_db (f : SyncFaults) (schema : String) (u : List String)
    (w : Worker) (cand : String) :
    (syncCandidatosStep f schema u w cand).db = w.db
    ∨ ∃ linha,
        (getHistoricoCandidatos w.cache (f.histOk cand) schema cand).getLast? = some linha
        ∧ (syncCandidatosStep f schema u w cand).db
            = w.db.insert schema "historico_candidatos" (projectRow u linha) := by
  simp only [syncCandidatosStep]
  cases hl : (getHistoricoCandidatos w.cache (f.histOk cand) schema cand).getLast? with
  | none => exact Or.inl rfl
  | some linha =>
    simp only
    by_cases h1 : (!truthy (getField (projectRow u linha) "id_candidato")) = true
    · rw [if_pos h1]; exact Or.inl rfl
    · rw [if_neg h1]
      by_cases h2 : f.insertOk cand = true
      · rw [if_pos h2]; exact Or.inr ⟨linha, rfl, rfl⟩
      · rw [if_neg h2]; exact Or.inl rfl

/-- In every cache state reached by appends, invalidations and patches whose partial
    fields carry no `cached_at`, the record the worker projects (the last of the series)
    has the greatest `cached_at` of the series, for both families. -/
theorem worker_record_of_reachable (s : Valkey) (hreach : Reachable s)
    (schema id : String) (linha : Record) :
    ((getHistoricoVagas s true schema id).getLast? = some linha →
      ∃ c, getField linha "cached_at" = some (JVal.num c)
        ∧ ∀ r ∈ getHistoricoVagas s true schema id,
            ∃ c2, getField r "cached_at" = some (JVal.num c2) ∧ c2 ≤ c)
    ∧ ((getHistoricoCandidatos s true schema id).getLast? = some linha →
      ∃ c, getField linha "cached_at" = some (JVal.num c)
        ∧ ∀ r ∈ getHistoricoCandidatos s true schema id,
            ∃ c2, getField r "cached_at" = some (JVal.num c2) ∧ c2 ≤ c) := by
  constructor
  · intro hl
    simp only [getHistoricoVagas, if_true] at hl ⊢
    exact latest_has_greatest_cached_at _ (reachable_stamped s hreach _) linha hl
  · intro hl
    simp only [getHistoricoCandidatos, if_true] at hl ⊢
    exact latest_has_greatest_cached_at _ (reachable_stamped s hreach _) linha hl

/-- C27 at the failing input: the series of `REQ100` is reached by an append at 1000,
    `updateDadosSelecionado` with the partial fields `{cached_at: 9999}` and an append at
    2000. The record with the greatest `cached_at` of the series is the first one (9999,
    `alterado_por: 'zeta'`); `syncVagas` inserts the projection of the last record of
    `ZRANGE`, whose `cached_at` is 2000 (`alterado_por: 'ana'`). -/
theorem C27_worker_row_follows_score :
    getHistoricoVagas exFutureStamp true "t1" "REQ100"
      = [exFutureStampRecord, setField exPropostaAna "cached_at" (JVal.num 2000)]
    ∧ getField exFutureStampRecord "cached_at" = some (JVal.num 9999)
    ∧ (syncVagas SyncFaults.none "t1" (exWorkerAudit exFutureStamp)).db.rows "t1"
        "historico_vagas"
      = [[("requisicao", JVal.str "REQ100"), ("status", JVal.str "PROPOSTA"),
          ("alterado_por", JVal.str "ana")]]
    ∧ projectRow (updatableOf (exDbAudit.columns "t1" "historico_vagas")) exFutureStampRecord
      = [("requisicao", JVal.str "REQ100"), ("status", JVal.str "PROPOSTA"),
          ("alterado_por", JVal.str "zeta")] := by
  decide

/-! ## C28: placeholders of the generated SQL -/

theorem emittedFields_nil (dados : Record) (ex : List String) :
    emittedFields [] dados ex = [] := rfl

theorem emittedFields_cons_excluded (f : Field) (l : List Field) (dados : Record)
    (ex : List String) (h : ex.contains f.name = true) :
    emittedFields (f :: l) dados ex = emittedFields l dados ex := by
  unfold emittedFields
  apply List.filter_cons_of_neg
  simp only [h, Bool.not_true, Bool.false_and, Bool.false_eq_true, not_false_eq_true]

theorem emittedFields_cons_absent (f : Field) (l : List Field) (dados : Record)
    (ex : List String) (h : hasField dados f.name = false) :
    emittedFields (f :: l) dados ex = emittedFields l dados ex := by
  unfold emittedFields
  apply List.filter_cons_of_neg
  simp only [h, Bool.and_false, Bool.false_eq_true, not_false_eq_true]

theorem emittedFields_cons_pushed (f : Field) (l : List Field) (dados : Record)
    (ex : List String) (h1 : ex.contains f.name = false) (h2 : hasField dados f.name = true) :
    emittedFields (f :: l) dados ex = f :: emittedFields l dados ex := by
  unfold emittedFields
  apply List.filter_cons_of_pos
  simp only [h1, h2, Bool.not_false, Bool.and_self]

theorem buildUpdateSetLoop_aux (l : List Field) (dados : Record) (ex : List String)
    (fs : List String) (vs : List (Option JVal)) (n : Nat) :
    l.foldl
      (fun st field =>
        if ex.contains field.name then st
        else if hasField dados field.name then
          (st.1 ++ [field.quoted ++ " = $" ++ toString st.2.2],
           st.2.1 ++ [getField dados field.name],
           st.2.2 + 1)
        else st)
      (fs, vs, n)
    = (fs ++ (List.enumFrom n (emittedFields l dados ex)).map
            (fun p => p.2.quoted ++ " = $" ++ toString p.1),
       vs ++ (emittedFields l dados ex).map (fun f => getField dados f.name),
       n + (emittedFields l dados ex).length) := by
  induction l generalizing fs vs n with
  | nil => simp [emittedFields_nil]
  | cons f l ih =>
    rw [List.foldl_cons]
    by_cases h1 : ex.contains f.name = true
    · rw [if_pos h1, ih, emittedFields_cons_excluded f l dados ex h1]
    · rw [if_neg h1]
      have h1f : ex.contains f.name = false := Bool.eq_false_iff.mpr h1
      by_cases h2 : hasField dados f.name = true
      · rw [if_pos h2, ih, emittedFields_cons_pushed f l dados ex h1f h2, List.enumFrom_cons,
          List.map_cons, List.map_cons, List.length_cons]
        simp only [List.append_assoc, List.singleton_append, Nat.add_assoc, Nat.add_comm 1]
      · have h2f : hasField dados f.name = false := Bool.eq_false_iff.mpr h2
        rw [if_neg h2, ih, emittedFields_cons_absent f l dados ex h2f]

/-- Closed form of the loop of `buildUpdateSet`. -/
theorem buildUpdateSetLoop_eq (allFields : List Field) (dados : Record) (ex : List String)
    (start : Nat) :
    buildUpdateSetLoop allFields dados ex start
      = ((List.enumFrom start (emittedFields allFields dados ex)).map
              (fun p => p.2.quoted ++ " = $" ++ toString p.1),
         (emittedFields allFields dados ex).map (fun f => getField dados f.name),
         start + (emittedFields allFields dados ex).length) := by
  unfold buildUpdateSetLoop
  rw [buildUpdateSetLoop_aux]
  simp only [List.nil_append]

theorem buildInsertLoop_aux (l : List Field) (dados : Record)
    (cs ps : List String) (vs : List (Option JVal)) (n : Nat) :
    l.foldl
      (fun st field =>
        if ["id", "created_at", "updated_at", "version"].contains field.name then st
        else if hasField dados field.name then
          (st.1 ++ [field.quoted],
           st.2.1 ++ ["$" ++ toString st.2.2.2],
           st.2.2.1 ++ [getField dados field.name],
           st.2.2.2 + 1)
        else st)
      (cs, ps, vs, n)
    = (cs ++ (emittedFields l dados defaultExcludeFields).map (fun f => f.quoted),
       ps ++ (List.range' n (emittedFields l dados defaultExcludeFields).length).map
          (fun i => "$" ++ toString i),
       vs ++ (emittedFields l dados defaultExcludeFields).map (fun f => getField dados f.name),
       n + (emittedFields l dados defaultExcludeFields).length) := by
  induction l generalizing cs ps vs n with
  | nil => simp [emittedFields_nil]
  | cons f l ih =>
    rw [List.foldl_cons]
    by_cases h1 : ["id", "created_at", "updated_at", "version"].contains f.name = true
    · have h1d : defaultExcludeFields.contains f.name = true := h1
      rw [if_pos h1, ih, emittedFields_cons_excluded f l dados _ h1d]
    · rw [if_neg h1]
      have h1f : defaultExcludeFields.contains f.name = false := Bool.eq_false_iff.mpr h1
      by_cases h2 : hasField dados f.name = true
      · rw [if_pos h2, ih, emittedFields_cons_pushed f l dados _ h1f h2, List.map_cons,
          List.map_cons, List.length_cons, List.range'_succ, List.map_cons]
        simp only [List.append_assoc, List.singleton_append, Nat.add_assoc, Nat.add_comm 1]
      · have h2f : hasField dados f.name = false := Bool.eq_false_iff.mpr h2
        rw [if_neg h2, ih, emittedFields_cons_absent f l dados _ h2f]

/-- Closed form of the loop of `buildInsert`. -/
theorem buildInsertLoop_eq (allFields : List Field) (dados : Record) :
    buildInsertLoop allFields dados
      = ((emittedFields allFields dados defaultExcludeFields).map (fun f => f.quoted),
         (List.range' 1 (emittedFields allFields dados defaultExcludeFields).length).map
            (fun i => "$" ++ toString i),
         (emittedFields allFields dados defaultExcludeFields).map
            (fun f => getField dados f.name),
         1 + (emittedFields allFields dados defaultExcludeFields).length) := by
  unfold buildInsertLoop
  rw [buildInsertLoop_aux]
  simp only [List.nil_append]

/-- The row the handlers insert carries the values of `buildInsert`, in its order. -/
theorem buildInsertRow_values (allFields : List Field) (dados : Record) :
    (buildInsertRow allFields dados).map (fun p => some p.2) = (buildInsert allFields dados).values
    ∧ (buildInsertRow allFields dados).length = (buildInsert allFields dados).fieldCount := by
  simp only [buildInsert, buildInsertLoop_eq, buildInsertRow, emittedFields,
    defaultExcludeFields, List.map_map, List.length_map]
  refine ⟨?_, trivial⟩
  apply List.map_congr_left
  intro f hf
  rw [List.mem_filter] at hf
  have hh : hasField dados f.name = true := by
    have := hf.2
    simp only [Bool.and_eq_true] at this
    exact this.2
  rw [hasField_eq_isSome] at hh
  obtain ⟨v, hv⟩ := Option.isSome_iff_exists.mp hh
  simp [hv]

theorem dadosParaAtualizar_eq (campos : List Field) (dados : Record) :
    dadosParaAtualizar campos dados = projectRow (campos.map (fun f => f.name)) dados := by
  unfold dadosParaAtualizar projectRow
  rw [List.foldl_map]
  congr 1
  funext acc campo
  rw [hasField_eq_isSome]
  simp

/-- Object `dadosParaAtualizar` holds the request's value of each of its properties. -/
theorem getField_dadosParaAtualizar (campos : List Field) (dados : Record) (c : String)
    (h : hasField (dadosParaAtualizar campos dados) c = true) :
    getField (dadosParaAtualizar campos dados) c = getField dados c := by
  rw [dadosParaAtualizar_eq] at h ⊢
  have hk := (mem_projectRow_keys _ dados c).mp ((mem_objectKeys_iff _ c).mpr h)
  exact getField_projectRow _ dados c hk.1

/-- A quoted name is none of the default exclusions unless the name itself is. -/
theorem quoteField_not_excluded (name : String) (h : name ∉ defaultExcludeFields) :
    quoteField name ∉ defaultExcludeFields := by
  unfold quoteField
  split
  · intro hq
    simp only [defaultExcludeFields, List.mem_cons, List.mem_singleton, List.not_mem_nil,
      or_false] at hq
    rcases hq with hq | hq | hq | hq <;>
    · have := congrArg String.data hq
      simp at this
  · exact h

theorem mem_emittedFields (allFields : List Field) (dados : Record) (ex : List String)
    (f : Field) (h : f ∈ emittedFields allFields dados ex) :
    f ∈ allFields ∧ f.name ∉ ex ∧ hasField dados f.name = true := by
  unfold emittedFields at h
  rw [List.mem_filter] at h
  have h2 := h.2
  simp only [Bool.and_eq_true] at h2
  refine ⟨h.1, ?_, h2.2⟩
  intro hm
  have hc : ex.contains f.name = true := by simpa using hm
  rw [hc] at h2
  exact absurd h2.1 (by decide)

theorem boundTo_cons (v : Option JVal) (vs : List (Option JVal)) (i : Nat) :
    boundTo (v :: vs) 1 = some v ∧ boundTo (v :: vs) (i + 2) = vs.get? i := by
  constructor
  · rfl
  · unfold boundTo
    rw [if_neg (by omega)]
    show (v :: vs).get? (i + 1) = vs.get? i
    rfl

/-- The fallback of the `PATCH` handlers, in closed form. -/
theorem patchDadosStatement_eq (group : String) (todosOsCampos allFields : List Field)
    (requisicao : Option JVal) (dados : Record) :
    patchDadosStatement group todosOsCampos allFields requisicao dados
      = if (objectKeys (dadosParaAtualizar
            (todosOsCampos.filter (fun f => f.group == group)) dados)).length = 0 then none
        else some
          (", ".intercalate
            ((List.enumFrom 2 (emittedFields allFields
                (dadosParaAtualizar (todosOsCampos.filter (fun f => f.group == group)) dados)
                defaultExcludeFields)).map
              (fun p => p.2.quoted ++ " = $" ++ toString p.1)),
           requisicao :: (emittedFields allFields
                (dadosParaAtualizar (todosOsCampos.filter (fun f => f.group == group)) dados)
                defaultExcludeFields).map (fun f => getField dados f.name)) := by
  unfold patchDadosStatement
  simp only [buildUpdateSet, buildUpdateSetLoop_eq, Option.getD]
  split
  · rfl
  · congr 3
    apply List.map_congr_left
    intro f hf
    exact getField_dadosParaAtualizar _ dados f.name (mem_emittedFields _ _ _ f hf).2.2

/-- An example of the fallback of `PATCH /selecionado-dados`: the `SET` clause of two
    fields, in the order of the field list, and the array bound to the statement. -/
theorem patchDadosStatement_example :
    patchDadosStatement "DADOS_SELECIONADO" exCamposPatch exCamposPatch
        (some (JVal.str "REQ100")) exDadosPatch
      = some ("\"Nome\" = $2, salario = $3",
          [some (JVal.str "REQ100"), some (JVal.str "Ana"), some (JVal.num 5000)]) := by
  decide

/-- C28. For every field list and every `dados`: the loop of `buildUpdateSet` pushes, for
    the fields that are not excluded and are a property of `dados`, in the order of the
    list, the text `quoted = $n` with `n` counting up from the start index (default 1) and
    the value `dados[name]`, so that `values` is as long as the emitted columns and lists
    their values in order; `buildInsert` does the same with the placeholders `$1`, `$2`,
    ... ; with the default exclusions no emitted field is named `id`, `created_at`,
    `updated_at` or `version`. In the fallback of `PATCH /candidatos-dados` and
    `/selecionado-dados` the placeholders of the `SET` clause start at 2, `$1` is bound
    to `requisicao` and `$(i + 2)` to the request's value of the i-th emitted field
    (counted from 0). -/
theorem C28_placeholder_alignment (allFields todosOsCampos : List Field) (dados : Record)
    (excludeFields : Option (List String)) (startIndex : Option Nat) (group : String)
    (requisicao : Option JVal) :
    (buildUpdateSetLoop allFields dados (excludeFields.getD defaultExcludeFields)
        (startIndex.getD 1)).1
      = (List.enumFrom (startIndex.getD 1)
          (emittedFields allFields dados (excludeFields.getD defaultExcludeFields))).map
            (fun p => p.2.quoted ++ " = $" ++ toString p.1)
    ∧ (buildUpdateSet allFields dados excludeFields startIndex).setClause
      = ", ".intercalate
          (buildUpdateSetLoop allFields dados (excludeFields.getD defaultExcludeFields)
            (startIndex.getD 1)).1
    ∧ (buildUpdateSet allFields dados excludeFields startIndex).values
      = (emittedFields allFields dados (excludeFields.getD defaultExcludeFields)).map
          (fun f => getField dados f.name)
    ∧ (buildUpdateSet allFields dados excludeFields startIndex).fieldCount
      = (buildUpdateSet allFields dados excludeFields startIndex).values.length
    ∧ (buildInsertLoop allFields dados).1
      = (emittedFields allFields dados defaultExcludeFields).map (fun f => f.quoted)
    ∧ (buildInsertLoop allFields dados).2.1
      = (List.range' 1 (emittedFields allFields dados defaultExcludeFields).length).map
          (fun i => "$" ++ toString i)
    ∧ (buildInsert allFields dados).columns
      = ", ".intercalate (buildInsertLoop allFields dados).1
    ∧ (buildInsert allFields dados).placeholders
      = ", ".intercalate (buildInsertLoop allFields dados).2.1
    ∧ (buildInsert allFields dados).values
      = (emittedFields allFields dados defaultExcludeFields).map
          (fun f => getField dados f.name)
    ∧ (buildInsert allFields dados).fieldCount = (buildInsert allFields dados).values.length
    ∧ (∀ f ∈ emittedFields allFields dados defaultExcludeFields,
        f ∈ allFields
        ∧ f.name ∉ ["id", "created_at", "updated_at", "version"]
        ∧ (getField dados f.name).isSome = true
        ∧ quoteField f.name ∉ ["id", "created_at", "updated_at", "version"])
    ∧ patchDadosStatement group todosOsCampos allFields requisicao dados
      = (if (objectKeys (dadosParaAtualizar
            (todosOsCampos.filter (fun f => f.group == group)) dados)).length = 0 then none
        else some
          (", ".intercalate
            ((List.enumFrom 2 (emittedFields allFields
                (dadosParaAtualizar (todosOsCampos.filter (fun f => f.group == group)) dados)
                defaultExcludeFields)).map
              (fun p => p.2.quoted ++ " = $" ++ toString p.1)),
           requisicao :: (emittedFields allFields
                (dadosParaAtualizar (todosOsCampos.filter (fun f => f.group == group)) dados)
                defaultExcludeFields).map (fun f => getField dados f.name)))
    ∧ (∀ (vs : List Field) (i : Nat),
        boundTo (requisicao :: vs.map (fun f => getField dados f.name)) 1 = some requisicao
        ∧ boundTo (requisicao :: vs.map (fun f => getField dados f.name)) (i + 2)
          = (vs.get? i).map (fun f => getField dados f.name)) := by
  refine ⟨?_, rfl, ?_, ?_, ?_, ?_, rfl, rfl, ?_, ?_, ?_, patchDadosStatement_eq _ _ _ _ _, ?_⟩
  · rw [buildUpdateSetLoop_eq]
  · simp only [buildUpdateSet, buildUpdateSetLoop_eq]
  · simp only [buildUpdateSet, buildUpdateSetLoop_eq, List.length_map, List.enumFrom_length]
  · rw [buildInsertLoop_eq]
  · rw [buildInsertLoop_eq]
  · simp only [buildInsert, buildInsertLoop_eq]
  · simp only [buildInsert, buildInsertLoop_eq, List.length_map]
  · intro f hf
    have h := mem_emittedFields _ _ _ f hf
    refine ⟨h.1, h.2.1, ?_, quoteField_not_excluded f.name h.2.1⟩
    rw [← hasField_eq_isSome]
    exact h.2.2
  · intro vs i
    have h := boundTo_cons requisicao (vs.map (fun f => getField dados f.name)) i
    refine ⟨h.1, ?_⟩
    rw [h.2]
    simp only [List.get?_eq_getElem?, List.getElem?_map]

/-- Witness for C28: the field list `exCamposPatch` and the partial fields `exDadosPatch`
    with start index 2; the emitted fields are `Nome` and `salario`, `$2` is bound to the
    value of `Nome` and `$3` to the value of `salario`. -/
theorem C28_placeholder_alignment_witness :
    (buildUpdateSet exCamposPatch exDadosPatch none (some 2)).values
      = (emittedFields exCamposPatch exDadosPatch defaultExcludeFields).map
          (fun f => getField exDadosPatch f.name)
    ∧ (emittedFields exCamposPatch exDadosPatch defaultExcludeFields).map (fun f => f.name)
      = ["Nome", "salario"]
    ∧ (buildUpdateSet exCamposPatch exDadosPatch none (some 2)).setClause
      = "\"Nome\" = $2, salario = $3"
    ∧ boundTo (some (JVal.str "REQ100")
        :: (buildUpdateSet exCamposPatch exDadosPatch none (some 2)).values) 3
      = some (some (JVal.num 5000)) :=
  ⟨(C28_placeholder_alignment exCamposPatch exCamposPatch exDadosPatch none (some 2)
      "DADOS_SELECIONADO" (some (JVal.str "REQ100"))).2.2.1,
   by decide, by decide, by decide⟩

end RPO
